import Mathlib

/-!
# BSL front-end: lexer, parser, resolver

A shallow embedding of `src/src/lexer.c`, `src/src/parser.c`, `src/src/resolve.c`,
`src/src/util.c` and `src/src/bsl.c`, followed by theorems about it.

Conventions of the embedding
* a source buffer is a `List Nat` of byte values; `size_t`, `int` positions are `Nat`
  (sources are far shorter than 2^31 bytes, so `line`/`col` never overflow);
* the one `BSLCompileResult` record, which lexer, parser and resolver all reach
  through a pointer, is kept once, inside the lexer state, and handed on;
  it is modelled by the history of the writes made to it, newest first
  (the C record only holds the newest);
* name slices (`pointer`, `length`) into the source are kept in tokens as
  offset and length, and in the AST as the bytes they denote;
* the allocator is taken to hand out zero-filled memory: the resolver tests
  fields that the parser never writes (`stmt->var.type`, `member->entry`,
  `expr->member.entry`), so `NULL` is `none`;
* linked lists threaded through `next` are Lean lists in the same order;
* loops are structural recursions on a fuel argument. In the lexer the fuel
  is the number of unread bytes, which every loop iteration decreases, so the
  lexer functions are total. In the parser running out of fuel is the
  distinguished outcome `Outcome.out_of_fuel`;
* a null dereference in the resolver is the distinguished outcome
  `Outcome.undefined`.
-/

namespace BSL

/-! ## bsl.h, util.h, util.c -/

def BSL_RESULT_MAX_MESSAGE_LEN : Nat := 512

/-- One write of `line`, `col`, `msg` to the diagnostic record. -/
structure Diag where
  line : Nat
  col : Nat
  msg : String
  deriving DecidableEq, Repr

/-- The caller's `BSLCompileResult` record together with its history:
`writes` lists every write made by `vresult_error`, newest first. The record
itself holds `writes.head?`; before the first write its content is whatever
the caller left there. -/
structure BSLCompileResult where
  writes : List Diag
  deriving DecidableEq, Repr

/-- What `vsnprintf(result->msg, BSL_RESULT_MAX_MESSAGE_LEN, ...)` keeps of a
formatted message: at most 511 characters (and the terminating NUL). -/
def truncate_msg (s : String) : String :=
  String.mk (s.data.take (BSL_RESULT_MAX_MESSAGE_LEN - 1))

/-- `vresult_error`, applied to the already formatted message. -/
def vresult_error (result : BSLCompileResult) (line col : Nat) (msg : String) :
    BSLCompileResult :=
  { writes := { line := line, col := col, msg := truncate_msg msg } :: result.writes }

/-- `result_error` forwards to `vresult_error`. -/
def result_error (result : BSLCompileResult) (line col : Nat) (msg : String) :
    BSLCompileResult :=
  vresult_error result line col msg

/-- Bytes of a string literal (ASCII). -/
def bytes (s : String) : List Nat := s.data.map Char.toNat

/-- What `%.*s` prints of a name slice: its bytes up to a NUL. -/
def fmt_name (name : List Nat) : String :=
  String.mk ((name.takeWhile (fun b => b != 0)).map Char.ofNat)

/-- What `%c` prints of a byte. -/
def fmt_char (c : Nat) : String := String.mk [Char.ofNat c]

/-- Wrap-around of a value into the range of `int64_t`. -/
def wrap64 (x : Int) : Int := (x + 2 ^ 63) % 2 ^ 64 - 2 ^ 63

/-- `Number` of util.h. A real is `(double) i + frac`; the double itself is not
modelled, the integer part and the digits after the period are kept. -/
inductive Number where
  | int (i : Int)
  | real (i : Int) (frac : List Nat)
  deriving DecidableEq, Repr

/-! ## lexer.h, lexer.c -/

inductive TokenType where
  | TOKEN_SYM
  | TOKEN_NUM
  | TOKEN_KW_PROC
  | TOKEN_KW_RECORD
  | TOKEN_KW_VAR
  | TOKEN_KW_RETURN
  | TOKEN_KW_END
  | TOKEN_COMMA
  | TOKEN_PERIOD
  | TOKEN_ARROW
  | TOKEN_EQ
  | TOKEN_LT
  | TOKEN_GT
  | TOKEN_ADD
  | TOKEN_SUB
  | TOKEN_MUL
  | TOKEN_DIV
  | TOKEN_COLON
  | TOKEN_NEWLINE
  | TOKEN_SEMICOLON
  | TOKEN_LBRACK
  | TOKEN_RBRACK
  | TOKEN_LPAREN
  | TOKEN_RPAREN
  | TOKEN_LCURLY
  | TOKEN_RCURLY
  | TOKEN_EOF
  | TOKEN_ERR
  deriving DecidableEq, Repr

open TokenType

/-- Numeric value of a `TokenType` enumerator. -/
def TokenType.toNat : TokenType → Nat
  | TOKEN_SYM => 0
  | TOKEN_NUM => 1
  | TOKEN_KW_PROC => 2
  | TOKEN_KW_RECORD => 3
  | TOKEN_KW_VAR => 4
  | TOKEN_KW_RETURN => 5
  | TOKEN_KW_END => 6
  | TOKEN_COMMA => 7
  | TOKEN_PERIOD => 8
  | TOKEN_ARROW => 9
  | TOKEN_EQ => 10
  | TOKEN_LT => 11
  | TOKEN_GT => 12
  | TOKEN_ADD => 13
  | TOKEN_SUB => 14
  | TOKEN_MUL => 15
  | TOKEN_DIV => 16
  | TOKEN_COLON => 17
  | TOKEN_NEWLINE => 18
  | TOKEN_SEMICOLON => 19
  | TOKEN_LBRACK => 20
  | TOKEN_RBRACK => 21
  | TOKEN_LPAREN => 22
  | TOKEN_RPAREN => 23
  | TOKEN_LCURLY => 24
  | TOKEN_RCURLY => 25
  | TOKEN_EOF => 26
  | TOKEN_ERR => 27

/-- A token. `data` is the offset of `sym.data` in the source, `size` is
`sym.size`; tokens that do not set a payload carry zeros. -/
structure Token where
  t : TokenType
  line : Nat
  col : Nat
  data : Nat
  size : Nat
  num : Number
  deriving DecidableEq, Repr

structure Lexer where
  src : List Nat
  src_len : Nat
  result : BSLCompileResult
  has_peek : Bool
  peek : Token
  line : Nat
  col : Nat
  cur : Nat
  start : Nat
  deriving DecidableEq, Repr

def isspace (c : Nat) : Bool := c == 32 || (9 ≤ c && c ≤ 13)
def isalpha (c : Nat) : Bool := (65 ≤ c && c ≤ 90) || (97 ≤ c && c ≤ 122)
def isdigit (c : Nat) : Bool := 48 ≤ c && c ≤ 57

def PEEK_C (l : Lexer) : Nat := l.src.getD l.cur 0
def SKIP_C (l : Lexer) : Lexer := { l with col := l.col + 1, cur := l.cur + 1 }
def NEXT_C (l : Lexer) : Nat × Lexer := (l.src.getD l.cur 0, SKIP_C l)
def IS_EOF (l : Lexer) : Bool := decide (l.src_len ≤ l.cur)
def RESET (l : Lexer) : Lexer := { l with start := l.cur }

/-- The keyword table `keyword_to_token_type`, from `keyword_start` to `keyword_end`. -/
def keyword_to_token_type : List (TokenType × List Nat) :=
  [ (TOKEN_KW_PROC, bytes "proc"),
    (TOKEN_KW_RECORD, bytes "record"),
    (TOKEN_KW_VAR, bytes "var"),
    (TOKEN_KW_RETURN, bytes "return"),
    (TOKEN_KW_END, bytes "end") ]

def empty_token : Token :=
  { t := TOKEN_EOF, line := 0, col := 0, data := 0, size := 0, num := Number.int 0 }

def lexer_init (src : List Nat) (src_len : Nat) (result : BSLCompileResult) : Lexer :=
  { src := src, src_len := src_len, result := result, has_peek := false,
    peek := empty_token, line := 1, col := 1, cur := 0, start := 0 }

/-- `fill_token` on a fresh local token: kind and current position. -/
def fill_token (l : Lexer) (t : TokenType) : Token :=
  { empty_token with t := t, line := l.line, col := l.col }

/-- `lexer_error`: a write at the lexer's current position. -/
def lexer_error (l : Lexer) (msg : String) : Lexer :=
  { l with result := vresult_error l.result l.line l.col msg }

/-- The loop of `skip_whitespace`. -/
def skip_whitespace_loop : Nat → Lexer → Lexer
  | 0, l => l
  | n + 1, l =>
    if !IS_EOF l && isspace (PEEK_C l) then
      let c := PEEK_C l
      let l1 := SKIP_C l
      let l2 := if c = 10 then { l1 with col := 1, line := l1.line + 1 } else l1
      skip_whitespace_loop n l2
    else l

def skip_whitespace (l : Lexer) : Bool × Lexer :=
  let l1 := RESET (skip_whitespace_loop (l.src_len - l.cur) l)
  (!IS_EOF l1, l1)

/-- The slice `src[off .. off+len)`. -/
def slice (src : List Nat) (off len : Nat) : List Nat := (src.drop off).take len

/-- The keyword loop of `lex_sym`: every table entry of the lexeme's length
and bytes sets the kind. -/
def classify_keyword (src : List Nat) (tok : Token) : Token :=
  keyword_to_token_type.foldl
    (fun tk kw => if kw.2.length = tk.size ∧ slice src tk.data tk.size = kw.2
      then { tk with t := kw.1 } else tk) tok

def lex_sym_loop : Nat → Lexer → Lexer
  | 0, l => l
  | n + 1, l =>
    if !IS_EOF l && (isalpha (PEEK_C l) || isdigit (PEEK_C l) || PEEK_C l == 95) then
      lex_sym_loop n (NEXT_C l).2
    else l

def lex_sym (l : Lexer) : Token × Lexer :=
  let l1 := lex_sym_loop (l.src_len - l.cur) l
  let tok := { fill_token l1 TOKEN_SYM with data := l1.start, size := l1.cur - l1.start }
  (classify_keyword l1.src tok, RESET l1)

/-- The digit loop of `lex_num`; carries `i` and the last value of `c`. -/
def lex_num_int_loop : Nat → Lexer → Int → Nat → Lexer × Int × Nat
  | 0, l, i, c => (l, i, c)
  | n + 1, l, i, c =>
    if IS_EOF l then (l, i, c)
    else
      let c1 := PEEK_C l
      if isdigit c1 then
        lex_num_int_loop n (NEXT_C l).2 (wrap64 (wrap64 (i * 10) + (Int.ofNat c1 - 48))) c1
      else (l, i, c1)

/-- The fraction loop of `lex_num`; collects the digits read. -/
def lex_num_frac_loop : Nat → Lexer → List Nat → Lexer × List Nat
  | 0, l, ds => (l, ds)
  | n + 1, l, ds =>
    if !IS_EOF l && isdigit (PEEK_C l) then
      lex_num_frac_loop n (NEXT_C l).2 (ds ++ [PEEK_C l - 48])
    else (l, ds)

def lex_num (l : Lexer) : Token × Lexer :=
  let r := lex_num_int_loop (l.src_len - l.cur) l 0 0
  let l1 := r.1
  let i := r.2.1
  let c := r.2.2
  if !IS_EOF l1 && c == 46 then
    let l2 := (NEXT_C l1).2
    let f := lex_num_frac_loop (l2.src_len - l2.cur) l2 []
    let l3 := f.1
    ({ fill_token l3 TOKEN_NUM with num := Number.real i f.2 }, RESET l3)
  else
    ({ fill_token l1 TOKEN_NUM with num := Number.int i }, RESET l1)

/-- The inner loop of comment skipping: `while (!IS_EOF && NEXT_C != newline)`. -/
def comment_loop : Nat → Lexer → Lexer
  | 0, l => l
  | n + 1, l =>
    if IS_EOF l then l
    else
      let r := NEXT_C l
      if r.1 != 10 then comment_loop n r.2 else r.2

/-- The loop `while (c == '#')` of `next_token`. The first component is the
token returned from inside the loop, if any; otherwise `c` and the lexer
after the loop. -/
def hash_loop : Nat → Nat → Lexer → Option Token × Nat × Lexer
  | 0, c, l => (none, c, l)
  | n + 1, c, l =>
    if c = 35 then
      let l1 := comment_loop (l.src_len - l.cur) l
      if IS_EOF l1 then (some (fill_token l1 TOKEN_EOF), c, l1)
      else
        let l2 := { l1 with col := 1, line := l1.line + 1 }
        let r := skip_whitespace l2
        if !r.1 then (some (fill_token r.2 TOKEN_EOF), c, r.2)
        else hash_loop n (PEEK_C r.2) r.2
    else (none, c, l)

/-- A one-character token: `NEXT_C` then `fill_token`. -/
def punct (l : Lexer) (t : TokenType) : Token × Lexer :=
  let l1 := (NEXT_C l).2
  (fill_token l1 t, l1)

def next_token (l : Lexer) : Token × Lexer :=
  let r := skip_whitespace l
  if !r.1 then (fill_token r.2 TOKEN_EOF, r.2)
  else
    let h := hash_loop (r.2.src_len - r.2.cur) (PEEK_C r.2) r.2
    match h.1 with
    | some tok => (tok, h.2.2)
    | none =>
      let c := h.2.1
      let l1 := h.2.2
      if isalpha c || c == 95 then lex_sym l1
      else if isdigit c then lex_num l1
      else if c = 58 then punct l1 TOKEN_COLON
      else if c = 46 then punct l1 TOKEN_PERIOD
      else if c = 44 then punct l1 TOKEN_COMMA
      else if c = 61 then punct l1 TOKEN_EQ
      else if c = 43 then punct l1 TOKEN_ADD
      else if c = 45 then punct l1 TOKEN_SUB
      else if c = 42 then punct l1 TOKEN_MUL
      else if c = 47 then punct l1 TOKEN_DIV
      else if c = 62 then punct l1 TOKEN_GT
      else if c = 60 then punct l1 TOKEN_LT
      else if c = 123 then punct l1 TOKEN_LCURLY
      else if c = 125 then punct l1 TOKEN_RCURLY
      else if c = 91 then punct l1 TOKEN_LBRACK
      else if c = 93 then punct l1 TOKEN_RBRACK
      else if c = 40 then punct l1 TOKEN_LPAREN
      else if c = 41 then punct l1 TOKEN_RPAREN
      else
        let l2 := lexer_error l1 ("unknown char '" ++ fmt_char (l1.src.getD l1.cur 0) ++ "'")
        (fill_token l2 TOKEN_ERR, l2)

def lexer_next (l : Lexer) : Token × Lexer :=
  if l.has_peek then (l.peek, { l with has_peek := false })
  else next_token l

def lexer_peek (l : Lexer) : Token × Lexer :=
  if l.has_peek then (l.peek, l)
  else
    let r := next_token { l with has_peek := true }
    (r.1, { r.2 with peek := r.1 })

def lexer_skip (l : Lexer) : Lexer :=
  if l.has_peek then { l with has_peek := false }
  else (next_token l).2

/-- All tokens up to and including the first `TOKEN_EOF` or `TOKEN_ERR`. -/
def lex_all : Nat → Lexer → List Token
  | 0, _ => []
  | n + 1, l =>
    let r := lexer_next l
    if r.1.t = TOKEN_EOF ∨ r.1.t = TOKEN_ERR then [r.1] else r.1 :: lex_all n r.2

/-! ## ast.h -/

inductive TypeType where
  | TYPE_F32
  | TYPE_F64
  | TYPE_VOID
  | TYPE_VECTOR
  | TYPE_RECORD
  | TYPE_VAR
  | TYPE_PROC
  deriving DecidableEq, Repr

inductive RecordEntryType where
  | RECORD_ENTRY_INPUT
  | RECORD_ENTRY_OUTPUT
  | RECORD_ENTRY_BUILTIN
  | RECORD_ENTRY_NORMAL
  deriving DecidableEq, Repr

open TypeType RecordEntryType

/-- `BUILTIN_CLIP_POSITION`, the only `BuiltinType`, as stored in the union
shared with `pos`. -/
def BUILTIN_CLIP_POSITION : Int := 0

def BINOP_ADD : Nat := 0
def BINOP_MUL : Nat := 1
def BINOP_SUB : Nat := 2
def BINOP_DIV : Nat := 3

def ENTRY_POINT_VERTEX : Nat := 1
def ENTRY_POINT_FRAGMENT : Nat := 2

mutual
/-- `Type` of ast.h. The variant is the tag `t`; `line` and `col`, which no
function reads, are left out. A `record` carries `id`, the identity of the
`Type` object (`compare_types` compares record types by address): every
record `Type` is allocated by pass 1 of `resolve_names`, which numbers them. -/
inductive Ty where
  | f32
  | f64
  | void
  | vector (size : Nat) (type : Ty)
  | record (id : Nat) (entries : List RecordEntry) (name : List Nat)
  | var (name : List Nat)
  | proc (return_type : Ty) (params : List Parameter)
/-- `RecordEntry`; `pos` is the union of `pos` and `builtin`. -/
inductive RecordEntry where
  | mk (t : RecordEntryType) (pos : Int) (name : List Nat) (type : Ty)
inductive Parameter where
  | mk (line col : Nat) (name : List Nat) (type : Ty)
end

def Ty.t : Ty → TypeType
  | .f32 => TYPE_F32
  | .f64 => TYPE_F64
  | .void => TYPE_VOID
  | .vector _ _ => TYPE_VECTOR
  | .record _ _ _ => TYPE_RECORD
  | .var _ => TYPE_VAR
  | .proc _ _ => TYPE_PROC

def RecordEntry.t : RecordEntry → RecordEntryType
  | .mk t _ _ _ => t
def RecordEntry.pos : RecordEntry → Int
  | .mk _ pos _ _ => pos
def RecordEntry.name : RecordEntry → List Nat
  | .mk _ _ name _ => name
def RecordEntry.type : RecordEntry → Ty
  | .mk _ _ _ type => type

def Parameter.line : Parameter → Nat
  | .mk line _ _ _ => line
def Parameter.col : Parameter → Nat
  | .mk _ col _ _ => col
def Parameter.name : Parameter → List Nat
  | .mk _ _ name _ => name
def Parameter.type : Parameter → Ty
  | .mk _ _ _ type => type

/-- A pointer to a `VarEntry` of a scope chain: `depth` counts the frames
from the scope the chain starts at, `index` counts the entries of that frame
from the oldest one (frames only grow at the head, so this is stable). -/
structure VarRef where
  depth : Nat
  index : Nat
  deriving DecidableEq, Repr

/-- The fields of a record `Toplevel` that a type-scope entry reaches through
its `record` pointer; they are not written after parsing. -/
structure RecordDecl where
  line : Nat
  col : Nat
  name : List Nat
  entries : List RecordEntry

structure VarEntry where
  name : List Nat
  type : Option Ty
  record : Option RecordDecl

mutual
inductive Expr where
  | var (line col : Nat) (name : List Nat) (entry : Option VarRef) (type : Option Ty)
  | num (line col : Nat) (num : Number) (type : Option Ty)
  | record (line col : Nat) (name : List Nat) (members : List RecordExprMember)
      (entry : Option VarRef) (type : Option Ty)
  | binary (line col : Nat) (lhs rhs : Expr) (op : Nat) (type : Option Ty)
  | member (line col : Nat) (lhs : Expr) (name : List Nat) (entry : Option RecordEntry)
      (type : Option Ty)
  | vec (line col : Nat) (exprs : List Expr) (type : Option Ty)
inductive RecordExprMember where
  | mk (line col : Nat) (name : List Nat) (expr : Expr) (entry : Option RecordEntry)
end

def Expr.line : Expr → Nat
  | .var line _ _ _ _ => line
  | .num line _ _ _ => line
  | .record line _ _ _ _ _ => line
  | .binary line _ _ _ _ _ => line
  | .member line _ _ _ _ _ => line
  | .vec line _ _ _ => line

def Expr.col : Expr → Nat
  | .var _ col _ _ _ => col
  | .num _ col _ _ => col
  | .record _ col _ _ _ _ => col
  | .binary _ col _ _ _ _ => col
  | .member _ col _ _ _ _ => col
  | .vec _ col _ _ => col

def Expr.type : Expr → Option Ty
  | .var _ _ _ _ type => type
  | .num _ _ _ type => type
  | .record _ _ _ _ _ type => type
  | .binary _ _ _ _ _ type => type
  | .member _ _ _ _ _ type => type
  | .vec _ _ _ type => type

def RecordExprMember.line : RecordExprMember → Nat
  | .mk line _ _ _ _ => line
def RecordExprMember.col : RecordExprMember → Nat
  | .mk _ col _ _ _ => col
def RecordExprMember.name : RecordExprMember → List Nat
  | .mk _ _ name _ _ => name
def RecordExprMember.expr : RecordExprMember → Expr
  | .mk _ _ _ expr _ => expr
def RecordExprMember.entry : RecordExprMember → Option RecordEntry
  | .mk _ _ _ _ entry => entry

inductive Statement where
  | var (line col : Nat) (entry : Option VarRef) (name : List Nat) (expr : Option Expr)
      (type : Option Ty)
  | ret (line col : Nat) (expr : Option Expr)

def Statement.line : Statement → Nat
  | .var line _ _ _ _ _ => line
  | .ret line _ _ => line
def Statement.col : Statement → Nat
  | .var _ col _ _ _ _ => col
  | .ret _ col _ => col

/-- A `Toplevel`. The `scope` of a procedure is the list of its entries; its
`up` pointer is `&ast->scope` from `resolve_proc` on. -/
inductive Toplevel where
  | record (line col : Nat) (name : List Nat) (entries : List RecordEntry)
      (entry : Option VarRef)
  | proc (line col : Nat) (entry : Option VarRef) (scope : List VarEntry)
      (entry_point : Nat) (name : List Nat) (stmts : List Statement)
      (params : List Parameter) (return_type : Ty)

def Toplevel.line : Toplevel → Nat
  | .record line _ _ _ _ => line
  | .proc line _ _ _ _ _ _ _ _ => line
def Toplevel.col : Toplevel → Nat
  | .record _ col _ _ _ => col
  | .proc _ col _ _ _ _ _ _ _ => col

/-- The `AST` root. `scope` and `type_scope` are the entry lists of the two
global scopes (both have `up = NULL`). `next_id` counts the record `Type`
objects allocated so far. -/
structure AST where
  toplevels : List Toplevel
  scope : List VarEntry
  type_scope : List VarEntry
  result : BSLCompileResult
  next_id : Nat

/-- How a call ends: it returns a node or `true` (`ok`), it returns `NULL` or
`false` (`fail`), it dereferences a null pointer (`undefined`), or the model
runs out of fuel. -/
inductive Outcome (σ α : Type) where
  | ok (a : α) (s : σ)
  | fail (s : σ)
  | undefined
  | out_of_fuel

def Outcome.bind {σ α β : Type} (x : Outcome σ α) (f : α → σ → Outcome σ β) : Outcome σ β :=
  match x with
  | .ok a s => f a s
  | .fail s => .fail s
  | .undefined => .undefined
  | .out_of_fuel => .out_of_fuel

/-! ## parser.h, parser.c -/

/-- The parser. Its `result` is the lexer's; `alloc` and `ast` are not modelled. -/
structure Parser where
  lex : Lexer
  next_entry_point : Nat

/-- The table `builtin_type_to_type_type`, from `type_start` to `type_end`. -/
def builtin_type_to_type_type : List (Ty × List Nat) :=
  [ (Ty.f32, bytes "f32"), (Ty.f64, bytes "f64"), (Ty.void, bytes "void") ]

def parser_init (lex : Lexer) : Parser :=
  { lex := lex, next_entry_point := 0 }

def parser_error_tok (p : Parser) (tok : Token) (msg : String) : Parser :=
  { p with lex := { p.lex with result := vresult_error p.lex.result tok.line tok.col msg } }

def handle_erratic_tok (p : Parser) (tok : Token) (expected_item : String) : Parser :=
  if tok.t = TOKEN_EOF then parser_error_tok p tok "unexpected end of file"
  else if tok.t ≠ TOKEN_ERR then parser_error_tok p tok ("expected " ++ expected_item)
  else p

def expect_with (p : Parser) (t : TokenType) (expected : String) : Bool × Token × Parser :=
  let r := lexer_next p.lex
  let p1 := { p with lex := r.2 }
  if r.1.t = t then (true, r.1, p1)
  else (false, r.1, handle_erratic_tok p1 r.1 expected)

def expect (p : Parser) (t : TokenType) (expected : String) : Bool × Parser :=
  let r := lexer_next p.lex
  let p1 := { p with lex := r.2 }
  if r.1.t = t then (true, p1)
  else (false, handle_erratic_tok p1 r.1 expected)

def token_streq (src : List Nat) (tok : Token) (str : String) : Bool :=
  decide ((bytes str).length = tok.size) && decide (slice src tok.data tok.size = bytes str)

/-- The bytes of the name slice of a symbol token. -/
def tok_name (p : Parser) (tok : Token) : List Nat := slice p.lex.src tok.data tok.size

def p_peek (p : Parser) : Token × Parser :=
  let r := lexer_peek p.lex
  (r.1, { p with lex := r.2 })

def p_next (p : Parser) : Token × Parser :=
  let r := lexer_next p.lex
  (r.1, { p with lex := r.2 })

def p_skip (p : Parser) : Parser := { p with lex := lexer_skip p.lex }

/-- The loop of `parse_type` over the builtin type names. -/
def classify_type (name : List Nat) : Ty :=
  builtin_type_to_type_type.foldl
    (fun ty b => if b.2.length = name.length ∧ b.2 = name then b.1 else ty) (Ty.var name)

mutual
def parse_type : Nat → Parser → Outcome Parser Ty
  | 0, _ => .out_of_fuel
  | n + 1, p =>
    let r := p_peek p
    let tok := r.1
    let p1 := r.2
    match tok.t with
    | TOKEN_ERR => .fail p1
    | TOKEN_EOF => .fail (parser_error_tok p1 tok "unexpected end of file")
    | TOKEN_SYM =>
      let p2 := p_skip p1
      if token_streq p2.lex.src tok "vec2" then parse_vector_type n p2 2
      else if token_streq p2.lex.src tok "vec3" then parse_vector_type n p2 3
      else if token_streq p2.lex.src tok "vec4" then parse_vector_type n p2 4
      else .ok (classify_type (tok_name p2 tok)) p2
    | _ => .fail (parser_error_tok p1 tok "expected type")
def parse_vector_type : Nat → Parser → Nat → Outcome Parser Ty
  | 0, _, _ => .out_of_fuel
  | n + 1, p, size =>
    let e1 := expect p TOKEN_LT "vector parameter"
    if !e1.1 then .fail e1.2
    else
      (parse_type n e1.2).bind fun subtype p2 =>
        let e2 := expect p2 TOKEN_GT "closing angled bracket"
        if !e2.1 then .fail e2.2
        else .ok (Ty.vector size subtype) e2.2
end

/-- The list inversion written out in `parse_ast`, `parse_vector_expr` and
`parse_procedure`. -/
def invert {α : Type} : List α → List α → List α
  | [], follow => follow
  | first :: tmp, follow => invert tmp (first :: follow)

mutual
def parse_expr : Nat → Parser → Outcome Parser Expr
  | 0, _ => .out_of_fuel
  | n + 1, p => parse_add_expr n p
def parse_add_expr : Nat → Parser → Outcome Parser Expr
  | 0, _ => .out_of_fuel
  | n + 1, p => (parse_mul_expr n p).bind fun lhs p1 => parse_add_loop n lhs p1
def parse_add_loop : Nat → Expr → Parser → Outcome Parser Expr
  | 0, _, _ => .out_of_fuel
  | n + 1, lhs, p =>
    let r := p_peek p
    let tok := r.1
    if tok.t = TOKEN_ADD ∨ tok.t = TOKEN_SUB then
      let p1 := p_skip r.2
      let op := if tok.t = TOKEN_ADD then BINOP_ADD else TokenType.toNat TOKEN_SUB
      (parse_mul_expr n p1).bind fun rhs p2 =>
        parse_add_loop n (Expr.binary lhs.line lhs.col lhs rhs op none) p2
    else .ok lhs r.2
def parse_mul_expr : Nat → Parser → Outcome Parser Expr
  | 0, _ => .out_of_fuel
  | n + 1, p => (parse_member_expr n p).bind fun lhs p1 => parse_mul_loop n lhs p1
def parse_mul_loop : Nat → Expr → Parser → Outcome Parser Expr
  | 0, _, _ => .out_of_fuel
  | n + 1, lhs, p =>
    let r := p_peek p
    let tok := r.1
    if tok.t = TOKEN_MUL ∨ tok.t = TOKEN_DIV then
      let p1 := p_skip r.2
      let op := if tok.t = TOKEN_MUL then BINOP_MUL else TokenType.toNat TOKEN_DIV
      (parse_member_expr n p1).bind fun rhs p2 =>
        parse_mul_loop n (Expr.binary lhs.line lhs.col lhs rhs op none) p2
    else .ok lhs r.2
def parse_member_expr : Nat → Parser → Outcome Parser Expr
  | 0, _ => .out_of_fuel
  | n + 1, p => (parse_atom_expr n p).bind fun lhs p1 => parse_member_loop n lhs p1
def parse_member_loop : Nat → Expr → Parser → Outcome Parser Expr
  | 0, _, _ => .out_of_fuel
  | n + 1, lhs, p =>
    let r := p_peek p
    if r.1.t = TOKEN_PERIOD then
      let p1 := (p_next r.2).2
      let e := expect_with p1 TOKEN_SYM "member name"
      if !e.1 then .fail e.2.2
      else
        parse_member_loop n
          (Expr.member lhs.line lhs.col lhs (tok_name e.2.2 e.2.1) none none) e.2.2
    else .ok lhs r.2
def parse_atom_expr : Nat → Parser → Outcome Parser Expr
  | 0, _ => .out_of_fuel
  | n + 1, p =>
    let r := p_peek p
    let tok := r.1
    let p1 := r.2
    match tok.t with
    | TOKEN_KW_RECORD => parse_record_expr n (p_skip p1) tok
    | TOKEN_LCURLY => parse_vector_expr n (p_skip p1) tok
    | TOKEN_LPAREN =>
      match parse_expr n (p_skip p1) with
      | .ok expr p2 =>
        let e := expect p2 TOKEN_RPAREN "right parenthesis"
        if !e.1 then .fail e.2 else .ok expr e.2
      | .fail p2 => .fail (expect p2 TOKEN_RPAREN "right parenthesis").2
      | .undefined => .undefined
      | .out_of_fuel => .out_of_fuel
    | TOKEN_NUM => .ok (Expr.num tok.line tok.col tok.num none) (p_skip p1)
    | TOKEN_SYM =>
      let p2 := p_skip p1
      .ok (Expr.var tok.line tok.col (tok_name p2 tok) none none) p2
    | _ => .fail (handle_erratic_tok p1 tok "expression")
def parse_record_expr : Nat → Parser → Token → Outcome Parser Expr
  | 0, _, _ => .out_of_fuel
  | n + 1, p, start_tok =>
    let e := expect_with p TOKEN_SYM "record name"
    if !e.1 then .fail e.2.2
    else
      (parse_record_expr_loop n [] e.2.2).bind fun members p1 =>
        .ok (Expr.record start_tok.line start_tok.col (tok_name p1 e.2.1) members none none) p1
def parse_record_expr_loop : Nat → List RecordExprMember → Parser →
    Outcome Parser (List RecordExprMember)
  | 0, _, _ => .out_of_fuel
  | n + 1, members, p =>
    let r := p_next p
    let tok := r.1
    if tok.t = TOKEN_PERIOD then
      let e := expect_with r.2 TOKEN_SYM "member name"
      if !e.1 then .fail e.2.2
      else
        let member_name := e.2.1
        let e1 := expect e.2.2 TOKEN_EQ "'='"
        if !e1.1 then .fail e1.2
        else
          (parse_expr n e1.2).bind fun expr p2 =>
            let e2 := expect p2 TOKEN_COMMA "','"
            if !e2.1 then .fail e2.2
            else
              parse_record_expr_loop n
                (RecordExprMember.mk member_name.line member_name.col
                  (tok_name e2.2 member_name) expr none :: members) e2.2
    else if tok.t ≠ TOKEN_KW_END then .fail (handle_erratic_tok r.2 tok "record member")
    else .ok members r.2
def parse_vector_expr : Nat → Parser → Token → Outcome Parser Expr
  | 0, _, _ => .out_of_fuel
  | n + 1, p, start_tok =>
    (parse_expr n p).bind fun first p1 =>
      (parse_vector_expr_loop n [first] p1).bind fun exprs p2 =>
        .ok (Expr.vec start_tok.line start_tok.col (invert exprs []) none) p2
def parse_vector_expr_loop : Nat → List Expr → Parser → Outcome Parser (List Expr)
  | 0, _, _ => .out_of_fuel
  | n + 1, exprs, p =>
    let r := p_next p
    let tok := r.1
    if tok.t = TOKEN_COMMA then
      (parse_expr n r.2).bind fun tmp p1 => parse_vector_expr_loop n (tmp :: exprs) p1
    else if tok.t ≠ TOKEN_RCURLY then .fail (handle_erratic_tok r.2 tok "comma")
    else .ok exprs r.2
end

def parse_statement (fuel : Nat) (p : Parser) : Outcome Parser Statement :=
  let r := p_peek p
  let tok := r.1
  let p1 := r.2
  match tok.t with
  | TOKEN_KW_VAR =>
    let e := expect_with (p_skip p1) TOKEN_SYM "variable name"
    if !e.1 then .fail e.2.2
    else
      let name_tok := e.2.1
      let p2 := e.2.2
      let after_type : Outcome Parser (Option Ty) :=
        if (p_peek p2).1.t = TOKEN_COLON then
          (parse_type fuel (p_skip (p_peek p2).2)).bind fun ty p3 => .ok (some ty) p3
        else .ok none (p_peek p2).2
      after_type.bind fun type p3 =>
        let e1 := expect p3 TOKEN_EQ "'='"
        if !e1.1 then .fail e1.2
        else
          (parse_expr fuel e1.2).bind fun expr p4 =>
            .ok (Statement.var tok.line tok.col none (tok_name p4 name_tok) (some expr) type) p4
  | TOKEN_KW_RETURN =>
    (parse_expr fuel (p_skip p1)).bind fun expr p2 =>
      .ok (Statement.ret tok.line tok.col (some expr)) p2
  | _ => .fail (handle_erratic_tok p1 tok "statement")

def parse_parameter (fuel : Nat) (p : Parser) : Outcome Parser Parameter :=
  let e := expect_with p TOKEN_SYM "parameter name"
  if !e.1 then .fail e.2.2
  else
    let name_tok := e.2.1
    let e1 := expect e.2.2 TOKEN_COLON "':'"
    if !e1.1 then .fail e1.2
    else
      (parse_type fuel e1.2).bind fun type p1 =>
        .ok (Parameter.mk name_tok.line name_tok.col (tok_name p1 name_tok) type) p1

/-- The parameter loop of `parse_procedure`, `while (lexer_next == COMMA)`,
with the check for the closing parenthesis that follows it. -/
def parse_parameter_loop (fuel : Nat) : Nat → List Parameter → Parser →
    Outcome Parser (List Parameter)
  | 0, _, _ => .out_of_fuel
  | n + 1, params, p =>
    let r := p_next p
    let tok := r.1
    if tok.t = TOKEN_COMMA then
      (parse_parameter fuel r.2).bind fun tmp p1 => parse_parameter_loop fuel n (tmp :: params) p1
    else if tok.t ≠ TOKEN_RPAREN then .fail (handle_erratic_tok r.2 tok "funtion parameter")
    else .ok params r.2

/-- The statement loop of `parse_procedure`; returns the statements, newest
first, and the token that ended the loop. -/
def parse_statement_loop (fuel : Nat) : Nat → List Statement → Parser →
    Outcome Parser (List Statement × Token)
  | 0, _, _ => .out_of_fuel
  | n + 1, stmts, p =>
    let r := p_peek p
    let tok := r.1
    if tok.t ≠ TOKEN_KW_END ∧ tok.t ≠ TOKEN_EOF ∧ tok.t ≠ TOKEN_ERR then
      (parse_statement fuel r.2).bind fun stmt p1 =>
        parse_statement_loop fuel n (stmt :: stmts) p1
    else .ok (stmts, tok) r.2

def parse_procedure (fuel : Nat) (p : Parser) (line col : Nat) : Outcome Parser Toplevel :=
  let e := expect_with p TOKEN_SYM "procedure name"
  if !e.1 then .fail e.2.2
  else
    let name_tok := e.2.1
    let e1 := expect e.2.2 TOKEN_LPAREN "function arguments"
    if !e1.1 then .fail e1.2
    else
      let params : Outcome Parser (List Parameter) :=
        if (p_peek e1.2).1.t = TOKEN_RPAREN then .ok [] (p_skip (p_peek e1.2).2)
        else
          (parse_parameter fuel (p_peek e1.2).2).bind fun first p1 =>
            parse_parameter_loop fuel fuel [first] p1
      params.bind fun params p2 =>
        (parse_type fuel p2).bind fun return_type p3 =>
          (parse_statement_loop fuel fuel [] p3).bind fun r p4 =>
            let stmts := invert r.1 []
            let tok := r.2
            let p5 := if tok.t ≠ TOKEN_KW_END then handle_erratic_tok p4 tok "statement" else p4
            let p6 := p_skip p5
            .ok (Toplevel.proc line col none [] p6.next_entry_point (tok_name p6 name_tok)
                  stmts params return_type)
              { p6 with next_entry_point := 0 }

/-- Truncation of an `int64_t` to `int`. -/
def wrap32 (x : Int) : Int := (x + 2 ^ 31) % 2 ^ 32 - 2 ^ 31

/-- The `input(n)` and `output(n)` attribute bodies of `parse_record_toplevel`,
which differ in the entry kind only. -/
def parse_binding (p : Parser) (t : RecordEntryType) : Outcome Parser (RecordEntryType × Int) :=
  let e := expect p TOKEN_LPAREN "left parenthesis"
  if !e.1 then .fail e.2
  else
    let e1 := expect_with e.2 TOKEN_NUM "input binding"
    if !e1.1 then .fail e1.2.2
    else
      let binding_tok := e1.2.1
      match binding_tok.num with
      | .real _ _ => .fail (parser_error_tok e1.2.2 binding_tok "binding must be an integer")
      | .int i =>
        let e2 := expect e1.2.2 TOKEN_RPAREN "right parenthesis"
        if !e2.1 then .fail e2.2
        else .ok (t, wrap32 i) e2.2

/-- The bracketed attribute of a record member, from after the `[` up to and
including the member name. -/
def parse_record_attr (p : Parser) : Outcome Parser (RecordEntryType × Int × Token) :=
  let e := expect_with p TOKEN_SYM "attribute name"
  if !e.1 then .fail e.2.2
  else
    let attr_tok := e.2.1
    let p1 := e.2.2
    let body : Outcome Parser (RecordEntryType × Int) :=
      if token_streq p1.lex.src attr_tok "builtin" then
        let e1 := expect p1 TOKEN_LPAREN "left parenthesis"
        if !e1.1 then .fail e1.2
        else
          let e2 := expect_with e1.2 TOKEN_SYM "name of builtin"
          if !e2.1 then .fail e2.2.2
          else
            let builtin_tok := e2.2.1
            if token_streq e2.2.2.lex.src builtin_tok "position" then
              let e3 := expect e2.2.2 TOKEN_RPAREN "right parenthesis"
              if !e3.1 then .fail e3.2
              else .ok (RECORD_ENTRY_BUILTIN, BUILTIN_CLIP_POSITION) e3.2
            else
              .fail (parser_error_tok e2.2.2 builtin_tok
                ("unknown builtin name: '" ++ fmt_name (tok_name e2.2.2 builtin_tok) ++ "'"))
      else if token_streq p1.lex.src attr_tok "output" then parse_binding p1 RECORD_ENTRY_OUTPUT
      else if token_streq p1.lex.src attr_tok "input" then parse_binding p1 RECORD_ENTRY_INPUT
      else
        .fail (parser_error_tok p1 attr_tok
          ("unknown attribute name: '" ++ fmt_name (tok_name p1 attr_tok) ++ "'"))
    body.bind fun b p2 =>
      let e4 := expect p2 TOKEN_RBRACK "right bracket"
      if !e4.1 then .fail e4.2
      else
        let e5 := expect_with e4.2 TOKEN_SYM "member name"
        if !e5.1 then .fail e5.2.2
        else .ok (b.1, b.2, e5.2.1) e5.2.2

/-- The member loop of `parse_record_toplevel`, with the check for `end`
that follows it. -/
def parse_record_toplevel_loop (fuel : Nat) : Nat → List RecordEntry → Parser →
    Outcome Parser (List RecordEntry)
  | 0, _, _ => .out_of_fuel
  | n + 1, entries, p =>
    let r := p_next p
    let sym_tok := r.1
    if sym_tok.t = TOKEN_SYM ∨ sym_tok.t = TOKEN_LBRACK then
      let head : Outcome Parser (RecordEntryType × Int × Token) :=
        if sym_tok.t = TOKEN_LBRACK then parse_record_attr r.2
        else .ok (RECORD_ENTRY_NORMAL, 0, sym_tok) r.2
      head.bind fun h p1 =>
        let e := expect p1 TOKEN_COLON "':'"
        if !e.1 then .fail e.2
        else
          (parse_type fuel e.2).bind fun type p2 =>
            parse_record_toplevel_loop fuel n
              (RecordEntry.mk h.1 h.2.1 (tok_name p2 h.2.2) type :: entries) p2
    else if sym_tok.t ≠ TOKEN_KW_END then
      .fail (handle_erratic_tok r.2 sym_tok "record member")
    else .ok entries r.2

def parse_record_toplevel (fuel : Nat) (p : Parser) (line col : Nat) : Outcome Parser Toplevel :=
  let e := expect_with p TOKEN_SYM "record name"
  if !e.1 then .fail e.2.2
  else
    (parse_record_toplevel_loop fuel fuel [] e.2.2).bind fun entries p1 =>
      .ok (Toplevel.record line col (tok_name p1 e.2.1) entries none) p1

def parse_toplevel_attr (p : Parser) : Bool × Parser :=
  let e := expect_with p TOKEN_SYM "attribute name"
  if !e.1 then (false, e.2.2)
  else
    let attr_tok := e.2.1
    let p1 := e.2.2
    if token_streq p1.lex.src attr_tok "entry_point" then
      let e1 := expect p1 TOKEN_LPAREN "entry point name"
      if !e1.1 then (false, e1.2)
      else
        let e2 := expect_with e1.2 TOKEN_SYM "entry point name"
        if !e2.1 then (false, e2.2.2)
        else
          let entry_tok := e2.2.1
          let p2 := e2.2.2
          if token_streq p2.lex.src entry_tok "vertex" then
            let p3 := { p2 with next_entry_point := p2.next_entry_point ||| ENTRY_POINT_VERTEX }
            let e3 := expect p3 TOKEN_RPAREN "right parenthesis"
            if !e3.1 then (false, e3.2) else expect e3.2 TOKEN_RBRACK "right bracket"
          else if token_streq p2.lex.src entry_tok "fragment" then
            let p3 := { p2 with next_entry_point := p2.next_entry_point ||| ENTRY_POINT_FRAGMENT }
            let e3 := expect p3 TOKEN_RPAREN "right parenthesis"
            if !e3.1 then (false, e3.2) else expect e3.2 TOKEN_RBRACK "right bracket"
          else
            (false, parser_error_tok p2 entry_tok
              ("unknown entry point '" ++ fmt_name (tok_name p2 entry_tok) ++ "'"))
    else
      (false, parser_error_tok p1 attr_tok
        ("unknown attribute '" ++ fmt_name (tok_name p1 attr_tok) ++ "'"))

/-- The attribute loop of `parse_toplevel`; returns the token that ended it. -/
def parse_toplevel_attr_loop : Nat → Parser → Outcome Parser Token
  | 0, _ => .out_of_fuel
  | n + 1, p =>
    let r := p_peek p
    if r.1.t = TOKEN_LBRACK then
      let a := parse_toplevel_attr (p_skip r.2)
      if !a.1 then .fail a.2 else parse_toplevel_attr_loop n a.2
    else .ok r.1 r.2

def parse_toplevel (fuel : Nat) (p : Parser) : Outcome Parser Toplevel :=
  (parse_toplevel_attr_loop fuel p).bind fun tok p1 =>
    match tok.t with
    | TOKEN_KW_RECORD => parse_record_toplevel fuel (p_skip p1) tok.line tok.col
    | TOKEN_KW_PROC => parse_procedure fuel (p_skip p1) tok.line tok.col
    | TOKEN_ERR => .fail p1
    | _ => .fail (parser_error_tok p1 tok "expected toplevel")

/-- The top-level loop of `parse_ast`; the list is built newest first. The
token that ended the loop is returned with it. -/
def parse_ast_loop (fuel : Nat) : Nat → List Toplevel → Parser →
    Outcome Parser (List Toplevel × Token)
  | 0, _, _ => .out_of_fuel
  | n + 1, toplevels, p =>
    let r := p_peek p
    let tok := r.1
    if tok.t ≠ TOKEN_EOF ∧ tok.t ≠ TOKEN_ERR then
      (parse_toplevel fuel r.2).bind fun toplvl p1 =>
        parse_ast_loop fuel n (toplvl :: toplevels) p1
    else .ok (toplevels, tok) r.2

/-- `parse_ast`; on success the `AST` carries the inverted list and the empty
type scope. -/
def parse_ast (fuel : Nat) (p : Parser) : Outcome Parser (List Toplevel) :=
  (parse_ast_loop fuel fuel [] p).bind fun r p1 =>
    if r.2.t = TOKEN_ERR then .fail p1
    else .ok (invert r.1 []) p1

/-! ## resolve.c -/

/-- `strncmp(a, b, n) == 0` for two slices of the same length `n`: equal
bytes up to the end, or up to a NUL in both. -/
def strncmp_eq : List Nat → List Nat → Bool
  | [], _ => true
  | _ :: _, [] => true
  | x :: xs, y :: ys => if x ≠ y then false else if x = 0 then true else strncmp_eq xs ys

/-- The name test of the resolver:
`name_len == iter->name_len && strncmp(name, iter->name, name_len) == 0`. -/
def name_eq (name iter_name : List Nat) : Bool :=
  decide (name.length = iter_name.length) && strncmp_eq name iter_name

/-- A scope chain: the entry lists of a scope and of the scopes reached from
it through `up`, innermost first. -/
abbrev Chain := List (List VarEntry)

/-- The inner loop of `lookup_scope` and `add_to_scope`: the first entry of a
frame with the name, and its index counted from the oldest entry. -/
def lookup_frame (name : List Nat) : List VarEntry → Option (Nat × VarEntry)
  | [] => none
  | iter :: rest =>
    if name_eq name iter.name then some (rest.length, iter) else lookup_frame name rest

def lookup_scope_from (depth : Nat) (name : List Nat) : Chain → Option (VarRef × VarEntry)
  | [] => none
  | frame :: up =>
    match lookup_frame name frame with
    | some r => some ({ depth := depth, index := r.1 }, r.2)
    | none => lookup_scope_from (depth + 1) name up

/-- `lookup_scope`: the pointer found and the entry it points to. -/
def lookup_scope (scope : Chain) (name : List Nat) : Option (VarRef × VarEntry) :=
  lookup_scope_from 0 name scope

/-- `add_to_scope` on the scope with entry list `entries` and parents `up`:
`none` when the name is found in the chain, otherwise the pointer to the new
entry and the new entry list of the scope. -/
def add_to_scope (entries : List VarEntry) (up : Chain) (name : List Nat) :
    Option (VarRef × List VarEntry) :=
  match lookup_scope (entries :: up) name with
  | some _ => none
  | none =>
    some ({ depth := 0, index := entries.length },
      { name := name, type := none, record := none } :: entries)

/-- A write through a pointer to an entry of a frame. -/
def update_entry (f : VarEntry → VarEntry) (index : Nat) : List VarEntry → List VarEntry
  | [] => []
  | e :: rest => if rest.length = index then f e :: rest else e :: update_entry f index rest

def AST.error (ast : AST) (line col : Nat) (msg : String) : AST :=
  { ast with result := result_error ast.result line col msg }

def AST.set_scope (ast : AST) (scope : List VarEntry) : AST :=
  { ast with scope := scope }

/-- The type scope after a record has been registered; one more record
`Type` has been allocated. -/
def AST.register_record (ast : AST) (type_scope : List VarEntry) : AST :=
  { ast with type_scope := type_scope, next_id := ast.next_id + 1 }

/-- `compare_types` on two non-null types; the flag returned and the result
record after the call. -/
def compare_types (result : BSLCompileResult) (line col : Nat) :
    Ty → Ty → Bool × BSLCompileResult
  | .vector size1 elem1, type2 =>
    match type2 with
    | .vector size2 elem2 =>
      let r := compare_types result line col elem1 elem2
      if !r.1 then (false, r.2)
      else if size1 ≠ size2 then (false, result_error r.2 line col "different sized vectors")
      else (true, r.2)
    | _ => (false, result_error result line col "incompatible types")
  | type1, type2 =>
    if type1.t ≠ type2.t then (false, result_error result line col "incompatible types")
    else
      match type1, type2 with
      | .f32, _ => (true, result)
      | .f64, _ => (true, result)
      | .record id1 _ name1, .record id2 _ name2 =>
        if id1 ≠ id2 then
          (false, result_error result line col
            ("incompatible record types '" ++ fmt_name name1 ++ "' and '" ++
              fmt_name name2 ++ "'"))
        else (true, result)
      | _, _ => (false, result)

/-- `compare_types` on two pointers: a null pointer is dereferenced at once. -/
def compare_types_ptr (ast : AST) (line col : Nat) (type1 type2 : Option Ty) :
    Outcome AST Unit :=
  match type1, type2 with
  | some t1, some t2 =>
    let r := compare_types ast.result line col t1 t2
    if r.1 then .ok () { ast with result := r.2 } else .fail { ast with result := r.2 }
  | _, _ => .undefined

/-- `resolve_type`: the new value of the type pointer. A type-scope entry
always has its type (pass 1 sets it right after `add_to_scope`); an entry
without one would make the pointer null, which the model reports at once. -/
def resolve_type (ast : AST) (line col : Nat) (type : Ty) : Outcome AST Ty :=
  match type with
  | .var name =>
    match lookup_scope [ast.type_scope] name with
    | none => .fail (ast.error line col ("no type '" ++ fmt_name name ++ "' in scope"))
    | some r =>
      match r.2.type with
      | some t => .ok t ast
      | none => .undefined
  | t => .ok t ast

/-- The search of a record's entries for a member name, as in
`resolve_record_expr` and the `EXPR_MEMBER` case of `resolve_expr`. -/
def find_record_entry (name : List Nat) : List RecordEntry → Option RecordEntry
  | [] => none
  | iter :: rest =>
    if name_eq iter.name name then some iter else find_record_entry name rest

/-- The size a vector-literal element adds. -/
def elem_size (type : Ty) : Nat :=
  match type with
  | .vector size _ => size
  | _ => 1

mutual
def resolve_expr (ast : AST) (scope : Chain) : Expr → Outcome AST Expr
  | .binary line col lhs rhs op _ =>
    (resolve_expr ast scope lhs).bind fun lhs1 ast1 =>
    (resolve_expr ast1 scope rhs).bind fun rhs1 ast2 =>
      match lhs1.type, rhs1.type with
      | some lt, some rt =>
        match lt, rt with
        | .f32, .f32 => .ok (.binary line col lhs1 rhs1 op (some lt)) ast2
        | .f64, .f64 => .ok (.binary line col lhs1 rhs1 op (some lt)) ast2
        | .vector lsize lelem, .vector rsize relem =>
          let c := compare_types ast2.result line col lelem relem
          if !c.1 ∨ lsize ≠ rsize then
            .fail (AST.error { ast2 with result := c.2 } line col
              "cannot perform arithmetic on vectors of different types or sizes")
          else .ok (.binary line col lhs1 rhs1 op (some lt)) { ast2 with result := c.2 }
        | .vector _ lelem, _ =>
          if op = BINOP_ADD ∨ op = BINOP_SUB then
            .fail (ast2.error line col
              "cannot perform addition or subtraction on mixed scalar and vector operands")
          else
            let c := compare_types ast2.result line col lelem rt
            if !c.1 then
              .fail (AST.error { ast2 with result := c.2 } line col
                "cannot perform vector/scalar multiplication on mixed type operands")
            else .ok (.binary line col lhs1 rhs1 op (some lt)) { ast2 with result := c.2 }
        | _, .vector _ relem =>
          if op = BINOP_ADD ∨ op = BINOP_SUB then
            .fail (ast2.error line col
              "cannot perform addition or subtraction on mixed scalar and vector operands")
          else
            let c := compare_types ast2.result line col relem lt
            if !c.1 then
              .fail (AST.error { ast2 with result := c.2 } line col
                "cannot perform vector/scalar multiplication on mixed type operands")
            else .ok (.binary line col lhs1 rhs1 op (some rt)) { ast2 with result := c.2 }
        | _, _ => .fail (ast2.error line col "invalid argument to arithmetic operation")
      | _, _ => .undefined
  | .member line col lhs name entry _ =>
    (resolve_expr ast scope lhs).bind fun lhs1 ast1 =>
      match lhs1.type with
      | none => .undefined
      | some (.record _ entries rec_name) =>
        let entry1 := match find_record_entry name entries with
          | some iter => some iter
          | none => entry
        match entry1 with
        | none =>
          .fail (ast1.error line col
            ("record type '" ++ fmt_name rec_name ++ "' does not have a member '" ++
              fmt_name name ++ "'"))
        | some e => .ok (.member line col lhs1 name entry1 (some e.type)) ast1
      | some _ => .fail (ast1.error line col "left hand side must be a record type")
  | .num line col num _ => .ok (.num line col num (some Ty.f32)) ast
  | .var line col name _ _ =>
    match lookup_scope scope name with
    | none => .fail (ast.error line col ("variable '" ++ fmt_name name ++ "' not in scope"))
    | some r => .ok (.var line col name (some r.1) r.2.type) ast
  | .vec line col exprs _ =>
    match exprs with
    | [] => .undefined
    | iter :: rest =>
      (resolve_expr ast scope iter).bind fun iter1 ast1 =>
        match iter1.type with
        | none => .undefined
        | some t =>
          let first_type := match t with
            | .vector _ elem => elem
            | _ => t
          (resolve_vec_rest ast1 scope line col first_type (elem_size t) rest).bind
            fun r ast2 =>
              if r.2 > 4 then .fail (ast2.error line col "maximum vector size is 4")
              else .ok (.vec line col (iter1 :: r.1) (some (Ty.vector r.2 first_type))) ast2
  | .record line col name members _ _ =>
    match lookup_scope [ast.type_scope] name with
    | none => .fail (ast.error line col ("unknown record type '" ++ fmt_name name ++ "'"))
    | some r =>
      (resolve_record_members ast scope name r.2 members).bind fun members1 ast1 =>
        .ok (.record line col name members1 (some r.1) r.2.type) ast1
/-- The loop of the `EXPR_VECTOR` case over the elements after the first:
the resolved elements and the size reached. -/
def resolve_vec_rest (ast : AST) (scope : Chain) (line col : Nat) (first_type : Ty)
    (size : Nat) : List Expr → Outcome AST (List Expr × Nat)
  | [] => .ok ([], size) ast
  | iter :: rest =>
    (resolve_expr ast scope iter).bind fun iter1 ast1 =>
      match iter1.type with
      | none => .undefined
      | some t =>
        (compare_types_ptr ast1 line col (some first_type) (some t)).bind fun _ ast2 =>
          (resolve_vec_rest ast2 scope line col first_type (size + elem_size t) rest).bind
            fun r ast3 => .ok (iter1 :: r.1, r.2) ast3
/-- The member loop of `resolve_record_expr`; `entry` is the type-scope entry
of the record named. -/
def resolve_record_members (ast : AST) (scope : Chain) (rec_name : List Nat)
    (entry : VarEntry) : List RecordExprMember → Outcome AST (List RecordExprMember)
  | [] => .ok [] ast
  | .mk line col name expr mentry :: rest =>
    match entry.record with
    | none => .undefined
    | some decl =>
      let iter2 := find_record_entry name decl.entries
      let mentry1 := match iter2 with
        | some e => some e
        | none => mentry
      match mentry1 with
      | none =>
        .fail (ast.error line col
          ("record type '" ++ fmt_name rec_name ++ "' does not have a member '" ++
            fmt_name name ++ "'"))
      | some _ =>
        (resolve_expr ast scope expr).bind fun expr1 ast1 =>
          match iter2 with
          | none => .undefined
          | some e2 =>
            (compare_types_ptr ast1 line col expr1.type (some e2.type)).bind fun _ ast2 =>
              (resolve_record_members ast2 scope rec_name entry rest).bind fun rest1 ast3 =>
                .ok (.mk line col name expr1 mentry1 :: rest1) ast3
end

/-- `resolve_statement` on the procedure scope `entries` (whose `up` is
`up`): the statement, the new entry list of the scope and `*type_out`. -/
def resolve_statement (ast : AST) (entries : List VarEntry) (up : Chain) :
    Statement → Outcome AST (Statement × List VarEntry × Option Ty)
  | .var line col _ name expr type =>
    match add_to_scope entries up name with
    | none =>
      .fail (ast.error line col ("redeclaration of variable '" ++ fmt_name name ++ "'"))
    | some a =>
      let entry := a.1
      let entries1 := a.2
      let expr_r : Outcome AST (Option Expr) :=
        match expr with
        | some e => (resolve_expr ast (entries1 :: up) e).bind fun e1 ast1 => .ok (some e1) ast1
        | none => .ok none ast
      expr_r.bind fun expr1 ast1 =>
        let type_r : Outcome AST (Option Ty) :=
          match type with
          | some t => (resolve_type ast1 line col t).bind fun t1 ast2 => .ok (some t1) ast2
          | none => .ok none ast1
        type_r.bind fun type1 ast2 =>
          let checked : Outcome AST (Option Ty) :=
            match type1, expr1 with
            | some t, some e =>
              (compare_types_ptr ast2 e.line e.col (some t) e.type).bind fun _ ast3 =>
                .ok (some t) ast3
            | some t, none => .ok (some t) ast2
            | none, some e => .ok e.type ast2
            | none, none => .undefined
          checked.bind fun type2 ast3 =>
            .ok (.var line col (some entry) name expr1 type2,
                 update_entry (fun e => { e with type := type2 }) entry.index entries1,
                 none) ast3
  | .ret line col expr =>
    match expr with
    | some e =>
      (resolve_expr ast (entries :: up) e).bind fun e1 ast1 =>
        .ok (.ret line col (some e1), entries, e1.type) ast1
    | none => .ok (.ret line col none, entries, none) ast

/-- The parameter loop of `resolve_proc`: the parameters with their types
rewritten and the entry list of the procedure scope. -/
def resolve_params (ast : AST) (up : Chain) :
    List VarEntry → List Parameter → Outcome AST (List Parameter × List VarEntry)
  | entries, [] => .ok ([], entries) ast
  | entries, .mk line col name type :: rest =>
    match add_to_scope entries up name with
    | none =>
      .fail (ast.error line col
        ("function parameter '" ++ fmt_name name ++ "' shadows variable"))
    | some a =>
      match resolve_type ast line col type with
      | .ok type1 ast1 =>
        (resolve_params ast1 up
            (update_entry (fun e => { e with type := some type1 }) a.1.index a.2) rest).bind
          fun r ast2 => .ok (.mk line col name type1 :: r.1, r.2) ast2
      | .fail ast1 => .fail ast1
      | .undefined => .undefined
      | .out_of_fuel => .out_of_fuel

/-- The statement loop of `resolve_proc`: the statements, the entry list of
the procedure scope and `did_return`. -/
def resolve_stmts (ast : AST) (up : Chain) (return_type : Ty) :
    List VarEntry → Bool → List Statement →
      Outcome AST (List Statement × List VarEntry × Bool)
  | entries, did_return, [] => .ok ([], entries, did_return) ast
  | entries, did_return, iter :: rest =>
    match resolve_statement ast entries up iter with
    | .ok r ast1 =>
      let checked : Outcome AST Bool :=
        match r.2.2 with
        | some ret =>
          let c := compare_types ast1.result iter.line iter.col ret return_type
          if !c.1 then
            .fail (AST.error { ast1 with result := c.2 } iter.line iter.col
              "incompatible return type")
          else .ok true { ast1 with result := c.2 }
        | none => .ok did_return ast1
      match checked with
      | .ok did_return1 ast2 =>
        (resolve_stmts ast2 up return_type r.2.1 did_return1 rest).bind fun q ast3 =>
          .ok (r.1 :: q.1, q.2) ast3
      | .fail ast2 => .fail ast2
      | .undefined => .undefined
      | .out_of_fuel => .out_of_fuel
    | .fail ast1 => .fail ast1
    | .undefined => .undefined
    | .out_of_fuel => .out_of_fuel

/-- `resolve_proc`. The `proc` type written to the procedure's global entry
shares the `Parameter` nodes with the procedure, so once the parameter loop
has rewritten their types the entry is written again with them. -/
def resolve_proc (ast : AST) : Toplevel → Outcome AST Toplevel
  | .proc line col entry _ entry_point name stmts params return_type =>
    (resolve_type ast line col return_type).bind fun return_type1 ast1 =>
      match entry with
      | none => .undefined
      | some ref =>
        let ast2 : AST := ast1.set_scope
          (update_entry (fun e => { e with type := some (Ty.proc return_type1 params) })
            ref.index ast1.scope)
        (resolve_params ast2 [ast2.scope] [] params).bind fun ps ast3 =>
          let ast4 : AST := ast3.set_scope
            (update_entry (fun e => { e with type := some (Ty.proc return_type1 ps.1) })
              ref.index ast3.scope)
          (resolve_stmts ast4 [ast4.scope] return_type1 ps.2 false stmts).bind fun r ast5 =>
            if return_type1.t ≠ TYPE_VOID ∧ r.2.2 = false then
              .fail (ast5.error line col "non-void function must return")
            else
              .ok (.proc line col entry r.2.1 entry_point name r.1 ps.1 return_type1) ast5
  | t => .ok t ast

/-- Pass 1 of `resolve_names`: the registration loop. -/
def register_toplevels (ast : AST) : List Toplevel → Outcome AST (List Toplevel)
  | [] => .ok [] ast
  | .proc line col _ scope entry_point name stmts params return_type :: rest =>
    match add_to_scope ast.scope [] name with
    | none =>
      .fail (ast.error line col ("redeclaration of toplevel '" ++ fmt_name name ++ "'"))
    | some a =>
      (register_toplevels { ast with scope := a.2 } rest).bind fun rest1 ast1 =>
        .ok (.proc line col (some a.1) scope entry_point name stmts params return_type :: rest1)
          ast1
  | .record line col name entries _ :: rest =>
    match add_to_scope ast.type_scope [] name with
    | none =>
      .fail (ast.error line col ("redeclaration of record type '" ++ fmt_name name ++ "'"))
    | some a =>
      let new_type := Ty.record ast.next_id entries name
      let decl : RecordDecl := { line := line, col := col, name := name, entries := entries }
      let ast1 : AST := ast.register_record
        (update_entry (fun e => { e with type := some new_type, record := some decl })
          a.1.index a.2)
      (register_toplevels ast1 rest).bind fun rest1 ast2 =>
        .ok (.record line col name entries (some a.1) :: rest1) ast2

/-- Pass 2 of `resolve_names`: `resolve_proc` on every procedure. -/
def resolve_procs (ast : AST) : List Toplevel → Outcome AST (List Toplevel)
  | [] => .ok [] ast
  | iter :: rest =>
    match resolve_proc ast iter with
    | .ok iter1 ast1 =>
      (resolve_procs ast1 rest).bind fun rest1 ast2 => .ok (iter1 :: rest1) ast2
    | .fail ast1 => .fail ast1
    | .undefined => .undefined
    | .out_of_fuel => .out_of_fuel

/-- `resolve_names`: `ok` is `true`, with the annotated `AST`. -/
def resolve_names (ast : AST) : Outcome AST Unit :=
  (register_toplevels { ast with scope := [] } ast.toplevels).bind fun tops ast1 =>
    (resolve_procs ast1 tops).bind fun tops1 ast2 =>
      .ok () { ast2 with toplevels := tops1 }

/-! ## bsl.c -/

structure BSLCompileInfo where
  src : List Nat
  src_len : Nat

/-- Fuel handed to the parser: more than any parse of `src_len` bytes uses. -/
def parse_fuel (src_len : Nat) : Nat := 8 * src_len + 8

/-- `bsl_compile`: `ok` is `true` and carries the annotated `AST`, `fail` is
`false`; both carry the result record. -/
def bsl_compile (compile_info : BSLCompileInfo) (result : BSLCompileResult) :
    Outcome BSLCompileResult AST :=
  let lexer := lexer_init compile_info.src compile_info.src_len result
  let parser := parser_init lexer
  match parse_ast (parse_fuel compile_info.src_len) parser with
  | .ok toplevels p =>
    let ast : AST := { toplevels := toplevels, scope := [], type_scope := [],
                       result := p.lex.result, next_id := 0 }
    match resolve_names ast with
    | .ok _ ast1 => .ok ast1 ast1.result
    | .fail ast1 => .fail ast1.result
    | .undefined => .undefined
    | .out_of_fuel => .out_of_fuel
  | .fail p => .fail p.lex.result
  | .undefined => .undefined
  | .out_of_fuel => .out_of_fuel

/-- `bsl_compile` on the bytes of a string, with an unwritten result record. -/
def compile (source : String) : Outcome BSLCompileResult AST :=
  bsl_compile { src := bytes source, src_len := (bytes source).length } { writes := [] }

def Outcome.returns_true {σ α : Type} : Outcome σ α → Bool
  | .ok _ _ => true
  | _ => false

def Outcome.returns_false {σ α : Type} : Outcome σ α → Bool
  | .fail _ => true
  | _ => false

/-- The state a call leaves behind, when it returns. -/
def Outcome.state {σ α : Type} : Outcome σ α → Option σ
  | .ok _ s => some s
  | .fail s => some s
  | _ => none

/-- The writes made to the result record by a compile, oldest first. -/
def diagnostics (o : Outcome BSLCompileResult AST) : List Diag :=
  match o.state with
  | some r => r.writes.reverse
  | none => []

/-! ## Definitions used to state the properties -/

/-- The node a call returned. -/
def Outcome.value {σ α : Type} : Outcome σ α → Option α
  | .ok a _ => some a
  | _ => none

/-- `parse_ast` on the bytes of a string, as `bsl_compile` calls it. -/
def parse_source (source : String) : Outcome Parser (List Toplevel) :=
  parse_ast (parse_fuel (bytes source).length)
    (parser_init (lexer_init (bytes source) (bytes source).length { writes := [] }))

/-- The writes a parse left in the result record, oldest first. -/
def parser_diagnostics (o : Outcome Parser (List Toplevel)) : List Diag :=
  match o.state with
  | some p => p.lex.result.writes.reverse
  | none => []

/-- The variants met going down a type through vector elements. -/
def Ty.tags : Ty → List TypeType
  | .vector _ type => TYPE_VECTOR :: type.tags
  | .f32 => [TYPE_F32]
  | .f64 => [TYPE_F64]
  | .void => [TYPE_VOID]
  | .record _ _ _ => [TYPE_RECORD]
  | .var _ => [TYPE_VAR]
  | .proc _ _ => [TYPE_PROC]

/-- The vector sizes met going down a type through vector elements. -/
def Ty.sizes : Ty → List Nat
  | .vector size type => size :: type.sizes
  | _ => []

mutual
/-- Every `Expr` node reachable from the expression has a non-null `type`. -/
def Expr.typed : Expr → Bool
  | .var _ _ _ _ type => type.isSome
  | .num _ _ _ type => type.isSome
  | .record _ _ _ members _ type => type.isSome && members_typed members
  | .binary _ _ lhs rhs _ type => type.isSome && lhs.typed && rhs.typed
  | .member _ _ lhs _ _ type => type.isSome && lhs.typed
  | .vec _ _ exprs type => type.isSome && exprs_typed exprs
def exprs_typed : List Expr → Bool
  | [] => true
  | e :: rest => e.typed && exprs_typed rest
def members_typed : List RecordExprMember → Bool
  | [] => true
  | .mk _ _ _ expr _ :: rest => expr.typed && members_typed rest
end

/-- Every `Expr` node of the statement has a non-null `type`. -/
def Statement.exprs_typed : Statement → Bool
  | .var _ _ _ _ (some e) _ => e.typed
  | .var _ _ _ _ none _ => true
  | .ret _ _ (some e) => e.typed
  | .ret _ _ none => true

/-- A `var` statement has a non-null `type`. -/
def Statement.var_typed : Statement → Bool
  | .var _ _ _ _ _ type => type.isSome
  | .ret _ _ _ => true

/-- The type of a `var` statement, by variants and vector sizes. -/
def Statement.var_type_shape : Statement → Option (List TypeType × List Nat)
  | .var _ _ _ _ _ (some type) => some (type.tags, type.sizes)
  | _ => none

def Toplevel.stmts : Toplevel → List Statement
  | .proc _ _ _ _ _ _ stmts _ _ => stmts
  | .record _ _ _ _ _ => []

def Toplevel.scope : Toplevel → List VarEntry
  | .proc _ _ _ scope _ _ _ _ _ => scope
  | .record _ _ _ _ _ => []

/-- The types written in a declaration, each by its variants: the entry
types of a record; the return type and the parameter types of a procedure. -/
def Toplevel.type_tags : Toplevel → List (List TypeType)
  | .record _ _ _ entries _ => entries.map (fun e => e.type.tags)
  | .proc _ _ _ _ _ _ _ params return_type =>
    return_type.tags :: params.map (fun p => p.type.tags)

/-- Every `Expr` node reachable from a procedure body has a non-null `type`. -/
def AST.exprs_typed (ast : AST) : Bool :=
  ast.toplevels.all (fun t => t.stmts.all Statement.exprs_typed)

/-- Every `var` statement has a non-null `type`. -/
def AST.var_stmts_typed (ast : AST) : Bool :=
  ast.toplevels.all (fun t => t.stmts.all Statement.var_typed)

/-- Every entry of every procedure scope has a non-null `type`. -/
def AST.scope_entries_typed (ast : AST) : Bool :=
  ast.toplevels.all (fun t => t.scope.all (fun e => e.type.isSome))

/-- An `AST` root with empty scopes and an unwritten result record. -/
def empty_ast : AST :=
  { toplevels := [], scope := [], type_scope := [], result := { writes := [] }, next_id := 0 }

/-- The literal `1.0` at line 1, column `col`, as parsed. -/
def num_one (col : Nat) (type : Option Ty) : Expr :=
  Expr.num 1 col (Number.real 1 [0]) type

/-- The entry list `x: f32` of a record, as parsed. -/
def entries_x_f32 : List RecordEntry :=
  [RecordEntry.mk RECORD_ENTRY_NORMAL 0 (bytes "x") Ty.f32]

/-- The declarations `record A x: f32 end record B x: f32 end`, as parsed
(`entry` is `none`) and as registered. -/
def two_records (entry_a entry_b : Option VarRef) : List Toplevel :=
  [ Toplevel.record 1 7 (bytes "A") entries_x_f32 entry_a,
    Toplevel.record 1 27 (bytes "B") entries_x_f32 entry_b ]

/-- The type-scope entry of a registered record. -/
def registered_entry (id line col : Nat) (name : List Nat) (entries : List RecordEntry) :
    VarEntry :=
  VarEntry.mk name (some (Ty.record id entries name))
    (some (RecordDecl.mk line col name entries))

/-- The `AST` root after pass 1 on `two_records`. -/
def two_records_registered : AST :=
  AST.mk [] []
    [ registered_entry 1 1 27 (bytes "B") entries_x_f32,
      registered_entry 0 1 7 (bytes "A") entries_x_f32 ]
    (BSLCompileResult.mk []) 2

/-- Types on which `compare_types` can answer `true`: built from `f32`,
`f64`, record types and vectors of these. The other variants (`void`, a type
name that was not resolved, a procedure type) reach its `default` branch. -/
def Ty.comparable : Ty → Bool
  | .f32 => true
  | .f64 => true
  | .record _ _ _ => true
  | .vector _ elem => elem.comparable
  | _ => false

/-- The messages with which a caller of `compare_types` follows its failure:
the operand checks of a binary expression and the return check. -/
def caller_messages : List String :=
  [ "cannot perform arithmetic on vectors of different types or sizes",
    "cannot perform vector/scalar multiplication on mixed type operands",
    "incompatible return type" ]

/-- The record `r1` holds the writes of `r` and at most one newer write,
made at `line`, `col`. -/
def WroteAt (line col : Nat) (r r1 : BSLCompileResult) : Prop :=
  r1.writes = r.writes ∨
    ∃ msg, r1.writes = { line := line, col := col, msg := msg } :: r.writes

/-- What a call that returned `false` may have written on top of `r`:
nothing, one diagnostic, or one diagnostic followed at the same position by
one of the `caller_messages`. -/
def Failed (r r1 : BSLCompileResult) : Prop :=
  r1.writes = r.writes ∨ (∃ d, r1.writes = d :: r.writes) ∨
    ∃ line col msg1 msg2, msg2 ∈ caller_messages ∧
      r1.writes = { line := line, col := col, msg := msg2 } ::
        { line := line, col := col, msg := msg1 } :: r.writes

/-- A call of the resolver started with result record `r` wrote nothing if
it returned `true`, and wrote as `Failed` says if it returned `false`; it may
dereference a null pointer, and it does not run out of fuel (it uses none). -/
def Quiet {α : Type} (r : BSLCompileResult) (o : Outcome AST α) : Prop :=
  match o with
  | .ok _ a => a.result = r
  | .fail a => Failed r a.result
  | .undefined => True
  | .out_of_fuel => False

/-- The type scope as pass 1 builds it when `next_id` record types have been
allocated: the newest entry holds the record type allocated last, and so on
down the list; every entry's type carries the entry's name. -/
def Registered : Nat → List VarEntry → Prop
  | _, [] => True
  | n, e :: rest =>
    ∃ m es, n = m + 1 ∧ e.type = some (Ty.record m es e.name) ∧ Registered m rest

/-- No two entries of a frame have names that the resolver's name test
identifies. -/
def NamesDistinct (ts : List VarEntry) : Prop :=
  ts.Pairwise (fun e1 e2 => name_eq e1.name e2.name = false)

/-- The value of `*` and `/` nodes: `BINOP_MUL`, `BINOP_DIV`, and
`TOKEN_DIV`, which is what `parse_mul_expr` stores for `/`. -/
def is_mul_or_div (op : Nat) : Prop :=
  op = BINOP_MUL ∨ op = BINOP_DIV ∨ op = TokenType.toNat TOKEN_DIV

/-- The well-typed rows of the binary arithmetic matrix, in the spec's
words: operator, type of the left operand, type of the right operand, type
of the result. The row of two vectors asks for one element type and one
size, whatever the element type is. -/
inductive Matrix : Nat → Ty → Ty → Ty → Prop where
  | f32 (op : Nat) : Matrix op Ty.f32 Ty.f32 Ty.f32
  | f64 (op : Nat) : Matrix op Ty.f64 Ty.f64 Ty.f64
  | vectors (op n : Nat) (T : Ty) :
      Matrix op (Ty.vector n T) (Ty.vector n T) (Ty.vector n T)
  | vector_scalar (op n : Nat) (T : Ty) (hT : T = Ty.f32 ∨ T = Ty.f64)
      (hop : is_mul_or_div op) : Matrix op (Ty.vector n T) T (Ty.vector n T)
  | scalar_vector (op n : Nat) (T : Ty) (hT : T = Ty.f32 ∨ T = Ty.f64)
      (hop : is_mul_or_div op) : Matrix op T (Ty.vector n T) (Ty.vector n T)

/-- A scope chain of one frame with the one entry `name : type`. -/
def one_entry_scope (name : List Nat) (type : Ty) : Chain :=
  [[VarEntry.mk name (some type) none]]

/-- The entry a pointer into a frame points to: the entry number `index`,
counted from the oldest. -/
def get_entry (index : Nat) : List VarEntry → Option VarEntry
  | [] => none
  | e :: rest => if rest.length = index then some e else get_entry index rest

/-- The entry a `VarRef` into a scope chain points to. -/
def deref (scope : Chain) (ref : VarRef) : Option VarEntry :=
  match scope[ref.depth]? with
  | some frame => get_entry ref.index frame
  | none => none

/-- The entries of a scope chain in the order `lookup_scope` visits them:
from the scope outward, in each scope from the newest entry to the oldest. -/
def search_order : Chain → List VarEntry
  | [] => []
  | frame :: up => frame ++ search_order up

/-- The statement `var x : f32 = 1.0` at line 1, as parsed (`entry` and
`type` of the initializer are null) and as resolved. -/
def var_x_f32 (entry : Option VarRef) (type : Option Ty) : Statement :=
  Statement.var 1 4 entry (bytes "x") (some (num_one 16 type)) (some Ty.f32)

/-- The `AST` root after `resolve_proc` has written the `proc` type to the
procedure's entry in the global value scope. -/
def with_proc_type (ast : AST) (ref : VarRef) (return_type : Ty) (params : List Parameter) :
    AST :=
  ast.set_scope
    (update_entry (fun e => { e with type := some (Ty.proc return_type params) }) ref.index
      ast.scope)

/-- The `AST` root after pass 1 on a program with the one procedure `f`. -/
def ast_with_proc_f : AST :=
  AST.mk [] [VarEntry.mk (bytes "f") none none] [] (BSLCompileResult.mk []) 0

/-- The pointer to the entry of `f` in `ast_with_proc_f`. -/
def ref_f : VarRef := { depth := 0, index := 0 }

def Toplevel.name : Toplevel → List Nat
  | .record _ _ name _ _ => name
  | .proc _ _ _ _ _ name _ _ _ => name

/-- The names of the procedures of a program, in source order. -/
def proc_names : List Toplevel → List (List Nat)
  | [] => []
  | .proc _ _ _ _ _ name _ _ _ :: rest => name :: proc_names rest
  | .record _ _ _ _ _ :: rest => proc_names rest

/-- The names of the records of a program, in source order. -/
def record_names : List Toplevel → List (List Nat)
  | [] => []
  | .proc _ _ _ _ _ _ _ _ _ :: rest => record_names rest
  | .record _ _ name _ _ :: rest => name :: record_names rest

/-- In the spec's words: the diagnostic of pass 1. It is that of the first
declaration, in source order, whose name is byte-equal to the name of an
earlier declaration of its kind (`procs`, `records`: the names seen so far),
at the position of that later declaration. -/
def first_redeclaration (procs records : List (List Nat)) : List Toplevel → Option Diag
  | [] => none
  | .proc line col _ _ _ name _ _ _ :: rest =>
    if name ∈ procs then
      some { line := line, col := col,
             msg := truncate_msg ("redeclaration of toplevel '" ++ fmt_name name ++ "'") }
    else first_redeclaration (name :: procs) records rest
  | .record line col name _ _ :: rest =>
    if name ∈ records then
      some { line := line, col := col,
             msg := truncate_msg ("redeclaration of record type '" ++ fmt_name name ++ "'") }
    else first_redeclaration procs (name :: records) rest

/-- The declarations `proc f() void end proc f() void end`, as parsed. -/
def two_procs_f : List Toplevel :=
  [ Toplevel.proc 1 5 none [] 0 (bytes "f") [] [] Ty.void,
    Toplevel.proc 1 23 none [] 0 (bytes "f") [] [] Ty.void ]

/-- The state `b` differs from `a` in the result record at most. -/
def SameButResult (a b : AST) : Prop :=
  b.toplevels = a.toplevels ∧ b.scope = a.scope ∧ b.type_scope = a.type_scope ∧
    b.next_id = a.next_id

/-- A call started in state `a` left everything but the result record as it was. -/
def Framed {α : Type} (a : AST) (o : Outcome AST α) : Prop :=
  match o with
  | .ok _ b => SameButResult a b
  | .fail b => SameButResult a b
  | .undefined => True
  | .out_of_fuel => True

/-- The names of the entries a lookup from a scope walks through. -/
def chain_names (scope : Chain) : List (List Nat) :=
  (search_order scope).map VarEntry.name

/-- The name a statement declares: that of a `var` statement. -/
def Statement.declared : Statement → List (List Nat)
  | .var _ _ _ name _ _ => [name]
  | .ret _ _ _ => []

/-- The names declared by the `var` statements of a list, in source order. -/
def declared_names : List Statement → List (List Nat)
  | [] => []
  | s :: rest => s.declared ++ declared_names rest

/-- The parameter `a: f32` of `proc f(a: f32) void var a = 1.0 end`, as parsed. -/
def param_a_f32 : Parameter := Parameter.mk 1 9 (bytes "a") Ty.f32

/-- The statement `var a = 1.0` of `proc f(a: f32) void var a = 1.0 end`, as parsed. -/
def var_a_one : Statement :=
  Statement.var 1 24 none (bytes "a") (some (num_one 32 none)) none

/-- The procedure `proc f(a: f32) void var a = 1.0 end`, as parsed (`entry` is
`none`) and as registered. -/
def proc_f_var_a (entry : Option VarRef) : Toplevel :=
  Toplevel.proc 1 5 entry [] 0 (bytes "f") [var_a_one] [param_a_f32] Ty.void

/-- The parameter `f: f32` of `proc f(f: f32) void end`, as parsed. -/
def param_f_f32 : Parameter := Parameter.mk 1 9 (bytes "f") Ty.f32

/-- The procedure `proc f(f: f32) void end`, as parsed and as registered. -/
def proc_f_param_f (entry : Option VarRef) : Toplevel :=
  Toplevel.proc 1 5 entry [] 0 (bytes "f") [] [param_f_f32] Ty.void

mutual
/-- Every vector type inside the type has a size from 1 to 4. -/
def Ty.well_sized : Ty → Bool
  | .vector size type => decide (1 ≤ size ∧ size ≤ 4) && type.well_sized
  | .record _ entries _ => entries_well_sized entries
  | .proc return_type params => return_type.well_sized && params_well_sized params
  | _ => true
def entries_well_sized : List RecordEntry → Bool
  | [] => true
  | .mk _ _ _ type :: rest => type.well_sized && entries_well_sized rest
def params_well_sized : List Parameter → Bool
  | [] => true
  | .mk _ _ _ type :: rest => type.well_sized && params_well_sized rest
end

/-- Every type found in the entries of a scope chain is well sized. -/
def chain_well_sized (scope : Chain) : Prop :=
  ∀ e ∈ search_order scope, ∀ t, e.type = some t → t.well_sized = true

mutual
/-- The expression is as the parser builds it: no `EXPR_MEMBER` node has its
`entry` set. -/
def Expr.fresh : Expr → Bool
  | .var _ _ _ _ _ => true
  | .num _ _ _ _ => true
  | .record _ _ _ members _ _ => members_fresh members
  | .binary _ _ lhs rhs _ _ => lhs.fresh && rhs.fresh
  | .member _ _ lhs _ entry _ => entry.isNone && lhs.fresh
  | .vec _ _ exprs _ => exprs_fresh exprs
def exprs_fresh : List Expr → Bool
  | [] => true
  | e :: rest => e.fresh && exprs_fresh rest
def members_fresh : List RecordExprMember → Bool
  | [] => true
  | .mk _ _ _ expr entry :: rest => entry.isNone && expr.fresh && members_fresh rest
end

/-- The scalars the elements of a resolved vector literal hold together: a
vector element counts its size, any other element counts one. -/
def scalar_count : List Expr → Nat
  | [] => 0
  | e :: rest =>
    (match e.type with
      | some t => elem_size t
      | none => 0) + scalar_count rest

/-- The elements of a vector literal. -/
def Expr.elements : Expr → List Expr
  | .vec _ _ exprs _ => exprs
  | _ => []

/-- The literal `{1.0, 1.0}` at the start of a line, as parsed (`type` is
`none`) and as resolved. -/
def vec_of_two_ones (type : Option Ty) (vec_type : Option Ty) : Expr :=
  Expr.vec 1 2 [num_one 5 type, num_one 10 type] vec_type

/-- The variants of the type of the expression a `return` statement returns;
`some none` when that type is null. -/
def Statement.return_tags : Statement → Option (Option (List TypeType))
  | .ret _ _ (some e) => some (e.type.map Ty.tags)
  | _ => none

/-- The `return_tags` of the statements of every toplevel. -/
def AST.return_tags (ast : AST) : List (List (Option (Option (List TypeType)))) :=
  ast.toplevels.map (fun t => t.stmts.map Statement.return_tags)

/-- The lexer `l1` is the lexer `l` after scanning forward: the buffer, the
peek slot and the result record are the same, the cursor has not moved back
and is still inside the buffer if it was. -/
structure Scans (l l1 : Lexer) : Prop where
  src : l1.src = l.src
  src_len : l1.src_len = l.src_len
  result : l1.result = l.result
  has_peek : l1.has_peek = l.has_peek
  peek : l1.peek = l.peek
  cur_le : l.cur ≤ l1.cur
  bound : l.cur ≤ l.src_len → l1.cur ≤ l1.src_len

/-- The position after a byte at position `pos`. -/
def advance (pos : Nat × Nat) (c : Nat) : Nat × Nat :=
  if c = 10 then (pos.1 + 1, 1) else (pos.1, pos.2 + 1)

/-- The 1-based line and column of the byte at offset `off` of a source. -/
def position_of (src : List Nat) (off : Nat) : Nat × Nat :=
  (src.take off).foldl advance (1, 1)

/-- The byte at offset `off` lies inside a comment: a `#` at or before it
with no newline from there up to `off`. -/
def in_comment (src : List Nat) (off : Nat) : Prop :=
  ∃ h, h ≤ off ∧ src.getD h 0 = 35 ∧ ∀ j, h ≤ j → j < off → src.getD j 0 ≠ 10

/-- The lexer's `line` and `col` are the position of its cursor, and no `#`
read so far is on the line of the cursor. -/
structure Tracks (l : Lexer) : Prop where
  len : l.src_len = l.src.length
  cur_le : l.cur ≤ l.src_len
  pos : (l.line, l.col) = position_of l.src l.cur
  no_hash : ∀ h, h < l.cur → l.src.getD h 0 = 35 →
    ∃ j, h ≤ j ∧ j < l.cur ∧ l.src.getD j 0 = 10

/-- The lexer after reading `k` bytes of one line. -/
def Lexer.forward (l : Lexer) (k : Nat) : Lexer :=
  { l with col := l.col + k, cur := l.cur + k }

/-- The longest run of bytes satisfying `pred` that starts at offset `off`. -/
def run (pred : Nat → Bool) (src : List Nat) (off : Nat) : List Nat :=
  (src.drop off).takeWhile pred

/-- The bytes of a symbol: `[A-Za-z0-9_]`. -/
def is_sym_byte (c : Nat) : Bool := isalpha c || isdigit c || c == 95

/-- The kind of a symbol with the given lexeme: the keyword of that spelling,
else `TOKEN_SYM`. -/
def keyword_kind (lexeme : List Nat) : TokenType :=
  if lexeme = bytes "proc" then TOKEN_KW_PROC
  else if lexeme = bytes "record" then TOKEN_KW_RECORD
  else if lexeme = bytes "var" then TOKEN_KW_VAR
  else if lexeme = bytes "return" then TOKEN_KW_RETURN
  else if lexeme = bytes "end" then TOKEN_KW_END
  else TOKEN_SYM

/-- What the digit loop of `lex_num` would accumulate from `acc` over the
digit bytes `ds` in unbounded integers. -/
def digits_acc (acc : Int) (ds : List Nat) : Int :=
  ds.foldl (fun v c => v * 10 + (Int.ofNat c - 48)) acc

/-- The decimal value of a run of digit bytes. -/
def decimal_value (ds : List Nat) : Nat :=
  ds.foldl (fun v c => v * 10 + (c - 48)) 0

/-- The kind of a one-character token, as the `switch` of `next_token` gives it. -/
def punct_type (c : Nat) : Option TokenType :=
  if c = 58 then some TOKEN_COLON
  else if c = 46 then some TOKEN_PERIOD
  else if c = 44 then some TOKEN_COMMA
  else if c = 61 then some TOKEN_EQ
  else if c = 43 then some TOKEN_ADD
  else if c = 45 then some TOKEN_SUB
  else if c = 42 then some TOKEN_MUL
  else if c = 47 then some TOKEN_DIV
  else if c = 62 then some TOKEN_GT
  else if c = 60 then some TOKEN_LT
  else if c = 123 then some TOKEN_LCURLY
  else if c = 125 then some TOKEN_RCURLY
  else if c = 91 then some TOKEN_LBRACK
  else if c = 93 then some TOKEN_RBRACK
  else if c = 40 then some TOKEN_LPAREN
  else if c = 41 then some TOKEN_RPAREN
  else none

/-- The part of `next_token` after the skipping: the token that starts at the
cursor, whose byte is `c`. -/
def scan_token (c : Nat) (l : Lexer) : Token × Lexer :=
  if isalpha c || c == 95 then lex_sym l
  else if isdigit c then lex_num l
  else
    match punct_type c with
    | some t => punct l t
    | none =>
      (fill_token (lexer_error l ("unknown char '" ++ fmt_char (l.src.getD l.cur 0) ++ "'"))
         TOKEN_ERR,
       lexer_error l ("unknown char '" ++ fmt_char (l.src.getD l.cur 0) ++ "'"))

/-- The part of `next_token` before a token is scanned: whitespace and
comments are skipped. Gives the `EOF` token when the buffer ends there, and
the lexer reached. -/
def skip_phase (l : Lexer) : Option Token × Lexer :=
  if !(skip_whitespace l).1 then
    (some (fill_token (skip_whitespace l).2 TOKEN_EOF), (skip_whitespace l).2)
  else
    ((hash_loop ((skip_whitespace l).2.src_len - (skip_whitespace l).2.cur)
        (PEEK_C (skip_whitespace l).2) (skip_whitespace l).2).1,
     (hash_loop ((skip_whitespace l).2.src_len - (skip_whitespace l).2.cur)
        (PEEK_C (skip_whitespace l).2) (skip_whitespace l).2).2.2)

/-- A byte that starts no token: `next_token` answers it with `ERR`. -/
def unknown_char (c : Nat) : Prop :=
  (isalpha c || c == 95) = false ∧ isdigit c = false ∧ punct_type c = none

/-- The message `next_token` writes at the unknown byte under the cursor. -/
def unknown_msg (l : Lexer) : String :=
  "unknown char '" ++ fmt_char (l.src.getD l.cur 0) ++ "'"

/-- The lexer `l1` has the buffer and the peek slot of `l`. -/
structure Slot (l l1 : Lexer) : Prop where
  src : l1.src = l.src
  src_len : l1.src_len = l.src_len
  has_peek : l1.has_peek = l.has_peek
  peek : l1.peek = l.peek

/-- What a scanned token that is not `ERR` looks like: it is not `EOF`, it
took `k > 0` bytes of one line, and it carries the position behind them. -/
structure Scanned (l1 : Lexer) (r : Token × Lexer) (k : Nat) : Prop where
  not_eof : r.1.t ≠ TOKEN_EOF
  not_err : r.1.t ≠ TOKEN_ERR
  pos : 0 < k
  scans : Scans l1 r.2
  cur : r.2.cur = l1.cur + k
  line : r.2.line = l1.line
  col : r.2.col = l1.col + k
  tok_line : r.1.line = l1.line
  tok_col : r.1.col = l1.col + k
  bytes : ∀ j, j < k → l1.src.getD (l1.cur + j) 0 ≠ 10 ∧ l1.src.getD (l1.cur + j) 0 ≠ 35
  start : r.2.start = l1.start ∨ r.2.start = r.2.cur

/-- The lexer `l1` is reached from `l` by calls of `lexer_next`, `lexer_peek`
and `lexer_skip`, in any number and order. -/
inductive Steps : Lexer → Lexer → Prop where
  | refl (l : Lexer) : Steps l l
  | next {l l1 : Lexer} : Steps l l1 → Steps l (lexer_next l1).2
  | peek {l l1 : Lexer} : Steps l l1 → Steps l (lexer_peek l1).2
  | skip {l l1 : Lexer} : Steps l l1 → Steps l (lexer_skip l1)

/-- The token returned by call number `n + 1` of `lexer_next`, and the lexer
after it. -/
def nth_next : Nat → Lexer → Token × Lexer
  | 0, l => lexer_next l
  | n + 1, l => nth_next n (lexer_next l).2

/-- The cursor is at the end of the buffer, and so is a buffered token. -/
structure AtEOF (l : Lexer) : Prop where
  eof : IS_EOF l = true
  buffered : l.has_peek = true → l.peek.t = TOKEN_EOF

/-- The cursor is on an unknown byte: `tok` is the `ERR` token for it, `d`
the diagnostic for it, which is the newest write of the result record; a
buffered token is `tok`. -/
structure AtErr (l : Lexer) (tok : Token) (d : Diag) (cur : Nat) : Prop where
  cur_eq : l.cur = cur
  not_eof : IS_EOF l = false
  not_space : isspace (PEEK_C l) = false
  not_hash : PEEK_C l ≠ 35
  unknown : unknown_char (PEEK_C l)
  tok_eq : tok = fill_token l TOKEN_ERR
  d_eq : d = { line := l.line, col := l.col, msg := truncate_msg (unknown_msg l) }
  written : l.result.writes.head? = some d
  buffered : l.has_peek = true → l.peek = tok

/-- What holds of every lexer reached from `lexer_init`: `src_len` is the
length of the buffer, a buffered `EOF` was read at the end of the buffer and a
buffered `ERR` on an unknown byte. -/
structure Lexer.wf (l : Lexer) : Prop where
  len : l.src_len = l.src.length
  buffered_eof : l.has_peek = true → l.peek.t = TOKEN_EOF → IS_EOF l = true
  buffered_err : l.has_peek = true → l.peek.t = TOKEN_ERR →
    ∃ d, AtErr l l.peek d l.cur

/-- The `entry_point` bitmask of a procedure; 0 for a record. -/
def Toplevel.entry_point : Toplevel → Nat
  | .proc _ _ _ _ entry_point _ _ _ _ => entry_point
  | .record _ _ _ _ _ => 0

/-- The shape of an expression tree: its operators, member names and atoms,
without positions and annotations. -/
inductive Shape where
  | atom (name : List Nat)
  | num (num : Number)
  | bin (op : Nat) (lhs rhs : Shape)
  | member (lhs : Shape) (name : List Nat)
  | record (name : List Nat)
  | vec
  deriving DecidableEq

def Expr.shape : Expr → Shape
  | .var _ _ name _ _ => Shape.atom name
  | .num _ _ v _ => Shape.num v
  | .record _ _ name _ _ _ => Shape.record name
  | .binary _ _ lhs rhs op _ => Shape.bin op lhs.shape rhs.shape
  | .member _ _ lhs name _ _ => Shape.member lhs.shape name
  | .vec _ _ _ _ => Shape.vec

/-- `parse_expr` on the bytes of a string. -/
def parse_expr_source (source : String) : Outcome Parser Expr :=
  parse_expr (parse_fuel (bytes source).length)
    (parser_init (lexer_init (bytes source) (bytes source).length { writes := [] }))

/-- The binary node the parser builds over `lhs` for an operator and its
right operand; it takes the position of `lhs`. -/
def binary_node (lhs : Expr) (x : Nat × Expr) : Expr :=
  Expr.binary lhs.line lhs.col lhs x.2 x.1 none

/-- The member node the parser builds over `lhs` for a member name. -/
def member_node (lhs : Expr) (name : List Nat) : Expr :=
  Expr.member lhs.line lhs.col lhs name none none

/-- The rest of a chain at the additive level, as the specification reads it:
as long as the next token is `+` or `-`, the operator and the multiplicative
expression after it, in source order. -/
def add_operands : Nat → Parser → Outcome Parser (List (Nat × Expr))
  | 0, _ => .out_of_fuel
  | n + 1, p =>
    if (p_peek p).1.t = TOKEN_ADD ∨ (p_peek p).1.t = TOKEN_SUB then
      (parse_mul_expr n (p_skip (p_peek p).2)).bind fun rhs p1 =>
        (add_operands n p1).bind fun rest p2 =>
          .ok ((if (p_peek p).1.t = TOKEN_ADD then BINOP_ADD else TokenType.toNat TOKEN_SUB,
                rhs) :: rest) p2
    else .ok [] (p_peek p).2

/-- The rest of a chain at the multiplicative level: as long as the next
token is `*` or `/`, the operator and the member expression after it. -/
def mul_operands : Nat → Parser → Outcome Parser (List (Nat × Expr))
  | 0, _ => .out_of_fuel
  | n + 1, p =>
    if (p_peek p).1.t = TOKEN_MUL ∨ (p_peek p).1.t = TOKEN_DIV then
      (parse_member_expr n (p_skip (p_peek p).2)).bind fun rhs p1 =>
        (mul_operands n p1).bind fun rest p2 =>
          .ok ((if (p_peek p).1.t = TOKEN_MUL then BINOP_MUL else TokenType.toNat TOKEN_DIV,
                rhs) :: rest) p2
    else .ok [] (p_peek p).2

/-- The rest of a chain of member accesses: as long as the next token is
`.`, the member name after it. -/
def member_names : Nat → Parser → Outcome Parser (List (List Nat))
  | 0, _ => .out_of_fuel
  | n + 1, p =>
    if (p_peek p).1.t = TOKEN_PERIOD then
      if !(expect_with (p_next (p_peek p).2).2 TOKEN_SYM "member name").1 then
        .fail (expect_with (p_next (p_peek p).2).2 TOKEN_SYM "member name").2.2
      else
        (member_names n (expect_with (p_next (p_peek p).2).2 TOKEN_SYM "member name").2.2).bind
          fun rest p1 =>
            .ok (tok_name (expect_with (p_next (p_peek p).2).2 TOKEN_SYM "member name").2.2
                  (expect_with (p_next (p_peek p).2).2 TOKEN_SYM "member name").2.1 :: rest) p1
    else .ok [] (p_peek p).2

/-- The shape of the expression `parse_expr` returns on a source, with the
type of the token that follows the expression. -/
def parsed_shape (source : String) : Option (Shape × TokenType) :=
  match parse_expr_source source with
  | .ok expr p => some (expr.shape, (p_peek p).1.t)
  | _ => none

/-- The declarations of a source in source order, as the specification reads
them: from the parser `p`, as long as the next token is neither `EOF` nor
`ERR`, `parse_toplevel` reads one declaration and the rest are read from the
parser it leaves; the list ends where the next token is `EOF`, and `p1` is
the parser left there. -/
inductive Declarations (fuel : Nat) : Parser → List Toplevel → Parser → Prop where
  | done (p : Parser) : (p_peek p).1.t = TOKEN_EOF → Declarations fuel p [] (p_peek p).2
  | decl (p p1 p2 : Parser) (t : Toplevel) (ts : List Toplevel) :
      (p_peek p).1.t ≠ TOKEN_EOF → (p_peek p).1.t ≠ TOKEN_ERR →
      parse_toplevel fuel (p_peek p).2 = .ok t p1 → Declarations fuel p1 ts p2 →
      Declarations fuel p (t :: ts) p2

/-- The parser after `k` tokens have been read from it. -/
def after_tokens : Nat → Parser → Parser
  | 0, p => p
  | k + 1, p => (p_next (after_tokens k p)).2

/-- The token read from the parser after `k` others: token 0 is the next
one. -/
def token_at (k : Nat) (p : Parser) : Token := (p_next (after_tokens k p)).1

def Toplevel.entries : Toplevel → List RecordEntry
  | .record _ _ _ entries _ => entries
  | .proc _ _ _ _ _ _ _ _ _ => []

/-- The members of the first declaration of a program as the parser stores
them (last member first): name, kind and `pos`. -/
def parsed_members (source : String) : Option (List (List Nat × RecordEntryType × Int)) :=
  match parse_source source with
  | .ok (top :: _) _ => some (top.entries.map fun e => (e.name, e.t, e.pos))
  | _ => none

/-- The parser on the bytes of a string, behind its first token. -/
def behind_first_token (source : String) : Parser :=
  (p_next (parser_init (lexer_init (bytes source) (bytes source).length { writes := [] }))).2

instance in_comment_decidable (src : List Nat) (off : Nat) : Decidable (in_comment src off) := by
  unfold in_comment
  infer_instance

/-- The source holds whitespace and `#` comments only: every byte of it is
whitespace or lies inside a comment (the `#` and the newline that ends the
comment count as inside). -/
def blank (src : List Nat) : Prop :=
  ∀ i, i < src.length → isspace (src.getD i 0) = true ∨ in_comment src i

instance blank_decidable (src : List Nat) : Decidable (blank src) := by
  unfold blank
  infer_instance

/-- The position the specification gives the lexer after the bytes
`consumed`: the line is 1 plus the number of newlines among them, the column
is 1 plus the number of bytes behind the last newline (all of them when
there is none). -/
def tracked_position (consumed : List Nat) : Nat × Nat :=
  (1 + consumed.count 10, 1 + (consumed.reverse.takeWhile (fun c => c != 10)).length)

mutual
/-- The operators of the binary nodes of an expression, those inside member
operands, record members and vector elements included. -/
def Expr.ops : Expr → List Nat
  | .var _ _ _ _ _ => []
  | .num _ _ _ _ => []
  | .record _ _ _ members _ _ => members_ops members
  | .binary _ _ lhs rhs op _ => op :: (lhs.ops ++ rhs.ops)
  | .member _ _ lhs _ _ _ => lhs.ops
  | .vec _ _ exprs _ => exprs_ops exprs
def exprs_ops : List Expr → List Nat
  | [] => []
  | e :: rest => e.ops ++ exprs_ops rest
def members_ops : List RecordExprMember → List Nat
  | [] => []
  | .mk _ _ _ expr _ :: rest => expr.ops ++ members_ops rest
end

/-- The operators of the binary nodes of a statement. -/
def Statement.ops : Statement → List Nat
  | .var _ _ _ _ (some e) _ => e.ops
  | .var _ _ _ _ none _ => []
  | .ret _ _ (some e) => e.ops
  | .ret _ _ none => []

/-- The operators of the binary nodes of a declaration. -/
def Toplevel.ops (t : Toplevel) : List Nat := t.stmts.flatMap Statement.ops

/-- The values the parser stores as operator: `BINOP_ADD`, `BINOP_MUL`, and
the token numbers of `-` and `/`. -/
def parsed_op (op : Nat) : Prop :=
  op = BINOP_ADD ∨ op = BINOP_MUL ∨ op = TokenType.toNat TOKEN_SUB ∨
    op = TokenType.toNat TOKEN_DIV

def Toplevel.params : Toplevel → List Parameter
  | .proc _ _ _ _ _ _ _ params _ => params
  | .record _ _ _ _ _ => []

/-- The members of a record-construction expression. -/
def Expr.members : Expr → List RecordExprMember
  | .record _ _ _ members _ _ => members
  | _ => []

/-- The elements of a vector literal behind the first, in source order, as
the specification reads them: as long as the token read is `,`, one
expression; the token that ends them is `}`. -/
def vector_rest : Nat → Parser → Outcome Parser (List Expr)
  | 0, _ => .out_of_fuel
  | n + 1, p =>
    if (p_next p).1.t = TOKEN_COMMA then
      (parse_expr n (p_next p).2).bind fun e p1 =>
        (vector_rest n p1).bind fun rest p2 => .ok (e :: rest) p2
    else if (p_next p).1.t ≠ TOKEN_RCURLY then
      .fail (handle_erratic_tok (p_next p).2 (p_next p).1 "comma")
    else .ok [] (p_next p).2

/-- The elements of a vector literal in source order, read behind the `{`. -/
def vector_elements (n : Nat) (p : Parser) : Outcome Parser (List Expr) :=
  (parse_expr n p).bind fun first p1 =>
    (vector_rest n p1).bind fun rest p2 => .ok (first :: rest) p2

/-- The members of a record-construction expression in source order, read
behind the record name: as long as the token read is `.`, one member
`name = expr ,`; the token that ends them is `end`. -/
def record_members : Nat → Parser → Outcome Parser (List RecordExprMember)
  | 0, _ => .out_of_fuel
  | n + 1, p =>
    if (p_next p).1.t = TOKEN_PERIOD then
      if !(expect_with (p_next p).2 TOKEN_SYM "member name").1 then
        .fail (expect_with (p_next p).2 TOKEN_SYM "member name").2.2
      else if !(expect (expect_with (p_next p).2 TOKEN_SYM "member name").2.2
          TOKEN_EQ "'='").1 then
        .fail (expect (expect_with (p_next p).2 TOKEN_SYM "member name").2.2 TOKEN_EQ "'='").2
      else
        (parse_expr n
            (expect (expect_with (p_next p).2 TOKEN_SYM "member name").2.2
              TOKEN_EQ "'='").2).bind fun expr p2 =>
          if !(expect p2 TOKEN_COMMA "','").1 then .fail (expect p2 TOKEN_COMMA "','").2
          else
            (record_members n (expect p2 TOKEN_COMMA "','").2).bind fun rest p3 =>
              .ok (RecordExprMember.mk
                    (expect_with (p_next p).2 TOKEN_SYM "member name").2.1.line
                    (expect_with (p_next p).2 TOKEN_SYM "member name").2.1.col
                    (tok_name (expect p2 TOKEN_COMMA "','").2
                      (expect_with (p_next p).2 TOKEN_SYM "member name").2.1)
                    expr none :: rest) p3
    else if (p_next p).1.t ≠ TOKEN_KW_END then
      .fail (handle_erratic_tok (p_next p).2 (p_next p).1 "record member")
    else .ok [] (p_next p).2

/-- The statements of a procedure body in source order: as long as the next
token is none of `end`, `EOF` and `ERR`, one statement; with the token that
ends them. -/
def statements (fuel : Nat) : Nat → Parser → Outcome Parser (List Statement × Token)
  | 0, _ => .out_of_fuel
  | n + 1, p =>
    if (p_peek p).1.t ≠ TOKEN_KW_END ∧ (p_peek p).1.t ≠ TOKEN_EOF ∧
        (p_peek p).1.t ≠ TOKEN_ERR then
      (parse_statement fuel (p_peek p).2).bind fun stmt p1 =>
        (statements fuel n p1).bind fun r p2 => .ok (stmt :: r.1, r.2) p2
    else .ok ([], (p_peek p).1) (p_peek p).2

/-- The parameters of a procedure behind the first, in source order: as long
as the token read is `,`, one parameter; the token that ends them is `)`. -/
def parameters_rest (fuel : Nat) : Nat → Parser → Outcome Parser (List Parameter)
  | 0, _ => .out_of_fuel
  | n + 1, p =>
    if (p_next p).1.t = TOKEN_COMMA then
      (parse_parameter fuel (p_next p).2).bind fun param p1 =>
        (parameters_rest fuel n p1).bind fun rest p2 => .ok (param :: rest) p2
    else if (p_next p).1.t ≠ TOKEN_RPAREN then
      .fail (handle_erratic_tok (p_next p).2 (p_next p).1 "funtion parameter")
    else .ok [] (p_next p).2

/-- The parameters of a procedure in source order, read behind the `(`. -/
def parameters (fuel : Nat) (p : Parser) : Outcome Parser (List Parameter) :=
  if (p_peek p).1.t = TOKEN_RPAREN then .ok [] (p_skip (p_peek p).2)
  else
    (parse_parameter fuel (p_peek p).2).bind fun first p1 =>
      (parameters_rest fuel fuel p1).bind fun rest p2 => .ok (first :: rest) p2

/-- The members of a record declaration in source order, read behind the
record name: as long as the token read is a name or `[`, one member; the
token that ends them is `end`. -/
def record_entries (fuel : Nat) : Nat → Parser → Outcome Parser (List RecordEntry)
  | 0, _ => .out_of_fuel
  | n + 1, p =>
    if (p_next p).1.t = TOKEN_SYM ∨ (p_next p).1.t = TOKEN_LBRACK then
      (if (p_next p).1.t = TOKEN_LBRACK then parse_record_attr (p_next p).2
        else .ok (RECORD_ENTRY_NORMAL, 0, (p_next p).1) (p_next p).2).bind fun h p1 =>
        if !(expect p1 TOKEN_COLON "':'").1 then .fail (expect p1 TOKEN_COLON "':'").2
        else
          (parse_type fuel (expect p1 TOKEN_COLON "':'").2).bind fun type p2 =>
            (record_entries fuel n p2).bind fun rest p3 =>
              .ok (RecordEntry.mk h.1 h.2.1 (tok_name p2 h.2.2) type :: rest) p3
    else if (p_next p).1.t ≠ TOKEN_KW_END then
      .fail (handle_erratic_tok (p_next p).2 (p_next p).1 "record member")
    else .ok [] (p_next p).2

/-- No two entries of a scope chain have names that the resolver's name test
identifies; the entries are taken in the order a lookup visits them. -/
def ChainDistinct (scope : Chain) : Prop := NamesDistinct (search_order scope)

/-- A read of `src[cur]` that checks the index: `none` when the index is not
below `src_len`. -/
def read_c (l : Lexer) : Option Nat :=
  if l.cur < l.src_len then some (l.src.getD l.cur 0) else none

/-- `NEXT_C` with the read checked. -/
def NEXT_C_checked (l : Lexer) : Option (Nat × Lexer) :=
  (read_c l).bind fun c => some (c, SKIP_C l)

/-- The loop of `skip_whitespace` with every read of `src` checked: `none`
when a read is out of bounds. -/
def skip_whitespace_loop_checked : Nat → Lexer → Option Lexer
  | 0, l => some l
  | n + 1, l =>
    if IS_EOF l then some l
    else
      (read_c l).bind fun c =>
        if isspace c then
          let l1 := SKIP_C l
          let l2 := if c = 10 then { l1 with col := 1, line := l1.line + 1 } else l1
          skip_whitespace_loop_checked n l2
        else some l

def skip_whitespace_checked (l : Lexer) : Option (Bool × Lexer) :=
  (skip_whitespace_loop_checked (l.src_len - l.cur) l).bind fun l0 =>
    some (!IS_EOF (RESET l0), RESET l0)

/-- The keyword loop of `lex_sym` with the reads of `strncmp` checked: for a
table entry of the lexeme's length the bytes `src[data .. data+size)` are
read. -/
def classify_keyword_checked (l : Lexer) (tok : Token) : Option Token :=
  keyword_to_token_type.foldl
    (fun acc kw => acc.bind fun tk =>
      if kw.2.length = tk.size then
        if tk.data + tk.size ≤ l.src_len then
          some (if slice l.src tk.data tk.size = kw.2 then { tk with t := kw.1 } else tk)
        else none
      else some tk) (some tok)

def lex_sym_loop_checked : Nat → Lexer → Option Lexer
  | 0, l => some l
  | n + 1, l =>
    if IS_EOF l then some l
    else
      (read_c l).bind fun c =>
        if isalpha c || isdigit c || c == 95 then
          (NEXT_C_checked l).bind fun r => lex_sym_loop_checked n r.2
        else some l

def lex_sym_checked (l : Lexer) : Option (Token × Lexer) :=
  (lex_sym_loop_checked (l.src_len - l.cur) l).bind fun l1 =>
    (classify_keyword_checked l1
        { fill_token l1 TOKEN_SYM with data := l1.start, size := l1.cur - l1.start }).bind
      fun tok => some (tok, RESET l1)

def lex_num_int_loop_checked : Nat → Lexer → Int → Nat → Option (Lexer × Int × Nat)
  | 0, l, i, c => some (l, i, c)
  | n + 1, l, i, c =>
    if IS_EOF l then some (l, i, c)
    else
      (read_c l).bind fun c1 =>
        if isdigit c1 then
          (NEXT_C_checked l).bind fun r =>
            lex_num_int_loop_checked n r.2 (wrap64 (wrap64 (i * 10) + (Int.ofNat c1 - 48))) c1
        else some (l, i, c1)

def lex_num_frac_loop_checked : Nat → Lexer → List Nat → Option (Lexer × List Nat)
  | 0, l, ds => some (l, ds)
  | n + 1, l, ds =>
    if IS_EOF l then some (l, ds)
    else
      (read_c l).bind fun c =>
        if isdigit c then
          (NEXT_C_checked l).bind fun r => lex_num_frac_loop_checked n r.2 (ds ++ [c - 48])
        else some (l, ds)

def lex_num_checked (l : Lexer) : Option (Token × Lexer) :=
  (lex_num_int_loop_checked (l.src_len - l.cur) l 0 0).bind fun r =>
    if !IS_EOF r.1 && r.2.2 == 46 then
      (NEXT_C_checked r.1).bind fun x =>
        (lex_num_frac_loop_checked (x.2.src_len - x.2.cur) x.2 []).bind fun f =>
          some ({ fill_token f.1 TOKEN_NUM with num := Number.real r.2.1 f.2 }, RESET f.1)
    else some ({ fill_token r.1 TOKEN_NUM with num := Number.int r.2.1 }, RESET r.1)

def comment_loop_checked : Nat → Lexer → Option Lexer
  | 0, l => some l
  | n + 1, l =>
    if IS_EOF l then some l
    else
      (NEXT_C_checked l).bind fun r =>
        if r.1 != 10 then comment_loop_checked n r.2 else some r.2

def hash_loop_checked : Nat → Nat → Lexer → Option (Option Token × Nat × Lexer)
  | 0, c, l => some (none, c, l)
  | n + 1, c, l =>
    if c = 35 then
      (comment_loop_checked (l.src_len - l.cur) l).bind fun l1 =>
        if IS_EOF l1 then some (some (fill_token l1 TOKEN_EOF), c, l1)
        else
          (skip_whitespace_checked { l1 with col := 1, line := l1.line + 1 }).bind fun r =>
            if !r.1 then some (some (fill_token r.2 TOKEN_EOF), c, r.2)
            else (read_c r.2).bind fun c1 => hash_loop_checked n c1 r.2
    else some (none, c, l)

def punct_checked (l : Lexer) (t : TokenType) : Option (Token × Lexer) :=
  (NEXT_C_checked l).bind fun r => some (fill_token r.2 t, r.2)

/-- `next_token` with every read of `src` checked: `none` when a read is at
an index that is not below `src_len`. -/
def next_token_checked (l : Lexer) : Option (Token × Lexer) :=
  (skip_whitespace_checked l).bind fun r =>
    if !r.1 then some (fill_token r.2 TOKEN_EOF, r.2)
    else
      (read_c r.2).bind fun c0 =>
        (hash_loop_checked (r.2.src_len - r.2.cur) c0 r.2).bind fun h =>
          match h.1 with
          | some tok => some (tok, h.2.2)
          | none =>
            let c := h.2.1
            let l1 := h.2.2
            if isalpha c || c == 95 then lex_sym_checked l1
            else if isdigit c then lex_num_checked l1
            else if c = 58 then punct_checked l1 TOKEN_COLON
            else if c = 46 then punct_checked l1 TOKEN_PERIOD
            else if c = 44 then punct_checked l1 TOKEN_COMMA
            else if c = 61 then punct_checked l1 TOKEN_EQ
            else if c = 43 then punct_checked l1 TOKEN_ADD
            else if c = 45 then punct_checked l1 TOKEN_SUB
            else if c = 42 then punct_checked l1 TOKEN_MUL
            else if c = 47 then punct_checked l1 TOKEN_DIV
            else if c = 62 then punct_checked l1 TOKEN_GT
            else if c = 60 then punct_checked l1 TOKEN_LT
            else if c = 123 then punct_checked l1 TOKEN_LCURLY
            else if c = 125 then punct_checked l1 TOKEN_RCURLY
            else if c = 91 then punct_checked l1 TOKEN_LBRACK
            else if c = 93 then punct_checked l1 TOKEN_RBRACK
            else if c = 40 then punct_checked l1 TOKEN_LPAREN
            else if c = 41 then punct_checked l1 TOKEN_RPAREN
            else
              (read_c l1).bind fun c2 =>
                some (fill_token (lexer_error l1 ("unknown char '" ++ fmt_char c2 ++ "'"))
                    TOKEN_ERR,
                  lexer_error l1 ("unknown char '" ++ fmt_char c2 ++ "'"))

def lexer_next_checked (l : Lexer) : Option (Token × Lexer) :=
  if l.has_peek then some (l.peek, { l with has_peek := false })
  else next_token_checked l

def lexer_peek_checked (l : Lexer) : Option (Token × Lexer) :=
  if l.has_peek then some (l.peek, l)
  else
    (next_token_checked { l with has_peek := true }).bind fun r =>
      some (r.1, { r.2 with peek := r.1 })

def lexer_skip_checked (l : Lexer) : Option Lexer :=
  if l.has_peek then some { l with has_peek := false }
  else (next_token_checked l).bind fun r => some r.2

/-- What the lexer keeps from `l` to `l1`: the buffer length; the cursor does
not move back and stays inside the buffer if it was; `start` stays at or
before the cursor if it was. -/
structure Within (l l1 : Lexer) : Prop where
  src_len : l1.src_len = l.src_len
  cur_le : l.cur ≤ l1.cur
  bound : l.cur ≤ l.src_len → l1.cur ≤ l1.src_len
  start : l.start ≤ l.cur → l1.start ≤ l1.cur

/-! ## Lemmas -/

theorem WroteAt.of_result_error (r : BSLCompileResult) (line col : Nat) (msg : String) :
    WroteAt line col r (result_error r line col msg) :=
  Or.inr ⟨truncate_msg msg, rfl⟩

theorem Failed.of_result_error_once (r : BSLCompileResult) (line col : Nat) (msg : String) :
    Failed r (result_error r line col msg) :=
  Or.inr (Or.inl ⟨_, rfl⟩)

theorem Failed.of_wroteAt {line col : Nat} {r r1 : BSLCompileResult}
    (h : WroteAt line col r r1) : Failed r r1 := by
  rcases h with h | ⟨msg, h⟩
  · exact Or.inl h
  · exact Or.inr (Or.inl ⟨_, h⟩)

theorem Failed.after_compare {line col : Nat} {r r1 : BSLCompileResult}
    (h : WroteAt line col r r1) (msg : String) (hmsg : truncate_msg msg ∈ caller_messages) :
    Failed r (result_error r1 line col msg) := by
  rcases h with h | ⟨msg1, h⟩
  · refine Or.inr (Or.inl ⟨{ line := line, col := col, msg := truncate_msg msg }, ?_⟩)
    simp [result_error, vresult_error, h]
  · refine Or.inr (Or.inr ⟨line, col, msg1, truncate_msg msg, hmsg, ?_⟩)
    simp [result_error, vresult_error, h]

theorem compare_types_refl (r : BSLCompileResult) (line col : Nat) :
    ∀ t : Ty, t.comparable = true → compare_types r line col t t = (true, r)
  | .f32, _ => by simp [compare_types, Ty.t]
  | .f64, _ => by simp [compare_types, Ty.t]
  | .record _ _ _, _ => by simp [compare_types, Ty.t]
  | .vector size elem, h => by
    have ih := compare_types_refl r line col elem (by simpa [Ty.comparable] using h)
    simp [compare_types, ih]
  | .void, h => by simp [Ty.comparable] at h
  | .var _, h => by simp [Ty.comparable] at h
  | .proc _ _, h => by simp [Ty.comparable] at h

/-- `compare_types` leaves the record alone when it answers `true` and
writes at most once, at the position given, when it answers `false`. -/
theorem compare_types_cases (r : BSLCompileResult) (line col : Nat) :
    ∀ t1 t2 : Ty,
      compare_types r line col t1 t2 = (true, r) ∨
      ((compare_types r line col t1 t2).1 = false ∧
        WroteAt line col r (compare_types r line col t1 t2).2)
  | .vector size1 elem1, t2 => by
    have w1 := WroteAt.of_result_error r line col
    cases t2 with
    | vector size2 elem2 =>
      rcases compare_types_cases r line col elem1 elem2 with h | ⟨h, hw⟩
      · by_cases hs : size1 = size2
        · left; simp [compare_types, h, hs]
        · right; simp [compare_types, h, hs, w1]
      · right
        simp [compare_types, h, hw]
    | _ => right; simp [compare_types, w1]
  | .f32, t2 => by
    have w1 := WroteAt.of_result_error r line col
    cases t2 <;> simp [compare_types, Ty.t, w1]
  | .f64, t2 => by
    have w1 := WroteAt.of_result_error r line col
    cases t2 <;> simp [compare_types, Ty.t, w1]
  | .void, t2 => by
    have w1 := WroteAt.of_result_error r line col
    have w0 : WroteAt line col r r := Or.inl rfl
    cases t2 <;> simp [compare_types, Ty.t, w1, w0]
  | .var _, t2 => by
    have w1 := WroteAt.of_result_error r line col
    have w0 : WroteAt line col r r := Or.inl rfl
    cases t2 <;> simp [compare_types, Ty.t, w1, w0]
  | .proc _ _, t2 => by
    have w1 := WroteAt.of_result_error r line col
    have w0 : WroteAt line col r r := Or.inl rfl
    cases t2 <;> simp [compare_types, Ty.t, w1, w0]
  | .record id1 _ _, t2 => by
    have w1 := WroteAt.of_result_error r line col
    cases t2 with
    | record id2 _ _ =>
      by_cases hid : id1 = id2
      · left; simp [compare_types, Ty.t, hid]
      · right; simp [compare_types, Ty.t, hid, w1]
    | _ => right; simp [compare_types, Ty.t, w1]

theorem Quiet.bind {α β : Type} {r : BSLCompileResult} {x : Outcome AST α}
    {f : α → AST → Outcome AST β} (hx : Quiet r x)
    (hf : ∀ a s, s.result = r → Quiet r (f a s)) : Quiet r (x.bind f) := by
  cases x with
  | ok a s => exact hf a s hx
  | fail s => exact hx
  | undefined => trivial
  | out_of_fuel => exact hx

theorem Quiet.ok {α : Type} {r : BSLCompileResult} (x : α) {a : AST} (h : a.result = r) :
    Quiet r (Outcome.ok x a) := h

theorem Quiet.fail_error {α : Type} {r : BSLCompileResult} {a : AST} (h : a.result = r)
    (line col : Nat) (msg : String) :
    Quiet r (Outcome.fail (a.error line col msg) : Outcome AST α) := by
  subst h
  exact Failed.of_result_error_once a.result line col msg

/-- The pattern of the callers of `compare_types` that add their own
message when it fails. -/
theorem Quiet.compare {α : Type} {r : BSLCompileResult} {a : AST} (h : a.result = r)
    (line col : Nat) (t1 t2 : Ty) (msg : String) (x : α) (extra : Prop) [Decidable extra]
    (hmsg : truncate_msg msg ∈ caller_messages) :
    Quiet r
      (if !(compare_types a.result line col t1 t2).1 ∨ extra then
        Outcome.fail (AST.error { a with result := (compare_types a.result line col t1 t2).2 }
          line col msg)
       else Outcome.ok x { a with result := (compare_types a.result line col t1 t2).2 }) := by
  subst h
  rcases compare_types_cases a.result line col t1 t2 with hc | ⟨hc, hw⟩
  · by_cases he : extra
    · simp only [hc, he, or_true, if_true]
      exact Failed.of_result_error_once a.result line col msg
    · simp [hc, he, Quiet]
  · simp only [hc, Bool.not_false, true_or, if_true]
    exact Failed.after_compare hw msg hmsg

theorem compare_types_ptr_quiet (a : AST) (line col : Nat) (t1 t2 : Option Ty) :
    Quiet a.result (compare_types_ptr a line col t1 t2) := by
  cases t1 with
  | none => simp [compare_types_ptr, Quiet]
  | some t1 =>
    cases t2 with
    | none => simp [compare_types_ptr, Quiet]
    | some t2 =>
      rcases compare_types_cases a.result line col t1 t2 with hc | ⟨hc, hw⟩
      · simp [compare_types_ptr, hc, Quiet]
      · simp only [compare_types_ptr, hc, Quiet]
        exact Failed.of_wroteAt hw

theorem Quiet.compare1 {α : Type} {r : BSLCompileResult} {a : AST} (h : a.result = r)
    (line col : Nat) (t1 t2 : Ty) (msg : String) (x : α)
    (hmsg : truncate_msg msg ∈ caller_messages) :
    Quiet r
      (if !(compare_types a.result line col t1 t2).1 then
        Outcome.fail (AST.error { a with result := (compare_types a.result line col t1 t2).2 }
          line col msg)
       else Outcome.ok x { a with result := (compare_types a.result line col t1 t2).2 }) := by
  have := Quiet.compare h line col t1 t2 msg x False hmsg
  simpa using this

mutual
theorem resolve_expr_quiet : ∀ (e : Expr) (ast : AST) (scope : Chain),
    Quiet ast.result (resolve_expr ast scope e)
  | .binary line col lhs rhs op _, ast, scope => by
    rw [resolve_expr]
    refine Quiet.bind (resolve_expr_quiet lhs ast scope) fun lhs1 ast1 h1 => ?_
    refine Quiet.bind (h1 ▸ resolve_expr_quiet rhs ast1 scope) fun rhs1 ast2 h2 => ?_
    cases lhs1.type with
    | none => trivial
    | some lt =>
      cases rhs1.type with
      | none => trivial
      | some rt =>
        cases lt <;> cases rt <;>
          first
          | exact Quiet.ok _ h2
          | exact Quiet.fail_error h2 _ _ _
          | exact Quiet.compare h2 _ _ _ _ _ _ _ (by decide)
          | (dsimp only []
             split
             · exact Quiet.fail_error h2 _ _ _
             · exact Quiet.compare1 h2 _ _ _ _ _ _ (by decide))
  | .member line col lhs name entry _, ast, scope => by
    rw [resolve_expr]
    refine Quiet.bind (resolve_expr_quiet lhs ast scope) fun lhs1 ast1 h1 => ?_
    cases lhs1.type with
    | none => trivial
    | some lt =>
      cases lt <;> try exact Quiet.fail_error h1 _ _ _
      dsimp only []
      split
      · exact Quiet.fail_error h1 _ _ _
      · exact Quiet.ok _ h1
  | .num line col num _, ast, scope => by
    rw [resolve_expr]; exact Quiet.ok _ rfl
  | .var line col name _ _, ast, scope => by
    rw [resolve_expr]
    split
    · exact Quiet.fail_error rfl _ _ _
    · exact Quiet.ok _ rfl
  | .vec line col exprs _, ast, scope => by
    cases exprs with
    | nil => rw [resolve_expr]; trivial
    | cons iter rest =>
      rw [resolve_expr]
      refine Quiet.bind (resolve_expr_quiet iter ast scope) fun iter1 ast1 h1 => ?_
      cases iter1.type with
      | none => trivial
      | some t =>
        dsimp only []
        refine Quiet.bind (h1 ▸ resolve_vec_rest_quiet rest ast1 scope line col _ _)
          fun r ast2 h2 => ?_
        split
        · exact Quiet.fail_error h2 _ _ _
        · exact Quiet.ok _ h2
  | .record line col name members _ _, ast, scope => by
    rw [resolve_expr]
    split
    · exact Quiet.fail_error rfl _ _ _
    · refine Quiet.bind (resolve_record_members_quiet members ast scope _ _)
        fun ms ast1 h1 => ?_
      exact Quiet.ok _ h1
theorem resolve_vec_rest_quiet : ∀ (es : List Expr) (ast : AST) (scope : Chain)
    (line col : Nat) (first_type : Ty) (size : Nat),
    Quiet ast.result (resolve_vec_rest ast scope line col first_type size es)
  | [], ast, scope, line, col, first_type, size => by
    rw [resolve_vec_rest]; exact Quiet.ok _ rfl
  | iter :: rest, ast, scope, line, col, first_type, size => by
    rw [resolve_vec_rest]
    refine Quiet.bind (resolve_expr_quiet iter ast scope) fun iter1 ast1 h1 => ?_
    cases iter1.type with
    | none => trivial
    | some t =>
      dsimp only []
      refine Quiet.bind (h1 ▸ compare_types_ptr_quiet ast1 line col _ _) fun _ ast2 h2 => ?_
      refine Quiet.bind (h2 ▸ resolve_vec_rest_quiet rest ast2 scope line col _ _)
        fun r ast3 h3 => ?_
      exact Quiet.ok _ h3
theorem resolve_record_members_quiet : ∀ (ms : List RecordExprMember) (ast : AST)
    (scope : Chain) (rec_name : List Nat) (entry : VarEntry),
    Quiet ast.result (resolve_record_members ast scope rec_name entry ms)
  | [], ast, scope, rec_name, entry => by
    rw [resolve_record_members]; exact Quiet.ok _ rfl
  | .mk line col name expr mentry :: rest, ast, scope, rec_name, entry => by
    rw [resolve_record_members]
    cases entry.record with
    | none => trivial
    | some decl =>
      dsimp only []
      split
      · exact Quiet.fail_error rfl _ _ _
      · refine Quiet.bind (resolve_expr_quiet expr ast scope) fun expr1 ast1 h1 => ?_
        cases find_record_entry name decl.entries with
        | none => trivial
        | some e2 =>
          dsimp only []
          refine Quiet.bind (h1 ▸ compare_types_ptr_quiet ast1 line col _ _)
            fun _ ast2 h2 => ?_
          refine Quiet.bind (h2 ▸ resolve_record_members_quiet rest ast2 scope _ _)
            fun r ast3 h3 => ?_
          exact Quiet.ok _ h3
end

theorem resolve_type_quiet (ast : AST) (line col : Nat) (type : Ty) :
    Quiet ast.result (resolve_type ast line col type) := by
  cases type <;> try exact Quiet.ok _ rfl
  rw [resolve_type]
  split
  · exact Quiet.fail_error rfl _ _ _
  · split
    · exact Quiet.ok _ rfl
    · trivial

theorem resolve_statement_quiet (ast : AST) (entries : List VarEntry) (up : Chain) :
    ∀ stmt : Statement, Quiet ast.result (resolve_statement ast entries up stmt)
  | .var line col _ name expr type => by
    rw [resolve_statement]
    split
    · exact Quiet.fail_error rfl _ _ _
    · dsimp only []
      refine Quiet.bind ?_ fun expr1 ast1 h1 => ?_
      · cases expr with
        | none => exact Quiet.ok _ rfl
        | some e =>
          exact Quiet.bind (resolve_expr_quiet e ast _) fun e1 a1 h => Quiet.ok _ h
      · refine Quiet.bind ?_ fun type1 ast2 h2 => ?_
        · cases type with
          | none => exact Quiet.ok _ h1
          | some t =>
            exact Quiet.bind (h1 ▸ resolve_type_quiet ast1 line col t)
              fun t1 a2 h => Quiet.ok _ h
        · refine Quiet.bind ?_ fun type2 ast3 h3 => Quiet.ok _ h3
          cases type1 with
          | none =>
            cases expr1 with
            | none => trivial
            | some e => exact Quiet.ok _ h2
          | some t =>
            cases expr1 with
            | none => exact Quiet.ok _ h2
            | some e =>
              exact Quiet.bind (h2 ▸ compare_types_ptr_quiet ast2 e.line e.col _ _)
                fun _ a3 h => Quiet.ok _ h
  | .ret line col expr => by
    cases expr with
    | none => rw [resolve_statement]; exact Quiet.ok _ rfl
    | some e =>
      rw [resolve_statement]
      exact Quiet.bind (resolve_expr_quiet e ast _) fun e1 a1 h => Quiet.ok _ h

theorem resolve_params_quiet (up : Chain) :
    ∀ (params : List Parameter) (ast : AST) (entries : List VarEntry),
      Quiet ast.result (resolve_params ast up entries params)
  | [], ast, entries => by
    rw [resolve_params]; exact Quiet.ok _ rfl
  | .mk line col name type :: rest, ast, entries => by
    rw [resolve_params]
    split
    · exact Quiet.fail_error rfl _ _ _
    · have ht := resolve_type_quiet ast line col type
      split
      · rename_i type1 ast1 heq
        rw [heq] at ht
        exact Quiet.bind (ht ▸ resolve_params_quiet up rest ast1 _)
          fun r a2 h => Quiet.ok _ h
      · rename_i ast1 heq
        rw [heq] at ht
        exact ht
      · trivial
      · rename_i heq
        rw [heq] at ht
        exact ht

theorem resolve_stmts_quiet (up : Chain) (return_type : Ty) :
    ∀ (stmts : List Statement) (ast : AST) (entries : List VarEntry) (did_return : Bool),
      Quiet ast.result (resolve_stmts ast up return_type entries did_return stmts)
  | [], ast, entries, did_return => by
    rw [resolve_stmts]; exact Quiet.ok _ rfl
  | iter :: rest, ast, entries, did_return => by
    rw [resolve_stmts]
    have hs := resolve_statement_quiet ast entries up iter
    split
    · rename_i r ast1 heq
      rw [heq] at hs
      have hc : Quiet ast.result
          (match r.2.2 with
            | some ret =>
              if !(compare_types ast1.result iter.line iter.col ret return_type).1 then
                Outcome.fail (AST.error
                  { ast1 with result :=
                      (compare_types ast1.result iter.line iter.col ret return_type).2 }
                  iter.line iter.col "incompatible return type")
              else Outcome.ok true
                { ast1 with result :=
                    (compare_types ast1.result iter.line iter.col ret return_type).2 }
            | none => Outcome.ok did_return ast1) := by
        cases r.2.2 with
        | none => exact Quiet.ok _ hs
        | some ret => exact Quiet.compare1 hs _ _ _ _ _ _ (by decide)
      dsimp only []
      split
      · rename_i d ast2 heq2
        rw [heq2] at hc
        exact Quiet.bind (hc ▸ resolve_stmts_quiet up return_type rest ast2 _ _)
          fun q a3 h => Quiet.ok _ h
      · rename_i ast2 heq2
        rw [heq2] at hc
        exact hc
      · trivial
      · rename_i heq2
        rw [heq2] at hc
        exact hc
    · rename_i ast1 heq
      rw [heq] at hs
      exact hs
    · trivial
    · rename_i heq
      rw [heq] at hs
      exact hs

theorem resolve_proc_quiet (ast : AST) :
    ∀ t : Toplevel, Quiet ast.result (resolve_proc ast t)
  | .record _ _ _ _ _ => by
    rw [resolve_proc]
    · exact Quiet.ok _ rfl
    · intro _ _ _ _ _ _ _ _ _ h
      exact Toplevel.noConfusion h
  | .proc line col entry _ entry_point name stmts params return_type => by
    rw [resolve_proc]
    refine Quiet.bind (resolve_type_quiet ast line col return_type) fun rt ast1 h1 => ?_
    cases entry with
    | none => trivial
    | some ref =>
      dsimp only []
      refine Quiet.bind (h1 ▸ resolve_params_quiet _ params _ _) fun ps ast3 h3 => ?_
      refine Quiet.bind (h3 ▸ resolve_stmts_quiet _ _ stmts _ _ _) fun r ast5 h5 => ?_
      split
      · exact Quiet.fail_error h5 _ _ _
      · exact Quiet.ok _ h5

theorem register_toplevels_quiet :
    ∀ (tops : List Toplevel) (ast : AST), Quiet ast.result (register_toplevels ast tops)
  | [], ast => by
    rw [register_toplevels]; exact Quiet.ok _ rfl
  | .proc line col _ scope entry_point name stmts params return_type :: rest, ast => by
    rw [register_toplevels]
    split
    · exact Quiet.fail_error rfl _ _ _
    · exact Quiet.bind (register_toplevels_quiet rest _) fun r a h => Quiet.ok _ h
  | .record line col name entries _ :: rest, ast => by
    rw [register_toplevels]
    split
    · exact Quiet.fail_error rfl _ _ _
    · exact Quiet.bind (register_toplevels_quiet rest _) fun r a h => Quiet.ok _ h

theorem resolve_procs_quiet :
    ∀ (tops : List Toplevel) (ast : AST), Quiet ast.result (resolve_procs ast tops)
  | [], ast => by
    rw [resolve_procs]; exact Quiet.ok _ rfl
  | iter :: rest, ast => by
    rw [resolve_procs]
    have hp := resolve_proc_quiet ast iter
    split
    · rename_i iter1 ast1 heq
      rw [heq] at hp
      exact Quiet.bind (hp ▸ resolve_procs_quiet rest ast1) fun r a h => Quiet.ok _ h
    · rename_i ast1 heq
      rw [heq] at hp
      exact hp
    · trivial
    · rename_i heq
      rw [heq] at hp
      exact hp

theorem resolve_names_quiet (ast : AST) : Quiet ast.result (resolve_names ast) := by
  rw [resolve_names]
  refine Quiet.bind (register_toplevels_quiet ast.toplevels { ast with scope := [] })
    fun tops ast1 h1 => ?_
  refine Quiet.bind (h1 ▸ resolve_procs_quiet tops ast1) fun tops1 ast2 h2 => ?_
  exact Quiet.ok _ h2

theorem Outcome.bind_eq_ok {σ α β : Type} {x : Outcome σ α} {f : α → σ → Outcome σ β}
    {b : β} {s : σ} (h : x.bind f = .ok b s) : ∃ a s1, x = .ok a s1 ∧ f a s1 = .ok b s := by
  cases x with
  | ok a s1 => exact ⟨a, s1, rfl, h⟩
  | fail s1 => simp [Outcome.bind] at h
  | undefined => simp [Outcome.bind] at h
  | out_of_fuel => simp [Outcome.bind] at h

theorem add_to_scope_eq_some {entries : List VarEntry} {up : Chain} {name : List Nat}
    {a : VarRef × List VarEntry} (h : add_to_scope entries up name = some a) :
    a = ({ depth := 0, index := entries.length },
          { name := name, type := none, record := none } :: entries) := by
  unfold add_to_scope at h
  split at h
  · simp at h
  · simpa using h.symm

theorem update_entry_head (f : VarEntry → VarEntry) (e : VarEntry) (rest : List VarEntry) :
    update_entry f rest.length (e :: rest) = f e :: rest := by
  simp [update_entry]

theorem register_toplevels_registered :
    ∀ (tops : List Toplevel) (ast : AST) (tops1 : List Toplevel) (ast1 : AST),
      Registered ast.next_id ast.type_scope →
      register_toplevels ast tops = .ok tops1 ast1 →
      Registered ast1.next_id ast1.type_scope
  | [], ast, tops1, ast1, hinv, h => by
    rw [register_toplevels] at h
    cases h
    exact hinv
  | .proc line col _ scope entry_point name stmts params return_type :: rest, ast, tops1, ast1,
      hinv, h => by
    rw [register_toplevels] at h
    split at h
    · simp at h
    · obtain ⟨r1, s1, hr, h2⟩ := Outcome.bind_eq_ok h
      cases h2
      refine register_toplevels_registered rest _ r1 _ ?_ hr
      exact hinv
  | .record line col name entries _ :: rest, ast, tops1, ast1, hinv, h => by
    rw [register_toplevels] at h
    split at h
    · simp at h
    · rename_i a ha
      have := add_to_scope_eq_some ha
      subst this
      obtain ⟨r1, s1, hr, h2⟩ := Outcome.bind_eq_ok h
      cases h2
      refine register_toplevels_registered rest _ r1 _ ?_ hr
      simp only [AST.register_record, update_entry_head]
      exact ⟨ast.next_id, entries, rfl, rfl, hinv⟩

theorem Registered.get : ∀ (ts : List VarEntry) (n i : Nat) (e : VarEntry),
    Registered n ts → ts[i]? = some e →
    i < n ∧ ∃ es, e.type = some (Ty.record (n - 1 - i) es e.name)
  | [], _, _, _, _, h => by simp at h
  | e0 :: rest, n, i, e, hinv, h => by
    obtain ⟨m, es, hn, ht, hrest⟩ := hinv
    subst hn
    cases i with
    | zero =>
      simp at h
      subst h
      exact ⟨Nat.succ_pos _, es, by simpa using ht⟩
    | succ k =>
      simp at h
      obtain ⟨hk, es1, ht1⟩ := Registered.get rest m k e hrest h
      refine ⟨by omega, es1, ?_⟩
      have : m + 1 - 1 - (k + 1) = m - 1 - k := by omega
      rw [this]
      exact ht1

theorem lookup_frame_mem (name : List Nat) :
    ∀ (frame : List VarEntry) (r : Nat × VarEntry),
      lookup_frame name frame = some r → r.2 ∈ frame
  | [], r, h => by simp [lookup_frame] at h
  | iter :: rest, r, h => by
    rw [lookup_frame] at h
    split at h
    · cases h; simp
    · exact List.mem_cons_of_mem _ (lookup_frame_mem name rest r h)

theorem strncmp_eq_refl : ∀ a : List Nat, strncmp_eq a a = true
  | [] => rfl
  | x :: xs => by
    rw [strncmp_eq]
    by_cases hx : x = 0
    · simp [hx]
    · simp [hx, strncmp_eq_refl xs]

theorem name_eq_refl (a : List Nat) : name_eq a a = true := by
  simp [name_eq, strncmp_eq_refl]

theorem lookup_frame_none (name : List Nat) :
    ∀ frame : List VarEntry, lookup_frame name frame = none →
      ∀ e ∈ frame, name_eq name e.name = false
  | [], _, e, he => by simp at he
  | iter :: rest, h, e, he => by
    rw [lookup_frame] at h
    split at h
    · simp at h
    · rename_i hne
      rcases List.mem_cons.mp he with rfl | hmem
      · simpa using hne
      · exact lookup_frame_none name rest h e hmem

theorem add_to_scope_fresh {entries : List VarEntry} {name : List Nat}
    {a : VarRef × List VarEntry} (h : add_to_scope entries [] name = some a) :
    ∀ e ∈ entries, name_eq name e.name = false := by
  unfold add_to_scope at h
  split at h
  · simp at h
  · rename_i hl
    unfold lookup_scope lookup_scope_from at hl
    split at hl
    · simp at hl
    · rename_i hf
      exact lookup_frame_none name entries hf

theorem register_toplevels_distinct :
    ∀ (tops : List Toplevel) (ast : AST) (tops1 : List Toplevel) (ast1 : AST),
      NamesDistinct ast.type_scope →
      register_toplevels ast tops = .ok tops1 ast1 →
      NamesDistinct ast1.type_scope
  | [], ast, tops1, ast1, hinv, h => by
    rw [register_toplevels] at h
    cases h
    exact hinv
  | .proc line col _ scope entry_point name stmts params return_type :: rest, ast, tops1, ast1,
      hinv, h => by
    rw [register_toplevels] at h
    split at h
    · simp at h
    · obtain ⟨r1, s1, hr, h2⟩ := Outcome.bind_eq_ok h
      cases h2
      refine register_toplevels_distinct rest _ r1 _ ?_ hr
      exact hinv
  | .record line col name entries _ :: rest, ast, tops1, ast1, hinv, h => by
    rw [register_toplevels] at h
    split at h
    · simp at h
    · rename_i a ha
      have hfresh := add_to_scope_fresh ha
      have := add_to_scope_eq_some ha
      subst this
      obtain ⟨r1, s1, hr, h2⟩ := Outcome.bind_eq_ok h
      cases h2
      refine register_toplevels_distinct rest _ r1 _ ?_ hr
      simp only [AST.register_record, update_entry_head]
      exact List.Pairwise.cons (fun e he => hfresh e he) hinv

theorem NamesDistinct.eq_index {ts : List VarEntry} (h : NamesDistinct ts) {i j : Nat}
    {e1 e2 : VarEntry} (hi : ts[i]? = some e1) (hj : ts[j]? = some e2)
    (hn : e1.name = e2.name) : i = j := by
  by_contra hij
  have key : ∀ (p q : Nat) (x y : VarEntry), p < q → ts[p]? = some x → ts[q]? = some y →
      name_eq x.name y.name = false := by
    intro p q x y hpq hp hq
    obtain ⟨hp1, hp2⟩ := List.getElem?_eq_some.mp hp
    obtain ⟨hq1, hq2⟩ := List.getElem?_eq_some.mp hq
    have := List.pairwise_iff_getElem.mp h p q hp1 hq1 hpq
    rw [hp2, hq2] at this
    exact this
  rcases Nat.lt_or_gt_of_ne hij with hlt | hgt
  · have := key i j e1 e2 hlt hi hj
    rw [hn, name_eq_refl] at this
    cases this
  · have := key j i e2 e1 hgt hj hi
    rw [hn, name_eq_refl] at this
    cases this

theorem lookup_scope_single_mem {ts : List VarEntry} {name : List Nat} {r : VarRef × VarEntry}
    (h : lookup_scope [ts] name = some r) : r.2 ∈ ts := by
  unfold lookup_scope lookup_scope_from at h
  split at h
  · rename_i q hq
    cases h
    exact lookup_frame_mem name ts q hq
  · simp [lookup_scope_from] at h

theorem resolve_record_expr_type {a b : AST} {scope : Chain} {l c : Nat} {R : List Nat}
    {ms : List RecordExprMember} {en : Option VarRef} {ty : Option Ty} {x : Expr}
    (h : resolve_expr a scope (.record l c R ms en ty) = .ok x b) :
    ∃ r, lookup_scope [a.type_scope] R = some r ∧ x.type = r.2.type := by
  rw [resolve_expr] at h
  split at h
  · simp at h
  · rename_i r hr
    obtain ⟨ms1, a1, -, h2⟩ := Outcome.bind_eq_ok h
    cases h2
    exact ⟨r, hr, rfl⟩

theorem resolve_expr_ok_result {ast ast1 : AST} {scope : Chain} {e e1 : Expr}
    (h : resolve_expr ast scope e = .ok e1 ast1) : ast1.result = ast.result := by
  have := resolve_expr_quiet e ast scope
  rw [h] at this
  exact this

theorem AST.with_result_self (a : AST) : { a with result := a.result } = a := by
  cases a; rfl

/-- On two equal types `compare_types` answers `Ty.comparable` and writes
nothing. -/
theorem compare_types_self (r : BSLCompileResult) (line col : Nat) :
    ∀ t : Ty, compare_types r line col t t = (t.comparable, r)
  | .f32 => by simp [compare_types, Ty.t, Ty.comparable]
  | .f64 => by simp [compare_types, Ty.t, Ty.comparable]
  | .record _ _ _ => by simp [compare_types, Ty.t, Ty.comparable]
  | .vector size elem => by
    have ih := compare_types_self r line col elem
    cases h : elem.comparable <;> simp [compare_types, ih, Ty.comparable, h]
  | .void => by simp [compare_types, Ty.t, Ty.comparable]
  | .var _ => by simp [compare_types, Ty.t, Ty.comparable]
  | .proc _ _ => by simp [compare_types, Ty.t, Ty.comparable]

/-- The rows of the matrix on which the binary case of `resolve_expr`
succeeds: every row, the row of two vectors when `compare_types` answers
`true` on the element type. -/
theorem resolve_binary_rows (ast ast1 ast2 : AST) (scope : Chain) (line col op : Nat)
    (lhs rhs lhs1 rhs1 : Expr) (old : Option Ty) (t1 t2 T : Ty)
    (hl : resolve_expr ast scope lhs = .ok lhs1 ast1) (hlt : lhs1.type = some t1)
    (hr : resolve_expr ast1 scope rhs = .ok rhs1 ast2) (hrt : rhs1.type = some t2)
    (hm : Matrix op t1 t2 T)
    (hc : ∀ n E, t1 = Ty.vector n E → t2 = Ty.vector n E → E.comparable = true) :
    resolve_expr ast scope (.binary line col lhs rhs op old) =
        .ok (.binary line col lhs1 rhs1 op (some T)) ast2 ∧
      ast2.result = ast.result := by
  have hres : ast2.result = ast.result :=
    (resolve_expr_ok_result hr).trans (resolve_expr_ok_result hl)
  refine ⟨?_, hres⟩
  rw [resolve_expr, hl]
  simp only [Outcome.bind, hr, hlt, hrt]
  cases hm with
  | f32 => rfl
  | f64 => rfl
  | vectors n T =>
    simp [compare_types_refl _ _ _ T (hc n T rfl rfl), AST.with_result_self]
  | vector_scalar n T hT hop =>
    have h1 : op ≠ BINOP_ADD := by
      rcases hop with h | h | h <;> simp [h, BINOP_ADD, BINOP_MUL, BINOP_DIV, TokenType.toNat]
    have h2 : op ≠ BINOP_SUB := by
      rcases hop with h | h | h <;> simp [h, BINOP_SUB, BINOP_MUL, BINOP_DIV, TokenType.toNat]
    rcases hT with rfl | rfl <;>
      simp [h1, h2, compare_types, Ty.t, AST.with_result_self]
  | scalar_vector n T hT hop =>
    have h1 : op ≠ BINOP_ADD := by
      rcases hop with h | h | h <;> simp [h, BINOP_ADD, BINOP_MUL, BINOP_DIV, TokenType.toNat]
    have h2 : op ≠ BINOP_SUB := by
      rcases hop with h | h | h <;> simp [h, BINOP_SUB, BINOP_MUL, BINOP_DIV, TokenType.toNat]
    rcases hT with rfl | rfl <;>
      simp [h1, h2, compare_types, Ty.t, AST.with_result_self]

/-- The row of two vectors of one element type and one size, when
`compare_types` answers `false` on the element type: the binary case of
`resolve_expr` fails with the message of differing vectors. -/
theorem resolve_binary_vectors_unanswered (ast ast1 ast2 : AST) (scope : Chain)
    (line col op n : Nat) (lhs rhs lhs1 rhs1 : Expr) (old : Option Ty) (E : Ty)
    (hl : resolve_expr ast scope lhs = .ok lhs1 ast1)
    (hlt : lhs1.type = some (Ty.vector n E))
    (hr : resolve_expr ast1 scope rhs = .ok rhs1 ast2)
    (hrt : rhs1.type = some (Ty.vector n E))
    (hE : E.comparable = false) :
    resolve_expr ast scope (.binary line col lhs rhs op old) =
      .fail (ast2.error line col
        "cannot perform arithmetic on vectors of different types or sizes") := by
  rw [resolve_expr, hl]
  simp only [Outcome.bind, hr, hlt, hrt]
  simp [compare_types_self, hE, AST.with_result_self]

theorem strncmp_eq_iff_of_left : ∀ a b : List Nat, a.length = b.length → 0 ∉ a →
    (strncmp_eq a b = true ↔ a = b)
  | [], [], _, _ => by simp [strncmp_eq]
  | [], _ :: _, h, _ => by simp at h
  | _ :: _, [], h, _ => by simp at h
  | x :: xs, y :: ys, h, h0 => by
    have hx : x ≠ 0 := fun hx => h0 (by simp [hx])
    have h0s : 0 ∉ xs := fun hm => h0 (List.mem_cons_of_mem _ hm)
    have hl : xs.length = ys.length := by simpa using h
    rw [strncmp_eq]
    by_cases hxy : x = y
    · subst hxy
      simp [hx, strncmp_eq_iff_of_left xs ys hl h0s]
    · simp [hxy]

theorem strncmp_eq_iff_of_right : ∀ a b : List Nat, a.length = b.length → 0 ∉ b →
    (strncmp_eq a b = true ↔ a = b)
  | [], [], _, _ => by simp [strncmp_eq]
  | [], _ :: _, h, _ => by simp at h
  | _ :: _, [], h, _ => by simp at h
  | x :: xs, y :: ys, h, h0 => by
    have hy : y ≠ 0 := fun hy => h0 (by simp [hy])
    have h0s : 0 ∉ ys := fun hm => h0 (List.mem_cons_of_mem _ hm)
    have hl : xs.length = ys.length := by simpa using h
    rw [strncmp_eq]
    by_cases hxy : x = y
    · subst hxy
      simp [hy, strncmp_eq_iff_of_right xs ys hl h0s]
    · simp [hxy]

/-- On names without a NUL byte (every name the lexer produces) the
resolver's name test is byte equality. -/
theorem name_eq_iff_of_left (a b : List Nat) (h0 : 0 ∉ a) : name_eq a b = true ↔ a = b := by
  unfold name_eq
  constructor
  · intro h
    simp only [Bool.and_eq_true, decide_eq_true_eq] at h
    exact (strncmp_eq_iff_of_left a b h.1 h0).mp h.2
  · intro h
    subst h
    simp [strncmp_eq_refl]

theorem name_eq_iff_of_right (a b : List Nat) (h0 : 0 ∉ b) : name_eq a b = true ↔ a = b := by
  unfold name_eq
  constructor
  · intro h
    simp only [Bool.and_eq_true, decide_eq_true_eq] at h
    exact (strncmp_eq_iff_of_right a b h.1 h0).mp h.2
  · intro h
    subst h
    simp [strncmp_eq_refl]

theorem find_record_entry_eq_find (name : List Nat) (h0 : 0 ∉ name) :
    ∀ entries : List RecordEntry,
      find_record_entry name entries = entries.find? (fun e => decide (e.name = name))
  | [] => rfl
  | iter :: rest => by
    rw [find_record_entry, List.find?_cons]
    by_cases h : iter.name = name
    · simp [h, name_eq_refl]
    · have : name_eq iter.name name = false := by
        cases hn : name_eq iter.name name
        · rfl
        · exact absurd ((name_eq_iff_of_right _ _ h0).mp hn) h
      simp [h, this, find_record_entry_eq_find name h0 rest]

theorem lookup_frame_spec (name : List Nat) (h0 : 0 ∉ name) :
    ∀ frame : List VarEntry,
      match lookup_frame name frame with
      | some r => frame.find? (fun e => decide (e.name = name)) = some r.2 ∧
          get_entry r.1 frame = some r.2
      | none => frame.find? (fun e => decide (e.name = name)) = none
  | [] => by simp [lookup_frame]
  | iter :: rest => by
    rw [lookup_frame]
    by_cases h : iter.name = name
    · have hn : name_eq name iter.name = true := by rw [h]; exact name_eq_refl name
      rw [if_pos hn]
      simp [h, get_entry, List.find?_cons]
    · have hn : name_eq name iter.name = false := by
        cases hn : name_eq name iter.name
        · rfl
        · exact absurd ((name_eq_iff_of_left _ _ h0).mp hn).symm h
      have ih := lookup_frame_spec name h0 rest
      simp only [hn, Bool.false_eq_true, if_false]
      cases hl : lookup_frame name rest with
      | none =>
        rw [hl] at ih
        simpa [List.find?_cons, h] using ih
      | some r =>
        rw [hl] at ih
        obtain ⟨ih1, ih2⟩ := ih
        refine ⟨by simpa [List.find?_cons, h] using ih1, ?_⟩
        have hlt : r.1 < rest.length := by
          clear ih1 hl
          induction rest with
          | nil => simp [get_entry] at ih2
          | cons e es ihe =>
            rw [get_entry] at ih2
            split at ih2
            · simp; omega
            · have := ihe ih2
              simp; omega
        rw [get_entry]
        have : rest.length ≠ r.1 := by omega
        simp [this, ih2]

theorem lookup_scope_from_spec (name : List Nat) (h0 : 0 ∉ name) :
    ∀ (scope : Chain) (depth : Nat),
      match lookup_scope_from depth name scope with
      | some r => (search_order scope).find? (fun e => decide (e.name = name)) = some r.2 ∧
          depth ≤ r.1.depth ∧
          deref scope { depth := r.1.depth - depth, index := r.1.index } = some r.2
      | none => (search_order scope).find? (fun e => decide (e.name = name)) = none
  | [], depth => by simp [lookup_scope_from, search_order]
  | frame :: up, depth => by
    rw [lookup_scope_from]
    have hf := lookup_frame_spec name h0 frame
    cases hl : lookup_frame name frame with
    | some r =>
      rw [hl] at hf
      simp [search_order, List.find?_append, hf.1, deref, hf.2]
    | none =>
      rw [hl] at hf
      have ih := lookup_scope_from_spec name h0 up (depth + 1)
      simp only []
      cases hu : lookup_scope_from (depth + 1) name up with
      | none =>
        rw [hu] at ih
        simp [search_order, List.find?_append, hf, ih]
      | some r =>
        rw [hu] at ih
        obtain ⟨ih1, ih2, ih3⟩ := ih
        refine ⟨by simp [search_order, List.find?_append, hf, ih1], by omega, ?_⟩
        have : r.1.depth - depth = (r.1.depth - (depth + 1)) + 1 := by omega
        rw [deref] at ih3 ⊢
        simp only [this, List.getElem?_cons_succ]
        exact ih3

theorem compare_types_ptr_eq_ok {ast ast1 : AST} {line col : Nat} {t1 t2 : Option Ty}
    (h : compare_types_ptr ast line col t1 t2 = .ok () ast1) :
    ∃ a b, t1 = some a ∧ t2 = some b ∧ (compare_types ast.result line col a b).1 = true := by
  cases t1 with
  | none => simp [compare_types_ptr] at h
  | some a =>
    cases t2 with
    | none => simp [compare_types_ptr] at h
    | some b =>
      refine ⟨a, b, rfl, rfl, ?_⟩
      simp only [compare_types_ptr] at h
      split at h
      · assumption
      · simp at h

theorem lookup_scope_single_none_iff (name : List Nat) (h0 : 0 ∉ name) (frame : List VarEntry) :
    lookup_scope [frame] name = none ↔ ∀ e ∈ frame, e.name ≠ name := by
  have h := lookup_scope_from_spec name h0 [frame] 0
  rw [lookup_scope]
  cases hl : lookup_scope_from 0 name [frame] with
  | none =>
    rw [hl] at h
    simp only [search_order, List.append_nil] at h
    simpa using h
  | some r =>
    rw [hl] at h
    simp only [search_order, List.append_nil] at h
    have := List.find?_some h.1
    have hm := List.mem_of_find?_eq_some h.1
    simp only [decide_eq_true_eq] at this
    constructor
    · intro hc
      cases hc
    · intro hall
      exact absurd this (hall r.2 hm)

theorem add_to_scope_single (name : List Nat) (h0 : 0 ∉ name) (frame : List VarEntry) :
    add_to_scope frame [] name =
      if ∃ e ∈ frame, e.name = name then none
      else some ({ depth := 0, index := frame.length },
        { name := name, type := none, record := none } :: frame) := by
  unfold add_to_scope
  have h := lookup_scope_single_none_iff name h0 frame
  cases hl : lookup_scope [frame] name with
  | none =>
    have := h.mp hl
    rw [if_neg (by simpa using this)]
  | some r =>
    have : ¬ ∀ e ∈ frame, e.name ≠ name := fun hall => by
      rw [h.mpr hall] at hl
      cases hl
    rw [if_pos (by simpa using this)]

theorem register_toplevels_spec :
    ∀ (tops : List Toplevel) (ast : AST) (procs records : List (List Nat)),
      (∀ t ∈ tops, 0 ∉ t.name) →
      (∀ n, n ∈ procs ↔ ∃ e ∈ ast.scope, e.name = n) →
      (∀ n, n ∈ records ↔ ∃ e ∈ ast.type_scope, e.name = n) →
      match first_redeclaration procs records tops with
      | none => ∃ tops1 ast1, register_toplevels ast tops = .ok tops1 ast1
      | some d =>
        ∃ ast1, register_toplevels ast tops = .fail ast1 ∧
          ast1.result.writes = d :: ast.result.writes
  | [], ast, procs, records, _, _, _ => by
    simp [first_redeclaration, register_toplevels]
  | .proc line col en scope entry_point name stmts params return_type :: rest, ast, procs,
      records, h0, hp, hr => by
    have hn0 : 0 ∉ name := h0 _ (List.mem_cons_self _ _)
    have h0r : ∀ t ∈ rest, 0 ∉ t.name := fun t ht => h0 t (List.mem_cons_of_mem _ ht)
    rw [first_redeclaration, register_toplevels, add_to_scope_single name hn0]
    by_cases hmem : name ∈ procs
    · rw [if_pos hmem, if_pos ((hp name).mp hmem)]
      exact ⟨_, rfl, rfl⟩
    · rw [if_neg hmem, if_neg (fun h => hmem ((hp name).mpr h))]
      have ih := register_toplevels_spec rest
        { ast with scope := { name := name, type := none, record := none } :: ast.scope }
        (name :: procs) records h0r
        (by
          intro n
          simp only [List.mem_cons]
          constructor
          · rintro (rfl | h)
            · exact ⟨_, Or.inl rfl, rfl⟩
            · obtain ⟨e, he, hen⟩ := (hp n).mp h
              exact ⟨e, Or.inr he, hen⟩
          · rintro ⟨e, rfl | he, hen⟩
            · exact Or.inl hen.symm
            · exact Or.inr ((hp n).mpr ⟨e, he, hen⟩))
        hr
      simp only []
      cases hf : first_redeclaration (name :: procs) records rest with
      | none =>
        rw [hf] at ih
        obtain ⟨tops1, ast1, h1⟩ := ih
        exact ⟨_, _, by rw [h1]; rfl⟩
      | some d =>
        rw [hf] at ih
        obtain ⟨ast1, h1, h2⟩ := ih
        exact ⟨ast1, by rw [h1]; rfl, h2⟩
  | .record line col name entries en :: rest, ast, procs, records, h0, hp, hr => by
    have hn0 : 0 ∉ name := h0 _ (List.mem_cons_self _ _)
    have h0r : ∀ t ∈ rest, 0 ∉ t.name := fun t ht => h0 t (List.mem_cons_of_mem _ ht)
    rw [first_redeclaration, register_toplevels, add_to_scope_single name hn0]
    by_cases hmem : name ∈ records
    · rw [if_pos hmem, if_pos ((hr name).mp hmem)]
      exact ⟨_, rfl, rfl⟩
    · rw [if_neg hmem, if_neg (fun h => hmem ((hr name).mpr h))]
      simp only [update_entry_head]
      have ih := register_toplevels_spec rest
        (ast.register_record
          ({ name := name, type := some (Ty.record ast.next_id entries name),
             record := some { line := line, col := col, name := name, entries := entries } } ::
            ast.type_scope))
        procs (name :: records) h0r hp
        (by
          intro n
          simp only [List.mem_cons, AST.register_record]
          constructor
          · rintro (rfl | h)
            · exact ⟨_, Or.inl rfl, rfl⟩
            · obtain ⟨e, he, hen⟩ := (hr n).mp h
              exact ⟨e, Or.inr he, hen⟩
          · rintro ⟨e, rfl | he, hen⟩
            · exact Or.inl hen.symm
            · exact Or.inr ((hr n).mpr ⟨e, he, hen⟩))
      cases hf : first_redeclaration procs (name :: records) rest with
      | none =>
        rw [hf] at ih
        obtain ⟨tops1, ast1, h1⟩ := ih
        exact ⟨_, _, by rw [h1]; rfl⟩
      | some d =>
        rw [hf] at ih
        obtain ⟨ast1, h1, h2⟩ := ih
        exact ⟨ast1, by rw [h1]; rfl, h2⟩

theorem first_redeclaration_none_iff :
    ∀ (tops : List Toplevel) (procs records : List (List Nat)),
      first_redeclaration procs records tops = none ↔
        ((proc_names tops).Nodup ∧ ∀ n ∈ proc_names tops, n ∉ procs) ∧
        ((record_names tops).Nodup ∧ ∀ n ∈ record_names tops, n ∉ records)
  | [], procs, records => by simp [first_redeclaration, proc_names, record_names]
  | .proc line col en scope entry_point name stmts params return_type :: rest, procs,
      records => by
    rw [first_redeclaration, proc_names, record_names]
    by_cases hmem : name ∈ procs
    · simp [hmem]
    · rw [if_neg hmem, first_redeclaration_none_iff rest (name :: procs) records,
        List.nodup_cons]
      constructor
      · rintro ⟨⟨h1, h2⟩, h3⟩
        refine ⟨⟨⟨fun hm => h2 name hm (List.mem_cons_self _ _), h1⟩, ?_⟩, h3⟩
        intro n hn
        rcases List.mem_cons.mp hn with rfl | hn
        · exact hmem
        · exact fun hp => h2 n hn (List.mem_cons_of_mem _ hp)
      · rintro ⟨⟨⟨h1, h2⟩, h4⟩, h3⟩
        refine ⟨⟨h2, ?_⟩, h3⟩
        intro n hn hp
        rcases List.mem_cons.mp hp with rfl | hp
        · exact h1 hn
        · exact h4 n (List.mem_cons_of_mem _ hn) hp
  | .record line col name entries en :: rest, procs, records => by
    rw [first_redeclaration, proc_names, record_names]
    by_cases hmem : name ∈ records
    · simp [hmem]
    · rw [if_neg hmem, first_redeclaration_none_iff rest procs (name :: records),
        List.nodup_cons]
      constructor
      · rintro ⟨h3, ⟨h1, h2⟩⟩
        refine ⟨h3, ⟨⟨fun hm => h2 name hm (List.mem_cons_self _ _), h1⟩, ?_⟩⟩
        intro n hn
        rcases List.mem_cons.mp hn with rfl | hn
        · exact hmem
        · exact fun hp => h2 n hn (List.mem_cons_of_mem _ hp)
      · rintro ⟨h3, ⟨⟨h1, h2⟩, h4⟩⟩
        refine ⟨h3, ⟨h2, ?_⟩⟩
        intro n hn hp
        rcases List.mem_cons.mp hp with rfl | hp
        · exact h1 hn
        · exact h4 n (List.mem_cons_of_mem _ hn) hp

theorem SameButResult.rfl_same (a : AST) : SameButResult a a := ⟨rfl, rfl, rfl, rfl⟩

theorem SameButResult.trans_same {a b c : AST} (h1 : SameButResult a b)
    (h2 : SameButResult b c) : SameButResult a c :=
  ⟨h2.1.trans h1.1, h2.2.1.trans h1.2.1, h2.2.2.1.trans h1.2.2.1, h2.2.2.2.trans h1.2.2.2⟩

theorem Framed.bind_framed {α β : Type} {a : AST} {x : Outcome AST α}
    {f : α → AST → Outcome AST β} (hx : Framed a x)
    (hf : ∀ v s, SameButResult a s → Framed a (f v s)) : Framed a (x.bind f) := by
  cases x with
  | ok v s => exact hf v s hx
  | fail s => exact hx
  | undefined => trivial
  | out_of_fuel => trivial

theorem Framed.of_framed {α : Type} {a b : AST} (h : SameButResult a b) {o : Outcome AST α}
    (ho : Framed b o) : Framed a o := by
  cases o with
  | ok v s => exact h.trans_same ho
  | fail s => exact h.trans_same ho
  | undefined => trivial
  | out_of_fuel => trivial

theorem Framed.of_eq_ok {α : Type} {a b : AST} {o : Outcome AST α} {v : α} (h : Framed a o)
    (he : o = .ok v b) : SameButResult a b := by
  rw [he] at h
  exact h

theorem compare_types_ptr_framed (a : AST) (line col : Nat) (t1 t2 : Option Ty) :
    Framed a (compare_types_ptr a line col t1 t2) := by
  cases t1 with
  | none => trivial
  | some t1 =>
    cases t2 with
    | none => trivial
    | some t2 =>
      simp only [compare_types_ptr]
      split <;> exact SameButResult.rfl_same a

theorem resolve_type_framed (ast : AST) (line col : Nat) (type : Ty) :
    Framed ast (resolve_type ast line col type) := by
  cases type <;> try exact SameButResult.rfl_same ast
  rw [resolve_type]
  split
  · exact SameButResult.rfl_same ast
  · split
    · exact SameButResult.rfl_same ast
    · trivial

mutual
theorem resolve_expr_framed : ∀ (e : Expr) (ast : AST) (scope : Chain),
    Framed ast (resolve_expr ast scope e)
  | .binary line col lhs rhs op _, ast, scope => by
    rw [resolve_expr]
    refine Framed.bind_framed (resolve_expr_framed lhs ast scope) fun lhs1 ast1 h1 => ?_
    refine Framed.bind_framed (Framed.of_framed h1 (resolve_expr_framed rhs ast1 scope))
      fun rhs1 ast2 h2 => ?_
    cases lhs1.type with
    | none => trivial
    | some lt =>
      cases rhs1.type with
      | none => trivial
      | some rt =>
        cases lt <;> cases rt <;>
          first
          | exact h2
          | (dsimp only []
             split <;> exact h2)
          | (dsimp only []
             split
             · exact h2
             · split <;> exact h2)
  | .member line col lhs name entry _, ast, scope => by
    rw [resolve_expr]
    refine Framed.bind_framed (resolve_expr_framed lhs ast scope) fun lhs1 ast1 h1 => ?_
    cases lhs1.type with
    | none => trivial
    | some lt =>
      cases lt <;> try exact h1
      dsimp only []
      split <;> exact h1
  | .num line col num _, ast, scope => by
    rw [resolve_expr]; exact SameButResult.rfl_same ast
  | .var line col name _ _, ast, scope => by
    rw [resolve_expr]
    split <;> exact SameButResult.rfl_same ast
  | .vec line col exprs _, ast, scope => by
    cases exprs with
    | nil => rw [resolve_expr]; trivial
    | cons iter rest =>
      rw [resolve_expr]
      refine Framed.bind_framed (resolve_expr_framed iter ast scope) fun iter1 ast1 h1 => ?_
      cases iter1.type with
      | none => trivial
      | some t =>
        dsimp only []
        refine Framed.bind_framed
          (Framed.of_framed h1 (resolve_vec_rest_framed rest ast1 scope line col _ _))
          fun r ast2 h2 => ?_
        split <;> exact h2
  | .record line col name members _ _, ast, scope => by
    rw [resolve_expr]
    split
    · exact SameButResult.rfl_same ast
    · exact Framed.bind_framed (resolve_record_members_framed members ast scope _ _)
        fun ms ast1 h1 => h1
theorem resolve_vec_rest_framed : ∀ (es : List Expr) (ast : AST) (scope : Chain)
    (line col : Nat) (first_type : Ty) (size : Nat),
    Framed ast (resolve_vec_rest ast scope line col first_type size es)
  | [], ast, scope, line, col, first_type, size => by
    rw [resolve_vec_rest]; exact SameButResult.rfl_same ast
  | iter :: rest, ast, scope, line, col, first_type, size => by
    rw [resolve_vec_rest]
    refine Framed.bind_framed (resolve_expr_framed iter ast scope) fun iter1 ast1 h1 => ?_
    cases iter1.type with
    | none => trivial
    | some t =>
      dsimp only []
      refine Framed.bind_framed
        (Framed.of_framed h1 (compare_types_ptr_framed ast1 line col _ _)) fun _ ast2 h2 => ?_
      exact Framed.bind_framed
        (Framed.of_framed h2 (resolve_vec_rest_framed rest ast2 scope line col _ _))
        fun r ast3 h3 => h3
theorem resolve_record_members_framed : ∀ (ms : List RecordExprMember) (ast : AST)
    (scope : Chain) (rec_name : List Nat) (entry : VarEntry),
    Framed ast (resolve_record_members ast scope rec_name entry ms)
  | [], ast, scope, rec_name, entry => by
    rw [resolve_record_members]; exact SameButResult.rfl_same ast
  | .mk line col name expr mentry :: rest, ast, scope, rec_name, entry => by
    rw [resolve_record_members]
    cases entry.record with
    | none => trivial
    | some decl =>
      dsimp only []
      split
      · exact SameButResult.rfl_same ast
      · refine Framed.bind_framed (resolve_expr_framed expr ast scope) fun expr1 ast1 h1 => ?_
        cases find_record_entry name decl.entries with
        | none => trivial
        | some e2 =>
          dsimp only []
          refine Framed.bind_framed
            (Framed.of_framed h1 (compare_types_ptr_framed ast1 line col _ _))
            fun _ ast2 h2 => ?_
          exact Framed.bind_framed
            (Framed.of_framed h2 (resolve_record_members_framed rest ast2 scope _ _))
            fun r ast3 h3 => h3
end

theorem update_entry_names (f : VarEntry → VarEntry) (hf : ∀ e, (f e).name = e.name)
    (index : Nat) : ∀ frame : List VarEntry,
    (update_entry f index frame).map VarEntry.name = frame.map VarEntry.name
  | [] => rfl
  | e :: rest => by
    rw [update_entry]
    split
    · simp [hf]
    · simp [update_entry_names f hf index rest]

theorem lookup_frame_isSome_of_mem (name : List Nat) : ∀ frame : List VarEntry,
    name ∈ frame.map VarEntry.name → (lookup_frame name frame).isSome = true
  | [], h => by simp at h
  | iter :: rest, h => by
    rw [lookup_frame]
    split
    · rfl
    · rename_i hne
      rcases List.mem_cons.mp h with h | h
      · rw [h, name_eq_refl] at hne
        exact absurd rfl hne
      · exact lookup_frame_isSome_of_mem name rest h

theorem lookup_scope_from_isSome_of_mem (name : List Nat) : ∀ (scope : Chain) (depth : Nat),
    name ∈ chain_names scope → (lookup_scope_from depth name scope).isSome = true
  | [], _, h => by simp [chain_names, search_order] at h
  | frame :: up, depth, h => by
    rw [lookup_scope_from]
    cases hf : lookup_frame name frame with
    | some r => rfl
    | none =>
      have h1 : name ∈ frame.map VarEntry.name ∨ name ∈ chain_names up := by
        simpa [chain_names, search_order, List.map_append] using h
      rcases h1 with h1 | h1
      · have := lookup_frame_isSome_of_mem name frame h1
        rw [hf] at this
        cases this
      · exact lookup_scope_from_isSome_of_mem name up (depth + 1) h1

/-- A name already carried by an entry of the chain is refused by `add_to_scope`. -/
theorem add_to_scope_eq_none (entries : List VarEntry) (up : Chain) (name : List Nat)
    (h : name ∈ chain_names (entries :: up)) : add_to_scope entries up name = none := by
  have := lookup_scope_from_isSome_of_mem name (entries :: up) 0 h
  rw [add_to_scope, lookup_scope]
  cases hl : lookup_scope_from 0 name (entries :: up) with
  | some r => rfl
  | none => rw [hl] at this; cases this

theorem add_to_scope_names {entries : List VarEntry} {up : Chain} {name : List Nat}
    {a : VarRef × List VarEntry} (h : add_to_scope entries up name = some a) :
    a.2.map VarEntry.name = name :: entries.map VarEntry.name := by
  rw [add_to_scope] at h
  split at h
  · cases h
  · cases h; rfl

theorem resolve_statement_names {ast ast1 : AST} {entries : List VarEntry} {up : Chain}
    {stmt : Statement} {r : Statement × List VarEntry × Option Ty}
    (h : resolve_statement ast entries up stmt = .ok r ast1) :
    r.2.1.map VarEntry.name = stmt.declared ++ entries.map VarEntry.name := by
  cases stmt with
  | var line col en name expr type =>
    rw [resolve_statement] at h
    split at h
    · simp at h
    · rename_i a ha
      simp only [] at h
      obtain ⟨_, _, _, h⟩ := Outcome.bind_eq_ok h
      obtain ⟨_, _, _, h⟩ := Outcome.bind_eq_ok h
      obtain ⟨_, _, _, h⟩ := Outcome.bind_eq_ok h
      cases h
      simp only [Statement.declared]
      rw [update_entry_names, add_to_scope_names ha]
      · rfl
      · intro e; rfl
  | ret line col expr =>
    cases expr with
    | none =>
      rw [resolve_statement] at h
      cases h
      rfl
    | some e =>
      rw [resolve_statement] at h
      obtain ⟨e1, _, _, h⟩ := Outcome.bind_eq_ok h
      cases h
      rfl

theorem resolve_stmts_names (up : Chain) (return_type : Ty) :
    ∀ (stmts : List Statement) (ast ast1 : AST) (entries : List VarEntry) (did : Bool)
      (r : List Statement × List VarEntry × Bool),
      resolve_stmts ast up return_type entries did stmts = .ok r ast1 →
      r.2.1.map VarEntry.name = (declared_names stmts).reverse ++ entries.map VarEntry.name
  | [], ast, ast1, entries, did, r, h => by
    rw [resolve_stmts] at h
    cases h
    simp [declared_names]
  | iter :: rest, ast, ast1, entries, did, r, h => by
    rw [resolve_stmts] at h
    split at h
    · rename_i q ast2 hq
      simp only [] at h
      split at h
      · obtain ⟨p, ast4, hrest, h⟩ := Outcome.bind_eq_ok h
        cases h
        have ih := resolve_stmts_names up return_type rest _ _ _ _ _ hrest
        simp only [ih, resolve_statement_names hq, declared_names, List.reverse_append,
          List.append_assoc]
        cases iter <;> simp [Statement.declared]
      · cases h
      · cases h
      · cases h
    · cases h
    · cases h
    · cases h

/-- The statement loop on `pre ++ rest` runs the loop on `rest` from where the
loop on `pre` stopped. -/
theorem resolve_stmts_append (up : Chain) (return_type : Ty) (rest : List Statement) :
    ∀ (pre : List Statement) (ast ast1 : AST) (entries : List VarEntry) (did : Bool)
      (r : List Statement × List VarEntry × Bool),
      resolve_stmts ast up return_type entries did pre = .ok r ast1 →
      resolve_stmts ast up return_type entries did (pre ++ rest) =
        (resolve_stmts ast1 up return_type r.2.1 r.2.2 rest).bind fun q a =>
          .ok (r.1 ++ q.1, q.2) a
  | [], ast, ast1, entries, did, r, h => by
    rw [resolve_stmts] at h
    cases h
    simp only [List.nil_append]
    cases resolve_stmts ast up return_type entries did rest <;> rfl
  | iter :: pre, ast, ast1, entries, did, r, h => by
    rw [resolve_stmts] at h
    rw [List.cons_append, resolve_stmts]
    split at h
    · simp only [] at h ⊢
      split at h
      · obtain ⟨p, ast4, hpre, h⟩ := Outcome.bind_eq_ok h
        cases h
        rw [resolve_stmts_append up return_type rest pre _ _ _ _ _ hpre]
        dsimp only []
        cases resolve_stmts ast1 up return_type p.2.1 p.2.2 rest <;> rfl
      · cases h
      · cases h
      · cases h
    · cases h
    · cases h
    · cases h

theorem resolve_type_state {ast ast1 : AST} {line col : Nat} {type type1 : Ty}
    (h : resolve_type ast line col type = .ok type1 ast1) : ast1 = ast := by
  cases type <;> first
    | (cases h; rfl)
    | (rw [resolve_type] at h
       split at h
       · cases h
       · split at h
         · cases h; rfl
         · cases h)

theorem resolve_params_state (up : Chain) :
    ∀ (params : List Parameter) (ast ast1 : AST) (entries : List VarEntry)
      (r : List Parameter × List VarEntry),
      resolve_params ast up entries params = .ok r ast1 →
      ast1 = ast ∧
        r.2.map VarEntry.name = (params.map Parameter.name).reverse ++ entries.map VarEntry.name
  | [], ast, ast1, entries, r, h => by
    rw [resolve_params] at h
    cases h
    simp
  | .mk line col name type :: rest, ast, ast1, entries, r, h => by
    rw [resolve_params] at h
    split at h
    · cases h
    · rename_i a ha
      split at h
      · rename_i type1 ast2 ht
        obtain ⟨p, ast3, hrest, h⟩ := Outcome.bind_eq_ok h
        cases h
        obtain ⟨ih1, ih2⟩ := resolve_params_state up rest _ _ _ _ hrest
        refine ⟨ih1.trans (resolve_type_state ht), ?_⟩
        simp only [ih2]
        rw [update_entry_names, add_to_scope_names ha]
        · simp [Parameter.name]
        · intro e; rfl
      · cases h
      · cases h
      · cases h

theorem resolve_params_append (up : Chain) (rest : List Parameter) :
    ∀ (pre : List Parameter) (ast ast1 : AST) (entries : List VarEntry)
      (r : List Parameter × List VarEntry),
      resolve_params ast up entries pre = .ok r ast1 →
      resolve_params ast up entries (pre ++ rest) =
        (resolve_params ast1 up r.2 rest).bind fun q a => .ok (r.1 ++ q.1, q.2) a
  | [], ast, ast1, entries, r, h => by
    rw [resolve_params] at h
    cases h
    simp only [List.nil_append]
    cases resolve_params ast up entries rest <;> rfl
  | .mk line col name type :: pre, ast, ast1, entries, r, h => by
    rw [resolve_params] at h
    rw [List.cons_append, resolve_params]
    split at h
    · cases h
    · rename_i a ha
      split at h
      · rename_i type1 ast2 ht
        obtain ⟨p, ast3, hpre, h⟩ := Outcome.bind_eq_ok h
        cases h
        rw [resolve_params_append up rest pre _ _ _ _ hpre]
        dsimp only []
        cases resolve_params ast1 up p.2 rest <;> rfl
      · cases h
      · cases h
      · cases h

theorem resolve_statement_framed (ast : AST) (entries : List VarEntry) (up : Chain) :
    ∀ stmt : Statement, Framed ast (resolve_statement ast entries up stmt)
  | .var line col en name expr type => by
    rw [resolve_statement]
    split
    · exact SameButResult.rfl_same ast
    · dsimp only []
      refine Framed.bind_framed ?_ fun expr1 ast1 h1 => ?_
      · cases expr with
        | none => exact SameButResult.rfl_same ast
        | some e => exact Framed.bind_framed (resolve_expr_framed e ast _) fun _ _ h => h
      · refine Framed.bind_framed ?_ fun type1 ast2 h2 => ?_
        · cases type with
          | none => exact h1
          | some t =>
            exact Framed.bind_framed (Framed.of_framed h1 (resolve_type_framed ast1 line col t))
              fun _ _ h => h
        · refine Framed.bind_framed ?_ fun type2 ast3 h3 => h3
          cases type1 with
          | none =>
            cases expr1 with
            | none => trivial
            | some e => exact h2
          | some t =>
            cases expr1 with
            | none => exact h2
            | some e =>
              exact Framed.bind_framed
                (Framed.of_framed h2 (compare_types_ptr_framed ast2 e.line e.col _ _))
                fun _ _ h => h
  | .ret line col expr => by
    cases expr with
    | none => rw [resolve_statement]; exact SameButResult.rfl_same ast
    | some e =>
      rw [resolve_statement]
      exact Framed.bind_framed (resolve_expr_framed e ast _) fun _ _ h => h

theorem resolve_stmts_framed (up : Chain) (return_type : Ty) :
    ∀ (stmts : List Statement) (ast : AST) (entries : List VarEntry) (did : Bool),
      Framed ast (resolve_stmts ast up return_type entries did stmts)
  | [], ast, entries, did => by
    rw [resolve_stmts]; exact SameButResult.rfl_same ast
  | iter :: rest, ast, entries, did => by
    rw [resolve_stmts]
    have hs := resolve_statement_framed ast entries up iter
    split
    · rename_i q ast1 hq
      rw [hq] at hs
      dsimp only []
      split
      · rename_i did1 ast2 hchk
        have h2 : SameButResult ast ast2 := by
          cases hout : q.2.2 with
          | none => rw [hout] at hchk; cases hchk; exact hs
          | some ret =>
            rw [hout] at hchk
            dsimp only [] at hchk
            split at hchk
            · cases hchk
            · cases hchk; exact hs
        exact Framed.bind_framed
          (Framed.of_framed h2 (resolve_stmts_framed up return_type rest ast2 _ _))
          fun _ _ h => h
      · rename_i ast2 hchk
        cases hout : q.2.2 with
        | none => rw [hout] at hchk; cases hchk
        | some ret =>
          rw [hout] at hchk
          dsimp only [] at hchk
          split at hchk
          · cases hchk; exact hs
          · cases hchk
      · trivial
      · trivial
    · rename_i ast1 hq
      rw [hq] at hs
      exact hs
    · trivial
    · trivial

/-- The names of the global value scope are the same after `resolve_proc`. -/
theorem resolve_proc_scope_names {ast ast1 : AST} {t t1 : Toplevel}
    (h : resolve_proc ast t = .ok t1 ast1) :
    ast1.scope.map VarEntry.name = ast.scope.map VarEntry.name := by
  cases t with
  | record line col name entries en => cases h; rfl
  | proc line col entry scope entry_point name stmts params return_type =>
    rw [resolve_proc] at h
    obtain ⟨rt1, a1, hrt, h⟩ := Outcome.bind_eq_ok h
    cases resolve_type_state hrt
    cases entry with
    | none => cases h
    | some ref =>
      dsimp only [] at h
      obtain ⟨ps, a3, hps, h⟩ := Outcome.bind_eq_ok h
      cases (resolve_params_state _ _ _ _ _ _ hps).1
      obtain ⟨r, a5, hss, h⟩ := Outcome.bind_eq_ok h
      have hf := Framed.of_eq_ok (resolve_stmts_framed _ _ _ _ _ _) hss
      have hn : a5.scope.map VarEntry.name = ast.scope.map VarEntry.name := by
        rw [hf.2.1]
        simp only [AST.set_scope]
        rw [update_entry_names, update_entry_names] <;> intro e <;> rfl
      split at h
      · cases h
      · cases h; exact hn

theorem resolve_procs_scope_names : ∀ (tops : List Toplevel) (ast ast1 : AST)
    (tops1 : List Toplevel), resolve_procs ast tops = .ok tops1 ast1 →
    ast1.scope.map VarEntry.name = ast.scope.map VarEntry.name
  | [], ast, ast1, tops1, h => by
    rw [resolve_procs] at h
    cases h; rfl
  | iter :: rest, ast, ast1, tops1, h => by
    rw [resolve_procs] at h
    split at h
    · rename_i iter1 ast2 hi
      obtain ⟨r, a, hrest, h⟩ := Outcome.bind_eq_ok h
      cases h
      exact (resolve_procs_scope_names rest _ _ _ hrest).trans (resolve_proc_scope_names hi)
    · cases h
    · cases h
    · cases h

/-- Pass 1 puts the name of every procedure in the global value scope. -/
theorem register_toplevels_scope_names : ∀ (tops : List Toplevel) (ast ast1 : AST)
    (tops1 : List Toplevel), register_toplevels ast tops = .ok tops1 ast1 →
    ast1.scope.map VarEntry.name = (proc_names tops).reverse ++ ast.scope.map VarEntry.name
  | [], ast, ast1, tops1, h => by
    rw [register_toplevels] at h
    cases h
    simp [proc_names]
  | .proc line col en scope entry_point name stmts params return_type :: rest, ast, ast1,
      tops1, h => by
    rw [register_toplevels] at h
    split at h
    · cases h
    · rename_i a ha
      obtain ⟨r, a2, hrest, h⟩ := Outcome.bind_eq_ok h
      cases h
      rw [register_toplevels_scope_names rest _ _ _ hrest]
      simp [proc_names, add_to_scope_names ha]
  | .record line col name entries en :: rest, ast, ast1, tops1, h => by
    rw [register_toplevels] at h
    split at h
    · cases h
    · rename_i a ha
      obtain ⟨r, a2, hrest, h⟩ := Outcome.bind_eq_ok h
      cases h
      rw [register_toplevels_scope_names rest _ _ _ hrest]
      simp [proc_names, AST.register_record]

theorem resolve_procs_append_fail (t : Toplevel) (rest : List Toplevel) :
    ∀ (pre : List Toplevel) (ast ast1 s : AST) (pre1 : List Toplevel),
      resolve_procs ast pre = .ok pre1 ast1 → resolve_proc ast1 t = .fail s →
      resolve_procs ast (pre ++ t :: rest) = .fail s
  | [], ast, ast1, s, pre1, h, ht => by
    rw [resolve_procs] at h
    cases h
    rw [List.nil_append, resolve_procs, ht]
  | iter :: pre, ast, ast1, s, pre1, h, ht => by
    rw [resolve_procs] at h
    rw [List.cons_append, resolve_procs]
    split at h
    · obtain ⟨r, a, hpre, h⟩ := Outcome.bind_eq_ok h
      cases h
      rw [resolve_procs_append_fail t rest pre _ _ _ _ hpre ht]
      rfl
    · cases h
    · cases h
    · cases h

theorem find_record_entry_mem (name : List Nat) : ∀ (entries : List RecordEntry)
    (e : RecordEntry), find_record_entry name entries = some e → e ∈ entries
  | [], e, h => by simp [find_record_entry] at h
  | iter :: rest, e, h => by
    rw [find_record_entry] at h
    split at h
    · cases h; simp
    · exact List.mem_cons_of_mem _ (find_record_entry_mem name rest e h)

theorem entries_well_sized_mem : ∀ (entries : List RecordEntry) (e : RecordEntry),
    entries_well_sized entries = true → e ∈ entries → e.type.well_sized = true
  | [], e, _, h => by simp at h
  | .mk t pos name type :: rest, e, hw, h => by
    rw [entries_well_sized, Bool.and_eq_true] at hw
    rcases List.mem_cons.mp h with h | h
    · rw [h]; exact hw.1
    · exact entries_well_sized_mem rest e hw.2 h

theorem lookup_scope_from_mem (name : List Nat) : ∀ (scope : Chain) (depth : Nat)
    (r : VarRef × VarEntry), lookup_scope_from depth name scope = some r →
    r.2 ∈ search_order scope
  | [], _, r, h => by simp [lookup_scope_from] at h
  | frame :: up, depth, r, h => by
    rw [lookup_scope_from] at h
    rw [search_order]
    split at h
    · rename_i q hq
      cases h
      exact List.mem_append_left _ (lookup_frame_mem name frame q hq)
    · exact List.mem_append_right _ (lookup_scope_from_mem name up _ r h)

theorem elem_size_pos {t : Ty} (h : t.well_sized = true) : 1 ≤ elem_size t := by
  cases t <;> simp [elem_size]
  rw [Ty.well_sized, Bool.and_eq_true, decide_eq_true_eq] at h
  exact h.1.1

theorem first_type_well_sized {t : Ty} (h : t.well_sized = true) :
    (match t with
      | .vector _ elem => elem
      | _ => t).well_sized = true := by
  cases t <;> try exact h
  rw [Ty.well_sized, Bool.and_eq_true] at h
  exact h.2

/-- The size the loop over the later elements of a vector literal reaches. -/
theorem resolve_vec_rest_size (scope : Chain) (line col : Nat) (first_type : Ty) :
    ∀ (es : List Expr) (ast ast1 : AST) (size : Nat) (r : List Expr × Nat),
      resolve_vec_rest ast scope line col first_type size es = .ok r ast1 →
      r.2 = size + scalar_count r.1
  | [], ast, ast1, size, r, h => by
    rw [resolve_vec_rest] at h
    cases h
    rfl
  | iter :: rest, ast, ast1, size, r, h => by
    rw [resolve_vec_rest] at h
    obtain ⟨iter1, ast2, hi, h⟩ := Outcome.bind_eq_ok h
    cases ht : iter1.type with
    | none => rw [ht] at h; cases h
    | some t =>
      rw [ht] at h
      dsimp only [] at h
      obtain ⟨_, ast3, hc, h⟩ := Outcome.bind_eq_ok h
      obtain ⟨q, ast4, hr, h⟩ := Outcome.bind_eq_ok h
      cases h
      rw [resolve_vec_rest_size scope line col first_type rest _ _ _ _ hr]
      simp [scalar_count, ht, Nat.add_assoc]

theorem classify_type_sizes (name : List Nat) :
    (classify_type name).sizes = [] ∧ (classify_type name).well_sized = true := by
  simp only [classify_type, builtin_type_to_type_type, List.foldl]
  split_ifs <;> exact ⟨rfl, rfl⟩

theorem parse_type_sizes_aux : ∀ n : Nat,
    (∀ (p p1 : Parser) (ty : Ty), parse_type n p = .ok ty p1 →
      ty.well_sized = true ∧ ∀ s ∈ ty.sizes, s = 2 ∨ s = 3 ∨ s = 4) ∧
    (∀ (p p1 : Parser) (size : Nat) (ty : Ty), (size = 2 ∨ size = 3 ∨ size = 4) →
      parse_vector_type n p size = .ok ty p1 →
      ty.well_sized = true ∧ ∀ s ∈ ty.sizes, s = 2 ∨ s = 3 ∨ s = 4)
  | 0 => by
    constructor
    · intro p p1 ty h
      rw [parse_type] at h
      cases h
    · intro p p1 size ty _ h
      rw [parse_vector_type] at h
      cases h
  | n + 1 => by
    obtain ⟨ih1, ih2⟩ := parse_type_sizes_aux n
    constructor
    · intro p p1 ty h
      rw [parse_type] at h
      dsimp only [] at h
      split at h
      · cases h
      · cases h
      · split at h
        · exact ih2 _ _ _ _ (Or.inl rfl) h
        · split at h
          · exact ih2 _ _ _ _ (Or.inr (Or.inl rfl)) h
          · split at h
            · exact ih2 _ _ _ _ (Or.inr (Or.inr rfl)) h
            · cases h
              obtain ⟨hs, hw⟩ := classify_type_sizes (tok_name (p_skip (p_peek p).2) (p_peek p).1)
              exact ⟨hw, by rw [hs]; intro s hs; cases hs⟩
      · cases h
    · intro p p1 size ty hsz h
      rw [parse_vector_type] at h
      dsimp only [] at h
      split at h
      · cases h
      · obtain ⟨sub, p2, hsub, h⟩ := Outcome.bind_eq_ok h
        obtain ⟨hw, hs⟩ := ih1 _ _ _ hsub
        split at h
        · cases h
        · cases h
          constructor
          · rw [Ty.well_sized, Bool.and_eq_true, decide_eq_true_eq]
            refine ⟨?_, hw⟩
            rcases hsz with h | h | h <;> omega
          · intro s hmem
            rw [Ty.sizes] at hmem
            rcases List.mem_cons.mp hmem with h | h
            · rw [h]; exact hsz
            · exact hs s h

/-- Under scopes whose types are well sized, the type `resolve_expr` gives an
expression built by the parser is well sized. -/
theorem resolve_expr_well_sized : ∀ (e : Expr) (ast : AST) (scope : Chain) (e1 : Expr)
    (ast1 : AST), chain_well_sized scope → chain_well_sized [ast.type_scope] →
    e.fresh = true → resolve_expr ast scope e = .ok e1 ast1 →
    ∀ t, e1.type = some t → t.well_sized = true
  | .binary line col lhs rhs op _, ast, scope, e1, ast1, hs, hts, hf, h => by
    rw [Expr.fresh, Bool.and_eq_true] at hf
    rw [resolve_expr] at h
    obtain ⟨lhs1, a1, hl, h⟩ := Outcome.bind_eq_ok h
    obtain ⟨rhs1, a2, hr, h⟩ := Outcome.bind_eq_ok h
    have hfl := Framed.of_eq_ok (resolve_expr_framed lhs ast scope) hl
    have hL := resolve_expr_well_sized lhs ast scope lhs1 a1 hs hts hf.1 hl
    have hR := resolve_expr_well_sized rhs a1 scope rhs1 a2 hs (by rw [hfl.2.2.1]; exact hts)
      hf.2 hr
    cases hlt : lhs1.type with
    | none => rw [hlt] at h; cases h
    | some lt =>
      cases hrt : rhs1.type with
      | none => rw [hlt, hrt] at h; cases h
      | some rt =>
        rw [hlt, hrt] at h
        have hL1 := hL lt hlt
        have hR1 := hR rt hrt
        cases lt <;> cases rt <;> dsimp only [] at h <;>
          first
          | (cases h; intro t ht; cases ht; assumption)
          | cases h
          | (split at h
             · cases h
             · cases h; intro t ht; cases ht; assumption)
          | (split at h
             · cases h
             · split at h
               · cases h
               · cases h; intro t ht; cases ht; assumption)
  | .member line col lhs name entry _, ast, scope, e1, ast1, hs, hts, hf, h => by
    rw [Expr.fresh, Bool.and_eq_true] at hf
    rw [resolve_expr] at h
    obtain ⟨lhs1, a1, hl, h⟩ := Outcome.bind_eq_ok h
    have hL := resolve_expr_well_sized lhs ast scope lhs1 a1 hs hts hf.2 hl
    have hnone : entry = none := by
      cases entry with
      | none => rfl
      | some e => simp at hf
    cases hlt : lhs1.type with
    | none => rw [hlt] at h; cases h
    | some lt =>
      rw [hlt] at h
      have hL1 := hL lt hlt
      cases lt <;> try cases h
      rename_i id entries rec_name
      dsimp only [] at h
      cases hfind : find_record_entry name entries with
      | none =>
        rw [hfind, hnone] at h
        cases h
      | some e =>
        rw [hfind] at h
        cases h
        intro t ht
        cases ht
        rw [Ty.well_sized] at hL1
        exact entries_well_sized_mem entries e hL1 (find_record_entry_mem name entries e hfind)
  | .num line col num _, ast, scope, e1, ast1, hs, hts, hf, h => by
    rw [resolve_expr] at h
    cases h
    intro t ht
    cases ht
    rfl
  | .var line col name _ _, ast, scope, e1, ast1, hs, hts, hf, h => by
    rw [resolve_expr] at h
    split at h
    · cases h
    · rename_i r hr
      cases h
      intro t ht
      exact hs r.2 (lookup_scope_from_mem name scope 0 r hr) t ht
  | .vec line col exprs _, ast, scope, e1, ast1, hs, hts, hf, h => by
    cases exprs with
    | nil => rw [resolve_expr] at h; cases h
    | cons iter rest =>
      rw [Expr.fresh, exprs_fresh, Bool.and_eq_true] at hf
      rw [resolve_expr] at h
      obtain ⟨iter1, a1, hi, h⟩ := Outcome.bind_eq_ok h
      have hI := resolve_expr_well_sized iter ast scope iter1 a1 hs hts hf.1 hi
      cases hit : iter1.type with
      | none => rw [hit] at h; cases h
      | some t0 =>
        rw [hit] at h
        dsimp only [] at h
        obtain ⟨r, a2, hr, h⟩ := Outcome.bind_eq_ok h
        have hsize := resolve_vec_rest_size _ _ _ _ _ _ _ _ _ hr
        have hpos := elem_size_pos (hI t0 hit)
        split at h
        · cases h
        · rename_i hle
          cases h
          intro t ht
          cases ht
          rw [Ty.well_sized, Bool.and_eq_true, decide_eq_true_eq]
          exact ⟨⟨by omega, by omega⟩, first_type_well_sized (hI t0 hit)⟩
  | .record line col name members _ _, ast, scope, e1, ast1, hs, hts, hf, h => by
    obtain ⟨r, hr, ht⟩ := resolve_record_expr_type h
    intro t hty
    rw [ht] at hty
    exact hts r.2 (by simpa [search_order] using lookup_scope_single_mem hr) t hty

theorem Scans.refl_scans (l : Lexer) : Scans l l :=
  ⟨rfl, rfl, rfl, rfl, rfl, Nat.le_refl _, fun h => h⟩

theorem Scans.trans_scans {a b c : Lexer} (h1 : Scans a b) (h2 : Scans b c) : Scans a c where
  src := h2.src.trans h1.src
  src_len := h2.src_len.trans h1.src_len
  result := h2.result.trans h1.result
  has_peek := h2.has_peek.trans h1.has_peek
  peek := h2.peek.trans h1.peek
  cur_le := Nat.le_trans h1.cur_le h2.cur_le
  bound := fun h => h2.bound (h1.bound h)

theorem IS_EOF_eq_false {l : Lexer} : IS_EOF l = false ↔ l.cur < l.src_len := by
  simp [IS_EOF]

theorem IS_EOF_eq_true {l : Lexer} : IS_EOF l = true ↔ l.src_len ≤ l.cur := by
  simp [IS_EOF]

/-- One byte read by `SKIP_C` or `NEXT_C` before the end of the buffer. -/
theorem Scans.skip_c_scans {l : Lexer} (h : IS_EOF l = false) : Scans l (SKIP_C l) where
  src := rfl
  src_len := rfl
  result := rfl
  has_peek := rfl
  peek := rfl
  cur_le := Nat.le_succ _
  bound := fun _ => IS_EOF_eq_false.mp h

theorem Scans.set_pos {l l1 : Lexer} (h : Scans l l1) (line col : Nat) :
    Scans l { l1 with col := col, line := line } :=
  ⟨h.src, h.src_len, h.result, h.has_peek, h.peek, h.cur_le, h.bound⟩

theorem Scans.reset_scans {l l1 : Lexer} (h : Scans l l1) : Scans l (RESET l1) :=
  ⟨h.src, h.src_len, h.result, h.has_peek, h.peek, h.cur_le, h.bound⟩

theorem position_of_succ (src : List Nat) (off : Nat) (h : off < src.length) :
    position_of src (off + 1) = advance (position_of src off) (src.getD off 0) := by
  unfold position_of
  rw [List.take_succ, List.foldl_append, List.getD_eq_getElem?_getD,
    List.getElem?_eq_getElem h]
  rfl

/-- Reading a byte that is neither a newline nor a `#` keeps the tracking. -/
theorem Tracks.skip_c_tracks {l : Lexer} (h : Tracks l) (he : IS_EOF l = false)
    (h10 : PEEK_C l ≠ 10) (h35 : PEEK_C l ≠ 35) : Tracks (SKIP_C l) where
  len := h.len
  cur_le := IS_EOF_eq_false.mp he
  pos := by
    have hlt : l.cur < l.src.length := h.len ▸ IS_EOF_eq_false.mp he
    have hp := h.pos
    have h10a : l.src.getD l.cur 0 ≠ 10 := h10
    simp only [SKIP_C, position_of_succ l.src l.cur hlt, ← hp, advance]
    rw [if_neg h10a]
  no_hash := by
    intro k hk hk35
    simp only [SKIP_C] at hk hk35 ⊢
    rcases Nat.lt_succ_iff_lt_or_eq.mp hk with hk1 | hk1
    · obtain ⟨j, hj1, hj2, hj3⟩ := h.no_hash k hk1 hk35
      exact ⟨j, hj1, Nat.lt_succ_of_lt hj2, hj3⟩
    · rw [hk1] at hk35
      exact absurd hk35 h35

/-- Reading a newline and moving to the next line gives the tracking. -/
theorem Tracks.newline {l : Lexer} (hlen : l.src_len = l.src.length)
    (hpos : (l.line, l.col) = position_of l.src l.cur) (he : IS_EOF l = false)
    (h10 : PEEK_C l = 10) :
    Tracks { SKIP_C l with col := 1, line := (SKIP_C l).line + 1 } where
  len := hlen
  cur_le := IS_EOF_eq_false.mp he
  pos := by
    have hlt : l.cur < l.src.length := hlen ▸ IS_EOF_eq_false.mp he
    have h10a : l.src.getD l.cur 0 = 10 := h10
    simp only [SKIP_C, position_of_succ l.src l.cur hlt, ← hpos, advance, h10a]
    rfl
  no_hash := by
    intro k hk _
    simp only [SKIP_C] at hk ⊢
    exact ⟨l.cur, Nat.lt_succ_iff.mp hk, Nat.lt_succ_self _, h10⟩

theorem isspace_ne_hash {c : Nat} (h : isspace c = true) : c ≠ 35 := by
  intro hc
  rw [hc] at h
  exact absurd h (by decide)

theorem Tracks.reset_tracks {l : Lexer} (h : Tracks l) : Tracks (RESET l) :=
  ⟨h.len, h.cur_le, h.pos, h.no_hash⟩

/-- The loop of `skip_whitespace`: it scans forward, stops before the end
only at a byte that is no whitespace, and keeps the tracking. -/
theorem skip_whitespace_loop_spec : ∀ (n : Nat) (l : Lexer),
    Scans l (skip_whitespace_loop n l) ∧
    (skip_whitespace_loop n l).start = l.start ∧
    (l.src_len - l.cur ≤ n →
      IS_EOF (skip_whitespace_loop n l) = true ∨
        isspace (PEEK_C (skip_whitespace_loop n l)) = false) ∧
    (Tracks l → Tracks (skip_whitespace_loop n l))
  | 0, l => by
    refine ⟨Scans.refl_scans l, rfl, fun h => Or.inl ?_, fun h => h⟩
    rw [skip_whitespace_loop, IS_EOF_eq_true]
    omega
  | n + 1, l => by
    rw [skip_whitespace_loop]
    split
    · rename_i hc
      rw [Bool.and_eq_true, Bool.not_eq_true'] at hc
      obtain ⟨he, hs⟩ := hc
      have hlt := IS_EOF_eq_false.mp he
      by_cases h10 : PEEK_C l = 10
      · obtain ⟨ih1, ih2, ih3, ih4⟩ := skip_whitespace_loop_spec n
          { SKIP_C l with col := 1, line := (SKIP_C l).line + 1 }
        simp only [h10, if_true]
        refine ⟨((Scans.skip_c_scans he).set_pos _ _).trans_scans ih1, ih2, fun hn => ih3 ?_,
          fun ht => ih4 (Tracks.newline ht.len ht.pos he h10)⟩
        simp only [SKIP_C]
        omega
      · obtain ⟨ih1, ih2, ih3, ih4⟩ := skip_whitespace_loop_spec n (SKIP_C l)
        simp only [h10, if_false]
        refine ⟨(Scans.skip_c_scans he).trans_scans ih1, ih2, fun hn => ih3 ?_,
          fun ht => ih4 (ht.skip_c_tracks he h10 (isspace_ne_hash hs))⟩
        simp only [SKIP_C]
        omega
    · rename_i hc
      refine ⟨Scans.refl_scans l, rfl, fun _ => ?_, fun h => h⟩
      cases he : IS_EOF l
      · right
        simpa [he] using hc
      · exact Or.inl rfl

/-- The loop of `skip_whitespace` does nothing at the end of the buffer and
at a byte that is no whitespace. -/
theorem skip_whitespace_loop_stay (n : Nat) (l : Lexer)
    (h : IS_EOF l = true ∨ isspace (PEEK_C l) = false) : skip_whitespace_loop n l = l := by
  cases n with
  | zero => rfl
  | succ n =>
    rw [skip_whitespace_loop, if_neg]
    rcases h with h | h <;> simp [h]

/-- `skip_whitespace`. -/
theorem skip_whitespace_spec (l : Lexer) :
    Scans l (skip_whitespace l).2 ∧
    (skip_whitespace l).2.start = (skip_whitespace l).2.cur ∧
    (skip_whitespace l).1 = !IS_EOF (skip_whitespace l).2 ∧
    ((skip_whitespace l).1 = true → isspace (PEEK_C (skip_whitespace l).2) = false) ∧
    (Tracks l → Tracks (skip_whitespace l).2) := by
  obtain ⟨h1, _, h3, h4⟩ := skip_whitespace_loop_spec (l.src_len - l.cur) l
  refine ⟨h1.reset_scans, rfl, rfl, fun hr => ?_, fun ht => (h4 ht).reset_tracks⟩
  rcases h3 (Nat.le_refl _) with h | h
  · have : IS_EOF (RESET (skip_whitespace_loop (l.src_len - l.cur) l)) = true := h
    simp [skip_whitespace, this] at hr
  · exact h

theorem skip_whitespace_stay (l : Lexer) (he : IS_EOF l = false)
    (hs : isspace (PEEK_C l) = false) : skip_whitespace l = (true, RESET l) := by
  have : IS_EOF (RESET l) = false := he
  simp [skip_whitespace, skip_whitespace_loop_stay _ l (Or.inr hs), this]

theorem skip_whitespace_at_eof (l : Lexer) (he : IS_EOF l = true) :
    skip_whitespace l = (false, RESET l) := by
  have : IS_EOF (RESET l) = true := he
  simp [skip_whitespace, skip_whitespace_loop_stay _ l (Or.inl he), this]

/-- The inner comment loop: it reads at least one byte when there is one,
and stops at the end of the buffer or behind a newline, where moving to the
next line gives the tracking. -/
theorem comment_loop_spec : ∀ (n : Nat) (l : Lexer),
    Scans l (comment_loop n l) ∧
    (comment_loop n l).start = l.start ∧
    (IS_EOF l = false → 0 < n → l.cur < (comment_loop n l).cur) ∧
    (l.src_len - l.cur ≤ n → l.src_len = l.src.length →
      (l.line, l.col) = position_of l.src l.cur →
      IS_EOF (comment_loop n l) = true ∨
        Tracks { comment_loop n l with col := 1, line := (comment_loop n l).line + 1 })
  | 0, l => by
    refine ⟨Scans.refl_scans l, rfl, fun _ h => absurd h (Nat.lt_irrefl 0), fun h _ _ =>
      Or.inl ?_⟩
    rw [comment_loop, IS_EOF_eq_true]
    omega
  | n + 1, l => by
    rw [comment_loop]
    cases he : IS_EOF l with
    | true =>
      rw [if_pos rfl]
      exact ⟨Scans.refl_scans l, rfl, fun h => absurd h (by simp), fun _ _ _ => Or.inl he⟩
    | false =>
      have hlt := IS_EOF_eq_false.mp he
      simp only [Bool.false_eq_true, if_false, NEXT_C]
      by_cases h10 : l.src.getD l.cur 0 = 10
      · simp only [h10, bne_self_eq_false, Bool.false_eq_true, if_false]
        refine ⟨Scans.skip_c_scans he, rfl, fun _ _ => Nat.lt_succ_self _, fun _ hlen hpos =>
          Or.inr (Tracks.newline hlen hpos he h10)⟩
      · have hne : (l.src.getD l.cur 0 != 10) = true := by simpa using h10
        simp only [hne, if_true]
        obtain ⟨ih1, ih2, _, ih4⟩ := comment_loop_spec n (SKIP_C l)
        refine ⟨(Scans.skip_c_scans he).trans_scans ih1, ih2, fun _ _ =>
          Nat.lt_of_lt_of_le (Nat.lt_succ_self _) ih1.cur_le, fun hn hlen hpos =>
          ih4 ?_ hlen ?_⟩
        · simp only [SKIP_C]
          omega
        · have hl : l.cur < l.src.length := hlen ▸ hlt
          simp only [SKIP_C, position_of_succ l.src l.cur hl, ← hpos, advance]
          rw [if_neg h10]

/-- The comment loop of `next_token`, entered at a byte that is no whitespace
with `start` reset: either it returns the `EOF` token at the end of the
buffer, or it stops at a byte that is neither whitespace nor `#`. -/
theorem hash_loop_spec : ∀ (n : Nat) (l : Lexer) (r : Option Token × Nat × Lexer),
    hash_loop n (PEEK_C l) l = r →
    IS_EOF l = false → isspace (PEEK_C l) = false → l.start = l.cur →
    l.src_len - l.cur ≤ n →
    Scans l r.2.2 ∧
    ((r.1 = some (fill_token r.2.2 TOKEN_EOF) ∧ IS_EOF r.2.2 = true) ∨
      (r.1 = none ∧ r.2.1 = PEEK_C r.2.2 ∧ IS_EOF r.2.2 = false ∧
        isspace (PEEK_C r.2.2) = false ∧ PEEK_C r.2.2 ≠ 35 ∧ r.2.2.start = r.2.2.cur ∧
        (Tracks l → Tracks r.2.2))) ∧
    (PEEK_C l ≠ 35 → r = (none, PEEK_C l, l))
  | 0, l, r, _, he, _, _, hn => by
    have := IS_EOF_eq_false.mp he
    omega
  | n + 1, l, r, hr, he, hs, hst, hn => by
    have hlt := IS_EOF_eq_false.mp he
    rw [hash_loop] at hr
    by_cases h35 : PEEK_C l = 35
    · rw [if_pos h35] at hr
      obtain ⟨c1, c2, c3, c4⟩ := comment_loop_spec (l.src_len - l.cur) l
      have hprog := c3 he (by omega)
      cases he1 : IS_EOF (comment_loop (l.src_len - l.cur) l) with
      | true =>
        simp only [he1, if_true] at hr
        subst hr
        exact ⟨c1, Or.inl ⟨rfl, he1⟩, fun h => absurd h35 h⟩
      | false =>
        simp only [he1, Bool.false_eq_true, if_false] at hr
        obtain ⟨w1, w2, w3, w4, w5⟩ := skip_whitespace_spec
          { comment_loop (l.src_len - l.cur) l with
            col := 1, line := (comment_loop (l.src_len - l.cur) l).line + 1 }
        have hsc : Scans l (skip_whitespace
            { comment_loop (l.src_len - l.cur) l with
              col := 1, line := (comment_loop (l.src_len - l.cur) l).line + 1 }).2 :=
          (c1.set_pos _ _).trans_scans w1
        cases hw : (skip_whitespace
            { comment_loop (l.src_len - l.cur) l with
              col := 1, line := (comment_loop (l.src_len - l.cur) l).line + 1 }).1 with
        | false =>
          simp only [hw, Bool.not_false, if_true] at hr
          subst hr
          refine ⟨hsc, Or.inl ⟨rfl, ?_⟩, fun h => absurd h35 h⟩
          rw [hw] at w3
          simpa using w3.symm
        | true =>
          simp only [hw, Bool.not_true, Bool.false_eq_true, if_false] at hr
          have hne : IS_EOF (skip_whitespace
              { comment_loop (l.src_len - l.cur) l with
                col := 1, line := (comment_loop (l.src_len - l.cur) l).line + 1 }).2 =
              false := by
            rw [hw] at w3
            simpa using w3.symm
          have hfuel : (skip_whitespace
              { comment_loop (l.src_len - l.cur) l with
                col := 1, line := (comment_loop (l.src_len - l.cur) l).line + 1 }).2.src_len -
              (skip_whitespace
              { comment_loop (l.src_len - l.cur) l with
                col := 1, line := (comment_loop (l.src_len - l.cur) l).line + 1 }).2.cur ≤ n := by
            have h1 := hsc.src_len
            have h2 : (comment_loop (l.src_len - l.cur) l).cur ≤ _ := w1.cur_le
            omega
          obtain ⟨i1, i2, _⟩ := hash_loop_spec n _ r hr hne (w4 hw) w2 hfuel
          refine ⟨hsc.trans_scans i1, ?_, fun h => absurd h35 h⟩
          rcases i2 with i2 | ⟨j1, j2, j3, j4, j5, j6, j7⟩
          · exact Or.inl i2
          · refine Or.inr ⟨j1, j2, j3, j4, j5, j6, fun ht => j7 (w5 ?_)⟩
            rcases c4 (Nat.le_refl _) ht.len ht.pos with h | h
            · rw [he1] at h; cases h
            · exact h
    · rw [if_neg h35] at hr
      subst hr
      exact ⟨Scans.refl_scans l, Or.inr ⟨rfl, rfl, he, hs, h35, hst, fun h => h⟩, fun _ => rfl⟩

theorem Lexer.forward_zero (l : Lexer) : l.forward 0 = l := rfl

theorem Lexer.forward_skip_c (l : Lexer) (k : Nat) : (SKIP_C l).forward k = l.forward (k + 1) := by
  simp only [Lexer.forward, SKIP_C, Nat.add_assoc, Nat.add_comm 1 k]

theorem run_of_eof (pred : Nat → Bool) (src : List Nat) (off : Nat) (h : src.length ≤ off) :
    run pred src off = [] := by
  simp [run, List.drop_eq_nil_of_le h]

theorem run_cons (pred : Nat → Bool) (src : List Nat) (off : Nat) (h : off < src.length)
    (hp : pred (src.getD off 0) = true) :
    run pred src off = src.getD off 0 :: run pred src (off + 1) := by
  unfold run
  rw [List.getD_eq_getElem _ _ h] at hp ⊢
  rw [List.drop_eq_getElem_cons h, List.takeWhile_cons, if_pos hp]

theorem run_stop (pred : Nat → Bool) (src : List Nat) (off : Nat) (h : off < src.length)
    (hp : pred (src.getD off 0) = false) : run pred src off = [] := by
  unfold run
  rw [List.getD_eq_getElem _ _ h] at hp
  rw [List.drop_eq_getElem_cons h, List.takeWhile_cons, if_neg (by simp [hp])]

/-- The bytes of a run satisfy the predicate and lie in the source. -/
theorem run_spec (pred : Nat → Bool) (src : List Nat) : ∀ (k off : Nat),
    off ≤ src.length → k = (run pred src off).length →
    off + k ≤ src.length ∧ (∀ j, j < k → pred (src.getD (off + j) 0) = true) ∧
      (off + k < src.length → pred (src.getD (off + k) 0) = false) ∧
      run pred src off = (src.drop off).take k
  | 0, off, hoff, hk => by
    have hnil : run pred src off = [] := List.eq_nil_of_length_eq_zero hk.symm
    by_cases h : off < src.length
    · refine ⟨Nat.le_of_lt h, fun j hj => absurd hj (Nat.not_lt_zero j), fun _ => ?_, by
        simp [hnil]⟩
      cases hp : pred (src.getD off 0)
      · exact hp
      · rw [run_cons pred src off h hp] at hnil
        cases hnil
    · exact ⟨by omega, fun j hj => absurd hj (Nat.not_lt_zero j), fun h1 => absurd h1 h, by
        simp [hnil]⟩
  | k + 1, off, hoff, hk => by
    by_cases h : off < src.length
    · cases hp : pred (src.getD off 0)
      · rw [run_stop pred src off h hp] at hk
        cases hk
      · rw [run_cons pred src off h hp] at hk ⊢
        have hk1 : k = (run pred src (off + 1)).length := by simpa using hk
        obtain ⟨i1, i2, i3, i4⟩ := run_spec pred src k (off + 1) h hk1
        refine ⟨by omega, fun j hj => ?_, fun h1 => ?_, ?_⟩
        · cases j with
          | zero => exact hp
          | succ j =>
            have := i2 j (by omega)
            rwa [show off + 1 + j = off + (j + 1) by omega] at this
        · have := i3 (by omega)
          rwa [show off + 1 + k = off + (k + 1) by omega] at this
        · rw [i4, List.drop_eq_getElem_cons h, List.take_succ_cons,
            List.getD_eq_getElem _ _ h]
    · rw [run_of_eof pred src off (by omega)] at hk
      cases hk

/-- The symbol loop reads the longest run of symbol bytes. -/
theorem lex_sym_loop_eq : ∀ (n : Nat) (l : Lexer), l.src_len = l.src.length →
    l.src_len - l.cur ≤ n →
    lex_sym_loop n l = l.forward (run is_sym_byte l.src l.cur).length
  | 0, l, hlen, hn => by
    rw [lex_sym_loop, run_of_eof _ _ _ (by omega)]
    rfl
  | n + 1, l, hlen, hn => by
    rw [lex_sym_loop]
    cases he : IS_EOF l with
    | true =>
      rw [run_of_eof _ _ _ (by have := IS_EOF_eq_true.mp he; omega)]
      simp
      rfl
    | false =>
      have hlt : l.cur < l.src.length := hlen ▸ IS_EOF_eq_false.mp he
      cases hp : is_sym_byte (PEEK_C l) with
      | true =>
        have hp1 : (isalpha (PEEK_C l) || isdigit (PEEK_C l) || PEEK_C l == 95) = true := hp
        rw [if_pos (by simp [hp1])]
        rw [run_cons _ _ _ hlt hp, List.length_cons, ← Lexer.forward_skip_c]
        exact lex_sym_loop_eq n (SKIP_C l) hlen (by simp only [SKIP_C]; omega)
      | false =>
        have hp1 : (isalpha (PEEK_C l) || isdigit (PEEK_C l) || PEEK_C l == 95) = false := hp
        rw [if_neg (by simp [hp1]), run_stop _ _ _ hlt hp]
        rfl

theorem Scans.forward_scans (l : Lexer) (k : Nat) (h : l.cur + k ≤ l.src_len) :
    Scans l (l.forward k) :=
  ⟨rfl, rfl, rfl, rfl, rfl, Nat.le_add_right _ _, fun _ => h⟩

/-- Reading `k` bytes that are neither newlines nor `#` keeps the tracking. -/
theorem Tracks.forward_tracks {l : Lexer} (h : Tracks l) : ∀ (k : Nat), l.cur + k ≤ l.src_len →
    (∀ j, j < k → l.src.getD (l.cur + j) 0 ≠ 10 ∧ l.src.getD (l.cur + j) 0 ≠ 35) →
    Tracks (l.forward k)
  | 0, _, _ => h
  | k + 1, hk, hb => by
    have ih := Tracks.forward_tracks h k (by omega) (fun j hj => hb j (by omega))
    have he : IS_EOF (l.forward k) = false := by
      rw [IS_EOF_eq_false]
      show l.cur + k < l.src_len
      omega
    exact ih.skip_c_tracks he (hb k (Nat.lt_succ_self k)).1 (hb k (Nat.lt_succ_self k)).2

theorem slice_length (src : List Nat) (off len : Nat) (h : off + len ≤ src.length) :
    (slice src off len).length = len := by
  simp [slice]
  omega

theorem classify_fold (src : List Nat) : ∀ (kws : List (TokenType × List Nat)) (tok : Token),
    kws.foldl
      (fun tk kw => if kw.2.length = tk.size ∧ slice src tk.data tk.size = kw.2
        then { tk with t := kw.1 } else tk) tok =
    { tok with t := (kws.foldl (fun t kw =>
        if kw.2.length = tok.size ∧ slice src tok.data tok.size = kw.2 then kw.1 else t)
      tok.t) }
  | [], tok => rfl
  | kw :: kws, tok => by
    rw [List.foldl_cons, List.foldl_cons, classify_fold src kws]
    split <;> rfl

/-- The keyword loop of `lex_sym` on a symbol token whose slice lies in the
source. -/
theorem classify_keyword_eq (src : List Nat) (tok : Token) (ht : tok.t = TOKEN_SYM)
    (hlen : (slice src tok.data tok.size).length = tok.size) :
    classify_keyword src tok =
      { tok with t := keyword_kind (slice src tok.data tok.size) } := by
  rw [classify_keyword, classify_fold, ht]
  congr 1
  generalize hx : slice src tok.data tok.size = x at hlen
  generalize tok.size = size at hlen
  subst hlen
  simp only [keyword_to_token_type, List.foldl, keyword_kind]
  by_cases h1 : x = bytes "proc"
  · subst h1; decide
  · by_cases h2 : x = bytes "record"
    · subst h2; decide
    · by_cases h3 : x = bytes "var"
      · subst h3; decide
      · by_cases h4 : x = bytes "return"
        · subst h4; decide
        · by_cases h5 : x = bytes "end"
          · subst h5; decide
          · simp [h1, h2, h3, h4, h5]

/-- The symbol scanner, entered with `start` at the cursor. -/
theorem lex_sym_eq (l : Lexer) (hlen : l.src_len = l.src.length) (hcur : l.cur ≤ l.src_len)
    (hst : l.start = l.cur) :
    lex_sym l =
      ({ t := keyword_kind (run is_sym_byte l.src l.cur), line := l.line,
         col := l.col + (run is_sym_byte l.src l.cur).length, data := l.cur,
         size := (run is_sym_byte l.src l.cur).length, num := Number.int 0 },
       RESET (l.forward (run is_sym_byte l.src l.cur).length)) := by
  obtain ⟨r1, _, _, r4⟩ := run_spec is_sym_byte l.src _ l.cur (hlen ▸ hcur) rfl
  have hsl : slice l.src l.cur (run is_sym_byte l.src l.cur).length =
      run is_sym_byte l.src l.cur := r4.symm
  rw [lex_sym, lex_sym_loop_eq _ l hlen (Nat.le_refl _)]
  simp only [Lexer.forward, fill_token, empty_token, hst, Nat.add_sub_cancel_left]
  rw [classify_keyword_eq _ _ rfl (by simp only [hsl])]
  simp only [hsl]

theorem wrap64_modEq (x : Int) : wrap64 x ≡ x [ZMOD 2 ^ 64] := by
  unfold wrap64 Int.ModEq
  omega

theorem wrap64_congr {x y : Int} (h : x ≡ y [ZMOD 2 ^ 64]) : wrap64 x = wrap64 y := by
  unfold wrap64
  unfold Int.ModEq at h
  omega

theorem wrap64_idem (x : Int) : wrap64 (wrap64 x) = wrap64 x :=
  wrap64_congr (wrap64_modEq x)

theorem wrap64_range (x : Int) : -2 ^ 63 ≤ wrap64 x ∧ wrap64 x < 2 ^ 63 := by
  unfold wrap64
  omega

theorem wrap64_of_range {x : Int} (h1 : -2 ^ 63 ≤ x) (h2 : x < 2 ^ 63) : wrap64 x = x := by
  unfold wrap64
  omega

theorem digits_acc_congr (ds : List Nat) : ∀ {a b : Int}, a ≡ b [ZMOD 2 ^ 64] →
    digits_acc a ds ≡ digits_acc b ds [ZMOD 2 ^ 64] := by
  induction ds with
  | nil => intro a b h; exact h
  | cons c ds ih =>
    intro a b h
    simp only [digits_acc, List.foldl_cons]
    exact ih ((h.mul_right 10).add_right _)

theorem digits_acc_cons (a : Int) (c : Nat) (ds : List Nat) :
    digits_acc a (c :: ds) = digits_acc (a * 10 + (Int.ofNat c - 48)) ds := rfl

/-- The digit loop of `lex_num` reads the longest run of digits and
accumulates its value with wrap-around. -/
theorem lex_num_int_loop_eq : ∀ (n : Nat) (l : Lexer) (i : Int) (c : Nat),
    l.src_len = l.src.length → l.src_len - l.cur ≤ n →
    ∃ c1, lex_num_int_loop n l i c =
        (l.forward (run isdigit l.src l.cur).length,
          (if (run isdigit l.src l.cur).length = 0 then i
            else wrap64 (digits_acc i (run isdigit l.src l.cur))), c1) ∧
      (IS_EOF (l.forward (run isdigit l.src l.cur).length) = false →
        c1 = PEEK_C (l.forward (run isdigit l.src l.cur).length))
  | 0, l, i, c, hlen, hn => by
    rw [lex_num_int_loop, run_of_eof _ _ _ (by omega)]
    refine ⟨c, rfl, fun h => ?_⟩
    have := IS_EOF_eq_false.mp h
    simp only [Lexer.forward, List.length_nil, Nat.add_zero] at this
    omega
  | n + 1, l, i, c, hlen, hn => by
    rw [lex_num_int_loop]
    cases he : IS_EOF l with
    | true =>
      rw [run_of_eof _ _ _ (by have := IS_EOF_eq_true.mp he; omega)]
      refine ⟨c, by simp; rfl, fun h => ?_⟩
      rw [show l.forward ([] : List Nat).length = l from rfl, he] at h
      cases h
    | false =>
      have hlt : l.cur < l.src.length := hlen ▸ IS_EOF_eq_false.mp he
      simp only [Bool.false_eq_true, if_false]
      cases hp : isdigit (PEEK_C l) with
      | true =>
        simp only [if_true]
        obtain ⟨c1, ih1, ih2⟩ := lex_num_int_loop_eq n (SKIP_C l)
          (wrap64 (wrap64 (i * 10) + (Int.ofNat (PEEK_C l) - 48))) (PEEK_C l) hlen
          (by simp only [SKIP_C]; omega)
        refine ⟨c1, ?_, ?_⟩
        · rw [show (NEXT_C l).2 = SKIP_C l from rfl, ih1, run_cons _ _ _ hlt hp,
            List.length_cons, ← Lexer.forward_skip_c]
          simp only [SKIP_C, Nat.succ_ne_zero, if_false]
          congr 2
          have hstep : wrap64 (wrap64 (i * 10) + (Int.ofNat (PEEK_C l) - 48)) ≡
              i * 10 + (Int.ofNat (PEEK_C l) - 48) [ZMOD 2 ^ 64] :=
            (wrap64_modEq _).trans ((wrap64_modEq _).add_right _)
          rw [digits_acc_cons]
          split
          · rename_i h0
            rw [List.eq_nil_of_length_eq_zero h0]
            exact (wrap64_idem _).symm.trans (wrap64_congr hstep)
          · exact wrap64_congr (digits_acc_congr _ hstep)
        · rw [run_cons _ _ _ hlt hp, List.length_cons, ← Lexer.forward_skip_c]
          exact ih2
      | false =>
        simp only [Bool.false_eq_true, if_false]
        rw [run_stop _ _ _ hlt hp]
        exact ⟨PEEK_C l, rfl, fun _ => rfl⟩

/-- The fraction loop of `lex_num` reads the longest run of digits. -/
theorem lex_num_frac_loop_eq : ∀ (n : Nat) (l : Lexer) (ds : List Nat),
    l.src_len = l.src.length → l.src_len - l.cur ≤ n →
    lex_num_frac_loop n l ds =
      (l.forward (run isdigit l.src l.cur).length,
        ds ++ (run isdigit l.src l.cur).map (fun c => c - 48))
  | 0, l, ds, hlen, hn => by
    rw [lex_num_frac_loop, run_of_eof _ _ _ (by omega)]
    simp
    rfl
  | n + 1, l, ds, hlen, hn => by
    rw [lex_num_frac_loop]
    cases he : IS_EOF l with
    | true =>
      rw [run_of_eof _ _ _ (by have := IS_EOF_eq_true.mp he; omega)]
      simp
      rfl
    | false =>
      have hlt : l.cur < l.src.length := hlen ▸ IS_EOF_eq_false.mp he
      cases hp : isdigit (PEEK_C l) with
      | true =>
        simp only [Bool.not_false, Bool.true_and, if_true]
        rw [show (NEXT_C l).2 = SKIP_C l from rfl,
          lex_num_frac_loop_eq n (SKIP_C l) _ hlen (by simp only [SKIP_C]; omega),
          run_cons _ _ _ hlt hp, List.length_cons, ← Lexer.forward_skip_c]
        simp [SKIP_C, PEEK_C]
      | false =>
        simp only [Bool.not_false, Bool.true_and, Bool.false_eq_true, if_false]
        rw [run_stop _ _ _ hlt hp]
        simp
        rfl

theorem digits_acc_nil_wrap : wrap64 (digits_acc 0 []) = 0 := by
  simp [digits_acc, wrap64]

/-- The number scanner: an integer when the run of digits is not followed by
a period, else a real that takes the period and the digits after it. -/
theorem lex_num_eq (l : Lexer) (hlen : l.src_len = l.src.length) :
    lex_num l =
      if l.cur + (run isdigit l.src l.cur).length < l.src_len ∧
          l.src.getD (l.cur + (run isdigit l.src l.cur).length) 0 = 46 then
        ({ t := TOKEN_NUM, line := l.line,
           col := l.col + ((run isdigit l.src l.cur).length + 1 +
             (run isdigit l.src (l.cur + (run isdigit l.src l.cur).length + 1)).length),
           data := 0, size := 0,
           num := Number.real (wrap64 (digits_acc 0 (run isdigit l.src l.cur)))
             ((run isdigit l.src (l.cur + (run isdigit l.src l.cur).length + 1)).map
               (fun c => c - 48)) },
         RESET (l.forward ((run isdigit l.src l.cur).length + 1 +
           (run isdigit l.src (l.cur + (run isdigit l.src l.cur).length + 1)).length)))
      else
        ({ t := TOKEN_NUM, line := l.line, col := l.col + (run isdigit l.src l.cur).length,
           data := 0, size := 0,
           num := Number.int (wrap64 (digits_acc 0 (run isdigit l.src l.cur))) },
         RESET (l.forward (run isdigit l.src l.cur).length)) := by
  obtain ⟨c1, h1, h2⟩ := lex_num_int_loop_eq (l.src_len - l.cur) l 0 0 hlen (Nat.le_refl _)
  have hv : (if (run isdigit l.src l.cur).length = 0 then (0 : Int)
      else wrap64 (digits_acc 0 (run isdigit l.src l.cur))) =
      wrap64 (digits_acc 0 (run isdigit l.src l.cur)) := by
    split
    · rename_i h0
      rw [List.eq_nil_of_length_eq_zero h0, digits_acc_nil_wrap]
    · rfl
  rw [hv] at h1
  rw [lex_num, h1]
  simp only []
  cases he : IS_EOF (l.forward (run isdigit l.src l.cur).length) with
  | true =>
    have := IS_EOF_eq_true.mp he
    simp only [Lexer.forward] at this
    rw [if_neg (by simp), if_neg (by omega)]
    rfl
  | false =>
    have hlt := IS_EOF_eq_false.mp he
    simp only [Lexer.forward] at hlt
    rw [h2 he]
    by_cases h46 : l.src.getD (l.cur + (run isdigit l.src l.cur).length) 0 = 46
    · have hp : PEEK_C (l.forward (run isdigit l.src l.cur).length) = 46 := h46
      rw [if_pos (by simp [hp]), if_pos ⟨hlt, h46⟩]
      rw [show (NEXT_C (l.forward (run isdigit l.src l.cur).length)).2 =
        SKIP_C (l.forward (run isdigit l.src l.cur).length) from rfl,
        lex_num_frac_loop_eq _ (SKIP_C (l.forward (run isdigit l.src l.cur).length)) []
          hlen (Nat.le_refl _)]
      simp only [SKIP_C, Lexer.forward, fill_token, empty_token, RESET, List.nil_append,
        Nat.add_assoc]
    · have hp : PEEK_C (l.forward (run isdigit l.src l.cur).length) ≠ 46 := h46
      rw [if_neg (by simp [hp]), if_neg (fun h => h46 h.2)]
      rfl

theorem isdigit_ne {c : Nat} (h : isdigit c = true) : c ≠ 10 ∧ c ≠ 35 := by
  simp only [isdigit, Bool.and_eq_true, decide_eq_true_eq] at h
  omega

theorem is_sym_byte_ne {c : Nat} (h : is_sym_byte c = true) : c ≠ 10 ∧ c ≠ 35 := by
  simp only [is_sym_byte, isalpha, isdigit, Bool.or_eq_true, Bool.and_eq_true,
    decide_eq_true_eq, beq_iff_eq] at h
  omega

/-- What the skipping at the start of `next_token` reaches: the end of the
buffer, or a byte that is neither whitespace nor `#`, with `start` reset. -/
theorem skip_phase_spec (l : Lexer) :
    Scans l (skip_phase l).2 ∧
    (((skip_phase l).1 = some (fill_token (skip_phase l).2 TOKEN_EOF) ∧
        IS_EOF (skip_phase l).2 = true) ∨
      ((skip_phase l).1 = none ∧ IS_EOF (skip_phase l).2 = false ∧
        isspace (PEEK_C (skip_phase l).2) = false ∧ PEEK_C (skip_phase l).2 ≠ 35 ∧
        (skip_phase l).2.start = (skip_phase l).2.cur ∧
        (Tracks l → Tracks (skip_phase l).2))) := by
  obtain ⟨w1, w2, w3, w4, w5⟩ := skip_whitespace_spec l
  rw [skip_phase]
  cases hw : (skip_whitespace l).1 with
  | false =>
    rw [if_pos (by simp)]
    refine ⟨w1, Or.inl ⟨rfl, ?_⟩⟩
    rw [hw] at w3
    simpa using w3.symm
  | true =>
    rw [if_neg (by simp)]
    have hne : IS_EOF (skip_whitespace l).2 = false := by
      rw [hw] at w3
      simpa using w3.symm
    obtain ⟨i1, i2, _⟩ := hash_loop_spec _ _ _ rfl hne (w4 hw) w2 (Nat.le_refl _)
    refine ⟨w1.trans_scans i1, ?_⟩
    rcases i2 with i2 | ⟨j1, _, j3, j4, j5, j6, j7⟩
    · exact Or.inl i2
    · exact Or.inr ⟨j1, j3, j4, j5, j6, fun ht => j7 (w5 ht)⟩

/-- Nothing is skipped at a byte that is neither whitespace nor `#`. -/
theorem skip_phase_stay (l : Lexer) (he : IS_EOF l = false) (hs : isspace (PEEK_C l) = false)
    (h35 : PEEK_C l ≠ 35) : skip_phase l = (none, RESET l) := by
  have hne : IS_EOF (RESET l) = false := he
  obtain ⟨_, _, i3⟩ := hash_loop_spec ((RESET l).src_len - (RESET l).cur) (RESET l) _ rfl hne hs
    rfl (Nat.le_refl _)
  rw [skip_phase, skip_whitespace_stay l he hs, if_neg (by simp), i3 h35]

/-- At the end of the buffer the skipping gives the `EOF` token. -/
theorem skip_phase_at_eof (l : Lexer) (he : IS_EOF l = true) :
    skip_phase l = (some (fill_token (RESET l) TOKEN_EOF), RESET l) := by
  rw [skip_phase, skip_whitespace_at_eof l he, if_pos (by simp)]

/-- The chain of tests of `next_token` after the skipping is `scan_token`. -/
theorem dispatch_eq (c : Nat) (l1 : Lexer) :
    (if isalpha c || c == 95 then lex_sym l1
      else if isdigit c then lex_num l1
      else if c = 58 then punct l1 TOKEN_COLON
      else if c = 46 then punct l1 TOKEN_PERIOD
      else if c = 44 then punct l1 TOKEN_COMMA
      else if c = 61 then punct l1 TOKEN_EQ
      else if c = 43 then punct l1 TOKEN_ADD
      else if c = 45 then punct l1 TOKEN_SUB
      else if c = 42 then punct l1 TOKEN_MUL
      else if c = 47 then punct l1 TOKEN_DIV
      else if c = 62 then punct l1 TOKEN_GT
      else if c = 60 then punct l1 TOKEN_LT
      else if c = 123 then punct l1 TOKEN_LCURLY
      else if c = 125 then punct l1 TOKEN_RCURLY
      else if c = 91 then punct l1 TOKEN_LBRACK
      else if c = 93 then punct l1 TOKEN_RBRACK
      else if c = 40 then punct l1 TOKEN_LPAREN
      else if c = 41 then punct l1 TOKEN_RPAREN
      else
        (fill_token (lexer_error l1 ("unknown char '" ++ fmt_char (l1.src.getD l1.cur 0) ++ "'"))
           TOKEN_ERR,
         lexer_error l1 ("unknown char '" ++ fmt_char (l1.src.getD l1.cur 0) ++ "'"))) =
      scan_token c l1 := by
  unfold scan_token punct_type
  by_cases h0 : (isalpha c || c == 95) = true
  · rw [if_pos h0, if_pos h0]
  rw [if_neg h0, if_neg h0]
  by_cases h1 : isdigit c = true
  · rw [if_pos h1, if_pos h1]
  rw [if_neg h1, if_neg h1]
  by_cases h58 : c = 58
  · rw [if_pos h58, if_pos h58]
  rw [if_neg h58, if_neg h58]
  by_cases h46 : c = 46
  · rw [if_pos h46, if_pos h46]
  rw [if_neg h46, if_neg h46]
  by_cases h44 : c = 44
  · rw [if_pos h44, if_pos h44]
  rw [if_neg h44, if_neg h44]
  by_cases h61 : c = 61
  · rw [if_pos h61, if_pos h61]
  rw [if_neg h61, if_neg h61]
  by_cases h43 : c = 43
  · rw [if_pos h43, if_pos h43]
  rw [if_neg h43, if_neg h43]
  by_cases h45 : c = 45
  · rw [if_pos h45, if_pos h45]
  rw [if_neg h45, if_neg h45]
  by_cases h42 : c = 42
  · rw [if_pos h42, if_pos h42]
  rw [if_neg h42, if_neg h42]
  by_cases h47 : c = 47
  · rw [if_pos h47, if_pos h47]
  rw [if_neg h47, if_neg h47]
  by_cases h62 : c = 62
  · rw [if_pos h62, if_pos h62]
  rw [if_neg h62, if_neg h62]
  by_cases h60 : c = 60
  · rw [if_pos h60, if_pos h60]
  rw [if_neg h60, if_neg h60]
  by_cases h123 : c = 123
  · rw [if_pos h123, if_pos h123]
  rw [if_neg h123, if_neg h123]
  by_cases h125 : c = 125
  · rw [if_pos h125, if_pos h125]
  rw [if_neg h125, if_neg h125]
  by_cases h91 : c = 91
  · rw [if_pos h91, if_pos h91]
  rw [if_neg h91, if_neg h91]
  by_cases h93 : c = 93
  · rw [if_pos h93, if_pos h93]
  rw [if_neg h93, if_neg h93]
  by_cases h40 : c = 40
  · rw [if_pos h40, if_pos h40]
  rw [if_neg h40, if_neg h40]
  by_cases h41 : c = 41
  · rw [if_pos h41, if_pos h41]
  rw [if_neg h41, if_neg h41]

/-- `next_token` is the skipping followed by the scan of one token. -/
theorem next_token_eq (l : Lexer) :
    next_token l =
      match (skip_phase l).1 with
      | some tok => (tok, (skip_phase l).2)
      | none => scan_token (PEEK_C (skip_phase l).2) (skip_phase l).2 := by
  obtain ⟨w1, w2, w3, w4, w5⟩ := skip_whitespace_spec l
  rw [next_token, skip_phase]
  cases hw : (skip_whitespace l).1 with
  | false => simp
  | true =>
    have hne : IS_EOF (skip_whitespace l).2 = false := by
      rw [hw] at w3
      simpa using w3.symm
    obtain ⟨_, i2, _⟩ := hash_loop_spec _ _ _ rfl hne (w4 hw) w2 (Nat.le_refl _)
    simp only [Bool.not_true, Bool.false_eq_true, if_false]
    rcases i2 with ⟨i2, _⟩ | ⟨j1, j2, _⟩
    · rw [i2]
    · rw [j1]
      simp only []
      rw [← j2]
      exact dispatch_eq _ _

theorem keyword_kind_ne (x : List Nat) :
    keyword_kind x ≠ TOKEN_EOF ∧ keyword_kind x ≠ TOKEN_ERR := by
  unfold keyword_kind
  split_ifs <;> exact ⟨by decide, by decide⟩

theorem punct_type_some {c : Nat} {t : TokenType} (h : punct_type c = some t) :
    t ≠ TOKEN_EOF ∧ t ≠ TOKEN_ERR ∧ c ≠ 10 ∧ c ≠ 35 := by
  unfold punct_type at h
  by_cases h58 : c = 58
  · rw [if_pos h58] at h
    cases h
    subst h58
    exact ⟨by decide, by decide, by decide, by decide⟩
  rw [if_neg h58] at h
  by_cases h46 : c = 46
  · rw [if_pos h46] at h
    cases h
    subst h46
    exact ⟨by decide, by decide, by decide, by decide⟩
  rw [if_neg h46] at h
  by_cases h44 : c = 44
  · rw [if_pos h44] at h
    cases h
    subst h44
    exact ⟨by decide, by decide, by decide, by decide⟩
  rw [if_neg h44] at h
  by_cases h61 : c = 61
  · rw [if_pos h61] at h
    cases h
    subst h61
    exact ⟨by decide, by decide, by decide, by decide⟩
  rw [if_neg h61] at h
  by_cases h43 : c = 43
  · rw [if_pos h43] at h
    cases h
    subst h43
    exact ⟨by decide, by decide, by decide, by decide⟩
  rw [if_neg h43] at h
  by_cases h45 : c = 45
  · rw [if_pos h45] at h
    cases h
    subst h45
    exact ⟨by decide, by decide, by decide, by decide⟩
  rw [if_neg h45] at h
  by_cases h42 : c = 42
  · rw [if_pos h42] at h
    cases h
    subst h42
    exact ⟨by decide, by decide, by decide, by decide⟩
  rw [if_neg h42] at h
  by_cases h47 : c = 47
  · rw [if_pos h47] at h
    cases h
    subst h47
    exact ⟨by decide, by decide, by decide, by decide⟩
  rw [if_neg h47] at h
  by_cases h62 : c = 62
  · rw [if_pos h62] at h
    cases h
    subst h62
    exact ⟨by decide, by decide, by decide, by decide⟩
  rw [if_neg h62] at h
  by_cases h60 : c = 60
  · rw [if_pos h60] at h
    cases h
    subst h60
    exact ⟨by decide, by decide, by decide, by decide⟩
  rw [if_neg h60] at h
  by_cases h123 : c = 123
  · rw [if_pos h123] at h
    cases h
    subst h123
    exact ⟨by decide, by decide, by decide, by decide⟩
  rw [if_neg h123] at h
  by_cases h125 : c = 125
  · rw [if_pos h125] at h
    cases h
    subst h125
    exact ⟨by decide, by decide, by decide, by decide⟩
  rw [if_neg h125] at h
  by_cases h91 : c = 91
  · rw [if_pos h91] at h
    cases h
    subst h91
    exact ⟨by decide, by decide, by decide, by decide⟩
  rw [if_neg h91] at h
  by_cases h93 : c = 93
  · rw [if_pos h93] at h
    cases h
    subst h93
    exact ⟨by decide, by decide, by decide, by decide⟩
  rw [if_neg h93] at h
  by_cases h40 : c = 40
  · rw [if_pos h40] at h
    cases h
    subst h40
    exact ⟨by decide, by decide, by decide, by decide⟩
  rw [if_neg h40] at h
  by_cases h41 : c = 41
  · rw [if_pos h41] at h
    cases h
    subst h41
    exact ⟨by decide, by decide, by decide, by decide⟩
  rw [if_neg h41] at h
  cases h

theorem Scanned.tracks_after {l1 : Lexer} {r : Token × Lexer} {k : Nat} (h : Scanned l1 r k)
    (ht : Tracks l1) : Tracks r.2 := by
  have hb := h.scans.bound ht.cur_le
  have hf := ht.forward_tracks k (by rw [← h.scans.src_len, ← h.cur]; exact hb) h.bytes
  exact ⟨h.scans.src_len ▸ h.scans.src ▸ ht.len, hb,
    by rw [h.line, h.col, h.cur, h.scans.src]; exact hf.pos,
    by rw [h.cur, h.scans.src]; exact hf.no_hash⟩

theorem run_bytes (pred : Nat → Bool) (hp : ∀ c, pred c = true → c ≠ 10 ∧ c ≠ 35)
    (src : List Nat) (off : Nat) (hoff : off ≤ src.length) :
    ∀ j, j < (run pred src off).length →
      src.getD (off + j) 0 ≠ 10 ∧ src.getD (off + j) 0 ≠ 35 :=
  fun j hj => hp _ ((run_spec pred src _ off hoff rfl).2.1 j hj)

theorem lex_sym_scanned (l : Lexer) (hlen : l.src_len = l.src.length)
    (he : IS_EOF l = false) (hst : l.start = l.cur) (hc : is_sym_byte (PEEK_C l) = true) :
    Scanned l (lex_sym l) (run is_sym_byte l.src l.cur).length := by
  have hlt := IS_EOF_eq_false.mp he
  have hoff : l.cur ≤ l.src.length := by omega
  obtain ⟨r1, _, _, _⟩ := run_spec is_sym_byte l.src _ l.cur hoff rfl
  rw [lex_sym_eq l hlen (Nat.le_of_lt hlt) hst]
  exact {
    not_eof := (keyword_kind_ne _).1
    not_err := (keyword_kind_ne _).2
    pos := by rw [run_cons _ _ _ (hlen ▸ hlt) hc]; exact Nat.succ_pos _
    scans := (Scans.forward_scans l _ (by omega)).reset_scans
    cur := rfl
    line := rfl
    col := rfl
    tok_line := rfl
    tok_col := rfl
    bytes := run_bytes _ (fun _ h => is_sym_byte_ne h) _ _ hoff
    start := Or.inr rfl }

theorem lex_num_scanned (l : Lexer) (hlen : l.src_len = l.src.length)
    (he : IS_EOF l = false) (hc : isdigit (PEEK_C l) = true) :
    ∃ k, Scanned l (lex_num l) k := by
  have hlt := IS_EOF_eq_false.mp he
  have hoff : l.cur ≤ l.src.length := by omega
  obtain ⟨r1, r2, _, _⟩ := run_spec isdigit l.src _ l.cur hoff rfl
  have hpos : 0 < (run isdigit l.src l.cur).length := by
    rw [run_cons _ _ _ (hlen ▸ hlt) hc]; exact Nat.succ_pos _
  rw [lex_num_eq l hlen]
  split
  · rename_i h
    obtain ⟨h1, h46⟩ := h
    have hoff2 : l.cur + (run isdigit l.src l.cur).length + 1 ≤ l.src.length := by omega
    obtain ⟨s1, s2, _, _⟩ := run_spec isdigit l.src _
      (l.cur + (run isdigit l.src l.cur).length + 1) hoff2 rfl
    refine ⟨_, {
      not_eof := fun h => TokenType.noConfusion h
      not_err := fun h => TokenType.noConfusion h
      pos := by omega
      scans := (Scans.forward_scans l _ (by omega)).reset_scans
      cur := rfl
      line := rfl
      col := rfl
      tok_line := rfl
      tok_col := rfl
      bytes := ?_
      start := Or.inr rfl }⟩
    intro j hj
    rcases Nat.lt_trichotomy j (run isdigit l.src l.cur).length with hlt1 | heq | hgt
    · exact isdigit_ne (r2 j hlt1)
    · rw [heq, h46]
      exact ⟨by decide, by decide⟩
    · have := s2 (j - (run isdigit l.src l.cur).length - 1) (by omega)
      rw [show l.cur + (run isdigit l.src l.cur).length + 1 +
        (j - (run isdigit l.src l.cur).length - 1) = l.cur + j by omega] at this
      exact isdigit_ne this
  · exact ⟨_, {
      not_eof := fun h => TokenType.noConfusion h
      not_err := fun h => TokenType.noConfusion h
      pos := hpos
      scans := (Scans.forward_scans l _ (by omega)).reset_scans
      cur := rfl
      line := rfl
      col := rfl
      tok_line := rfl
      tok_col := rfl
      bytes := fun j hj => isdigit_ne (r2 j hj)
      start := Or.inr rfl }⟩

theorem punct_scanned (l : Lexer) (he : IS_EOF l = false) (t : TokenType)
    (hc : punct_type (PEEK_C l) = some t) : Scanned l (punct l t) 1 := by
  obtain ⟨p1, p2, p3, p4⟩ := punct_type_some hc
  exact {
    not_eof := p1
    not_err := p2
    pos := Nat.one_pos
    scans := Scans.skip_c_scans he
    cur := rfl
    line := rfl
    col := rfl
    tok_line := rfl
    tok_col := rfl
    bytes := fun j hj => by
      have : j = 0 := by omega
      subst this
      exact ⟨p3, p4⟩
    start := Or.inl rfl }

/-- The scan of one token at a byte inside the buffer, with `start` at the
cursor: a token that took `k > 0` bytes, or `ERR` at an unknown byte, with
the cursor left where it was and the message written. -/
theorem scan_token_spec (l : Lexer) (hlen : l.src_len = l.src.length) (he : IS_EOF l = false)
    (hst : l.start = l.cur) :
    (∃ k, Scanned l (scan_token (PEEK_C l) l) k) ∨
      (unknown_char (PEEK_C l) ∧
        scan_token (PEEK_C l) l = (fill_token l TOKEN_ERR, lexer_error l (unknown_msg l))) := by
  rw [scan_token]
  by_cases h0 : (isalpha (PEEK_C l) || PEEK_C l == 95) = true
  · rw [if_pos h0]
    refine Or.inl ⟨_, lex_sym_scanned l hlen he hst ?_⟩
    simp only [is_sym_byte, Bool.or_eq_true] at h0 ⊢
    rcases h0 with h0 | h0
    · exact Or.inl (Or.inl h0)
    · exact Or.inr h0
  rw [if_neg h0]
  by_cases h1 : isdigit (PEEK_C l) = true
  · rw [if_pos h1]
    exact Or.inl (lex_num_scanned l hlen he h1)
  rw [if_neg h1]
  cases hp : punct_type (PEEK_C l) with
  | some t => exact Or.inl ⟨1, punct_scanned l he t hp⟩
  | none =>
    refine Or.inr ⟨⟨by simpa using h0, by simpa using h1, hp⟩, rfl⟩

theorem Scans.slot {l l1 : Lexer} (h : Scans l l1) : Slot l l1 :=
  ⟨h.src, h.src_len, h.has_peek, h.peek⟩

theorem Slot.trans_slot {a b c : Lexer} (h1 : Slot a b) (h2 : Slot b c) : Slot a c :=
  ⟨h2.src.trans h1.src, h2.src_len.trans h1.src_len, h2.has_peek.trans h1.has_peek,
    h2.peek.trans h1.peek⟩

theorem Slot.next_c (l : Lexer) : Slot l (NEXT_C l).2 := ⟨rfl, rfl, rfl, rfl⟩

theorem Slot.reset_slot {l l1 : Lexer} (h : Slot l l1) : Slot l (RESET l1) :=
  ⟨h.src, h.src_len, h.has_peek, h.peek⟩

theorem lex_sym_loop_slot : ∀ (n : Nat) (l : Lexer), Slot l (lex_sym_loop n l)
  | 0, l => ⟨rfl, rfl, rfl, rfl⟩
  | n + 1, l => by
    rw [lex_sym_loop]
    split
    · exact (Slot.next_c l).trans_slot (lex_sym_loop_slot n (NEXT_C l).2)
    · exact ⟨rfl, rfl, rfl, rfl⟩

theorem lex_num_int_loop_slot : ∀ (n : Nat) (l : Lexer) (i : Int) (c : Nat),
    Slot l (lex_num_int_loop n l i c).1
  | 0, l, i, c => ⟨rfl, rfl, rfl, rfl⟩
  | n + 1, l, i, c => by
    rw [lex_num_int_loop]
    split
    · exact ⟨rfl, rfl, rfl, rfl⟩
    · simp only []
      split
      · exact (Slot.next_c l).trans_slot (lex_num_int_loop_slot n (NEXT_C l).2 _ _)
      · exact ⟨rfl, rfl, rfl, rfl⟩

theorem lex_num_frac_loop_slot : ∀ (n : Nat) (l : Lexer) (ds : List Nat),
    Slot l (lex_num_frac_loop n l ds).1
  | 0, l, ds => ⟨rfl, rfl, rfl, rfl⟩
  | n + 1, l, ds => by
    rw [lex_num_frac_loop]
    split
    · exact (Slot.next_c l).trans_slot (lex_num_frac_loop_slot n (NEXT_C l).2 _)
    · exact ⟨rfl, rfl, rfl, rfl⟩

theorem scan_token_slot (c : Nat) (l : Lexer) : Slot l (scan_token c l).2 := by
  rw [scan_token]
  split
  · exact (lex_sym_loop_slot _ l).reset_slot
  · split
    · rw [lex_num]
      have h1 := lex_num_int_loop_slot (l.src_len - l.cur) l 0 0
      simp only []
      split
      · exact ((h1.trans_slot (Slot.next_c _)).trans_slot
          (lex_num_frac_loop_slot _ _ _)).reset_slot
      · exact h1.reset_slot
    · split
      · exact ⟨rfl, rfl, rfl, rfl⟩
      · exact ⟨rfl, rfl, rfl, rfl⟩

/-- `next_token` touches neither the buffer nor the peek slot. -/
theorem next_token_slot (l : Lexer) : Slot l (next_token l).2 := by
  have h := (skip_phase_spec l).1.slot
  rw [next_token_eq]
  split
  · exact h
  · exact Slot.trans_slot h (scan_token_slot _ _)

theorem scan_token_unknown (c : Nat) (l : Lexer) (h : unknown_char c) :
    scan_token c l = (fill_token l TOKEN_ERR, lexer_error l (unknown_msg l)) := by
  rw [scan_token, if_neg (by simp [h.1]), if_neg (by simp [h.2.1]), h.2.2]
  rfl

/-- The three ways `next_token` ends, for a lexer whose `src_len` is the
length of its buffer: `EOF` at the end of the buffer; `ERR` at an unknown
byte, the cursor left on it; a token scanned behind the skipped bytes. -/
theorem next_token_cases (l : Lexer) (hlen : l.src_len = l.src.length) :
    (next_token l = (fill_token (skip_phase l).2 TOKEN_EOF, (skip_phase l).2) ∧
        IS_EOF (skip_phase l).2 = true) ∨
      ((skip_phase l).1 = none ∧ unknown_char (PEEK_C (skip_phase l).2) ∧
        next_token l = (fill_token (skip_phase l).2 TOKEN_ERR,
          lexer_error (skip_phase l).2 (unknown_msg (skip_phase l).2))) ∨
      ((skip_phase l).1 = none ∧ ∃ k, Scanned (skip_phase l).2 (next_token l) k) := by
  obtain ⟨s1, s2⟩ := skip_phase_spec l
  have hnt := next_token_eq l
  rcases s2 with ⟨e1, e2⟩ | ⟨n1, n2, _, _, n5, _⟩
  · rw [e1] at hnt
    exact Or.inl ⟨hnt, e2⟩
  · rw [n1] at hnt
    simp only [] at hnt
    have hlen1 : (skip_phase l).2.src_len = (skip_phase l).2.src.length := by
      rw [s1.src_len, s1.src]; exact hlen
    rcases scan_token_spec _ hlen1 n2 n5 with ⟨k, hk⟩ | ⟨h1, h2⟩
    · exact Or.inr (Or.inr ⟨n1, k, hnt ▸ hk⟩)
    · exact Or.inr (Or.inl ⟨n1, h1, hnt.trans h2⟩)

theorem next_token_at_eof (l : Lexer) (he : IS_EOF l = true) :
    next_token l = (fill_token (RESET l) TOKEN_EOF, RESET l) := by
  rw [next_token_eq, skip_phase_at_eof l he]

theorem next_token_at_unknown (l : Lexer) (he : IS_EOF l = false)
    (hs : isspace (PEEK_C l) = false) (h35 : PEEK_C l ≠ 35) (hu : unknown_char (PEEK_C l)) :
    next_token l = (fill_token l TOKEN_ERR, lexer_error (RESET l) (unknown_msg l)) := by
  rw [next_token_eq, skip_phase_stay l he hs h35]
  exact scan_token_unknown _ _ hu

/-- What a fresh `next_token` that returns `EOF` or `ERR` leaves. -/
theorem next_token_terminal (l : Lexer) (hlen : l.src_len = l.src.length) :
    ((next_token l).1.t = TOKEN_EOF → IS_EOF (next_token l).2 = true) ∧
    ((next_token l).1.t = TOKEN_ERR →
      IS_EOF (next_token l).2 = false ∧ isspace (PEEK_C (next_token l).2) = false ∧
        PEEK_C (next_token l).2 ≠ 35 ∧ unknown_char (PEEK_C (next_token l).2) ∧
        (next_token l).1 = fill_token (next_token l).2 TOKEN_ERR ∧
        (next_token l).2.result.writes.head? =
          some { line := (next_token l).2.line, col := (next_token l).2.col,
                 msg := truncate_msg (unknown_msg (next_token l).2) }) := by
  obtain ⟨_, s2⟩ := skip_phase_spec l
  rcases next_token_cases l hlen with ⟨h1, h2⟩ | ⟨h1, h2, h3⟩ | ⟨h1, k, hk⟩
  · rw [h1]
    exact ⟨fun _ => h2, fun h => TokenType.noConfusion h⟩
  · rcases s2 with ⟨e1, _⟩ | ⟨_, n2, n3, n4, _, _⟩
    · rw [h1] at e1; cases e1
    · rw [h3]
      exact ⟨fun h => TokenType.noConfusion h, fun _ => ⟨n2, n3, n4, h2, rfl, rfl⟩⟩
  · exact ⟨fun h => absurd h hk.not_eof, fun h => absurd h hk.not_err⟩

theorem AtEOF.calls_eof {l : Lexer} (h : AtEOF l) :
    ((lexer_next l).1.t = TOKEN_EOF ∧ AtEOF (lexer_next l).2) ∧
    ((lexer_peek l).1.t = TOKEN_EOF ∧ AtEOF (lexer_peek l).2) ∧
    AtEOF (lexer_skip l) := by
  rw [lexer_next, lexer_peek, lexer_skip]
  cases hp : l.has_peek with
  | true =>
    simp only [if_true]
    exact ⟨⟨h.buffered hp, ⟨h.eof, fun h1 => by cases h1⟩⟩, ⟨h.buffered hp, h⟩,
      ⟨h.eof, fun h1 => by cases h1⟩⟩
  | false =>
    simp only [Bool.false_eq_true, if_false]
    have he1 : IS_EOF { l with has_peek := true } = true := h.eof
    rw [next_token_at_eof l h.eof, next_token_at_eof _ he1]
    have hno : (RESET l).has_peek = true → (RESET l).peek.t = TOKEN_EOF := by
      intro h1
      rw [show (RESET l).has_peek = l.has_peek from rfl, hp] at h1
      cases h1
    exact ⟨⟨rfl, ⟨h.eof, hno⟩⟩, ⟨rfl, ⟨h.eof, fun _ => rfl⟩⟩, ⟨h.eof, hno⟩⟩

theorem AtEOF.steps_eof {l l1 : Lexer} (h : AtEOF l) (hs : Steps l l1) : AtEOF l1 := by
  induction hs with
  | refl => exact h
  | next _ ih => exact ih.calls_eof.1.2
  | peek _ ih => exact ih.calls_eof.2.1.2
  | skip _ ih => exact ih.calls_eof.2.2

theorem AtErr.next_token_err {l : Lexer} {tok : Token} {d : Diag} {cur : Nat}
    (h : AtErr l tok d cur) :
    next_token l = (tok, lexer_error (RESET l) (unknown_msg l)) := by
  rw [next_token_at_unknown l h.not_eof h.not_space h.not_hash h.unknown, h.tok_eq]

/-- After `ERR` the lexer stays on the unknown byte, whatever the peek slot
holds afterwards. -/
theorem AtErr.after {l : Lexer} {tok : Token} {d : Diag} {cur : Nat} (h : AtErr l tok d cur)
    (hp : Bool) (pk : Token) (hb : hp = true → pk = tok) :
    AtErr { lexer_error (RESET l) (unknown_msg l) with has_peek := hp, peek := pk }
      tok d cur where
  cur_eq := h.cur_eq
  not_eof := h.not_eof
  not_space := h.not_space
  not_hash := h.not_hash
  unknown := h.unknown
  tok_eq := h.tok_eq
  d_eq := h.d_eq
  written := by rw [h.d_eq]; rfl
  buffered := hb

theorem AtErr.set_slot_err {l : Lexer} {tok : Token} {d : Diag} {cur : Nat} (h : AtErr l tok d cur)
    (hp : Bool) (pk : Token) (hb : hp = true → pk = tok) :
    AtErr { l with has_peek := hp, peek := pk } tok d cur where
  cur_eq := h.cur_eq
  not_eof := h.not_eof
  not_space := h.not_space
  not_hash := h.not_hash
  unknown := h.unknown
  tok_eq := h.tok_eq
  d_eq := h.d_eq
  written := h.written
  buffered := hb

theorem AtErr.calls_err {l : Lexer} {tok : Token} {d : Diag} {cur : Nat} (h : AtErr l tok d cur) :
    ((lexer_next l).1 = tok ∧ AtErr (lexer_next l).2 tok d cur) ∧
    ((lexer_peek l).1 = tok ∧ AtErr (lexer_peek l).2 tok d cur) ∧
    AtErr (lexer_skip l) tok d cur := by
  rw [lexer_next, lexer_peek, lexer_skip]
  cases hp : l.has_peek with
  | true =>
    simp only [if_true]
    exact ⟨⟨h.buffered hp, h.set_slot_err false l.peek (fun h1 => by cases h1)⟩,
      ⟨h.buffered hp, h⟩, h.set_slot_err false l.peek (fun h1 => by cases h1)⟩
  | false =>
    simp only [Bool.false_eq_true, if_false]
    have hn1 : next_token { l with has_peek := true } =
        (tok, { lexer_error (RESET l) (unknown_msg l) with has_peek := true }) := by
      rw [next_token_at_unknown { l with has_peek := true } h.not_eof h.not_space h.not_hash
        h.unknown, h.tok_eq]
      rfl
    rw [h.next_token_err, hn1]
    refine ⟨⟨rfl, ?_⟩, ⟨rfl, ?_⟩, ?_⟩
    · exact h.after l.has_peek l.peek (fun h2 => by rw [hp] at h2; cases h2)
    · exact h.after true tok (fun _ => rfl)
    · exact h.after l.has_peek l.peek (fun h2 => by rw [hp] at h2; cases h2)

theorem AtErr.steps_err {l l1 : Lexer} {tok : Token} {d : Diag} {cur : Nat} (h : AtErr l tok d cur)
    (hs : Steps l l1) : AtErr l1 tok d cur := by
  induction hs with
  | refl => exact h
  | next _ ih => exact ih.calls_err.1.2
  | peek _ ih => exact ih.calls_err.2.1.2
  | skip _ ih => exact ih.calls_err.2.2

theorem Lexer.wf_init (src : List Nat) (result : BSLCompileResult) :
    (lexer_init src src.length result).wf :=
  ⟨rfl, fun h => Bool.noConfusion h, fun h => Bool.noConfusion h⟩

/-- A lexer without a buffered token is well formed when `src_len` is the
length of its buffer. -/
theorem Lexer.wf_of_no_peek {l : Lexer} (hlen : l.src_len = l.src.length)
    (hp : l.has_peek = false) : l.wf :=
  ⟨hlen, fun h => Bool.noConfusion (hp.symm.trans h),
    fun h => Bool.noConfusion (hp.symm.trans h)⟩

theorem Lexer.wf.calls_wf {l : Lexer} (h : l.wf) :
    (lexer_next l).2.wf ∧ (lexer_peek l).2.wf ∧ (lexer_skip l).wf := by
  have hnext : (lexer_next l).2.wf := by
    rw [lexer_next]
    cases hp : l.has_peek with
    | true => exact Lexer.wf_of_no_peek h.len rfl
    | false =>
      simp only [Bool.false_eq_true, if_false]
      have hs := next_token_slot l
      exact Lexer.wf_of_no_peek (by rw [hs.src_len, hs.src]; exact h.len)
        (by rw [hs.has_peek]; exact hp)
  refine ⟨hnext, ?_, ?_⟩
  · rw [lexer_peek]
    cases hp : l.has_peek with
    | true => exact h
    | false =>
      simp only [Bool.false_eq_true, if_false]
      have hs := next_token_slot { l with has_peek := true }
      have hlen1 : (next_token { l with has_peek := true }).2.src_len =
          (next_token { l with has_peek := true }).2.src.length := by
        rw [hs.src_len, hs.src]; exact h.len
      obtain ⟨t1, t2⟩ := next_token_terminal { l with has_peek := true } h.len
      refine ⟨hlen1, fun _ ht => t1 ht, fun _ ht => ?_⟩
      obtain ⟨e1, e2, e3, e4, e5, e6⟩ := t2 ht
      exact ⟨_, ⟨rfl, e1, e2, e3, e4, e5, rfl, e6, fun _ => rfl⟩⟩
  · have : lexer_skip l = (lexer_next l).2 := by
      rw [lexer_skip, lexer_next]
      split <;> rfl
    rw [this]
    exact hnext

theorem Lexer.wf.steps_wf {l l1 : Lexer} (h : l.wf) (hs : Steps l l1) : l1.wf := by
  induction hs with
  | refl => exact h
  | next _ ih => exact ih.calls_wf.1
  | peek _ ih => exact ih.calls_wf.2.1
  | skip _ ih => exact ih.calls_wf.2.2

/-- A `lexer_next` that returns `EOF` leaves the lexer at the end of the buffer. -/
theorem Lexer.wf.next_eof {l : Lexer} (h : l.wf) (ht : (lexer_next l).1.t = TOKEN_EOF) :
    AtEOF (lexer_next l).2 := by
  rw [lexer_next] at ht ⊢
  cases hp : l.has_peek with
  | true =>
    rw [hp] at ht
    exact ⟨h.buffered_eof hp ht, fun h1 => by cases h1⟩
  | false =>
    rw [hp] at ht
    simp only [Bool.false_eq_true, if_false] at ht ⊢
    refine ⟨(next_token_terminal l h.len).1 ht, fun h1 => ?_⟩
    rw [(next_token_slot l).has_peek, hp] at h1
    cases h1

/-- A `lexer_next` that returns `ERR` leaves the lexer on the unknown byte. -/
theorem Lexer.wf.next_err {l : Lexer} (h : l.wf) (ht : (lexer_next l).1.t = TOKEN_ERR) :
    ∃ d, AtErr (lexer_next l).2 (lexer_next l).1 d (lexer_next l).2.cur := by
  rw [lexer_next] at ht ⊢
  cases hp : l.has_peek with
  | true =>
    rw [hp] at ht
    obtain ⟨d, hd⟩ := h.buffered_err hp ht
    exact ⟨d, hd.set_slot_err false l.peek (fun h1 => by cases h1)⟩
  | false =>
    rw [hp] at ht
    simp only [Bool.false_eq_true, if_false] at ht ⊢
    obtain ⟨e1, e2, e3, e4, e5, e6⟩ := (next_token_terminal l h.len).2 ht
    refine ⟨_, ⟨rfl, e1, e2, e3, e4, e5, rfl, e6, fun h1 => ?_⟩⟩
    rw [(next_token_slot l).has_peek, hp] at h1
    cases h1

theorem skip_whitespace_loop_fuel : ∀ (n : Nat) (l : Lexer), l.src_len - l.cur ≤ n →
    skip_whitespace_loop (n + 1) l = skip_whitespace_loop n l
  | 0, l, h => by
    have he : IS_EOF l = true := IS_EOF_eq_true.mpr (by omega)
    conv_lhs => rw [skip_whitespace_loop]
    rw [if_neg (by simp [he])]
    rfl
  | n + 1, l, h => by
    conv_lhs => rw [skip_whitespace_loop]
    conv_rhs => rw [skip_whitespace_loop]
    split
    · rename_i hc
      have he : IS_EOF l = false := by
        cases hh : IS_EOF l
        · rfl
        · simp [hh] at hc
      have := IS_EOF_eq_false.mp he
      simp only []
      exact skip_whitespace_loop_fuel n _ (by split <;> simp only [SKIP_C] <;> omega)
    · rfl

theorem comment_loop_fuel : ∀ (n : Nat) (l : Lexer), l.src_len - l.cur ≤ n →
    comment_loop (n + 1) l = comment_loop n l
  | 0, l, h => by
    have he : IS_EOF l = true := IS_EOF_eq_true.mpr (by omega)
    conv_lhs => rw [comment_loop]
    rw [if_pos he]
    rfl
  | n + 1, l, h => by
    conv_lhs => rw [comment_loop]
    conv_rhs => rw [comment_loop]
    split
    · rfl
    · rename_i he
      have := IS_EOF_eq_false.mp (by simpa using he)
      simp only []
      split
      · exact comment_loop_fuel n _ (by simp only [NEXT_C, SKIP_C]; omega)
      · rfl

theorem lex_sym_loop_fuel : ∀ (n : Nat) (l : Lexer), l.src_len - l.cur ≤ n →
    lex_sym_loop (n + 1) l = lex_sym_loop n l
  | 0, l, h => by
    have he : IS_EOF l = true := IS_EOF_eq_true.mpr (by omega)
    conv_lhs => rw [lex_sym_loop]
    rw [if_neg (by simp [he])]
    rfl
  | n + 1, l, h => by
    conv_lhs => rw [lex_sym_loop]
    conv_rhs => rw [lex_sym_loop]
    split
    · rename_i hc
      have he : IS_EOF l = false := by
        cases hh : IS_EOF l
        · rfl
        · simp [hh] at hc
      have := IS_EOF_eq_false.mp he
      exact lex_sym_loop_fuel n _ (by simp only [NEXT_C, SKIP_C]; omega)
    · rfl

theorem lex_num_int_loop_fuel : ∀ (n : Nat) (l : Lexer) (i : Int) (c : Nat),
    l.src_len - l.cur ≤ n → lex_num_int_loop (n + 1) l i c = lex_num_int_loop n l i c
  | 0, l, i, c, h => by
    have he : IS_EOF l = true := IS_EOF_eq_true.mpr (by omega)
    conv_lhs => rw [lex_num_int_loop]
    rw [if_pos he]
    rfl
  | n + 1, l, i, c, h => by
    conv_lhs => rw [lex_num_int_loop]
    conv_rhs => rw [lex_num_int_loop]
    split
    · rfl
    · rename_i he
      have := IS_EOF_eq_false.mp (by simpa using he)
      simp only []
      split
      · exact lex_num_int_loop_fuel n _ _ _ (by simp only [NEXT_C, SKIP_C]; omega)
      · rfl

theorem lex_num_frac_loop_fuel : ∀ (n : Nat) (l : Lexer) (ds : List Nat),
    l.src_len - l.cur ≤ n → lex_num_frac_loop (n + 1) l ds = lex_num_frac_loop n l ds
  | 0, l, ds, h => by
    have he : IS_EOF l = true := IS_EOF_eq_true.mpr (by omega)
    conv_lhs => rw [lex_num_frac_loop]
    rw [if_neg (by simp [he])]
    rfl
  | n + 1, l, ds, h => by
    conv_lhs => rw [lex_num_frac_loop]
    conv_rhs => rw [lex_num_frac_loop]
    split
    · rename_i hc
      have he : IS_EOF l = false := by
        cases hh : IS_EOF l
        · rfl
        · simp [hh] at hc
      have := IS_EOF_eq_false.mp he
      exact lex_num_frac_loop_fuel n _ _ (by simp only [NEXT_C, SKIP_C]; omega)
    · rfl

theorem hash_loop_fuel : ∀ (n : Nat) (c : Nat) (l : Lexer), IS_EOF l = false →
    l.src_len - l.cur ≤ n → hash_loop (n + 1) c l = hash_loop n c l
  | 0, c, l, he, h => by
    have := IS_EOF_eq_false.mp he
    omega
  | n + 1, c, l, he, h => by
    have hlt := IS_EOF_eq_false.mp he
    conv_lhs => rw [hash_loop]
    conv_rhs => rw [hash_loop]
    split
    · obtain ⟨c1, _, c3, _⟩ := comment_loop_spec (l.src_len - l.cur) l
      have hprog := c3 he (by omega)
      simp only []
      cases he1 : IS_EOF (comment_loop (l.src_len - l.cur) l) with
      | true => rfl
      | false =>
        simp only [Bool.false_eq_true, if_false]
        obtain ⟨w1, _, w3, _, _⟩ := skip_whitespace_spec
          { comment_loop (l.src_len - l.cur) l with
            col := 1, line := (comment_loop (l.src_len - l.cur) l).line + 1 }
        cases hw : (skip_whitespace
            { comment_loop (l.src_len - l.cur) l with
              col := 1, line := (comment_loop (l.src_len - l.cur) l).line + 1 }).1 with
        | false => rfl
        | true =>
          simp only [Bool.not_true, Bool.false_eq_true, if_false]
          refine hash_loop_fuel n _ _ ?_ ?_
          · rw [hw] at w3
            simpa using w3.symm
          · have key : ∀ x : Lexer, x.src_len = l.src_len → l.cur < x.cur →
                x.src_len - x.cur ≤ n := by
              intro x hx1 hx2
              omega
            exact key _ (w1.src_len.trans c1.src_len) (Nat.lt_of_lt_of_le hprog w1.cur_le)
    · rfl

theorem Tracks.set_slot_tracks {l : Lexer} (h : Tracks l) (hp : Bool) (pk : Token) :
    Tracks { l with has_peek := hp, peek := pk } :=
  ⟨h.len, h.cur_le, h.pos, h.no_hash⟩

theorem Tracks.init (src : List Nat) (result : BSLCompileResult) :
    Tracks (lexer_init src src.length result) :=
  ⟨rfl, Nat.zero_le _, rfl, fun h hh => absurd hh (Nat.not_lt_zero h)⟩

/-- `next_token` keeps the lexer tracking its position, or leaves it at the
end of the buffer. -/
theorem next_token_tracks (l : Lexer) (h : Tracks l ∨ IS_EOF l = true) :
    Tracks (next_token l).2 ∨ IS_EOF (next_token l).2 = true := by
  by_cases he : IS_EOF l = true
  · rw [next_token_at_eof l he]
    exact Or.inr he
  · have ht : Tracks l := h.resolve_right he
    obtain ⟨s1, s2⟩ := skip_phase_spec l
    rcases next_token_cases l ht.len with ⟨h1, h2⟩ | ⟨h1, _, h3⟩ | ⟨h1, k, hk⟩
    · rw [h1]
      exact Or.inr h2
    · rcases s2 with ⟨e1, _⟩ | ⟨_, _, _, _, _, n6⟩
      · rw [h1] at e1; cases e1
      · rw [h3]
        have := n6 ht
        exact Or.inl ⟨this.len, this.cur_le, this.pos, this.no_hash⟩
    · rcases s2 with ⟨e1, _⟩ | ⟨_, _, _, _, _, n6⟩
      · rw [h1] at e1; cases e1
      · exact Or.inl (hk.tracks_after (n6 ht))

/-- Every lexer reached from `lexer_init` reads the same buffer and tracks
its position, unless it is at the end of the buffer. -/
theorem Steps.tracks_of_init {src : List Nat} {result : BSLCompileResult} {l : Lexer}
    (h : Steps (lexer_init src src.length result) l) :
    l.src = src ∧ (Tracks l ∨ IS_EOF l = true) := by
  induction h with
  | refl => exact ⟨rfl, Or.inl (Tracks.init src result)⟩
  | @next l1 _ ih =>
    rw [lexer_next]
    split
    · exact ⟨ih.1, ih.2.imp (fun h => h.set_slot_tracks false l1.peek) id⟩
    · exact ⟨(next_token_slot l1).src.trans ih.1, next_token_tracks l1 ih.2⟩
  | @peek l1 _ ih =>
    rw [lexer_peek]
    split
    · exact ih
    · have hs := next_token_slot { l1 with has_peek := true }
      have ht := next_token_tracks { l1 with has_peek := true }
        (ih.2.imp (fun h => h.set_slot_tracks true l1.peek) id)
      exact ⟨hs.src.trans ih.1, ht.imp (fun h => ⟨h.len, h.cur_le, h.pos, h.no_hash⟩) id⟩
  | @skip l1 _ ih =>
    rw [lexer_skip]
    split
    · exact ⟨ih.1, ih.2.imp (fun h => h.set_slot_tracks false l1.peek) id⟩
    · exact ⟨(next_token_slot l1).src.trans ih.1, next_token_tracks l1 ih.2⟩

/-- From a lexer without a buffered token and with at most `m` unread bytes,
one of the first `m + 1` calls of `lexer_next` returns `EOF` or `ERR`. -/
theorem lexer_reaches_terminal : ∀ (m : Nat) (l : Lexer), l.src_len = l.src.length →
    l.has_peek = false → l.src_len - l.cur ≤ m →
    ∃ n, n ≤ m ∧ ((nth_next n l).1.t = TOKEN_EOF ∨
      ((nth_next n l).1.t = TOKEN_ERR ∧
        ∃ c, c ∈ l.src ∧ unknown_char c ∧ isspace c = false ∧ c ≠ 35))
  | m, l, hlen, hp, hm => by
    have hnext : lexer_next l = next_token l := by rw [lexer_next, hp]; rfl
    obtain ⟨s1, s2⟩ := skip_phase_spec l
    rcases next_token_cases l hlen with ⟨h1, _⟩ | ⟨h1, h2, h3⟩ | ⟨h1, k, hk⟩
    · exact ⟨0, Nat.zero_le _, Or.inl (by rw [nth_next, hnext, h1]; rfl)⟩
    · refine ⟨0, Nat.zero_le _, Or.inr ⟨by rw [nth_next, hnext, h3]; rfl, ?_⟩⟩
      rcases s2 with ⟨e1, _⟩ | ⟨_, n2, n3, n4, _⟩
      · rw [h1] at e1; cases e1
      · have hlt : (skip_phase l).2.cur < l.src.length := by
          have := IS_EOF_eq_false.mp n2
          rw [s1.src_len, hlen] at this
          exact this
        refine ⟨PEEK_C (skip_phase l).2, ?_, h2, n3, n4⟩
        rw [PEEK_C, s1.src, List.getD_eq_getElem _ _ hlt]
        exact List.getElem_mem _
    · rcases s2 with ⟨e1, _⟩ | ⟨_, n2, _⟩
      · rw [h1] at e1; cases e1
      · have hlt := IS_EOF_eq_false.mp n2
        have hb := hk.scans.bound (Nat.le_of_lt hlt)
        have hcur := hk.cur
        have hpos := hk.pos
        have hle := s1.cur_le
        have hsl : (next_token l).2.src_len = l.src_len := hk.scans.src_len.trans s1.src_len
        have hsrc : (next_token l).2.src = l.src := hk.scans.src.trans s1.src
        cases m with
        | zero =>
          have := s1.src_len
          omega
        | succ m =>
          obtain ⟨n, hn1, hn2⟩ := lexer_reaches_terminal m (next_token l).2
            (by rw [hsl, hsrc]; exact hlen)
            (by rw [(next_token_slot l).has_peek]; exact hp)
            (by omega)
          rw [hsrc] at hn2
          exact ⟨n + 1, Nat.succ_le_succ hn1, by rw [nth_next, hnext]; exact hn2⟩

theorem AtErr.nth_next_eq {l : Lexer} {tok : Token} {d : Diag} {cur : Nat} :
    ∀ (n : Nat), AtErr l tok d cur → (nth_next n l).1 = tok
  | 0, h => h.calls_err.1.1
  | n + 1, h => by
    rw [nth_next]
    exact AtErr.nth_next_eq n h.calls_err.1.2

theorem run_all (pred : Nat → Bool) (src : List Nat) (off : Nat) :
    ∀ c ∈ run pred src off, pred c = true :=
  fun _ h => List.mem_takeWhile_imp h

theorem digits_acc_nat (ds : List Nat) : (∀ c ∈ ds, isdigit c = true) → ∀ a : Nat,
    digits_acc (Int.ofNat a) ds = Int.ofNat (ds.foldl (fun v c => v * 10 + (c - 48)) a) := by
  induction ds with
  | nil => intro _ a; rfl
  | cons c ds ih =>
    intro h a
    have hc : 48 ≤ c := by
      have := h c (List.mem_cons_self _ _)
      simp only [isdigit, Bool.and_eq_true, decide_eq_true_eq] at this
      exact this.1
    rw [digits_acc_cons, List.foldl_cons, ← ih (fun x hx => h x (List.mem_cons_of_mem _ hx))]
    congr 1
    simp only [Int.ofNat_eq_coe]
    omega

/-- The value accumulated over a run of digits is its decimal value. -/
theorem digits_acc_run (src : List Nat) (off : Nat) :
    digits_acc 0 (run isdigit src off) = Int.ofNat (decimal_value (run isdigit src off)) :=
  digits_acc_nat _ (run_all isdigit src off) 0

theorem parse_add_loop_fold : ∀ (n : Nat) (lhs : Expr) (p : Parser),
    parse_add_loop n lhs p =
      (add_operands n p).bind fun xs p1 => .ok (xs.foldl binary_node lhs) p1
  | 0, _, _ => by rw [parse_add_loop, add_operands]; rfl
  | n + 1, lhs, p => by
    rw [parse_add_loop, add_operands]
    dsimp only []
    split
    · cases hm : parse_mul_expr n (p_skip (p_peek p).2) with
      | ok rhs p2 =>
        dsimp only [Outcome.bind]
        rw [parse_add_loop_fold n]
        cases add_operands n p2 <;> rfl
      | fail p2 => rfl
      | undefined => rfl
      | out_of_fuel => rfl
    · rfl

theorem parse_mul_loop_fold : ∀ (n : Nat) (lhs : Expr) (p : Parser),
    parse_mul_loop n lhs p =
      (mul_operands n p).bind fun xs p1 => .ok (xs.foldl binary_node lhs) p1
  | 0, _, _ => by rw [parse_mul_loop, mul_operands]; rfl
  | n + 1, lhs, p => by
    rw [parse_mul_loop, mul_operands]
    dsimp only []
    split
    · cases hm : parse_member_expr n (p_skip (p_peek p).2) with
      | ok rhs p2 =>
        dsimp only [Outcome.bind]
        rw [parse_mul_loop_fold n]
        cases mul_operands n p2 <;> rfl
      | fail p2 => rfl
      | undefined => rfl
      | out_of_fuel => rfl
    · rfl

theorem parse_member_loop_fold : ∀ (n : Nat) (lhs : Expr) (p : Parser),
    parse_member_loop n lhs p =
      (member_names n p).bind fun xs p1 => .ok (xs.foldl member_node lhs) p1
  | 0, _, _ => by rw [parse_member_loop, member_names]; rfl
  | n + 1, lhs, p => by
    rw [parse_member_loop, member_names]
    dsimp only []
    split
    · split
      · rfl
      · rw [parse_member_loop_fold n]
        cases member_names n _ <;> rfl
    · rfl

/-- After `lexer_peek` the token it returned is buffered. -/
theorem lexer_peek_buffered (l : Lexer) :
    (lexer_peek l).2.has_peek = true ∧ (lexer_peek l).2.peek = (lexer_peek l).1 := by
  rw [lexer_peek]
  cases h : l.has_peek with
  | true => rw [if_pos rfl]; exact ⟨h, rfl⟩
  | false =>
    rw [if_neg (by simp)]
    exact ⟨(next_token_slot { l with has_peek := true }).has_peek, rfl⟩

theorem invert_eq {α : Type} : ∀ (xs ys : List α), invert xs ys = xs.reverse ++ ys
  | [], _ => rfl
  | x :: xs, ys => by rw [invert, invert_eq xs, List.reverse_cons, List.append_assoc]; rfl

theorem parse_ast_loop_declarations (fuel : Nat) : ∀ (n : Nat) (acc : List Toplevel)
    (p : Parser) (r : List Toplevel) (tok : Token) (p1 : Parser),
    parse_ast_loop fuel n acc p = .ok (r, tok) p1 → tok.t ≠ TOKEN_ERR →
    tok.t = TOKEN_EOF ∧
      ∃ ts, r = ts.reverse ++ acc ∧ ts.length < n ∧ Declarations fuel p ts p1
  | 0, _, _, _, _, _ => by
    intro h; rw [parse_ast_loop] at h; cases h
  | n + 1, acc, p, r, tok, p1 => by
    intro h hne
    rw [parse_ast_loop] at h
    split at h
    · rename_i hc
      obtain ⟨t, p2, ht, h⟩ := Outcome.bind_eq_ok h
      obtain ⟨he, ts, hr, hl, hd⟩ := parse_ast_loop_declarations fuel n _ _ _ _ _ h hne
      refine ⟨he, t :: ts, ?_, Nat.succ_lt_succ hl, Declarations.decl p p2 p1 t ts hc.1 hc.2 ht hd⟩
      rw [hr, List.reverse_cons, List.append_assoc]
      rfl
    · rename_i hc
      cases h
      have he : (p_peek p).1.t = TOKEN_EOF := by
        by_contra h1
        exact hc ⟨h1, hne⟩
      exact ⟨he, [], rfl, Nat.succ_pos n, Declarations.done p he⟩

theorem Declarations.parse_ast_loop {fuel : Nat} {p p1 : Parser} {ts : List Toplevel}
    (h : Declarations fuel p ts p1) : ∀ (n : Nat) (acc : List Toplevel), ts.length < n →
    ∃ tok, BSL.parse_ast_loop fuel n acc p = .ok (ts.reverse ++ acc, tok) p1 ∧
      tok.t = TOKEN_EOF := by
  induction h with
  | done p he =>
    intro n acc hn
    cases n with
    | zero => cases hn
    | succ n =>
      refine ⟨(p_peek p).1, ?_, he⟩
      rw [BSL.parse_ast_loop]
      rw [if_neg (fun hc => hc.1 he)]
      rfl
  | decl p p1 p2 t ts h1 h2 ht _ ih =>
    intro n acc hn
    cases n with
    | zero => cases hn
    | succ n =>
      obtain ⟨tok, hl, he⟩ := ih n (t :: acc) (Nat.lt_of_succ_lt_succ hn)
      refine ⟨tok, ?_, he⟩
      rw [BSL.parse_ast_loop]
      rw [if_pos ⟨h1, h2⟩, ht]
      dsimp only [Outcome.bind]
      rw [hl, List.reverse_cons, List.append_assoc]
      rfl

/-- Where the declarations end, the `EOF` token is buffered. -/
theorem Declarations.at_eof {fuel : Nat} {p p1 : Parser} {ts : List Toplevel}
    (h : Declarations fuel p ts p1) :
    p1.lex.has_peek = true ∧ p1.lex.peek.t = TOKEN_EOF := by
  induction h with
  | done p he =>
    obtain ⟨h1, h2⟩ := lexer_peek_buffered p.lex
    exact ⟨h1, by rw [show (p_peek p).2.lex.peek = (lexer_peek p.lex).1 from h2]; exact he⟩
  | decl _ _ _ _ _ _ _ _ _ ih => exact ih

theorem lexer_next_src (l : Lexer) : (lexer_next l).2.src = l.src := by
  rw [lexer_next]
  split
  · rfl
  · exact (next_token_slot l).src

theorem p_next_src (p : Parser) : (p_next p).2.lex.src = p.lex.src :=
  lexer_next_src p.lex

theorem after_tokens_src : ∀ (k : Nat) (p : Parser), (after_tokens k p).lex.src = p.lex.src
  | 0, _ => rfl
  | k + 1, p => (p_next_src (after_tokens k p)).trans (after_tokens_src k p)

theorem expect_eq (p : Parser) (t : TokenType) (expected : String) :
    expect p t expected =
      if (p_next p).1.t = t then (true, (p_next p).2)
      else (false, handle_erratic_tok (p_next p).2 (p_next p).1 expected) := rfl

theorem expect_with_eq (p : Parser) (t : TokenType) (expected : String) :
    expect_with p t expected =
      if (p_next p).1.t = t then (true, (p_next p).1, (p_next p).2)
      else (false, (p_next p).1, handle_erratic_tok (p_next p).2 (p_next p).1 expected) := rfl

theorem wrap32_of_range {i : Int} (h0 : 0 ≤ i) (h1 : i < 2 ^ 31) : wrap32 i = i := by
  unfold wrap32
  omega

theorem token_streq_unique {src : List Nat} {tok : Token} {s1 s2 : String}
    (h1 : token_streq src tok s1 = true) (h2 : token_streq src tok s2 = true) :
    bytes s1 = bytes s2 := by
  rw [token_streq, Bool.and_eq_true, decide_eq_true_eq, decide_eq_true_eq] at h1 h2
  rw [← h1.2, ← h2.2]

/-- The body of `input(n)` and `output(n)` on well-formed tokens. -/
theorem parse_binding_ok (p : Parser) (t : RecordEntryType) (i : Int)
    (h1 : (token_at 0 p).t = TOKEN_LPAREN) (h2 : (token_at 1 p).t = TOKEN_NUM)
    (hi : (token_at 1 p).num = Number.int i) (h3 : (token_at 2 p).t = TOKEN_RPAREN) :
    parse_binding p t = .ok (t, wrap32 i) (after_tokens 3 p) := by
  have h1a : (p_next p).1.t = TOKEN_LPAREN := h1
  have h2a : (p_next (p_next p).2).1.t = TOKEN_NUM := h2
  have hia : (p_next (p_next p).2).1.num = Number.int i := hi
  have h3a : (p_next (p_next (p_next p).2).2).1.t = TOKEN_RPAREN := h3
  rw [parse_binding]
  simp only [expect_eq, expect_with_eq, h1a, h2a, h3a, if_true, Bool.not_true]
  rw [hia]
  rfl

theorem parse_binding_real (p : Parser) (t : RecordEntryType) (a : Int) (b : List Nat)
    (h1 : (token_at 0 p).t = TOKEN_LPAREN) (h2 : (token_at 1 p).t = TOKEN_NUM)
    (hi : (token_at 1 p).num = Number.real a b) :
    parse_binding p t =
      .fail (parser_error_tok (after_tokens 2 p) (token_at 1 p) "binding must be an integer") := by
  have h1a : (p_next p).1.t = TOKEN_LPAREN := h1
  have h2a : (p_next (p_next p).2).1.t = TOKEN_NUM := h2
  have hia : (p_next (p_next p).2).1.num = Number.real a b := hi
  rw [parse_binding]
  simp only [expect_eq, expect_with_eq, h1a, h2a, if_true, Bool.not_true]
  rw [hia]
  rfl

theorem expect_ok {p : Parser} {t : TokenType} {s : String}
    (h : ¬ (!(expect p t s).1) = true) : (expect p t s).2 = (p_next p).2 := by
  rw [expect_eq] at h ⊢
  split
  · rfl
  · rename_i hc
    rw [if_neg hc] at h
    exact absurd rfl h

theorem expect_with_ok {p : Parser} {t : TokenType} {s : String}
    (h : ¬ (!(expect_with p t s).1) = true) :
    (expect_with p t s).2 = ((p_next p).1, (p_next p).2) ∧ (p_next p).1.t = t := by
  rw [expect_with_eq] at h ⊢
  split
  · rename_i hc
    exact ⟨rfl, hc⟩
  · rename_i hc
    rw [if_neg hc] at h
    exact absurd rfl h

/-- A call that returns: it ends neither in undefined behaviour nor out of
fuel. -/
theorem Outcome.bind_state {σ α β : Type} {x : Outcome σ α} {f : α → σ → Outcome σ β}
    (hx : x.state.isSome = true) (hf : ∀ a s, (f a s).state.isSome = true) :
    (x.bind f).state.isSome = true := by
  cases x with
  | ok a s => exact hf a s
  | fail s => rfl
  | undefined => cases hx
  | out_of_fuel => cases hx

theorem Outcome.fail_of_not_ok {σ α : Type} {x : Outcome σ α} (hx : x.state.isSome = true)
    (h : ∀ a s, x ≠ .ok a s) : ∃ s, x = .fail s := by
  cases x with
  | ok a s => exact absurd rfl (h a s)
  | fail s => exact ⟨s, rfl⟩
  | undefined => cases hx
  | out_of_fuel => cases hx

theorem parse_binding_state (p : Parser) (t : RecordEntryType) :
    (parse_binding p t).state.isSome = true := by
  rw [parse_binding]
  dsimp only []
  split
  · rfl
  · split
    · rfl
    · split
      · rfl
      · split <;> rfl

theorem parse_binding_after {p p2 : Parser} {t : RecordEntryType} {b : RecordEntryType × Int}
    (h : parse_binding p t = .ok b p2) : p2 = after_tokens 3 p := by
  rw [parse_binding] at h
  dsimp only [] at h
  split at h
  · cases h
  · rename_i h1
    split at h
    · cases h
    · rename_i h2
      rw [expect_ok h1] at h2 h
      rw [(expect_with_ok h2).1] at h
      dsimp only [] at h
      split at h
      · cases h
      · split at h
        · cases h
        · rename_i h3
          rw [expect_ok h3] at h
          cases h
          rfl

theorem parse_record_attr_state (q : Parser) : (parse_record_attr q).state.isSome = true := by
  rw [parse_record_attr]
  dsimp only []
  split
  · rfl
  · refine Outcome.bind_state ?_ ?_
    · split
      · split
        · rfl
        · split
          · rfl
          · split
            · split <;> rfl
            · rfl
      · split
        · exact parse_binding_state _ _
        · split
          · exact parse_binding_state _ _
          · rfl
    · intro b p2
      dsimp only []
      split
      · rfl
      · split <;> rfl

theorem parse_record_attr_name {q p1 : Parser} {r : RecordEntryType × Int × Token}
    (h : parse_record_attr q = .ok r p1) :
    r.2.2 = token_at 5 q ∧ (token_at 5 q).t = TOKEN_SYM ∧ p1 = after_tokens 6 q := by
  rw [parse_record_attr] at h
  dsimp only [] at h
  split at h
  · cases h
  · rename_i h0
    obtain ⟨b, p2, hb, h⟩ := Outcome.bind_eq_ok h
    have hp2 : p2 = after_tokens 4 q := by
      rw [(expect_with_ok h0).1] at hb
      dsimp only [] at hb
      split at hb
      · split at hb
        · cases hb
        · rename_i h1
          split at hb
          · cases hb
          · rename_i h2
            split at hb
            · split at hb
              · cases hb
              · rename_i h3
                rw [expect_ok h1] at h2 h3 hb
                rw [(expect_with_ok h2).1] at h3 hb
                rw [expect_ok h3] at hb
                cases hb
                rfl
            · cases hb
      · split at hb
        · exact parse_binding_after hb
        · split at hb
          · exact parse_binding_after hb
          · cases hb
    subst hp2
    split at h
    · cases h
    · rename_i h4
      split at h
      · cases h
      · rename_i h5
        rw [expect_ok h4] at h5 h
        rw [(expect_with_ok h5).1] at h
        cases h
        exact ⟨rfl, (expect_with_ok h5).2, rfl⟩

theorem parse_record_attr_fails (q : Parser) (h5 : (token_at 5 q).t ≠ TOKEN_SYM) :
    ∃ q1, parse_record_attr q = .fail q1 :=
  Outcome.fail_of_not_ok (parse_record_attr_state q) fun _ _ h =>
    h5 (parse_record_attr_name h).2.1

/-- On a blank source the skipping of whitespace and comments runs to the end
of the buffer. -/
theorem next_token_blank (l : Lexer) (ht : Tracks l) (hb : blank l.src) :
    (next_token l).1 = fill_token (next_token l).2 TOKEN_EOF ∧ Scans l (next_token l).2 := by
  obtain ⟨s1, s2⟩ := skip_phase_spec l
  rcases s2 with ⟨e1, _⟩ | ⟨_, n2, n3, n4, _, n6⟩
  · rw [next_token_eq, e1]
    exact ⟨rfl, s1⟩
  · exfalso
    have t1 := n6 ht
    have hlt : (skip_phase l).2.cur < l.src.length := by
      have := IS_EOF_eq_false.mp n2
      rw [t1.len, s1.src] at this
      exact this
    have hpk : PEEK_C (skip_phase l).2 = l.src.getD (skip_phase l).2.cur 0 := by
      rw [PEEK_C, s1.src]
    rcases hb _ hlt with h | ⟨h, h1, h2, h3⟩
    · rw [← hpk, n3] at h
      cases h
    · rcases Nat.lt_or_ge h (skip_phase l).2.cur with hh | hh
      · obtain ⟨j, j1, j2, j3⟩ := t1.no_hash h hh (by rw [s1.src]; exact h2)
        rw [s1.src] at j3
        exact h3 j j1 j2 j3
      · have : h = (skip_phase l).2.cur := Nat.le_antisymm h1 hh
        rw [this, ← hpk] at h2
        exact n4 h2

theorem tracked_position_snoc (xs : List Nat) (c : Nat) :
    tracked_position (xs ++ [c]) = advance (tracked_position xs) c := by
  unfold tracked_position advance
  rw [List.count_append, List.reverse_append, List.reverse_singleton, List.singleton_append,
    List.takeWhile_cons]
  by_cases h : c = 10
  · subst h
    simp
    omega
  · have h1 : (c != 10) = true := by simpa using h
    have h2 : List.count 10 [c] = 0 := by
      rw [List.count_eq_zero]
      intro hm
      exact h (List.mem_singleton.mp hm).symm
    rw [if_neg h, if_pos h1, h2, List.length_cons]
    rfl

/-- The position of an offset is the position counted over the bytes before
it. -/
theorem position_of_eq_tracked (src : List Nat) (off : Nat) :
    position_of src off = tracked_position (src.take off) := by
  unfold position_of
  induction src.take off using List.reverseRecOn with
  | nil => rfl
  | append_singleton xs c ih => rw [List.foldl_append, tracked_position_snoc, ← ih]; rfl

theorem exprs_ops_mem {op : Nat} : ∀ {es : List Expr},
    op ∈ exprs_ops es ↔ ∃ e ∈ es, op ∈ e.ops
  | [] => by simp [exprs_ops]
  | e :: rest => by
    rw [exprs_ops, List.mem_append, exprs_ops_mem]
    simp

/-- The twelve functions of the expression parser return expressions whose
operators are among those the parser stores. -/
theorem parse_expr_ops_aux : ∀ n : Nat,
    (∀ p e p1, parse_expr n p = .ok e p1 → ∀ op ∈ e.ops, parsed_op op) ∧
    (∀ p e p1, parse_add_expr n p = .ok e p1 → ∀ op ∈ e.ops, parsed_op op) ∧
    (∀ lhs p e p1, (∀ op ∈ lhs.ops, parsed_op op) → parse_add_loop n lhs p = .ok e p1 →
      ∀ op ∈ e.ops, parsed_op op) ∧
    (∀ p e p1, parse_mul_expr n p = .ok e p1 → ∀ op ∈ e.ops, parsed_op op) ∧
    (∀ lhs p e p1, (∀ op ∈ lhs.ops, parsed_op op) → parse_mul_loop n lhs p = .ok e p1 →
      ∀ op ∈ e.ops, parsed_op op) ∧
    (∀ p e p1, parse_member_expr n p = .ok e p1 → ∀ op ∈ e.ops, parsed_op op) ∧
    (∀ lhs p e p1, (∀ op ∈ lhs.ops, parsed_op op) → parse_member_loop n lhs p = .ok e p1 →
      ∀ op ∈ e.ops, parsed_op op) ∧
    (∀ p e p1, parse_atom_expr n p = .ok e p1 → ∀ op ∈ e.ops, parsed_op op) ∧
    (∀ p tok e p1, parse_record_expr n p tok = .ok e p1 → ∀ op ∈ e.ops, parsed_op op) ∧
    (∀ ms p ms1 p1, (∀ op ∈ members_ops ms, parsed_op op) →
      parse_record_expr_loop n ms p = .ok ms1 p1 → ∀ op ∈ members_ops ms1, parsed_op op) ∧
    (∀ p tok e p1, parse_vector_expr n p tok = .ok e p1 → ∀ op ∈ e.ops, parsed_op op) ∧
    (∀ es p es1 p1, (∀ op ∈ exprs_ops es, parsed_op op) →
      parse_vector_expr_loop n es p = .ok es1 p1 → ∀ op ∈ exprs_ops es1, parsed_op op)
  | 0 => by
    refine ⟨?_, ?_, ?_, ?_, ?_, ?_, ?_, ?_, ?_, ?_, ?_, ?_⟩
    · intro p e p1 h
      rw [parse_expr] at h
      cases h
    · intro p e p1 h
      rw [parse_add_expr] at h
      cases h
    · intro lhs p e p1 _ h
      rw [parse_add_loop] at h
      cases h
    · intro p e p1 h
      rw [parse_mul_expr] at h
      cases h
    · intro lhs p e p1 _ h
      rw [parse_mul_loop] at h
      cases h
    · intro p e p1 h
      rw [parse_member_expr] at h
      cases h
    · intro lhs p e p1 _ h
      rw [parse_member_loop] at h
      cases h
    · intro p e p1 h
      rw [parse_atom_expr] at h
      cases h
    · intro p tok e p1 h
      rw [parse_record_expr] at h
      cases h
    · intro ms p ms1 p1 _ h
      rw [parse_record_expr_loop] at h
      cases h
    · intro p tok e p1 h
      rw [parse_vector_expr] at h
      cases h
    · intro es p es1 p1 _ h
      rw [parse_vector_expr_loop] at h
      cases h
  | n + 1 => by
    obtain ⟨i1, i2, i3, i4, i5, i6, i7, i8, i9, i10, i11, i12⟩ := parse_expr_ops_aux n
    refine ⟨?_, ?_, ?_, ?_, ?_, ?_, ?_, ?_, ?_, ?_, ?_, ?_⟩
    · intro p e p1 h
      rw [parse_expr] at h
      exact i2 p e p1 h
    · intro p e p1 h
      rw [parse_add_expr] at h
      obtain ⟨lhs, p2, hl, h⟩ := Outcome.bind_eq_ok h
      exact i3 lhs p2 e p1 (i4 _ _ _ hl) h
    · intro lhs p e p1 hlhs h
      rw [parse_add_loop] at h
      split at h
      · obtain ⟨rhs, p2, hr, h⟩ := Outcome.bind_eq_ok h
        refine i3 _ p2 e p1 ?_ h
        intro op hop
        rw [Expr.ops, List.mem_cons, List.mem_append] at hop
        rcases hop with hop | hop | hop
        · rw [hop]
          split
          · exact Or.inl rfl
          · exact Or.inr (Or.inr (Or.inl rfl))
        · exact hlhs op hop
        · exact i4 _ _ _ hr op hop
      · cases h
        exact hlhs
    · intro p e p1 h
      rw [parse_mul_expr] at h
      obtain ⟨lhs, p2, hl, h⟩ := Outcome.bind_eq_ok h
      exact i5 lhs p2 e p1 (i6 _ _ _ hl) h
    · intro lhs p e p1 hlhs h
      rw [parse_mul_loop] at h
      split at h
      · obtain ⟨rhs, p2, hr, h⟩ := Outcome.bind_eq_ok h
        refine i5 _ p2 e p1 ?_ h
        intro op hop
        rw [Expr.ops, List.mem_cons, List.mem_append] at hop
        rcases hop with hop | hop | hop
        · rw [hop]
          split
          · exact Or.inr (Or.inl rfl)
          · exact Or.inr (Or.inr (Or.inr rfl))
        · exact hlhs op hop
        · exact i6 _ _ _ hr op hop
      · cases h
        exact hlhs
    · intro p e p1 h
      rw [parse_member_expr] at h
      obtain ⟨lhs, p2, hl, h⟩ := Outcome.bind_eq_ok h
      exact i7 lhs p2 e p1 (i8 _ _ _ hl) h
    · intro lhs p e p1 hlhs h
      rw [parse_member_loop] at h
      split at h
      · dsimp only [] at h
        split at h
        · cases h
        · refine i7 _ _ e p1 ?_ h
          intro op hop
          rw [Expr.ops] at hop
          exact hlhs op hop
      · cases h
        exact hlhs
    · intro p e p1 h
      rw [parse_atom_expr] at h
      dsimp only [] at h
      split at h
      · exact i9 _ _ _ _ h
      · exact i11 _ _ _ _ h
      · split at h
        · rename_i e2 p2 he
          split at h
          · cases h
          · cases h
            exact i1 _ _ _ he
        · cases h
        · cases h
        · cases h
      · cases h
        intro op hop
        rw [Expr.ops] at hop
        cases hop
      · cases h
        intro op hop
        rw [Expr.ops] at hop
        cases hop
      · cases h
    · intro p tok e p1 h
      rw [parse_record_expr] at h
      split at h
      · cases h
      · obtain ⟨ms, p2, hm, h⟩ := Outcome.bind_eq_ok h
        cases h
        intro op hop
        rw [Expr.ops] at hop
        exact i10 [] _ ms _ (fun _ h0 => by rw [members_ops] at h0; cases h0) hm op hop
    · intro ms p ms1 p1 hms h
      rw [parse_record_expr_loop] at h
      split at h
      · dsimp only [] at h
        split at h
        · cases h
        · split at h
          · cases h
          · obtain ⟨ex, p2, hex, h⟩ := Outcome.bind_eq_ok h
            split at h
            · cases h
            · refine i10 _ _ ms1 p1 ?_ h
              intro op hop
              rw [members_ops, List.mem_append] at hop
              rcases hop with hop | hop
              · exact i1 _ _ _ hex op hop
              · exact hms op hop
      · split at h
        · cases h
        · cases h
          exact hms
    · intro p tok e p1 h
      rw [parse_vector_expr] at h
      obtain ⟨first, p2, hf, h⟩ := Outcome.bind_eq_ok h
      obtain ⟨es, p3, hes, h⟩ := Outcome.bind_eq_ok h
      cases h
      intro op hop
      rw [Expr.ops, invert_eq, List.append_nil, exprs_ops_mem] at hop
      obtain ⟨x, hx, hop⟩ := hop
      have key := i12 [first] p2 es _ (by
        intro o ho
        rw [exprs_ops, exprs_ops, List.append_nil] at ho
        exact i1 _ _ _ hf o ho) hes
      exact key op (exprs_ops_mem.mpr ⟨x, List.mem_reverse.mp hx, hop⟩)
    · intro es p es1 p1 hes h
      rw [parse_vector_expr_loop] at h
      split at h
      · obtain ⟨tmp, p2, ht, h⟩ := Outcome.bind_eq_ok h
        refine i12 _ _ es1 p1 ?_ h
        intro op hop
        rw [exprs_ops, List.mem_append] at hop
        rcases hop with hop | hop
        · exact i1 _ _ _ ht op hop
        · exact hes op hop
      · split at h
        · cases h
        · cases h
          exact hes

theorem parse_expr_ops {fuel : Nat} {p p1 : Parser} {e : Expr}
    (h : parse_expr fuel p = .ok e p1) : ∀ op ∈ e.ops, parsed_op op :=
  (parse_expr_ops_aux fuel).1 p e p1 h

theorem parse_statement_ops {fuel : Nat} {p p1 : Parser} {s : Statement}
    (h : parse_statement fuel p = .ok s p1) : ∀ op ∈ s.ops, parsed_op op := by
  rw [parse_statement] at h
  dsimp only [] at h
  split at h
  · split at h
    · cases h
    · obtain ⟨ty, p3, _, h⟩ := Outcome.bind_eq_ok h
      split at h
      · cases h
      · obtain ⟨e, p4, he, h⟩ := Outcome.bind_eq_ok h
        cases h
        exact parse_expr_ops he
  · obtain ⟨e, p2, he, h⟩ := Outcome.bind_eq_ok h
    cases h
    exact parse_expr_ops he
  · cases h

theorem parse_statement_loop_ops (fuel : Nat) : ∀ (n : Nat) (acc : List Statement) (p p1 : Parser)
    (r : List Statement × Token), (∀ s ∈ acc, ∀ op ∈ s.ops, parsed_op op) →
    parse_statement_loop fuel n acc p = .ok r p1 → ∀ s ∈ r.1, ∀ op ∈ s.ops, parsed_op op
  | 0, _, _, _, _, _, h => by rw [parse_statement_loop] at h; cases h
  | n + 1, acc, p, p1, r, hacc, h => by
    rw [parse_statement_loop] at h
    split at h
    · obtain ⟨s, p2, hs, h⟩ := Outcome.bind_eq_ok h
      refine parse_statement_loop_ops fuel n _ _ _ _ ?_ h
      intro s1 hs1
      rcases List.mem_cons.mp hs1 with rfl | hs1
      · exact parse_statement_ops hs
      · exact hacc s1 hs1
    · cases h
      exact hacc

theorem parse_procedure_ops {fuel : Nat} {p p1 : Parser} {line col : Nat} {t : Toplevel}
    (h : parse_procedure fuel p line col = .ok t p1) : ∀ op ∈ t.ops, parsed_op op := by
  rw [parse_procedure] at h
  dsimp only [] at h
  split at h
  · cases h
  · split at h
    · cases h
    · obtain ⟨ps, p2, _, h⟩ := Outcome.bind_eq_ok h
      obtain ⟨rt, p3, _, h⟩ := Outcome.bind_eq_ok h
      obtain ⟨r, p4, hr, h⟩ := Outcome.bind_eq_ok h
      cases h
      intro op hop
      rw [Toplevel.ops, Toplevel.stmts, List.mem_flatMap] at hop
      obtain ⟨s, hs, hop⟩ := hop
      rw [invert_eq, List.append_nil, List.mem_reverse] at hs
      exact parse_statement_loop_ops fuel fuel [] _ _ r (fun _ h0 => by cases h0) hr s hs op hop

theorem parse_record_toplevel_ops {fuel : Nat} {p p1 : Parser} {line col : Nat} {t : Toplevel}
    (h : parse_record_toplevel fuel p line col = .ok t p1) : ∀ op ∈ t.ops, parsed_op op := by
  rw [parse_record_toplevel] at h
  split at h
  · cases h
  · obtain ⟨es, p2, _, h⟩ := Outcome.bind_eq_ok h
    cases h
    intro op hop
    cases hop

theorem parse_toplevel_ops {fuel : Nat} {p p1 : Parser} {t : Toplevel}
    (h : parse_toplevel fuel p = .ok t p1) : ∀ op ∈ t.ops, parsed_op op := by
  rw [parse_toplevel] at h
  obtain ⟨tok, p2, _, h⟩ := Outcome.bind_eq_ok h
  split at h
  · exact parse_record_toplevel_ops h
  · exact parse_procedure_ops h
  · cases h
  · cases h

theorem Declarations.ops {fuel : Nat} {p p1 : Parser} {ts : List Toplevel}
    (h : Declarations fuel p ts p1) : ∀ t ∈ ts, ∀ op ∈ t.ops, parsed_op op := by
  induction h with
  | done p he => intro t ht; cases ht
  | decl p p1 p2 t ts _ _ ht _ ih =>
    intro t1 ht1
    rcases List.mem_cons.mp ht1 with rfl | ht1
    · exact parse_toplevel_ops ht
    · exact ih t1 ht1

theorem parse_ast_declarations {fuel : Nat} {p p1 : Parser} {tops : List Toplevel}
    (h : parse_ast fuel p = .ok tops p1) : Declarations fuel p tops p1 := by
  rw [parse_ast] at h
  obtain ⟨r, p2, hl, h⟩ := Outcome.bind_eq_ok h
  split at h
  · cases h
  · rename_i hne
    cases h
    obtain ⟨_, ts, hr, _, hd⟩ := parse_ast_loop_declarations fuel fuel [] p r.1 r.2 _ hl hne
    rw [hr, invert_eq, List.append_nil, List.append_nil, List.reverse_reverse]
    exact hd

theorem parse_vector_expr_loop_rest : ∀ (n : Nat) (acc : List Expr) (p : Parser),
    parse_vector_expr_loop n acc p =
      (vector_rest n p).bind fun xs p1 => .ok (xs.reverse ++ acc) p1
  | 0, _, _ => by rw [parse_vector_expr_loop, vector_rest]; rfl
  | n + 1, acc, p => by
    rw [parse_vector_expr_loop, vector_rest]
    split
    · cases parse_expr n (p_next p).2 with
      | ok e p1 =>
        dsimp only [Outcome.bind]
        rw [parse_vector_expr_loop_rest n]
        cases vector_rest n p1 with
        | ok rest p2 =>
          dsimp only [Outcome.bind]
          rw [List.reverse_cons, List.append_assoc]
          rfl
        | fail _ => rfl
        | undefined => rfl
        | out_of_fuel => rfl
      | fail _ => rfl
      | undefined => rfl
      | out_of_fuel => rfl
    · split <;> rfl

theorem parse_record_expr_loop_members : ∀ (n : Nat) (acc : List RecordExprMember)
    (p : Parser), parse_record_expr_loop n acc p =
      (record_members n p).bind fun ms p1 => .ok (ms.reverse ++ acc) p1
  | 0, _, _ => by rw [parse_record_expr_loop, record_members]; rfl
  | n + 1, acc, p => by
    rw [parse_record_expr_loop, record_members]
    dsimp only []
    split
    · split
      · rfl
      · split
        · rfl
        · cases parse_expr n _ with
          | ok e p2 =>
            dsimp only [Outcome.bind]
            split
            · rfl
            · rw [parse_record_expr_loop_members n]
              cases record_members n _ with
              | ok rest p3 =>
                dsimp only [Outcome.bind]
                rw [List.reverse_cons, List.append_assoc]
                rfl
              | fail _ => rfl
              | undefined => rfl
              | out_of_fuel => rfl
          | fail _ => rfl
          | undefined => rfl
          | out_of_fuel => rfl
    · split <;> rfl

theorem parse_statement_loop_statements (fuel : Nat) : ∀ (n : Nat) (acc : List Statement)
    (p : Parser), parse_statement_loop fuel n acc p =
      (statements fuel n p).bind fun r p1 => .ok (r.1.reverse ++ acc, r.2) p1
  | 0, _, _ => by rw [parse_statement_loop, statements]; rfl
  | n + 1, acc, p => by
    rw [parse_statement_loop, statements]
    split
    · cases parse_statement fuel (p_peek p).2 with
      | ok s p1 =>
        dsimp only [Outcome.bind]
        rw [parse_statement_loop_statements fuel n]
        cases statements fuel n p1 with
        | ok rest p2 =>
          dsimp only [Outcome.bind]
          rw [List.reverse_cons, List.append_assoc]
          rfl
        | fail _ => rfl
        | undefined => rfl
        | out_of_fuel => rfl
      | fail _ => rfl
      | undefined => rfl
      | out_of_fuel => rfl
    · rfl

theorem parse_parameter_loop_rest (fuel : Nat) : ∀ (n : Nat) (acc : List Parameter)
    (p : Parser), parse_parameter_loop fuel n acc p =
      (parameters_rest fuel n p).bind fun xs p1 => .ok (xs.reverse ++ acc) p1
  | 0, _, _ => by rw [parse_parameter_loop, parameters_rest]; rfl
  | n + 1, acc, p => by
    rw [parse_parameter_loop, parameters_rest]
    split
    · cases parse_parameter fuel (p_next p).2 with
      | ok e p1 =>
        dsimp only [Outcome.bind]
        rw [parse_parameter_loop_rest fuel n]
        cases parameters_rest fuel n p1 with
        | ok rest p2 =>
          dsimp only [Outcome.bind]
          rw [List.reverse_cons, List.append_assoc]
          rfl
        | fail _ => rfl
        | undefined => rfl
        | out_of_fuel => rfl
      | fail _ => rfl
      | undefined => rfl
      | out_of_fuel => rfl
    · split <;> rfl

theorem parse_record_toplevel_loop_entries (fuel : Nat) : ∀ (n : Nat)
    (acc : List RecordEntry) (p : Parser), parse_record_toplevel_loop fuel n acc p =
      (record_entries fuel n p).bind fun es p1 => .ok (es.reverse ++ acc) p1
  | 0, _, _ => by rw [parse_record_toplevel_loop, record_entries]; rfl
  | n + 1, acc, p => by
    rw [parse_record_toplevel_loop, record_entries]
    dsimp only []
    split
    · cases (if (p_next p).1.t = TOKEN_LBRACK then parse_record_attr (p_next p).2
          else Outcome.ok (RECORD_ENTRY_NORMAL, 0, (p_next p).1) (p_next p).2) with
      | ok h p1 =>
        dsimp only [Outcome.bind]
        split
        · rfl
        · cases parse_type fuel _ with
          | ok ty p2 =>
            dsimp only [Outcome.bind]
            rw [parse_record_toplevel_loop_entries fuel n]
            cases record_entries fuel n p2 with
            | ok rest p3 =>
              dsimp only [Outcome.bind]
              rw [List.reverse_cons, List.append_assoc]
              rfl
            | fail _ => rfl
            | undefined => rfl
            | out_of_fuel => rfl
          | fail _ => rfl
          | undefined => rfl
          | out_of_fuel => rfl
      | fail _ => rfl
      | undefined => rfl
      | out_of_fuel => rfl
    · split <;> rfl

theorem strncmp_eq_symm : ∀ (a b : List Nat), a.length = b.length →
    strncmp_eq a b = strncmp_eq b a
  | [], [], _ => rfl
  | [], _ :: _, h => by cases h
  | _ :: _, [], h => by cases h
  | x :: xs, y :: ys, h => by
    have ih := strncmp_eq_symm xs ys (by simpa using h)
    simp only [strncmp_eq]
    by_cases hxy : x = y
    · subst hxy
      simp [ih]
    · have : ¬ y = x := fun h1 => hxy h1.symm
      simp [hxy, this]

theorem name_eq_symm (a b : List Nat) : name_eq a b = name_eq b a := by
  unfold name_eq
  by_cases h : a.length = b.length
  · rw [strncmp_eq_symm a b h]
    simp [h]
  · have h1 : ¬ b.length = a.length := fun h1 => h h1.symm
    simp [h, h1]

theorem strncmp_eq_of_both : ∀ (q a b : List Nat), q.length = a.length → q.length = b.length →
    strncmp_eq q a = true → strncmp_eq q b = true → strncmp_eq a b = true
  | [], [], [], _, _, _, _ => rfl
  | [], _ :: _, _, h, _, _, _ => by cases h
  | [], [], _ :: _, _, h, _, _ => by cases h
  | _ :: _, [], _, h, _, _, _ => by cases h
  | _ :: _, _ :: _, [], _, h, _, _ => by cases h
  | x :: xs, y :: ys, z :: zs, ha, hb, h1, h2 => by
    simp only [strncmp_eq] at h1 h2 ⊢
    by_cases hxy : x = y
    · by_cases hxz : x = z
      · subst hxy
        subst hxz
        by_cases hx : x = 0
        · simp [hx]
        · simp only [ne_eq, not_true_eq_false, if_false, hx] at h1 h2 ⊢
          exact strncmp_eq_of_both xs ys zs (by simpa using ha) (by simpa using hb) h1 h2
      · simp [hxz] at h2
    · simp [hxy] at h1

/-- Two names that pass the name test against the same name pass it against
each other. -/
theorem name_eq_of_both {q a b : List Nat} (h1 : name_eq q a = true) (h2 : name_eq q b = true) :
    name_eq a b = true := by
  unfold name_eq at h1 h2 ⊢
  rw [Bool.and_eq_true, decide_eq_true_eq] at h1 h2 ⊢
  exact ⟨h1.1.symm.trans h2.1, strncmp_eq_of_both q a b h1.1 h2.1 h1.2 h2.2⟩

theorem lookup_frame_eq_find (name : List Nat) : ∀ frame : List VarEntry,
    (lookup_frame name frame).map Prod.snd = frame.find? (fun e => name_eq name e.name)
  | [] => rfl
  | iter :: rest => by
    rw [lookup_frame, List.find?_cons]
    cases h : name_eq name iter.name with
    | true => rfl
    | false => exact lookup_frame_eq_find name rest

/-- The entry `lookup_scope` returns is the first entry, in the order of the
search, that passes the name test. -/
theorem lookup_scope_from_eq_find (name : List Nat) : ∀ (scope : Chain) (depth : Nat),
    (lookup_scope_from depth name scope).map Prod.snd =
      (search_order scope).find? (fun e => name_eq name e.name)
  | [], _ => rfl
  | frame :: up, depth => by
    rw [lookup_scope_from, search_order, List.find?_append, ← lookup_frame_eq_find]
    cases lookup_frame name frame with
    | some r => rfl
    | none => exact lookup_scope_from_eq_find name up (depth + 1)

theorem lookup_scope_isSome_iff (name : List Nat) (scope : Chain) :
    (lookup_scope scope name).isSome = true ↔
      ∃ e ∈ search_order scope, name_eq name e.name = true := by
  have h := lookup_scope_from_eq_find name scope 0
  rw [lookup_scope]
  cases hl : lookup_scope_from 0 name scope with
  | some r =>
    rw [hl] at h
    have := List.find?_some h.symm
    exact ⟨fun _ => ⟨r.2, List.mem_of_find?_eq_some h.symm, this⟩, fun _ => rfl⟩
  | none =>
    rw [hl] at h
    have hn := List.find?_eq_none.mp h.symm
    constructor
    · intro h1; cases h1
    · rintro ⟨e, he, hne⟩
      exact absurd hne (hn e he)

theorem add_to_scope_eq_none_iff (entries : List VarEntry) (up : Chain) (name : List Nat) :
    add_to_scope entries up name = none ↔ (lookup_scope (entries :: up) name).isSome = true := by
  rw [add_to_scope]
  cases lookup_scope (entries :: up) name with
  | some r => exact ⟨fun _ => rfl, fun _ => rfl⟩
  | none =>
    constructor
    · intro h; cases h
    · intro h; cases h

theorem add_to_scope_eq_new {entries : List VarEntry} {up : Chain} {name : List Nat}
    (h : lookup_scope (entries :: up) name = none) :
    add_to_scope entries up name =
      some ({ depth := 0, index := entries.length },
        { name := name, type := none, record := none } :: entries) := by
  rw [add_to_scope, h]

theorem NamesDistinct.of_names {ts ts1 : List VarEntry}
    (h : ts1.map VarEntry.name = ts.map VarEntry.name) (hd : NamesDistinct ts) :
    NamesDistinct ts1 := by
  have key : ∀ l : List VarEntry, NamesDistinct l ↔
      (l.map VarEntry.name).Pairwise (fun a b => name_eq a b = false) := by
    intro l
    rw [NamesDistinct, List.pairwise_map]
  rw [key] at hd ⊢
  rw [h]
  exact hd

/-- A successful `add_to_scope` keeps the names of the chain distinct. -/
theorem add_to_scope_distinct {entries : List VarEntry} {up : Chain} {name : List Nat}
    {a : VarRef × List VarEntry} (hd : ChainDistinct (entries :: up))
    (h : add_to_scope entries up name = some a) : ChainDistinct (a.2 :: up) := by
  have hl : ¬ (lookup_scope (entries :: up) name).isSome = true := by
    rw [← add_to_scope_eq_none_iff, h]
    exact fun h1 => Option.noConfusion h1
  cases add_to_scope_eq_some h
  rw [lookup_scope_isSome_iff] at hl
  refine List.Pairwise.cons ?_ hd
  intro e he
  cases hn : name_eq name e.name with
  | false => rfl
  | true => exact absurd ⟨e, he, hn⟩ hl

theorem ChainDistinct.of_chain_names {scope scope1 : Chain}
    (h : chain_names scope1 = chain_names scope) (hd : ChainDistinct scope) :
    ChainDistinct scope1 :=
  NamesDistinct.of_names h hd

theorem chain_names_cons (frame : List VarEntry) (up : Chain) :
    chain_names (frame :: up) = frame.map VarEntry.name ++ chain_names up := by
  simp [chain_names, search_order]

/-- Distinct names under the name test are distinct byte strings. -/
theorem NamesDistinct.nodup {ts : List VarEntry} (h : NamesDistinct ts) :
    (ts.map VarEntry.name).Nodup := by
  rw [List.Nodup, List.pairwise_map]
  refine List.Pairwise.imp ?_ h
  intro a b hab heq
  rw [heq, name_eq_refl] at hab
  cases hab

theorem register_toplevels_scope_distinct :
    ∀ (tops : List Toplevel) (ast : AST) (tops1 : List Toplevel) (ast1 : AST),
      NamesDistinct ast.scope →
      register_toplevels ast tops = .ok tops1 ast1 →
      NamesDistinct ast1.scope
  | [], ast, tops1, ast1, hinv, h => by
    rw [register_toplevels] at h
    cases h
    exact hinv
  | .proc line col _ scope entry_point name stmts params return_type :: rest, ast, tops1, ast1,
      hinv, h => by
    rw [register_toplevels] at h
    split at h
    · simp at h
    · rename_i a ha
      have hfresh := add_to_scope_fresh ha
      have := add_to_scope_eq_some ha
      subst this
      obtain ⟨r1, s1, hr, h2⟩ := Outcome.bind_eq_ok h
      cases h2
      refine register_toplevels_scope_distinct rest _ r1 _ ?_ hr
      exact List.Pairwise.cons (fun e he => hfresh e he) hinv
  | .record line col name entries _ :: rest, ast, tops1, ast1, hinv, h => by
    rw [register_toplevels] at h
    split at h
    · simp at h
    · obtain ⟨r1, s1, hr, h2⟩ := Outcome.bind_eq_ok h
      cases h2
      refine register_toplevels_scope_distinct rest _ r1 _ ?_ hr
      exact hinv

theorem resolve_params_distinct (up : Chain) :
    ∀ (params : List Parameter) (ast ast1 : AST) (entries : List VarEntry)
      (r : List Parameter × List VarEntry), ChainDistinct (entries :: up) →
      resolve_params ast up entries params = .ok r ast1 → ChainDistinct (r.2 :: up)
  | [], ast, ast1, entries, r, hd, h => by
    rw [resolve_params] at h
    cases h
    exact hd
  | .mk line col name type :: rest, ast, ast1, entries, r, hd, h => by
    rw [resolve_params] at h
    split at h
    · cases h
    · rename_i a ha
      split at h
      · obtain ⟨q, a2, hq, h⟩ := Outcome.bind_eq_ok h
        cases h
        refine resolve_params_distinct up rest _ _ _ q ?_ hq
        refine ChainDistinct.of_chain_names ?_ (add_to_scope_distinct hd ha)
        rw [chain_names_cons, chain_names_cons, update_entry_names]
        intro e
        rfl
      · cases h
      · cases h
      · cases h

theorem resolve_statement_distinct {ast ast1 : AST} {entries : List VarEntry} {up : Chain}
    {stmt : Statement} {r : Statement × List VarEntry × Option Ty}
    (hd : ChainDistinct (entries :: up))
    (h : resolve_statement ast entries up stmt = .ok r ast1) : ChainDistinct (r.2.1 :: up) := by
  cases stmt with
  | var line col en name expr type =>
    rw [resolve_statement] at h
    split at h
    · simp at h
    · rename_i a ha
      simp only [] at h
      obtain ⟨_, _, _, h⟩ := Outcome.bind_eq_ok h
      obtain ⟨_, _, _, h⟩ := Outcome.bind_eq_ok h
      obtain ⟨_, _, _, h⟩ := Outcome.bind_eq_ok h
      cases h
      refine ChainDistinct.of_chain_names ?_ (add_to_scope_distinct hd ha)
      rw [chain_names_cons, chain_names_cons, update_entry_names]
      intro e
      rfl
  | ret line col expr =>
    cases expr with
    | none =>
      rw [resolve_statement] at h
      cases h
      exact hd
    | some e =>
      rw [resolve_statement] at h
      obtain ⟨e1, _, _, h⟩ := Outcome.bind_eq_ok h
      cases h
      exact hd

theorem resolve_stmts_distinct (up : Chain) (return_type : Ty) :
    ∀ (stmts : List Statement) (ast ast1 : AST) (entries : List VarEntry) (did : Bool)
      (r : List Statement × List VarEntry × Bool), ChainDistinct (entries :: up) →
      resolve_stmts ast up return_type entries did stmts = .ok r ast1 →
      ChainDistinct (r.2.1 :: up)
  | [], ast, ast1, entries, did, r, hd, h => by
    rw [resolve_stmts] at h
    cases h
    exact hd
  | iter :: rest, ast, ast1, entries, did, r, hd, h => by
    rw [resolve_stmts] at h
    split at h
    · rename_i q ast2 hq
      simp only [] at h
      split at h
      · obtain ⟨p, ast4, hrest, h⟩ := Outcome.bind_eq_ok h
        cases h
        exact resolve_stmts_distinct up return_type rest _ _ _ _ p
          (resolve_statement_distinct hd hq) hrest
      · cases h
      · cases h
      · cases h
    · cases h
    · cases h
    · cases h

theorem chain_names_pair (frame up : List VarEntry) :
    chain_names [frame, up] = frame.map VarEntry.name ++ up.map VarEntry.name := by
  simp [chain_names, search_order]

/-- What `resolve_proc` leaves: the type scope as it was, the names of the
global value scope as they were, and a procedure scope whose names are
distinct from one another and from those of the global value scope. -/
theorem resolve_proc_distinct {ast ast1 : AST} {t t1 : Toplevel}
    (hd : NamesDistinct ast.scope) (h : resolve_proc ast t = .ok t1 ast1) :
    ast1.type_scope = ast.type_scope ∧ ChainDistinct [t1.scope, ast1.scope] := by
  have hnames := resolve_proc_scope_names h
  cases t with
  | record line col name entries en =>
    cases h
    refine ⟨rfl, ?_⟩
    exact NamesDistinct.of_names (by simp [search_order, Toplevel.scope]) hd
  | proc line col entry scope entry_point name stmts params return_type =>
    rw [resolve_proc] at h
    obtain ⟨rt1, a1, hrt, h⟩ := Outcome.bind_eq_ok h
    cases resolve_type_state hrt
    cases entry with
    | none => cases h
    | some ref =>
      dsimp only [] at h
      obtain ⟨ps, a3, hps, h⟩ := Outcome.bind_eq_ok h
      cases (resolve_params_state _ _ _ _ _ _ hps).1
      obtain ⟨r, a5, hr, h⟩ := Outcome.bind_eq_ok h
      have hf := Framed.of_eq_ok (resolve_stmts_framed _ _ _ _ _ _) hr
      have hup : ∀ (params1 : List Parameter) (frame : List VarEntry),
          (update_entry (fun e => { e with type := some (Ty.proc rt1 params1) })
            ref.index frame).map VarEntry.name = frame.map VarEntry.name := by
        intro params1 frame
        rw [update_entry_names]
        intro e
        rfl
      have h1 : ChainDistinct (ps.2 :: [(ast.set_scope (update_entry
          (fun e => { e with type := some (Ty.proc rt1 params) }) ref.index
          ast.scope)).scope]) := by
        refine resolve_params_distinct _ params _ _ [] ps ?_ hps
        refine NamesDistinct.of_names ?_ hd
        simp only [search_order, List.nil_append, List.append_nil]
        exact hup params _
      have h2 := resolve_stmts_distinct _ rt1 stmts _ _ ps.2 false r
        (ChainDistinct.of_chain_names (by
          simp only [chain_names_pair]
          exact congrArg _ (hup ps.1 _)) h1) hr
      split at h
      · cases h
      · cases h
        refine ⟨hf.2.2.1, ChainDistinct.of_chain_names ?_ h2⟩
        simp only [chain_names_pair]
        exact congrArg _ (congrArg _ hf.2.1)

theorem resolve_procs_distinct : ∀ (tops : List Toplevel) (ast ast1 : AST)
    (tops1 : List Toplevel), NamesDistinct ast.scope →
    resolve_procs ast tops = .ok tops1 ast1 →
    ast1.type_scope = ast.type_scope ∧ ∀ t ∈ tops1, ChainDistinct [t.scope, ast1.scope]
  | [], ast, ast1, tops1, _, h => by
    rw [resolve_procs] at h
    cases h
    exact ⟨rfl, fun t ht => by cases ht⟩
  | iter :: rest, ast, ast1, tops1, hd, h => by
    rw [resolve_procs] at h
    split at h
    · rename_i iter1 ast2 hi
      obtain ⟨r, a, hrest, h⟩ := Outcome.bind_eq_ok h
      cases h
      obtain ⟨p1, p2⟩ := resolve_proc_distinct hd hi
      have hd2 : NamesDistinct ast2.scope :=
        NamesDistinct.of_names (resolve_proc_scope_names hi) hd
      obtain ⟨q1, q2⟩ := resolve_procs_distinct rest ast2 _ r hd2 hrest
      refine ⟨q1.trans p1, ?_⟩
      intro t ht
      rcases List.mem_cons.mp ht with rfl | ht
      · refine ChainDistinct.of_chain_names ?_ p2
        simp only [chain_names_pair]
        rw [resolve_procs_scope_names rest _ _ _ hrest]
      · exact q2 t ht
    · cases h
    · cases h
    · cases h

/-- In a list with distinct names at most one entry passes the name test, so
the first one that passes it is the same in every order of the list. -/
theorem NamesDistinct.find_perm {ts order : List VarEntry} (hd : NamesDistinct ts)
    (hp : order.Perm ts) (name : List Nat) :
    order.find? (fun e => name_eq name e.name) = ts.find? (fun e => name_eq name e.name) := by
  have hsym : Symmetric (fun e1 e2 : VarEntry => name_eq e1.name e2.name = false) := by
    intro a b h
    rw [name_eq_symm]
    exact h
  have huniq : ∀ a ∈ ts, ∀ b ∈ ts, name_eq name a.name = true → name_eq name b.name = true →
      a = b := by
    intro a ha b hb pa pb
    by_contra hne
    have := List.Pairwise.forall hsym hd ha hb hne
    rw [name_eq_of_both pa pb] at this
    cases this
  cases ho : order.find? (fun e => name_eq name e.name) with
  | some a =>
    have ha := hp.subset (List.mem_of_find?_eq_some ho)
    have pa := List.find?_some ho
    cases ht : ts.find? (fun e => name_eq name e.name) with
    | some b =>
      have pb := List.find?_some ht
      rw [huniq a ha b (List.mem_of_find?_eq_some ht) pa pb]
    | none => exact absurd pa (List.find?_eq_none.mp ht a ha)
  | none =>
    have hn := List.find?_eq_none.mp ho
    exact (List.find?_eq_none.mpr fun e he => hn e (hp.symm.subset he)).symm

theorem resolve_names_distinct {ast ast1 : AST} (hd : ChainDistinct [ast.type_scope])
    (h : resolve_names ast = .ok () ast1) :
    ChainDistinct [ast1.type_scope] ∧ ChainDistinct [ast1.scope] ∧
      ∀ t ∈ ast1.toplevels, ChainDistinct [t.scope, ast1.scope] := by
  have hts : NamesDistinct ast.type_scope := by
    have : search_order [ast.type_scope] = ast.type_scope := by simp [search_order]
    rw [ChainDistinct, this] at hd
    exact hd
  rw [resolve_names] at h
  obtain ⟨tops, a1, h1, h⟩ := Outcome.bind_eq_ok h
  obtain ⟨tops1, a2, h2, h⟩ := Outcome.bind_eq_ok h
  cases h
  have d1 : NamesDistinct a1.type_scope :=
    register_toplevels_distinct ast.toplevels { ast with scope := [] } tops a1 hts h1
  have d2 : NamesDistinct a1.scope :=
    register_toplevels_scope_distinct ast.toplevels { ast with scope := [] } tops a1
      List.Pairwise.nil h1
  obtain ⟨q1, q2⟩ := resolve_procs_distinct tops a1 a2 tops1 d2 h2
  have d3 : NamesDistinct a2.scope :=
    NamesDistinct.of_names (resolve_procs_scope_names _ _ _ _ h2) d2
  refine ⟨?_, ?_, q2⟩
  · show NamesDistinct (search_order [a2.type_scope])
    rw [q1]
    simpa [search_order] using d1
  · show NamesDistinct (search_order [a2.scope])
    simpa [search_order] using d3

theorem Within.refl_within (l : Lexer) : Within l l := ⟨rfl, Nat.le_refl _, id, id⟩

theorem Within.trans_within {a b c : Lexer} (h1 : Within a b) (h2 : Within b c) : Within a c :=
  ⟨h2.src_len.trans h1.src_len, Nat.le_trans h1.cur_le h2.cur_le,
    fun h => h2.bound (h1.bound h), fun h => h2.start (h1.start h)⟩

/-- One byte consumed before the end of the buffer, with `start` where it was. -/
theorem Within.step {l l1 : Lexer} (he : IS_EOF l = false) (h1 : l1.src_len = l.src_len)
    (h2 : l1.cur = l.cur + 1) (h3 : l1.start = l.start) : Within l l1 := by
  have := IS_EOF_eq_false.mp he
  exact ⟨h1, by omega, fun _ => by omega, fun _ => by omega⟩

/-- `RESET`, or any write that leaves the cursor and sets `start` to it. -/
theorem Within.reset_within {l l1 : Lexer} (h1 : l1.src_len = l.src_len) (h2 : l1.cur = l.cur)
    (h3 : l1.start = l.cur) : Within l l1 :=
  ⟨h1, by omega, fun h => by omega, fun _ => by omega⟩

theorem read_c_of_not_eof {l : Lexer} (he : IS_EOF l = false) : read_c l = some (PEEK_C l) := by
  rw [read_c, if_pos (IS_EOF_eq_false.mp he)]
  rfl

theorem NEXT_C_checked_eq {l : Lexer} (he : IS_EOF l = false) :
    NEXT_C_checked l = some (NEXT_C l) := by
  rw [NEXT_C_checked, read_c_of_not_eof he]
  rfl

theorem skip_whitespace_loop_checked_eq : ∀ (n : Nat) (l : Lexer),
    skip_whitespace_loop_checked n l = some (skip_whitespace_loop n l) ∧
      Within l (skip_whitespace_loop n l) ∧ (skip_whitespace_loop n l).start = l.start
  | 0, l => ⟨rfl, Within.refl_within l, rfl⟩
  | n + 1, l => by
    rw [skip_whitespace_loop_checked, skip_whitespace_loop]
    cases he : IS_EOF l with
    | true => exact ⟨rfl, Within.refl_within l, rfl⟩
    | false =>
      rw [read_c_of_not_eof he]
      simp only [Option.bind, Bool.not_false, Bool.true_and, Bool.false_eq_true, if_false]
      cases hs : isspace (PEEK_C l) with
      | true =>
        simp only [if_true]
        obtain ⟨i1, i2, i3⟩ := skip_whitespace_loop_checked_eq n
          (if PEEK_C l = 10 then { SKIP_C l with col := 1, line := (SKIP_C l).line + 1 }
            else SKIP_C l)
        refine ⟨i1, Within.trans_within ?_ i2, i3.trans ?_⟩
        · split
          · exact Within.step he rfl rfl rfl
          · exact Within.step he rfl rfl rfl
        · split <;> rfl
      | false => exact ⟨rfl, Within.refl_within l, rfl⟩

theorem skip_whitespace_checked_eq (l : Lexer) :
    skip_whitespace_checked l = some (skip_whitespace l) ∧ Within l (skip_whitespace l).2 ∧
      (skip_whitespace l).2.start = (skip_whitespace l).2.cur := by
  obtain ⟨h1, h2, _⟩ := skip_whitespace_loop_checked_eq (l.src_len - l.cur) l
  rw [skip_whitespace_checked, h1]
  exact ⟨rfl, ⟨h2.src_len, h2.cur_le, h2.bound, fun _ => Nat.le_refl _⟩, rfl⟩

theorem lex_sym_loop_checked_eq : ∀ (n : Nat) (l : Lexer),
    lex_sym_loop_checked n l = some (lex_sym_loop n l) ∧ Within l (lex_sym_loop n l) ∧
      (lex_sym_loop n l).start = l.start
  | 0, l => ⟨rfl, Within.refl_within l, rfl⟩
  | n + 1, l => by
    rw [lex_sym_loop_checked, lex_sym_loop]
    cases he : IS_EOF l with
    | true => exact ⟨rfl, Within.refl_within l, rfl⟩
    | false =>
      rw [read_c_of_not_eof he, NEXT_C_checked_eq he]
      simp only [Option.bind, Bool.not_false, Bool.true_and, Bool.false_eq_true, if_false]
      split
      · obtain ⟨i1, i2, i3⟩ := lex_sym_loop_checked_eq n (NEXT_C l).2
        have hw : Within l (NEXT_C l).2 := Within.step he rfl rfl rfl
        exact ⟨i1, Within.trans_within hw i2, i3⟩
      · exact ⟨rfl, Within.refl_within l, rfl⟩

theorem classify_keyword_checked_fold (l : Lexer) : ∀ (kws : List (TokenType × List Nat))
    (tok : Token), tok.data + tok.size ≤ l.src_len →
    kws.foldl
      (fun acc kw => acc.bind fun tk =>
        if kw.2.length = tk.size then
          if tk.data + tk.size ≤ l.src_len then
            some (if slice l.src tk.data tk.size = kw.2 then { tk with t := kw.1 } else tk)
          else none
        else some tk) (some tok) =
    some (kws.foldl
      (fun tk kw => if kw.2.length = tk.size ∧ slice l.src tk.data tk.size = kw.2
        then { tk with t := kw.1 } else tk) tok)
  | [], tok, _ => rfl
  | kw :: kws, tok, hb => by
    rw [List.foldl_cons, List.foldl_cons]
    simp only [Option.bind]
    by_cases h1 : kw.2.length = tok.size
    · rw [if_pos h1, if_pos hb]
      by_cases h2 : slice l.src tok.data tok.size = kw.2
      · rw [if_pos h2, if_pos ⟨h1, h2⟩]
        exact classify_keyword_checked_fold l kws _ hb
      · rw [if_neg h2, if_neg (fun h => h2 h.2)]
        exact classify_keyword_checked_fold l kws _ hb
    · rw [if_neg h1, if_neg (fun h => h1 h.1)]
      exact classify_keyword_checked_fold l kws _ hb

theorem lex_sym_checked_eq (l : Lexer) (hs : l.start ≤ l.cur) (hb : l.cur ≤ l.src_len) :
    lex_sym_checked l = some (lex_sym l) ∧ Within l (lex_sym l).2 := by
  obtain ⟨h1, h2, h3⟩ := lex_sym_loop_checked_eq (l.src_len - l.cur) l
  have hb1 := h2.bound hb
  have hs1 := h2.start hs
  rw [lex_sym_checked, h1]
  simp only [Option.bind]
  rw [classify_keyword_checked, classify_keyword_checked_fold _ _ _ (by
    show (lex_sym_loop (l.src_len - l.cur) l).start +
      ((lex_sym_loop (l.src_len - l.cur) l).cur - (lex_sym_loop (l.src_len - l.cur) l).start) ≤ _
    omega)]
  exact ⟨rfl, ⟨h2.src_len, h2.cur_le, h2.bound, fun _ => Nat.le_refl _⟩⟩

theorem lex_num_int_loop_checked_eq : ∀ (n : Nat) (l : Lexer) (i : Int) (c : Nat),
    lex_num_int_loop_checked n l i c = some (lex_num_int_loop n l i c) ∧
      Within l (lex_num_int_loop n l i c).1 ∧ (lex_num_int_loop n l i c).1.start = l.start
  | 0, l, _, _ => ⟨rfl, Within.refl_within l, rfl⟩
  | n + 1, l, i, c => by
    rw [lex_num_int_loop_checked, lex_num_int_loop]
    cases he : IS_EOF l with
    | true => exact ⟨rfl, Within.refl_within l, rfl⟩
    | false =>
      rw [read_c_of_not_eof he, NEXT_C_checked_eq he]
      simp only [Option.bind, Bool.false_eq_true, if_false]
      split
      · obtain ⟨i1, i2, i3⟩ := lex_num_int_loop_checked_eq n (NEXT_C l).2
          (wrap64 (wrap64 (i * 10) + (Int.ofNat (PEEK_C l) - 48))) (PEEK_C l)
        have hw : Within l (NEXT_C l).2 := Within.step he rfl rfl rfl
        exact ⟨i1, Within.trans_within hw i2, i3⟩
      · exact ⟨rfl, Within.refl_within l, rfl⟩

theorem lex_num_frac_loop_checked_eq : ∀ (n : Nat) (l : Lexer) (ds : List Nat),
    lex_num_frac_loop_checked n l ds = some (lex_num_frac_loop n l ds) ∧
      Within l (lex_num_frac_loop n l ds).1 ∧ (lex_num_frac_loop n l ds).1.start = l.start
  | 0, l, _ => ⟨rfl, Within.refl_within l, rfl⟩
  | n + 1, l, ds => by
    rw [lex_num_frac_loop_checked, lex_num_frac_loop]
    cases he : IS_EOF l with
    | true => exact ⟨rfl, Within.refl_within l, rfl⟩
    | false =>
      rw [read_c_of_not_eof he, NEXT_C_checked_eq he]
      simp only [Option.bind, Bool.not_false, Bool.true_and, Bool.false_eq_true, if_false]
      split
      · obtain ⟨i1, i2, i3⟩ := lex_num_frac_loop_checked_eq n (NEXT_C l).2
          (ds ++ [PEEK_C l - 48])
        have hw : Within l (NEXT_C l).2 := Within.step he rfl rfl rfl
        exact ⟨i1, Within.trans_within hw i2, i3⟩
      · exact ⟨rfl, Within.refl_within l, rfl⟩

theorem lex_num_checked_eq (l : Lexer) :
    lex_num_checked l = some (lex_num l) ∧ Within l (lex_num l).2 := by
  obtain ⟨h1, h2, _⟩ := lex_num_int_loop_checked_eq (l.src_len - l.cur) l 0 0
  rw [lex_num_checked, lex_num, h1]
  simp only [Option.bind]
  cases he : IS_EOF (lex_num_int_loop (l.src_len - l.cur) l 0 0).1 with
  | true =>
    simp only [Bool.not_true, Bool.false_and, Bool.false_eq_true, if_false]
    exact ⟨by first | rfl | trivial, ⟨h2.src_len, h2.cur_le, h2.bound, fun _ => Nat.le_refl _⟩⟩
  | false =>
    simp only [Bool.not_false, Bool.true_and]
    split
    · rw [NEXT_C_checked_eq he]
      obtain ⟨f1, f2, _⟩ := lex_num_frac_loop_checked_eq
        ((NEXT_C (lex_num_int_loop (l.src_len - l.cur) l 0 0).1).2.src_len -
          (NEXT_C (lex_num_int_loop (l.src_len - l.cur) l 0 0).1).2.cur)
        (NEXT_C (lex_num_int_loop (l.src_len - l.cur) l 0 0).1).2 []
      simp only [Option.bind]
      rw [f1]
      have hw : Within (lex_num_int_loop (l.src_len - l.cur) l 0 0).1
          (NEXT_C (lex_num_int_loop (l.src_len - l.cur) l 0 0).1).2 :=
        Within.step he rfl rfl rfl
      have hall := Within.trans_within h2 (Within.trans_within hw f2)
      exact ⟨rfl, ⟨hall.src_len, hall.cur_le, hall.bound, fun _ => Nat.le_refl _⟩⟩
    · exact ⟨rfl, ⟨h2.src_len, h2.cur_le, h2.bound, fun _ => Nat.le_refl _⟩⟩

theorem comment_loop_checked_eq : ∀ (n : Nat) (l : Lexer),
    comment_loop_checked n l = some (comment_loop n l) ∧ Within l (comment_loop n l) ∧
      (comment_loop n l).start = l.start
  | 0, l => ⟨rfl, Within.refl_within l, rfl⟩
  | n + 1, l => by
    rw [comment_loop_checked, comment_loop]
    cases he : IS_EOF l with
    | true => exact ⟨rfl, Within.refl_within l, rfl⟩
    | false =>
      rw [NEXT_C_checked_eq he]
      simp only [Option.bind, Bool.false_eq_true, if_false]
      have hw : Within l (NEXT_C l).2 := Within.step he rfl rfl rfl
      split
      · obtain ⟨i1, i2, i3⟩ := comment_loop_checked_eq n (NEXT_C l).2
        exact ⟨i1, Within.trans_within hw i2, i3⟩
      · exact ⟨rfl, hw, rfl⟩

theorem hash_loop_checked_eq : ∀ (n : Nat) (c : Nat) (l : Lexer),
    hash_loop_checked n c l = some (hash_loop n c l) ∧ Within l (hash_loop n c l).2.2 ∧
      ((hash_loop n c l).1 = none → l.start = l.cur →
        (hash_loop n c l).2.2.start = (hash_loop n c l).2.2.cur)
  | 0, _, l => ⟨rfl, Within.refl_within l, fun _ h => h⟩
  | n + 1, c, l => by
    rw [hash_loop_checked, hash_loop]
    by_cases h35 : c = 35
    · rw [if_pos h35, if_pos h35]
      obtain ⟨c1, c2, c3⟩ := comment_loop_checked_eq (l.src_len - l.cur) l
      rw [c1]
      simp only [Option.bind]
      cases he : IS_EOF (comment_loop (l.src_len - l.cur) l) with
      | true =>
        simp only [if_true]
        exact ⟨by first | rfl | trivial, c2, fun h => Option.noConfusion h⟩
      | false =>
        simp only [Bool.false_eq_true, if_false]
        obtain ⟨w1, w2, w3⟩ := skip_whitespace_checked_eq
          { comment_loop (l.src_len - l.cur) l with
            col := 1, line := (comment_loop (l.src_len - l.cur) l).line + 1 }
        rw [w1]
        simp only [Option.bind]
        have hw : Within l (skip_whitespace
            { comment_loop (l.src_len - l.cur) l with
              col := 1, line := (comment_loop (l.src_len - l.cur) l).line + 1 }).2 :=
          Within.trans_within
            (show Within l { comment_loop (l.src_len - l.cur) l with
                col := 1, line := (comment_loop (l.src_len - l.cur) l).line + 1 } from
              ⟨c2.src_len, c2.cur_le, c2.bound, c2.start⟩) w2
        cases hr : (skip_whitespace
            { comment_loop (l.src_len - l.cur) l with
              col := 1, line := (comment_loop (l.src_len - l.cur) l).line + 1 }).1 with
        | false =>
          simp only [Bool.not_false, if_true]
          exact ⟨by first | rfl | trivial, hw, fun h => Option.noConfusion h⟩
        | true =>
          simp only [Bool.not_true, Bool.false_eq_true, if_false]
          have hne : IS_EOF (skip_whitespace
              { comment_loop (l.src_len - l.cur) l with
                col := 1, line := (comment_loop (l.src_len - l.cur) l).line + 1 }).2 = false := by
            have := (skip_whitespace_spec
              { comment_loop (l.src_len - l.cur) l with
                col := 1, line := (comment_loop (l.src_len - l.cur) l).line + 1 }).2.2.1
            rw [hr] at this
            simpa using this.symm
          rw [read_c_of_not_eof hne]
          obtain ⟨i1, i2, i3⟩ := hash_loop_checked_eq n (PEEK_C (skip_whitespace
              { comment_loop (l.src_len - l.cur) l with
                col := 1, line := (comment_loop (l.src_len - l.cur) l).line + 1 }).2)
            (skip_whitespace
              { comment_loop (l.src_len - l.cur) l with
                col := 1, line := (comment_loop (l.src_len - l.cur) l).line + 1 }).2
          exact ⟨i1, Within.trans_within hw i2, fun h _ => i3 h w3⟩
    · rw [if_neg h35, if_neg h35]
      exact ⟨rfl, Within.refl_within l, fun _ h => h⟩

theorem punct_checked_eq (l : Lexer) (t : TokenType) (he : IS_EOF l = false) :
    punct_checked l t = some (punct l t) ∧ Within l (punct l t).2 := by
  rw [punct_checked, NEXT_C_checked_eq he]
  exact ⟨rfl, Within.step he rfl rfl rfl⟩

/-- The chain of tests of `next_token` behind the skipping, with the reads
checked, returns what the chain returns. -/
theorem dispatch_checked_eq (c : Nat) (l1 : Lexer) (he : IS_EOF l1 = false)
    (hst : l1.start = l1.cur) :
    (if isalpha c || c == 95 then lex_sym_checked l1
      else if isdigit c then lex_num_checked l1
      else if c = 58 then punct_checked l1 TOKEN_COLON
      else if c = 46 then punct_checked l1 TOKEN_PERIOD
      else if c = 44 then punct_checked l1 TOKEN_COMMA
      else if c = 61 then punct_checked l1 TOKEN_EQ
      else if c = 43 then punct_checked l1 TOKEN_ADD
      else if c = 45 then punct_checked l1 TOKEN_SUB
      else if c = 42 then punct_checked l1 TOKEN_MUL
      else if c = 47 then punct_checked l1 TOKEN_DIV
      else if c = 62 then punct_checked l1 TOKEN_GT
      else if c = 60 then punct_checked l1 TOKEN_LT
      else if c = 123 then punct_checked l1 TOKEN_LCURLY
      else if c = 125 then punct_checked l1 TOKEN_RCURLY
      else if c = 91 then punct_checked l1 TOKEN_LBRACK
      else if c = 93 then punct_checked l1 TOKEN_RBRACK
      else if c = 40 then punct_checked l1 TOKEN_LPAREN
      else if c = 41 then punct_checked l1 TOKEN_RPAREN
      else
        (read_c l1).bind fun c2 =>
          some (fill_token (lexer_error l1 ("unknown char '" ++ fmt_char c2 ++ "'"))
              TOKEN_ERR,
            lexer_error l1 ("unknown char '" ++ fmt_char c2 ++ "'"))) =
      some
        (if isalpha c || c == 95 then lex_sym l1
          else if isdigit c then lex_num l1
          else if c = 58 then punct l1 TOKEN_COLON
          else if c = 46 then punct l1 TOKEN_PERIOD
          else if c = 44 then punct l1 TOKEN_COMMA
          else if c = 61 then punct l1 TOKEN_EQ
          else if c = 43 then punct l1 TOKEN_ADD
          else if c = 45 then punct l1 TOKEN_SUB
          else if c = 42 then punct l1 TOKEN_MUL
          else if c = 47 then punct l1 TOKEN_DIV
          else if c = 62 then punct l1 TOKEN_GT
          else if c = 60 then punct l1 TOKEN_LT
          else if c = 123 then punct l1 TOKEN_LCURLY
          else if c = 125 then punct l1 TOKEN_RCURLY
          else if c = 91 then punct l1 TOKEN_LBRACK
          else if c = 93 then punct l1 TOKEN_RBRACK
          else if c = 40 then punct l1 TOKEN_LPAREN
          else if c = 41 then punct l1 TOKEN_RPAREN
          else
            (fill_token
                (lexer_error l1 ("unknown char '" ++ fmt_char (l1.src.getD l1.cur 0) ++ "'"))
                TOKEN_ERR,
              lexer_error l1 ("unknown char '" ++ fmt_char (l1.src.getD l1.cur 0) ++ "'"))) ∧
    Within l1
      (if isalpha c || c == 95 then lex_sym l1
        else if isdigit c then lex_num l1
        else if c = 58 then punct l1 TOKEN_COLON
        else if c = 46 then punct l1 TOKEN_PERIOD
        else if c = 44 then punct l1 TOKEN_COMMA
        else if c = 61 then punct l1 TOKEN_EQ
        else if c = 43 then punct l1 TOKEN_ADD
        else if c = 45 then punct l1 TOKEN_SUB
        else if c = 42 then punct l1 TOKEN_MUL
        else if c = 47 then punct l1 TOKEN_DIV
        else if c = 62 then punct l1 TOKEN_GT
        else if c = 60 then punct l1 TOKEN_LT
        else if c = 123 then punct l1 TOKEN_LCURLY
        else if c = 125 then punct l1 TOKEN_RCURLY
        else if c = 91 then punct l1 TOKEN_LBRACK
        else if c = 93 then punct l1 TOKEN_RBRACK
        else if c = 40 then punct l1 TOKEN_LPAREN
        else if c = 41 then punct l1 TOKEN_RPAREN
        else
          (fill_token
              (lexer_error l1 ("unknown char '" ++ fmt_char (l1.src.getD l1.cur 0) ++ "'"))
              TOKEN_ERR,
            lexer_error l1 ("unknown char '" ++ fmt_char (l1.src.getD l1.cur 0) ++ "'"))).2 := by
  have hlt := IS_EOF_eq_false.mp he
  by_cases h0 : (isalpha c || c == 95) = true
  · rw [if_pos h0, if_pos h0]
    exact lex_sym_checked_eq l1 (by omega) (by omega)
  rw [if_neg h0, if_neg h0]
  by_cases h1 : isdigit c = true
  · rw [if_pos h1, if_pos h1]
    exact lex_num_checked_eq l1
  rw [if_neg h1, if_neg h1]
  by_cases h58 : c = 58
  · rw [if_pos h58, if_pos h58]
    exact punct_checked_eq l1 TOKEN_COLON he
  rw [if_neg h58, if_neg h58]
  by_cases h46 : c = 46
  · rw [if_pos h46, if_pos h46]
    exact punct_checked_eq l1 TOKEN_PERIOD he
  rw [if_neg h46, if_neg h46]
  by_cases h44 : c = 44
  · rw [if_pos h44, if_pos h44]
    exact punct_checked_eq l1 TOKEN_COMMA he
  rw [if_neg h44, if_neg h44]
  by_cases h61 : c = 61
  · rw [if_pos h61, if_pos h61]
    exact punct_checked_eq l1 TOKEN_EQ he
  rw [if_neg h61, if_neg h61]
  by_cases h43 : c = 43
  · rw [if_pos h43, if_pos h43]
    exact punct_checked_eq l1 TOKEN_ADD he
  rw [if_neg h43, if_neg h43]
  by_cases h45 : c = 45
  · rw [if_pos h45, if_pos h45]
    exact punct_checked_eq l1 TOKEN_SUB he
  rw [if_neg h45, if_neg h45]
  by_cases h42 : c = 42
  · rw [if_pos h42, if_pos h42]
    exact punct_checked_eq l1 TOKEN_MUL he
  rw [if_neg h42, if_neg h42]
  by_cases h47 : c = 47
  · rw [if_pos h47, if_pos h47]
    exact punct_checked_eq l1 TOKEN_DIV he
  rw [if_neg h47, if_neg h47]
  by_cases h62 : c = 62
  · rw [if_pos h62, if_pos h62]
    exact punct_checked_eq l1 TOKEN_GT he
  rw [if_neg h62, if_neg h62]
  by_cases h60 : c = 60
  · rw [if_pos h60, if_pos h60]
    exact punct_checked_eq l1 TOKEN_LT he
  rw [if_neg h60, if_neg h60]
  by_cases h123 : c = 123
  · rw [if_pos h123, if_pos h123]
    exact punct_checked_eq l1 TOKEN_LCURLY he
  rw [if_neg h123, if_neg h123]
  by_cases h125 : c = 125
  · rw [if_pos h125, if_pos h125]
    exact punct_checked_eq l1 TOKEN_RCURLY he
  rw [if_neg h125, if_neg h125]
  by_cases h91 : c = 91
  · rw [if_pos h91, if_pos h91]
    exact punct_checked_eq l1 TOKEN_LBRACK he
  rw [if_neg h91, if_neg h91]
  by_cases h93 : c = 93
  · rw [if_pos h93, if_pos h93]
    exact punct_checked_eq l1 TOKEN_RBRACK he
  rw [if_neg h93, if_neg h93]
  by_cases h40 : c = 40
  · rw [if_pos h40, if_pos h40]
    exact punct_checked_eq l1 TOKEN_LPAREN he
  rw [if_neg h40, if_neg h40]
  by_cases h41 : c = 41
  · rw [if_pos h41, if_pos h41]
    exact punct_checked_eq l1 TOKEN_RPAREN he
  rw [if_neg h41, if_neg h41]
  rw [read_c_of_not_eof he]
  exact ⟨rfl, Within.reset_within rfl rfl hst⟩

/-- Every read of `src` that `next_token` makes is at an index below
`src_len`; the cursor does not move back, stays inside the buffer if it was,
and `start` is left at or before it. -/
theorem next_token_checked_eq (l : Lexer) :
    next_token_checked l = some (next_token l) ∧ Within l (next_token l).2 ∧
      (next_token l).2.start ≤ (next_token l).2.cur := by
  obtain ⟨w1, w2, w3⟩ := skip_whitespace_checked_eq l
  obtain ⟨_, _, s3, s4, _⟩ := skip_whitespace_spec l
  rw [next_token_checked, next_token, w1]
  simp only [Option.bind]
  cases hr : (skip_whitespace l).1 with
  | false =>
    simp only [Bool.not_false, if_true]
    exact ⟨by first | rfl | trivial, w2, Nat.le_of_eq w3⟩
  | true =>
    simp only [Bool.not_true, Bool.false_eq_true, if_false]
    have hne : IS_EOF (skip_whitespace l).2 = false := by
      rw [hr] at s3
      simpa using s3.symm
    rw [read_c_of_not_eof hne]
    obtain ⟨h1, h2, h3⟩ := hash_loop_checked_eq ((skip_whitespace l).2.src_len -
      (skip_whitespace l).2.cur) (PEEK_C (skip_whitespace l).2) (skip_whitespace l).2
    obtain ⟨_, g2, _⟩ := hash_loop_spec _ _ _ rfl hne (s4 hr) w3 (Nat.le_refl _)
    simp only [Option.bind]
    rw [h1]
    simp only [Option.bind]
    have hw := Within.trans_within w2 h2
    cases hh : (hash_loop ((skip_whitespace l).2.src_len - (skip_whitespace l).2.cur)
        (PEEK_C (skip_whitespace l).2) (skip_whitespace l).2).1 with
    | some tok =>
      exact ⟨rfl, hw, h2.start (Nat.le_of_eq w3)⟩
    | none =>
      have hst := h3 hh w3
      have he1 : IS_EOF (hash_loop ((skip_whitespace l).2.src_len - (skip_whitespace l).2.cur)
          (PEEK_C (skip_whitespace l).2) (skip_whitespace l).2).2.2 = false := by
        rcases g2 with ⟨g, _⟩ | ⟨_, _, g, _⟩
        · rw [hh] at g
          cases g
        · exact g
      obtain ⟨d1, d2⟩ := dispatch_checked_eq
        (hash_loop ((skip_whitespace l).2.src_len - (skip_whitespace l).2.cur)
          (PEEK_C (skip_whitespace l).2) (skip_whitespace l).2).2.1 _ he1 hst
      exact ⟨d1, Within.trans_within hw d2, d2.start (Nat.le_of_eq hst)⟩

theorem lexer_ops_checked_eq (l : Lexer) :
    lexer_next_checked l = some (lexer_next l) ∧
    lexer_peek_checked l = some (lexer_peek l) ∧
    lexer_skip_checked l = some (lexer_skip l) := by
  rw [lexer_next_checked, lexer_peek_checked, lexer_skip_checked, lexer_next, lexer_peek,
    lexer_skip, (next_token_checked_eq l).1, (next_token_checked_eq { l with has_peek := true }).1]
  cases l.has_peek <;> exact ⟨rfl, rfl, rfl⟩

/-- What the three operations of the lexer keep. -/
theorem lexer_ops_within (l : Lexer) :
    Within l (lexer_next l).2 ∧ Within l (lexer_peek l).2 ∧ Within l (lexer_skip l) := by
  obtain ⟨_, n1, _⟩ := next_token_checked_eq l
  obtain ⟨_, n2, _⟩ := next_token_checked_eq { l with has_peek := true }
  rw [lexer_next, lexer_peek, lexer_skip]
  cases hp : l.has_peek with
  | true =>
    rw [if_pos rfl, if_pos rfl, if_pos rfl]
    exact ⟨⟨rfl, Nat.le_refl _, id, id⟩, Within.refl_within l, ⟨rfl, Nat.le_refl _, id, id⟩⟩
  | false =>
    rw [if_neg Bool.false_ne_true, if_neg Bool.false_ne_true, if_neg Bool.false_ne_true]
    refine ⟨n1, ?_, n1⟩
    exact ⟨n2.src_len, n2.cur_le, n2.bound, n2.start⟩

theorem Steps.within {l l1 : Lexer} (h : Steps l l1) : Within l l1 := by
  induction h with
  | refl => exact Within.refl_within _
  | next _ ih => exact Within.trans_within ih (lexer_ops_within _).1
  | peek _ ih => exact Within.trans_within ih (lexer_ops_within _).2.1
  | skip _ ih => exact Within.trans_within ih (lexer_ops_within _).2.2

/-! ## The claims -/

/-- C1 (fails on the code): the parser writes a diagnostic for
`proc f() void`, whose body reaches end of file without `end`, and yet
`parse_ast` returns true and `bsl_compile` returns true. -/
theorem C1_missing_end_is_accepted :
    (parse_source "proc f() void").returns_true = true ∧
    parser_diagnostics (parse_source "proc f() void") =
      [{ line := 1, col := 14, msg := "unexpected end of file" }] ∧
    (compile "proc f() void").returns_true = true ∧
    diagnostics (compile "proc f() void") =
      [{ line := 1, col := 14, msg := "unexpected end of file" }] := by
  decide

/-- C2 (fails on the code): `bsl_compile` returns false on
`proc f(x: void) void var y: void = x end` without any write to the
diagnostic record; `compare_types` on two `void` types answers false silently. -/
theorem C2_failure_without_diagnostic :
    (compile "proc f(x: void) void var y: void = x end").returns_false = true ∧
    diagnostics (compile "proc f(x: void) void var y: void = x end") = [] := by
  decide

/-- C3 (the claim as stated is false): the diagnostic record is written
twice, and the first write is overwritten, when `compare_types` fails inside
a binary expression, when it fails in a return check, and when a
parenthesised expression fails to parse. -/
theorem C3_record_written_twice :
    diagnostics (compile "proc f(a: vec2<f32>, b: vec2<f64>) void var c = a + b end") =
      [ { line := 1, col := 50, msg := "incompatible types" },
        { line := 1, col := 50,
          msg := "cannot perform arithmetic on vectors of different types or sizes" } ] ∧
    diagnostics
        (compile "record A x: f32 end record B x: f32 end proc f(a: A) B return a end") =
      [ { line := 1, col := 62, msg := "incompatible record types 'A' and 'B'" },
        { line := 1, col := 62, msg := "incompatible return type" } ] ∧
    diagnostics (compile "proc f() void return (+ end") =
      [ { line := 1, col := 24, msg := "expected expression" },
        { line := 1, col := 24, msg := "expected right parenthesis" } ] := by
  decide

/-- C3 (as amended): during one `resolve_names` call the diagnostic record is
not written when the call returns `true`; when it returns `false` it is
written at most twice, and a second write is one of the messages with which
the binary-expression checks and the return check follow a failed
`compare_types`, made at the position of the write it replaces. The call
either returns or dereferences a null pointer; it never runs out of fuel. -/
theorem C3_resolve_names_writes_at_most_twice (ast : AST) :
    match resolve_names ast with
    | .ok _ ast1 => ast1.result = ast.result
    | .fail ast1 =>
      ast1.result.writes = ast.result.writes ∨
        (∃ d, ast1.result.writes = d :: ast.result.writes) ∨
        ∃ line col msg1 msg2, msg2 ∈ caller_messages ∧
          ast1.result.writes = { line := line, col := col, msg := msg2 } ::
            { line := line, col := col, msg := msg1 } :: ast.result.writes
    | .undefined => True
    | .out_of_fuel => False := by
  have h := resolve_names_quiet ast
  cases hr : resolve_names ast <;> simp only [hr, Quiet, Failed] at h ⊢ <;> exact h

/-- C4 (fails on the code): `resolve_names` returns true on
`proc f() void var x = x end`, where the initializer `x`, the `var`
statement and the scope entry of `x` all keep a null type; and on
`proc f() void return g end proc g() void end`, where the returned `g` keeps
a null type. -/
theorem C4_null_types_survive :
    (compile "proc f() void var x = x end").returns_true = true ∧
    (compile "proc f() void var x = x end").value.map AST.exprs_typed = some false ∧
    (compile "proc f() void var x = x end").value.map AST.var_stmts_typed = some false ∧
    (compile "proc f() void var x = x end").value.map AST.scope_entries_typed = some false ∧
    (compile "proc f() void return g end proc g() void end").returns_true = true ∧
    (compile "proc f() void return g end proc g() void end").value.map AST.exprs_typed =
      some false := by
  decide

/-- C5 (fails on the code): `bsl_compile` returns true on
`record Q p: Nope end`, keeping the `var` variant as the type of entry `p`,
and on `proc f(x: vec2<Nope>) void end`, keeping it as the element type of
the parameter's vector type. -/
theorem C5_var_variant_survives :
    (compile "record Q p: Nope end").returns_true = true ∧
    (compile "record Q p: Nope end").value.map
        (fun ast => ast.toplevels.map Toplevel.type_tags) = some [[[TYPE_VAR]]] ∧
    (compile "proc f(x: vec2<Nope>) void end").returns_true = true ∧
    (compile "proc f(x: vec2<Nope>) void end").value.map
        (fun ast => ast.toplevels.map Toplevel.type_tags) =
      some [[[TYPE_VOID], [TYPE_VECTOR, TYPE_VAR]]] := by
  decide

/-- C6 (fails on the code): the mixed vector and scalar subtraction of
`proc f() vec2<f32> var a = {1.0, 2.0} return a - 1.0 end` is accepted
without a diagnostic, whereas the same program with `+` is rejected with the
message of the claim. -/
theorem C6_mixed_subtraction_is_accepted :
    (compile "proc f() vec2<f32> var a = {1.0, 2.0} return a - 1.0 end").returns_true = true ∧
    diagnostics (compile "proc f() vec2<f32> var a = {1.0, 2.0} return a - 1.0 end") = [] ∧
    (compile "proc f() vec2<f32> var a = {1.0, 2.0} return a + 1.0 end").returns_false = true ∧
    diagnostics (compile "proc f() vec2<f32> var a = {1.0, 2.0} return a + 1.0 end") =
      [ { line := 1, col := 47,
          msg := "cannot perform addition or subtraction on mixed scalar and vector operands" } ]
    := by
  decide

/-- C7 (fails on the code): two vector operands of one element type and one
size are rejected when the element type is a record name or `void`. The sum
`a + b` with `a, b : vec2<P>` for a declared record `P`, and the product
`a * b` with `a, b : vec2<void>`, fail with "cannot perform arithmetic on
vectors of different types or sizes", whereas the same program with
`vec2<f32>` is accepted without a diagnostic. On two equal types
`compare_types` answers `Ty.comparable` and writes nothing. Every row of
`Matrix` resolves to the row's result type and leaves the result record as
it was, unless it is the row of two vectors with an element type on which
that answer is `false`; on those the binary expression fails with the
message above. -/
theorem C7_equal_vectors_are_rejected :
    (compile "record P x: f32 end proc f(a: vec2<P>, b: vec2<P>) void var c = a + b end"
      ).returns_false = true ∧
    diagnostics
        (compile "record P x: f32 end proc f(a: vec2<P>, b: vec2<P>) void var c = a + b end") =
      [ { line := 1, col := 66,
          msg := "cannot perform arithmetic on vectors of different types or sizes" } ] ∧
    (compile "proc f(a: vec2<void>, b: vec2<void>) void var c = a * b end").returns_false =
      true ∧
    diagnostics (compile "proc f(a: vec2<void>, b: vec2<void>) void var c = a * b end") =
      [ { line := 1, col := 52,
          msg := "cannot perform arithmetic on vectors of different types or sizes" } ] ∧
    (compile "proc f(a: vec2<f32>, b: vec2<f32>) void var c = a + b end").returns_true = true ∧
    diagnostics (compile "proc f(a: vec2<f32>, b: vec2<f32>) void var c = a + b end") = [] ∧
    (∀ (r : BSLCompileResult) (line col : Nat) (T : Ty),
      compare_types r line col T T = (T.comparable, r)) ∧
    (∀ (ast ast1 ast2 : AST) (scope : Chain) (line col op : Nat)
        (lhs rhs lhs1 rhs1 : Expr) (old : Option Ty) (t1 t2 T : Ty),
      resolve_expr ast scope lhs = .ok lhs1 ast1 → lhs1.type = some t1 →
      resolve_expr ast1 scope rhs = .ok rhs1 ast2 → rhs1.type = some t2 →
      Matrix op t1 t2 T →
      (∀ n E, t1 = Ty.vector n E → t2 = Ty.vector n E → E.comparable = true) →
      resolve_expr ast scope (.binary line col lhs rhs op old) =
          .ok (.binary line col lhs1 rhs1 op (some T)) ast2 ∧
        ast2.result = ast.result) ∧
    (∀ (ast ast1 ast2 : AST) (scope : Chain) (line col op n : Nat)
        (lhs rhs lhs1 rhs1 : Expr) (old : Option Ty) (E : Ty),
      resolve_expr ast scope lhs = .ok lhs1 ast1 → lhs1.type = some (Ty.vector n E) →
      resolve_expr ast1 scope rhs = .ok rhs1 ast2 → rhs1.type = some (Ty.vector n E) →
      E.comparable = false →
      resolve_expr ast scope (.binary line col lhs rhs op old) =
        .fail (ast2.error line col
          "cannot perform arithmetic on vectors of different types or sizes")) :=
  ⟨by decide, by decide, by decide, by decide, by decide, by decide,
    fun r line col T => compare_types_self r line col T,
    fun ast ast1 ast2 scope line col op lhs rhs lhs1 rhs1 old t1 t2 T hl hlt hr hrt hm hc =>
      resolve_binary_rows ast ast1 ast2 scope line col op lhs rhs lhs1 rhs1 old t1 t2 T
        hl hlt hr hrt hm hc,
    fun ast ast1 ast2 scope line col op n lhs rhs lhs1 rhs1 old E hl hlt hr hrt hE =>
      resolve_binary_vectors_unanswered ast ast1 ast2 scope line col op n lhs rhs lhs1 rhs1
        old E hl hlt hr hrt hE⟩

/-- C8 (fails on the code): the vector literal `{1.0, v}` with
`v : vec2<f32>` is rejected with "incompatible types", whereas `{v, 1.0}`
resolves to a vector of `f32` of size 3. -/
theorem C8_vector_operand_after_scalar_is_rejected :
    (compile "proc f(v: vec2<f32>) void var a = {1.0, v} end").returns_false = true ∧
    diagnostics (compile "proc f(v: vec2<f32>) void var a = {1.0, v} end") =
      [{ line := 1, col := 36, msg := "incompatible types" }] ∧
    (compile "proc f(v: vec2<f32>) void var a = {v, 1.0} end").returns_true = true ∧
    (compile "proc f(v: vec2<f32>) void var a = {v, 1.0} end").value.map
        (fun ast => ast.toplevels.map (fun t => t.stmts.map Statement.var_type_shape)) =
      some [[some ([TYPE_VECTOR, TYPE_F32], [3])]] := by
  decide

/-- C9 (fails on the code): `compare_types` answers false on two `void`
types, and writes nothing. -/
theorem C9_compare_types_void_void (r : BSLCompileResult) (line col : Nat) :
    compare_types r line col Ty.void Ty.void = (false, r) := by
  simp [compare_types, Ty.t]

/-- C10: record type equality is nominal. After pass 1 of `resolve_names`
(started with the empty type scope, as `parse_ast` leaves it), any two
entries of the type scope hold record types on which `compare_types` answers
`true` exactly when they are the same entry, that is the same declaration,
that is the same name, and otherwise writes
"incompatible record types '<a>' and '<b>'" with the two names; and two
`record R ...` expressions with the same name that resolve against this type
scope get types on which `compare_types` answers `true`. -/
theorem C10_record_types_nominal (ast0 ast1 : AST) (tops tops1 : List Toplevel)
    (h0 : ast0.type_scope = [])
    (h1 : register_toplevels ast0 tops = .ok tops1 ast1) :
    (∀ (i j : Nat) (e1 e2 : VarEntry),
      ast1.type_scope[i]? = some e1 → ast1.type_scope[j]? = some e2 →
      (e1.name = e2.name ↔ i = j) ∧
      ∃ t1 t2, e1.type = some t1 ∧ e2.type = some t2 ∧ t1.t = TYPE_RECORD ∧
        t2.t = TYPE_RECORD ∧
        ∀ (r : BSLCompileResult) (line col : Nat),
          compare_types r line col t1 t2 =
            if i = j then (true, r)
            else (false, result_error r line col
              ("incompatible record types '" ++ fmt_name e1.name ++ "' and '" ++
                fmt_name e2.name ++ "'"))) ∧
    (∀ (a a1 b b1 : AST) (scope scope1 : Chain) (l c l1 c1 : Nat) (R : List Nat)
      (ms ms1 : List RecordExprMember) (en en1 : Option VarRef) (ty ty1 : Option Ty)
      (x x1 : Expr),
      a.type_scope = ast1.type_scope → a1.type_scope = ast1.type_scope →
      resolve_expr a scope (.record l c R ms en ty) = .ok x b →
      resolve_expr a1 scope1 (.record l1 c1 R ms1 en1 ty1) = .ok x1 b1 →
      ∃ t t1, x.type = some t ∧ x1.type = some t1 ∧
        ∀ (r : BSLCompileResult) (line col : Nat),
          compare_types r line col t t1 = (true, r)) := by
  have hreg : Registered ast1.next_id ast1.type_scope :=
    register_toplevels_registered tops ast0 tops1 ast1 (by rw [h0]; trivial) h1
  have hdis : NamesDistinct ast1.type_scope :=
    register_toplevels_distinct tops ast0 tops1 ast1 (by rw [h0]; exact List.Pairwise.nil) h1
  constructor
  · intro i j e1 e2 hi hj
    obtain ⟨hin, es1, ht1⟩ := Registered.get _ _ i e1 hreg hi
    obtain ⟨hjn, es2, ht2⟩ := Registered.get _ _ j e2 hreg hj
    refine ⟨⟨fun hn => hdis.eq_index hi hj hn, fun hij => ?_⟩, _, _, ht1, ht2, rfl, rfl, ?_⟩
    · subst hij
      rw [hi] at hj
      cases hj
      rfl
    · intro r line col
      by_cases hij : i = j
      · subst hij
        simp [compare_types, Ty.t]
      · have hne : ast1.next_id - 1 - i ≠ ast1.next_id - 1 - j := by omega
        simp [compare_types, Ty.t, hij, hne]
  · intro a a1 b b1 scope scope1 l c l1 c1 R ms ms1 en en1 ty ty1 x x1 ha ha1 hx hx1
    obtain ⟨r, hr, hxt⟩ := resolve_record_expr_type hx
    obtain ⟨r1, hr1, hxt1⟩ := resolve_record_expr_type hx1
    rw [ha] at hr
    rw [ha1, hr] at hr1
    cases hr1
    have hmem := lookup_scope_single_mem hr
    obtain ⟨i, hi, hget⟩ := List.mem_iff_getElem.mp hmem
    have hget1 : ast1.type_scope[i]? = some r.2 := by
      rw [List.getElem?_eq_getElem hi, hget]
    obtain ⟨-, es, ht⟩ := Registered.get _ _ i r.2 hreg hget1
    refine ⟨_, _, hxt.trans ht, hxt1.trans ht, ?_⟩
    intro q line col
    exact compare_types_refl q line col _ rfl

/-- Witness of C10: the declarations `record A x: f32 end record B x: f32 end`. -/
theorem C10_record_types_nominal_witness :
    empty_ast.type_scope = [] ∧
      register_toplevels empty_ast (two_records none none) =
        .ok (two_records (some { depth := 0, index := 0 }) (some { depth := 0, index := 1 }))
          two_records_registered ∧
      compare_types { writes := [] } 1 62
          (Ty.record 0 entries_x_f32 (bytes "A")) (Ty.record 1 entries_x_f32 (bytes "B")) =
        (false, result_error { writes := [] } 1 62 "incompatible record types 'A' and 'B'") :=
  ⟨rfl, rfl, by
    obtain ⟨-, t1, t2, h1, h2, -, -, h⟩ :=
      (C10_record_types_nominal empty_ast two_records_registered (two_records none none)
        (two_records (some { depth := 0, index := 0 }) (some { depth := 0, index := 1 }))
        rfl rfl).1 1 0 _ _ rfl rfl
    cases h1
    cases h2
    exact h { writes := [] } 1 62⟩

/-- C11 (fails on the code): the record construction
`record Q .p = record P .x = 1.0, end, end`, where `Q` is registered, `p` is
a field of `Q` declared with the record name `P` and the initializer is a
construction of `P`, is rejected with "incompatible types" at the position of
the member; the initializer alone is accepted as the value of a variable
declared with type `P`. -/
theorem C11_record_typed_field_is_rejected :
    (compile ("record P x: f32 end record Q p: P end " ++
      "proc f() void var q = record Q .p = record P .x = 1.0, end, end end")).returns_false =
        true ∧
    diagnostics (compile ("record P x: f32 end record Q p: P end " ++
      "proc f() void var q = record Q .p = record P .x = 1.0, end, end end")) =
        [{ line := 1, col := 72, msg := "incompatible types" }] ∧
    (compile ("record P x: f32 end record Q p: P end " ++
      "proc f() void var q: P = record P .x = 1.0, end end")).returns_true = true := by
  decide

/-- C12: member access `a.b`, for an operand `a` that resolves with a type
and a member name without NUL byte (as the lexer produces them), in a node
whose `entry` is null as the parser leaves it. If the type of `a` is not a
record the result is the failure "left hand side must be a record type"; if
it is the record `R` and no entry of `R` has the name `b`, the failure
"record type '<R>' does not have a member '<b>'"; otherwise success, with
the first entry of `R` named `b` as `entry` and its type as `type`. -/
theorem C12_member_access (ast ast1 : AST) (scope : Chain) (line col : Nat)
    (lhs lhs1 : Expr) (name : List Nat) (old : Option Ty) (t : Ty)
    (hl : resolve_expr ast scope lhs = .ok lhs1 ast1) (ht : lhs1.type = some t)
    (h0 : 0 ∉ name) :
    resolve_expr ast scope (.member line col lhs name none old) =
      match t with
      | .record _ entries rec_name =>
        match entries.find? (fun e => decide (e.name = name)) with
        | some e => .ok (.member line col lhs1 name (some e) (some e.type)) ast1
        | none =>
          .fail (ast1.error line col
            ("record type '" ++ fmt_name rec_name ++ "' does not have a member '" ++
              fmt_name name ++ "'"))
      | _ => .fail (ast1.error line col "left hand side must be a record type") := by
  rw [resolve_expr, hl]
  simp only [Outcome.bind, ht]
  cases t <;> try rfl
  rename_i id entries rec_name
  simp only [find_record_entry_eq_find name h0 entries]
  cases entries.find? (fun e => decide (e.name = name)) <;> rfl

/-- Witness of C12: `p.x` for `p` of the record type `A` with the entry `x: f32`. -/
theorem C12_member_access_witness :
    resolve_expr empty_ast (one_entry_scope (bytes "p") (Ty.record 0 entries_x_f32 (bytes "A")))
        (Expr.var 1 2 (bytes "p") none none) =
      .ok (Expr.var 1 2 (bytes "p") (some { depth := 0, index := 0 })
        (some (Ty.record 0 entries_x_f32 (bytes "A")))) empty_ast ∧
    0 ∉ bytes "x" ∧
    resolve_expr empty_ast (one_entry_scope (bytes "p") (Ty.record 0 entries_x_f32 (bytes "A")))
        (Expr.member 1 2 (Expr.var 1 2 (bytes "p") none none) (bytes "x") none none) =
      .ok (Expr.member 1 2
        (Expr.var 1 2 (bytes "p") (some { depth := 0, index := 0 })
          (some (Ty.record 0 entries_x_f32 (bytes "A"))))
        (bytes "x") (some (RecordEntry.mk RECORD_ENTRY_NORMAL 0 (bytes "x") Ty.f32))
        (some Ty.f32)) empty_ast :=
  ⟨rfl, by decide,
    C12_member_access empty_ast empty_ast
      (one_entry_scope (bytes "p") (Ty.record 0 entries_x_f32 (bytes "A"))) 1 2
      (Expr.var 1 2 (bytes "p") none none)
      (Expr.var 1 2 (bytes "p") (some { depth := 0, index := 0 })
        (some (Ty.record 0 entries_x_f32 (bytes "A"))))
      (bytes "x") none (Ty.record 0 entries_x_f32 (bytes "A")) rfl rfl (by decide)⟩

/-- C13 (fails on the code): `bsl_compile` returns true on
`proc f() void return g end proc g() void end` and on
`proc f() f32 return 1.0 return g end proc g() void end`, where the
expression `g` of a `return` keeps a null type, which was never compared with
the declared return type. -/
theorem C13_untyped_return_is_accepted :
    (compile "proc f() void return g end proc g() void end").returns_true = true ∧
    (compile "proc f() void return g end proc g() void end").value.map AST.return_tags =
      some [[some none], []] ∧
    (compile "proc f() f32 return 1.0 return g end proc g() void end").returns_true = true ∧
    (compile "proc f() f32 return 1.0 return g end proc g() void end").value.map
        AST.return_tags = some [[some (some [TYPE_F32]), some none], []] :=
  ⟨by decide, by decide, by decide, by decide⟩

/-- C15: a `var` statement with an initializer that resolves. The
initializer resolved in the scope extended by the new entry for `x`. With a
declared type `T`, `T` resolved to `T1`, `compare_types` accepted `T1`
against the type of the initializer, and the statement's type and the type
of the scope entry of `x` are `T1`. Without a declared type, both are the
type of the initializer. -/
theorem C15_var_statement (ast ast1 : AST) (entries entries1 : List VarEntry) (up : Chain)
    (line col : Nat) (old_entry : Option VarRef) (name : List Nat) (e : Expr)
    (declared : Option Ty) (stmt1 : Statement) (out : Option Ty)
    (h : resolve_statement ast entries up (.var line col old_entry name (some e) declared) =
      .ok (stmt1, entries1, out) ast1) :
    ∃ (e1 : Expr) (ast2 : AST),
      resolve_expr ast (({ name := name, type := none, record := none } :: entries) :: up) e =
        .ok e1 ast2 ∧
      match declared with
      | some T =>
        ∃ (T1 : Ty) (ast3 : AST) (te : Ty),
          resolve_type ast2 line col T = .ok T1 ast3 ∧ e1.type = some te ∧
          (compare_types ast3.result e1.line e1.col T1 te).1 = true ∧
          stmt1 = .var line col (some { depth := 0, index := entries.length }) name (some e1)
            (some T1) ∧
          get_entry entries.length entries1 =
            some { name := name, type := some T1, record := none }
      | none =>
        stmt1 = .var line col (some { depth := 0, index := entries.length }) name (some e1)
          e1.type ∧
        get_entry entries.length entries1 =
          some { name := name, type := e1.type, record := none } := by
  rw [resolve_statement] at h
  split at h
  · simp at h
  · rename_i a ha
    have := add_to_scope_eq_some ha
    subst this
    simp only [] at h
    obtain ⟨expr1, ast2, hexpr, h⟩ := Outcome.bind_eq_ok h
    obtain ⟨e1, ast2a, he1, hok⟩ := Outcome.bind_eq_ok hexpr
    cases hok
    refine ⟨e1, ast2, he1, ?_⟩
    obtain ⟨type1, ast3, htype, h⟩ := Outcome.bind_eq_ok h
    obtain ⟨type2, ast4, hchk, h⟩ := Outcome.bind_eq_ok h
    cases h
    cases declared with
    | none =>
      cases htype
      cases hchk
      exact ⟨rfl, by simp [update_entry, get_entry]⟩
    | some T =>
      obtain ⟨T1, ast3a, hT, hok⟩ := Outcome.bind_eq_ok htype
      cases hok
      simp only [] at hchk
      obtain ⟨u, ast4a, hcmp, hok⟩ := Outcome.bind_eq_ok hchk
      cases hok
      obtain ⟨a, b, ha1, hb1, hacc⟩ := compare_types_ptr_eq_ok hcmp
      cases ha1
      exact ⟨T1, ast3, b, hT, hb1, hacc, rfl, by simp [update_entry, get_entry]⟩

/-- Witness of C15: `var x : f32 = 1.0` in an empty procedure scope. -/
theorem C15_var_statement_witness :
    resolve_statement empty_ast [] [] (var_x_f32 none none) =
      .ok (var_x_f32 (some { depth := 0, index := 0 }) (some Ty.f32),
        [VarEntry.mk (bytes "x") (some Ty.f32) none], none) empty_ast ∧
    ∃ (e1 : Expr) (ast2 : AST),
      resolve_expr empty_ast [[VarEntry.mk (bytes "x") none none]] (num_one 16 none) =
        .ok e1 ast2 ∧
      ∃ (T1 : Ty) (ast3 : AST) (te : Ty),
        resolve_type ast2 1 4 Ty.f32 = .ok T1 ast3 ∧ e1.type = some te ∧
        (compare_types ast3.result e1.line e1.col T1 te).1 = true ∧
        var_x_f32 (some { depth := 0, index := 0 }) (some Ty.f32) =
          .var 1 4 (some { depth := 0, index := 0 }) (bytes "x") (some e1) (some T1) ∧
        get_entry 0 [VarEntry.mk (bytes "x") (some Ty.f32) none] =
          some { name := bytes "x", type := some T1, record := none } :=
  ⟨rfl,
    C15_var_statement empty_ast empty_ast [] [VarEntry.mk (bytes "x") (some Ty.f32) none] []
      1 4 none (bytes "x") (num_one 16 none) (some Ty.f32)
      (var_x_f32 (some { depth := 0, index := 0 }) (some Ty.f32)) none rfl⟩

/-- C16: the parameters and `var` statements of a procedure may not carry the
name of one another or of a top-level procedure. After pass 1 on `tops` and
pass 2 on the procedures `resolved`, pass 2 reaches a procedure whose return
type resolves. If its parameter `x` has the name of a parameter handled
before it or of a procedure of `tops`, and the parameters before it are
accepted, pass 2 fails with "function parameter '<x>' shadows variable" at
the position of the parameter. If its parameters are accepted, the statements
`pre` are accepted and the next statement is a `var` whose name is that of a
parameter, of a `var` of `pre` or of a procedure of `tops`, pass 2 fails with
"redeclaration of variable '<x>'" at the position of the statement. -/
theorem C16_no_shadowing (ast0 ast1 ast ast2 : AST)
    (tops tops1 resolved resolved1 : List Toplevel)
    (hreg : register_toplevels ast0 tops = .ok tops1 ast1)
    (hdone : resolve_procs ast1 resolved = .ok resolved1 ast)
    (line col : Nat) (ref : VarRef) (scope : List VarEntry) (entry_point : Nat)
    (name : List Nat) (return_type rt1 : Ty) (rest : List Toplevel)
    (hrt : resolve_type ast line col return_type = .ok rt1 ast2) :
    (∀ (ppre ppost ps : List Parameter) (pl pc : Nat) (x : List Nat) (type : Ty)
        (stmts : List Statement) (frame : List VarEntry) (ast3 : AST),
      resolve_params (with_proc_type ast2 ref rt1 (ppre ++ Parameter.mk pl pc x type :: ppost))
          [(with_proc_type ast2 ref rt1 (ppre ++ Parameter.mk pl pc x type :: ppost)).scope] []
          ppre = .ok (ps, frame) ast3 →
      x ∈ ppre.map Parameter.name ∨ x ∈ proc_names tops →
      resolve_procs ast1 (resolved ++
          Toplevel.proc line col (some ref) scope entry_point name stmts
            (ppre ++ Parameter.mk pl pc x type :: ppost) return_type :: rest) =
        .fail (ast3.error pl pc ("function parameter '" ++ fmt_name x ++ "' shadows variable"))) ∧
    (∀ (params params1 : List Parameter) (frame frame1 : List VarEntry) (ast3 ast5 : AST)
        (pre pre1 post : List Statement) (did : Bool) (sl sc : Nat) (entry : Option VarRef)
        (x : List Nat) (expr : Option Expr) (type : Option Ty),
      resolve_params (with_proc_type ast2 ref rt1 params)
          [(with_proc_type ast2 ref rt1 params).scope] [] params = .ok (params1, frame) ast3 →
      resolve_stmts (with_proc_type ast3 ref rt1 params1)
          [(with_proc_type ast3 ref rt1 params1).scope] rt1 frame false pre =
            .ok (pre1, frame1, did) ast5 →
      x ∈ params.map Parameter.name ∨ x ∈ declared_names pre ∨ x ∈ proc_names tops →
      resolve_procs ast1 (resolved ++
          Toplevel.proc line col (some ref) scope entry_point name
            (pre ++ Statement.var sl sc entry x expr type :: post) params return_type :: rest) =
        .fail (ast5.error sl sc ("redeclaration of variable '" ++ fmt_name x ++ "'"))) := by
  cases resolve_type_state hrt
  have hglob : ∀ x, x ∈ proc_names tops → x ∈ ast.scope.map VarEntry.name := by
    intro x hx
    rw [resolve_procs_scope_names _ _ _ _ hdone, register_toplevels_scope_names _ _ _ _ hreg]
    simp [hx]
  have hwith : ∀ (a : AST) (ps : List Parameter), a.scope.map VarEntry.name =
      ast.scope.map VarEntry.name →
      (with_proc_type a ref rt1 ps).scope.map VarEntry.name = ast.scope.map VarEntry.name := by
    intro a ps ha
    rw [← ha, with_proc_type]
    simp only [AST.set_scope]
    rw [update_entry_names]
    intro e; rfl
  constructor
  · intro ppre ppost ps pl pc x type stmts frame ast3 hps hx
    refine resolve_procs_append_fail _ rest _ _ _ _ _ hdone ?_
    obtain ⟨hst, hnm⟩ := resolve_params_state _ _ _ _ _ _ hps
    have hmem : x ∈ chain_names
        (frame :: [(with_proc_type ast ref rt1
          (ppre ++ Parameter.mk pl pc x type :: ppost)).scope]) := by
      have hn := hwith ast (ppre ++ Parameter.mk pl pc x type :: ppost) rfl
      simp only [chain_names, search_order, List.map_append, List.append_nil, List.mem_append]
      rcases hx with hx | hx
      · left
        rw [show frame = (ps, frame).2 from rfl, hnm]
        simp [hx]
      · right
        rw [hn]
        exact hglob x hx
    rw [resolve_proc, hrt]
    simp only [Outcome.bind]
    rw [with_proc_type] at hps hmem
    rw [resolve_params_append _ _ _ _ _ _ _ hps, resolve_params,
      add_to_scope_eq_none _ _ _ hmem]
    rfl
  · intro params params1 frame frame1 ast3 ast5 pre pre1 post did sl sc entry x expr type
      hps hss hx
    refine resolve_procs_append_fail _ rest _ _ _ _ _ hdone ?_
    obtain ⟨hst, hnm⟩ := resolve_params_state _ _ _ _ _ _ hps
    have hnm1 := resolve_stmts_names _ _ _ _ _ _ _ _ hss
    have hmem : x ∈ chain_names
        (frame1 :: [(with_proc_type ast3 ref rt1 params1).scope]) := by
      have hn := hwith ast3 params1 (by rw [hst]; exact hwith ast params rfl)
      simp only [chain_names, search_order, List.map_append, List.append_nil, List.mem_append]
      rcases hx with hx | hx | hx
      · left
        rw [show frame1 = (pre1, frame1, did).2.1 from rfl, hnm1,
          show frame = (params1, frame).2 from rfl, hnm]
        simp [hx]
      · left
        rw [show frame1 = (pre1, frame1, did).2.1 from rfl, hnm1]
        simp [hx]
      · right
        rw [hn]
        exact hglob x hx
    rw [resolve_proc, hrt]
    simp only [Outcome.bind]
    rw [with_proc_type] at hps hss hmem
    rw [hps]
    simp only []
    rw [resolve_stmts_append _ _ _ _ _ _ _ _ _ hss, resolve_stmts, resolve_statement,
      add_to_scope_eq_none _ _ _ hmem]
    rfl

/-- Witness of C16: `proc f(a: f32) void var a = 1.0 end`, whose `var` has the
name of the parameter, and `proc f(f: f32) void end`, whose parameter has the
name of the procedure; and programs with each collision, compiled. -/
theorem C16_no_shadowing_witness :
    register_toplevels empty_ast [proc_f_var_a none] =
      .ok [proc_f_var_a (some ref_f)] ast_with_proc_f ∧
    resolve_procs ast_with_proc_f [proc_f_var_a (some ref_f)] =
      .fail (AST.error
        (with_proc_type (with_proc_type ast_with_proc_f ref_f Ty.void [param_a_f32]) ref_f
          Ty.void [param_a_f32])
        1 24 "redeclaration of variable 'a'") ∧
    register_toplevels empty_ast [proc_f_param_f none] =
      .ok [proc_f_param_f (some ref_f)] ast_with_proc_f ∧
    resolve_procs ast_with_proc_f [proc_f_param_f (some ref_f)] =
      .fail (AST.error (with_proc_type ast_with_proc_f ref_f Ty.void [param_f_f32]) 1 9
        "function parameter 'f' shadows variable") ∧
    (parse_source "proc f(a: f32) void var a = 1.0 end").value = some [proc_f_var_a none] ∧
    (parse_source "proc f(f: f32) void end").value = some [proc_f_param_f none] ∧
    diagnostics (compile "proc f() void var x = 1.0 var x = 2.0 end") =
      [{ line := 1, col := 30, msg := "redeclaration of variable 'x'" }] ∧
    diagnostics (compile "proc f() void var g = 1.0 end proc g() void end") =
      [{ line := 1, col := 18, msg := "redeclaration of variable 'g'" }] ∧
    diagnostics (compile "proc f(a: f32, a: f32) void end") =
      [{ line := 1, col := 9, msg := "function parameter 'a' shadows variable" }] ∧
    diagnostics (compile "proc f(g: f32) void end proc g() void end") =
      [{ line := 1, col := 9, msg := "function parameter 'g' shadows variable" }] :=
  ⟨rfl,
    (C16_no_shadowing empty_ast ast_with_proc_f ast_with_proc_f ast_with_proc_f
      [proc_f_var_a none] [proc_f_var_a (some ref_f)] [] [] rfl rfl 1 5 ref_f [] 0 (bytes "f")
      Ty.void Ty.void [] rfl).2 [param_a_f32] [param_a_f32]
      [VarEntry.mk (bytes "a") (some Ty.f32) none] [VarEntry.mk (bytes "a") (some Ty.f32) none]
      (with_proc_type ast_with_proc_f ref_f Ty.void [param_a_f32])
      (with_proc_type (with_proc_type ast_with_proc_f ref_f Ty.void [param_a_f32]) ref_f
        Ty.void [param_a_f32])
      [] [] [] false 1 24 none (bytes "a") (some (num_one 32 none)) none rfl rfl
      (Or.inl (by decide)),
    rfl,
    (C16_no_shadowing empty_ast ast_with_proc_f ast_with_proc_f ast_with_proc_f
      [proc_f_param_f none] [proc_f_param_f (some ref_f)] [] [] rfl rfl 1 5 ref_f [] 0
      (bytes "f") Ty.void Ty.void [] rfl).1 [] [] [] 1 9 (bytes "f") Ty.f32 [] []
      (with_proc_type ast_with_proc_f ref_f Ty.void [param_f_f32]) rfl (Or.inr (by decide)),
    by rfl, by rfl, by decide, by decide, by decide, by decide⟩

/-- C17: a variable reference `x` (a name without NUL byte, as the lexer
produces them). If some entry of the scope chain has the name `x`, the
reference resolves, its `entry` points to the first such entry in search
order and its type is that entry's type; otherwise resolution fails with
"variable '<x>' not in scope". -/
theorem C17_variable_reference (ast : AST) (scope : Chain) (line col : Nat)
    (name : List Nat) (entry : Option VarRef) (old : Option Ty) (h0 : 0 ∉ name) :
    match (search_order scope).find? (fun e => decide (e.name = name)) with
    | some e =>
      ∃ ref, deref scope ref = some e ∧
        resolve_expr ast scope (.var line col name entry old) =
          .ok (.var line col name (some ref) e.type) ast
    | none =>
      resolve_expr ast scope (.var line col name entry old) =
        .fail (ast.error line col ("variable '" ++ fmt_name name ++ "' not in scope")) := by
  have h := lookup_scope_from_spec name h0 scope 0
  rw [resolve_expr, lookup_scope]
  cases hl : lookup_scope_from 0 name scope with
  | none =>
    rw [hl] at h
    simp only [h]
  | some r =>
    rw [hl] at h
    obtain ⟨h1, -, h3⟩ := h
    simp only [h1]
    exact ⟨r.1, by simpa using h3, rfl⟩

/-- Witness of C17: the name `p` in a scope holding `p`. -/
theorem C17_variable_reference_witness :
    0 ∉ bytes "p" ∧
    ∃ ref, deref (one_entry_scope (bytes "p") Ty.f32) ref =
        some (VarEntry.mk (bytes "p") (some Ty.f32) none) ∧
      resolve_expr empty_ast (one_entry_scope (bytes "p") Ty.f32)
          (Expr.var 1 2 (bytes "p") none none) =
        .ok (Expr.var 1 2 (bytes "p") (some ref) (some Ty.f32)) empty_ast :=
  ⟨by decide,
    C17_variable_reference empty_ast (one_entry_scope (bytes "p") Ty.f32) 1 2 (bytes "p")
      none none (by decide)⟩

/-- C18: pass 1 of `resolve_names`, started with the two global scopes empty,
on declarations whose names have no NUL byte (as the lexer produces them).
It fails exactly when `first_redeclaration` finds a declaration, and then
the one write it makes is that diagnostic: "redeclaration of toplevel
'<name>'" or "redeclaration of record type '<name>'" at the later
declaration. It succeeds exactly when the procedure names are pairwise
different and the record names are pairwise different; a procedure and a
record may share a name. -/
theorem C18_pass_one (ast : AST) (tops : List Toplevel) (h0 : ∀ t ∈ tops, 0 ∉ t.name)
    (hs : ast.scope = []) (ht : ast.type_scope = []) :
    (match first_redeclaration [] [] tops with
      | none => ∃ tops1 ast1, register_toplevels ast tops = .ok tops1 ast1
      | some d =>
        ∃ ast1, register_toplevels ast tops = .fail ast1 ∧
          ast1.result.writes = d :: ast.result.writes) ∧
    (first_redeclaration [] [] tops = none ↔
      (proc_names tops).Nodup ∧ (record_names tops).Nodup) := by
  constructor
  · exact register_toplevels_spec tops ast [] [] h0 (by simp [hs]) (by simp [ht])
  · rw [first_redeclaration_none_iff]
    simp

/-- Witness of C18: `proc f() void end proc f() void end`; and a record and
a procedure of one name, compiled. -/
theorem C18_pass_one_witness :
    (∀ t ∈ two_procs_f, 0 ∉ t.name) ∧ empty_ast.scope = [] ∧ empty_ast.type_scope = [] ∧
    (∃ ast1, register_toplevels empty_ast two_procs_f = .fail ast1 ∧
      ast1.result.writes =
        { line := 1, col := 23, msg := "redeclaration of toplevel 'f'" } ::
          empty_ast.result.writes) ∧
    (parse_source "proc f() void end proc f() void end").value = some two_procs_f ∧
    (compile "record f x: f32 end proc f() void end").returns_true = true :=
  ⟨by decide, rfl, rfl,
    (C18_pass_one empty_ast two_procs_f (by decide) rfl rfl).1, by rfl, by decide⟩

/-- C20: vector sizes stay between 1 and 4. Every size of a type `parse_type`
returns is 2, 3 or 4. Under scopes whose types are well sized, the type
`resolve_expr` gives an expression built by the parser is well sized; a
vector literal that resolves has the type `vector s elem` where `s`, the
scalars its resolved elements hold together, is between 1 and 4; and a literal
whose elements resolve to more than 4 scalars is rejected with "maximum vector
size is 4" at the position of the literal. -/
theorem C20_vector_sizes (ast : AST) (scope : Chain) (line col : Nat) (exprs : List Expr)
    (old : Option Ty) (hs : chain_well_sized scope) (hts : chain_well_sized [ast.type_scope])
    (hf : exprs_fresh exprs = true) :
    (∀ (fuel : Nat) (p p1 : Parser) (ty : Ty), parse_type fuel p = .ok ty p1 →
      ∀ s ∈ ty.sizes, s = 2 ∨ s = 3 ∨ s = 4) ∧
    (∀ (e e1 : Expr) (ast1 : AST), e.fresh = true → resolve_expr ast scope e = .ok e1 ast1 →
      ∀ t, e1.type = some t → t.well_sized = true) ∧
    (∀ (e1 : Expr) (ast1 : AST), resolve_expr ast scope (.vec line col exprs old) = .ok e1 ast1 →
      ∃ elem, e1.type = some (Ty.vector (scalar_count e1.elements) elem) ∧
        1 ≤ scalar_count e1.elements ∧ scalar_count e1.elements ≤ 4) ∧
    (∀ (iter iter1 : Expr) (rest : List Expr) (ast1 ast2 : AST) (t : Ty) (r : List Expr × Nat),
      exprs = iter :: rest → resolve_expr ast scope iter = .ok iter1 ast1 →
      iter1.type = some t →
      resolve_vec_rest ast1 scope line col
          (match t with
            | .vector _ elem => elem
            | _ => t) (elem_size t) rest = .ok r ast2 →
      4 < scalar_count (iter1 :: r.1) →
      resolve_expr ast scope (.vec line col exprs old) =
        .fail (ast2.error line col "maximum vector size is 4")) := by
  refine ⟨fun fuel p p1 ty h => ((parse_type_sizes_aux fuel).1 p p1 ty h).2,
    fun e e1 ast1 hfe h => resolve_expr_well_sized e ast scope e1 ast1 hs hts hfe h, ?_, ?_⟩
  · intro e1 ast1 h
    have hw := resolve_expr_well_sized (.vec line col exprs old) ast scope e1 ast1 hs hts
      (by rw [Expr.fresh]; exact hf) h
    cases exprs with
    | nil => rw [resolve_expr] at h; cases h
    | cons iter rest =>
      rw [resolve_expr] at h
      obtain ⟨iter1, a1, hi, h⟩ := Outcome.bind_eq_ok h
      cases hit : iter1.type with
      | none => rw [hit] at h; cases h
      | some t0 =>
        rw [hit] at h
        dsimp only [] at h
        obtain ⟨r, a2, hr, h⟩ := Outcome.bind_eq_ok h
        have hsize := resolve_vec_rest_size _ _ _ _ _ _ _ _ _ hr
        split at h
        · cases h
        · cases h
          have hcount : scalar_count (iter1 :: r.1) = r.2 := by
            rw [hsize]
            simp [scalar_count, hit]
          have hw1 := hw _ rfl
          rw [Ty.well_sized, Bool.and_eq_true, decide_eq_true_eq] at hw1
          simp only [Expr.elements, Expr.type, hcount]
          exact ⟨_, rfl, hw1.1.1, hw1.1.2⟩
  · intro iter iter1 rest ast1 ast2 t r he hi hit hr hgt
    have hsize := resolve_vec_rest_size _ _ _ _ _ _ _ _ _ hr
    have hcount : scalar_count (iter1 :: r.1) = r.2 := by
      rw [hsize]
      simp [scalar_count, hit]
    rw [he, resolve_expr, hi]
    simp only [Outcome.bind, hit]
    have hlt : r.2 > 4 := by omega
    cases t <;> dsimp only [] at hr ⊢ <;> rw [hr] <;> dsimp only [] <;> rw [if_pos hlt]

/-- Witness of C20: the literal `{1.0, 1.0}` in empty scopes, of type
`vector 2 f32`; the sizes of the parsed type `vec3<vec2<f32>>`; and programs
with literals of 4 and of 5 scalars, compiled. -/
theorem C20_vector_sizes_witness :
    exprs_fresh (vec_of_two_ones none none).elements = true ∧
    resolve_expr empty_ast [] (vec_of_two_ones none none) =
      .ok (vec_of_two_ones (some Ty.f32) (some (Ty.vector 2 Ty.f32))) empty_ast ∧
    (∃ elem, (vec_of_two_ones (some Ty.f32) (some (Ty.vector 2 Ty.f32))).type =
        some (Ty.vector
          (scalar_count (vec_of_two_ones (some Ty.f32) (some (Ty.vector 2 Ty.f32))).elements)
          elem) ∧
      1 ≤ scalar_count (vec_of_two_ones (some Ty.f32) (some (Ty.vector 2 Ty.f32))).elements ∧
      scalar_count (vec_of_two_ones (some Ty.f32) (some (Ty.vector 2 Ty.f32))).elements ≤ 4) ∧
    ((parse_type 8 (parser_init (lexer_init (bytes "vec3<vec2<f32>>") 15
      { writes := [] }))).value.map Ty.sizes) = some [3, 2] ∧
    (compile "proc f(a: vec3<f32>) void var b = {a, 1.0} end").returns_true = true ∧
    diagnostics (compile "proc f(a: vec4<f32>) void var b = {a, 1.0} end") =
      [{ line := 1, col := 36, msg := "maximum vector size is 4" }] :=
  ⟨rfl, rfl,
    (C20_vector_sizes empty_ast [] 1 2 (vec_of_two_ones none none).elements none
      (fun e he => by cases he) (fun e he => by cases he) rfl).2.2.1
      (vec_of_two_ones (some Ty.f32) (some (Ty.vector 2 Ty.f32))) empty_ast rfl,
    by rfl, by decide, by decide⟩

/-- C21 (fails on the code): in
`[entry_point(vertex)] record R end proc f() void end` the attribute stands
before the record and the procedure `f` has no attribute, yet `f` gets the
vertex bit, after parsing and after resolution. The programs with the
attribute before a procedure get the masks the claim states. -/
theorem C21_attribute_leaks_past_a_record :
    (parse_source "[entry_point(vertex)] record R end proc f() void end").value.map
        (fun tops => tops.map Toplevel.entry_point) = some [0, ENTRY_POINT_VERTEX] ∧
    (compile "[entry_point(vertex)] record R end proc f() void end").value.map
        (fun ast => ast.toplevels.map Toplevel.entry_point) = some [0, ENTRY_POINT_VERTEX] ∧
    parser_diagnostics
        (parse_source "[entry_point(vertex)] record R end proc f() void end") = [] ∧
    (parse_source "[entry_point(vertex)] proc f() void end proc g() void end").value.map
        (fun tops => tops.map Toplevel.entry_point) = some [ENTRY_POINT_VERTEX, 0] ∧
    (parse_source
        "[entry_point(vertex)] [entry_point(fragment)] proc f() void end").value.map
        (fun tops => tops.map Toplevel.entry_point) =
      some [ENTRY_POINT_VERTEX ||| ENTRY_POINT_FRAGMENT] := by
  decide

/-- C22: the expression parser builds the tree dictated by precedence and
associativity. At each level the loop of the parser returns the left fold of
the chain it reads: `parse_add_loop` folds the multiplicative expressions
that follow each `+` or `-` onto the left operand, `parse_mul_loop` the
member expressions that follow each `*` or `/`, `parse_member_loop` the
member names that follow each `.`, with the same consumption of fuel. So an
additive expression is the left fold of its multiplicative operands, a
multiplicative expression the left fold of its member operands and a member
expression the left fold of the names onto an atom. The examples of the claim
parse to the stated trees, each up to the end of the source (`-` and `/` are
stored as their token numbers 14 and 16). -/
theorem C22_precedence_and_associativity :
    (∀ (n : Nat) (lhs : Expr) (p : Parser), parse_add_loop n lhs p =
      (add_operands n p).bind fun xs p1 => .ok (xs.foldl binary_node lhs) p1) ∧
    (∀ (n : Nat) (lhs : Expr) (p : Parser), parse_mul_loop n lhs p =
      (mul_operands n p).bind fun xs p1 => .ok (xs.foldl binary_node lhs) p1) ∧
    (∀ (n : Nat) (lhs : Expr) (p : Parser), parse_member_loop n lhs p =
      (member_names n p).bind fun xs p1 => .ok (xs.foldl member_node lhs) p1) ∧
    (∀ (n : Nat) (p : Parser), parse_add_expr (n + 1) p =
      (parse_mul_expr n p).bind fun x0 p1 =>
        (add_operands n p1).bind fun xs p2 => .ok (xs.foldl binary_node x0) p2) ∧
    (∀ (n : Nat) (p : Parser), parse_mul_expr (n + 1) p =
      (parse_member_expr n p).bind fun x0 p1 =>
        (mul_operands n p1).bind fun xs p2 => .ok (xs.foldl binary_node x0) p2) ∧
    (∀ (n : Nat) (p : Parser), parse_member_expr (n + 1) p =
      (parse_atom_expr n p).bind fun x0 p1 =>
        (member_names n p1).bind fun xs p2 => .ok (xs.foldl member_node x0) p2) ∧
    parsed_shape "a + b * c" =
      some (Shape.bin BINOP_ADD (Shape.atom (bytes "a"))
        (Shape.bin BINOP_MUL (Shape.atom (bytes "b")) (Shape.atom (bytes "c"))), TOKEN_EOF) ∧
    parsed_shape "a * b + c" =
      some (Shape.bin BINOP_ADD
        (Shape.bin BINOP_MUL (Shape.atom (bytes "a")) (Shape.atom (bytes "b")))
        (Shape.atom (bytes "c")), TOKEN_EOF) ∧
    parsed_shape "a - b - c" =
      some (Shape.bin 14 (Shape.bin 14 (Shape.atom (bytes "a")) (Shape.atom (bytes "b")))
        (Shape.atom (bytes "c")), TOKEN_EOF) ∧
    parsed_shape "a / b / c" =
      some (Shape.bin 16 (Shape.bin 16 (Shape.atom (bytes "a")) (Shape.atom (bytes "b")))
        (Shape.atom (bytes "c")), TOKEN_EOF) ∧
    parsed_shape "a * b.c" =
      some (Shape.bin BINOP_MUL (Shape.atom (bytes "a"))
        (Shape.member (Shape.atom (bytes "b")) (bytes "c")), TOKEN_EOF) ∧
    parsed_shape "(a + b) * c" =
      some (Shape.bin BINOP_MUL
        (Shape.bin BINOP_ADD (Shape.atom (bytes "a")) (Shape.atom (bytes "b")))
        (Shape.atom (bytes "c")), TOKEN_EOF) ∧
    parsed_shape "a + b - c * d / e * f.g.h + i" =
      some (Shape.bin BINOP_ADD
        (Shape.bin 14 (Shape.bin BINOP_ADD (Shape.atom (bytes "a")) (Shape.atom (bytes "b")))
          (Shape.bin BINOP_MUL
            (Shape.bin 16
              (Shape.bin BINOP_MUL (Shape.atom (bytes "c")) (Shape.atom (bytes "d")))
              (Shape.atom (bytes "e")))
            (Shape.member (Shape.member (Shape.atom (bytes "f")) (bytes "g")) (bytes "h"))))
        (Shape.atom (bytes "i")), TOKEN_EOF) := by
  refine ⟨parse_add_loop_fold, parse_mul_loop_fold, parse_member_loop_fold, ?_, ?_, ?_,
    by decide, by decide, by decide, by decide, by decide, by decide, by decide⟩
  · intro n p
    rw [parse_add_expr]
    cases parse_mul_expr n p with
    | ok x0 p1 => exact parse_add_loop_fold n x0 p1
    | fail p1 => rfl
    | undefined => rfl
    | out_of_fuel => rfl
  · intro n p
    rw [parse_mul_expr]
    cases parse_member_expr n p with
    | ok x0 p1 => exact parse_mul_loop_fold n x0 p1
    | fail p1 => rfl
    | undefined => rfl
    | out_of_fuel => rfl
  · intro n p
    rw [parse_member_expr]
    cases parse_atom_expr n p with
    | ok x0 p1 => exact parse_member_loop_fold n x0 p1
    | fail p1 => rfl
    | undefined => rfl
    | out_of_fuel => rfl

/-- C23: `parse_ast` returns true with the list `tops`, leaving the parser
`p1`, exactly when `tops` are the declarations of the source in source order
up to `EOF` (the first element is the declaration `parse_toplevel` reads
first, the rest are read from where it stopped, each once) and the fuel
exceeds their number. The stream is then consumed up to `EOF`: the `EOF`
token is the buffered token of `p1`, and the next token read is `EOF`. The
program `record A end proc f() void end record B end` gives `A`, `f`, `B`. -/
theorem C23_toplevels_in_source_order :
    (∀ (fuel : Nat) (p p1 : Parser) (tops : List Toplevel),
      parse_ast fuel p = .ok tops p1 ↔ tops.length < fuel ∧ Declarations fuel p tops p1) ∧
    (∀ (fuel : Nat) (p p1 : Parser) (tops : List Toplevel), parse_ast fuel p = .ok tops p1 →
      p1.lex.has_peek = true ∧ p1.lex.peek.t = TOKEN_EOF ∧
      (p_peek p1).1.t = TOKEN_EOF ∧ (p_next p1).1.t = TOKEN_EOF) ∧
    (parse_source "record A end proc f() void end record B end").value.map
        (fun tops => tops.map Toplevel.name) = some [bytes "A", bytes "f", bytes "B"] ∧
    (parse_source "record A end proc f() void end record B end").state.map
        (fun p => (p_peek p).1.t) = some TOKEN_EOF := by
  have key : ∀ (fuel : Nat) (p p1 : Parser) (tops : List Toplevel),
      parse_ast fuel p = .ok tops p1 → tops.length < fuel ∧ Declarations fuel p tops p1 := by
    intro fuel p p1 tops h
    rw [parse_ast] at h
    obtain ⟨r, p2, hl, h⟩ := Outcome.bind_eq_ok h
    split at h
    · cases h
    · rename_i hne
      cases h
      obtain ⟨_, ts, hr, hlen, hd⟩ := parse_ast_loop_declarations fuel fuel [] p r.1 r.2 _ hl hne
      rw [hr, invert_eq, List.append_nil, List.append_nil, List.reverse_reverse]
      exact ⟨hlen, hd⟩
  refine ⟨fun fuel p p1 tops => ⟨key fuel p p1 tops, ?_⟩, ?_, by decide, by decide⟩
  · rintro ⟨hlen, hd⟩
    obtain ⟨tok, hl, he⟩ := hd.parse_ast_loop fuel [] hlen
    rw [parse_ast, hl]
    dsimp only [Outcome.bind]
    rw [if_neg (by rw [he]; decide), invert_eq, List.append_nil, List.append_nil,
      List.reverse_reverse]
  · intro fuel p p1 tops h
    obtain ⟨h1, h2⟩ := (key fuel p p1 tops h).2.at_eof
    refine ⟨h1, h2, ?_, ?_⟩
    · rw [p_peek]
      dsimp only []
      rw [lexer_peek, if_pos h1]
      exact h2
    · rw [p_next]
      dsimp only []
      rw [lexer_next, if_pos h1]
      exact h2

set_option maxRecDepth 20000

/-- C24: record-member attributes. In the member loop of
`parse_record_toplevel`, a member that starts with a name gets the kind
normal, and a member that starts with `[` gets the kind and `pos` that
`parse_record_attr` returns, which fails the loop when it fails. For the
parser `q` behind the `[`, whose next six tokens are numbered from 0:
`input ( n ) ] name` and `output ( n ) ] name` with an integer literal
`0 ≤ n < 2^31` give the kind input resp. output with `pos = n`;
`builtin ( position ) ] name` gives the kind builtin with the tag
`BUILTIN_CLIP_POSITION`; another builtin name, another attribute name and a
real literal as binding fail with their messages; and whenever token 5, the
one behind the `]`, is not a name (so when it is a second `[`), the
attribute fails. The programs at the end show each case from source text. -/
theorem C24_record_member_attributes :
    (∀ (fuel n : Nat) (entries : List RecordEntry) (p : Parser),
      (p_next p).1.t = TOKEN_SYM →
      parse_record_toplevel_loop fuel (n + 1) entries p =
        if !(expect (p_next p).2 TOKEN_COLON "':'").1 then
          .fail (expect (p_next p).2 TOKEN_COLON "':'").2
        else
          (parse_type fuel (expect (p_next p).2 TOKEN_COLON "':'").2).bind fun type p2 =>
            parse_record_toplevel_loop fuel n
              (RecordEntry.mk RECORD_ENTRY_NORMAL 0 (tok_name p2 (p_next p).1) type :: entries)
              p2) ∧
    (∀ (fuel n : Nat) (entries : List RecordEntry) (p : Parser),
      (p_next p).1.t = TOKEN_LBRACK →
      parse_record_toplevel_loop fuel (n + 1) entries p =
        (parse_record_attr (p_next p).2).bind fun h p1 =>
          if !(expect p1 TOKEN_COLON "':'").1 then .fail (expect p1 TOKEN_COLON "':'").2
          else
            (parse_type fuel (expect p1 TOKEN_COLON "':'").2).bind fun type p2 =>
              parse_record_toplevel_loop fuel n
                (RecordEntry.mk h.1 h.2.1 (tok_name p2 h.2.2) type :: entries) p2) ∧
    (∀ (q : Parser) (i : Int), (token_at 0 q).t = TOKEN_SYM →
      token_streq q.lex.src (token_at 0 q) "input" = true →
      (token_at 1 q).t = TOKEN_LPAREN → (token_at 2 q).t = TOKEN_NUM →
      (token_at 2 q).num = Number.int i → 0 ≤ i → i < 2 ^ 31 →
      (token_at 3 q).t = TOKEN_RPAREN → (token_at 4 q).t = TOKEN_RBRACK →
      (token_at 5 q).t = TOKEN_SYM →
      parse_record_attr q = .ok (RECORD_ENTRY_INPUT, i, token_at 5 q) (after_tokens 6 q)) ∧
    (∀ (q : Parser) (i : Int), (token_at 0 q).t = TOKEN_SYM →
      token_streq q.lex.src (token_at 0 q) "output" = true →
      (token_at 1 q).t = TOKEN_LPAREN → (token_at 2 q).t = TOKEN_NUM →
      (token_at 2 q).num = Number.int i → 0 ≤ i → i < 2 ^ 31 →
      (token_at 3 q).t = TOKEN_RPAREN → (token_at 4 q).t = TOKEN_RBRACK →
      (token_at 5 q).t = TOKEN_SYM →
      parse_record_attr q = .ok (RECORD_ENTRY_OUTPUT, i, token_at 5 q) (after_tokens 6 q)) ∧
    (∀ (q : Parser), (token_at 0 q).t = TOKEN_SYM →
      token_streq q.lex.src (token_at 0 q) "builtin" = true →
      (token_at 1 q).t = TOKEN_LPAREN → (token_at 2 q).t = TOKEN_SYM →
      token_streq q.lex.src (token_at 2 q) "position" = true →
      (token_at 3 q).t = TOKEN_RPAREN → (token_at 4 q).t = TOKEN_RBRACK →
      (token_at 5 q).t = TOKEN_SYM →
      parse_record_attr q =
        .ok (RECORD_ENTRY_BUILTIN, BUILTIN_CLIP_POSITION, token_at 5 q) (after_tokens 6 q)) ∧
    (∀ (q : Parser), (token_at 0 q).t = TOKEN_SYM →
      token_streq q.lex.src (token_at 0 q) "builtin" = true →
      (token_at 1 q).t = TOKEN_LPAREN → (token_at 2 q).t = TOKEN_SYM →
      token_streq q.lex.src (token_at 2 q) "position" = false →
      parse_record_attr q =
        .fail (parser_error_tok (after_tokens 3 q) (token_at 2 q)
          ("unknown builtin name: '" ++ fmt_name (tok_name q (token_at 2 q)) ++ "'"))) ∧
    (∀ (q : Parser), (token_at 0 q).t = TOKEN_SYM →
      token_streq q.lex.src (token_at 0 q) "builtin" = false →
      token_streq q.lex.src (token_at 0 q) "output" = false →
      token_streq q.lex.src (token_at 0 q) "input" = false →
      parse_record_attr q =
        .fail (parser_error_tok (after_tokens 1 q) (token_at 0 q)
          ("unknown attribute name: '" ++ fmt_name (tok_name q (token_at 0 q)) ++ "'"))) ∧
    (∀ (q : Parser) (i : Int) (frac : List Nat), (token_at 0 q).t = TOKEN_SYM →
      token_streq q.lex.src (token_at 0 q) "input" = true ∨
        token_streq q.lex.src (token_at 0 q) "output" = true →
      (token_at 1 q).t = TOKEN_LPAREN → (token_at 2 q).t = TOKEN_NUM →
      (token_at 2 q).num = Number.real i frac →
      parse_record_attr q =
        .fail (parser_error_tok (after_tokens 3 q) (token_at 2 q)
          "binding must be an integer")) ∧
    (∀ (q : Parser), (token_at 5 q).t ≠ TOKEN_SYM → ∃ q1, parse_record_attr q = .fail q1) ∧
    parsed_members ("record R a: f32 [input(3)] b: f32 [output(2147483647)] c: f32 " ++
        "[builtin(position)] d: vec4<f32> end") =
      some [(bytes "d", RECORD_ENTRY_BUILTIN, BUILTIN_CLIP_POSITION),
        (bytes "c", RECORD_ENTRY_OUTPUT, 2147483647), (bytes "b", RECORD_ENTRY_INPUT, 3),
        (bytes "a", RECORD_ENTRY_NORMAL, 0)] ∧
    ((parse_source "record R [builtin(color)] b: f32 end").returns_false = true ∧
      parser_diagnostics (parse_source "record R [builtin(color)] b: f32 end") =
        [{ line := 1, col := 24, msg := "unknown builtin name: 'color'" }]) ∧
    ((parse_source "record R [location(0)] b: f32 end").returns_false = true ∧
      parser_diagnostics (parse_source "record R [location(0)] b: f32 end") =
        [{ line := 1, col := 19, msg := "unknown attribute name: 'location'" }]) ∧
    ((parse_source "record R [input(1.0)] b: f32 end").returns_false = true ∧
      parser_diagnostics (parse_source "record R [input(1.0)] b: f32 end") =
        [{ line := 1, col := 20, msg := "binding must be an integer" }]) ∧
    ((parse_source "record R [input(0)] [output(1)] b: f32 end").returns_false = true ∧
      parser_diagnostics (parse_source "record R [input(0)] [output(1)] b: f32 end") =
        [{ line := 1, col := 22, msg := "expected member name" }]) := by
  refine ⟨?_, ?_, ?_, ?_, ?_, ?_, ?_, ?_, ?_, by decide, ⟨by decide, by decide⟩,
    ⟨by decide, by decide⟩, ⟨by decide, by decide⟩, ⟨by decide, by decide⟩⟩
  · intro fuel n entries p h
    rw [parse_record_toplevel_loop]
    simp only [h, true_or, if_true, (by decide : ¬ TOKEN_SYM = TOKEN_LBRACK), if_false]
    rfl
  · intro fuel n entries p h
    rw [parse_record_toplevel_loop]
    simp only [h, or_true, if_true]
  · intro q i h0 hs h1 h2 hi hi0 hi1 h3 h4 h5
    have hb : token_streq (p_next q).2.lex.src (p_next q).1 "builtin" = false := by
      rw [p_next_src]
      cases hc : token_streq q.lex.src (p_next q).1 "builtin" with
      | false => rfl
      | true => exact absurd (token_streq_unique hc hs) (by decide)
    have ho : token_streq (p_next q).2.lex.src (p_next q).1 "output" = false := by
      rw [p_next_src]
      cases hc : token_streq q.lex.src (p_next q).1 "output" with
      | false => rfl
      | true => exact absurd (token_streq_unique hc hs) (by decide)
    have hs1 : token_streq (p_next q).2.lex.src (p_next q).1 "input" = true := by
      rw [p_next_src]; exact hs
    have h0a : (p_next q).1.t = TOKEN_SYM := h0
    have h4a : (p_next (after_tokens 4 q)).1.t = TOKEN_RBRACK := h4
    have h5a : (p_next (p_next (after_tokens 4 q)).2).1.t = TOKEN_SYM := h5
    rw [parse_record_attr]
    simp only [expect_with_eq, h0a, if_true, Bool.not_true, hb, ho, hs1, Bool.false_eq_true,
      if_false]
    rw [parse_binding_ok (p_next q).2 RECORD_ENTRY_INPUT i h1 h2 hi h3, wrap32_of_range hi0 hi1]
    simp only [Outcome.bind, expect_eq]
    rw [show after_tokens 3 (p_next q).2 = after_tokens 4 q from rfl]
    simp only [h4a, h5a, if_true, Bool.not_true, Bool.false_eq_true, if_false]
    rfl
  · intro q i h0 hs h1 h2 hi hi0 hi1 h3 h4 h5
    have hb : token_streq (p_next q).2.lex.src (p_next q).1 "builtin" = false := by
      rw [p_next_src]
      cases hc : token_streq q.lex.src (p_next q).1 "builtin" with
      | false => rfl
      | true => exact absurd (token_streq_unique hc hs) (by decide)
    have hs1 : token_streq (p_next q).2.lex.src (p_next q).1 "output" = true := by
      rw [p_next_src]; exact hs
    have h0a : (p_next q).1.t = TOKEN_SYM := h0
    have h4a : (p_next (after_tokens 4 q)).1.t = TOKEN_RBRACK := h4
    have h5a : (p_next (p_next (after_tokens 4 q)).2).1.t = TOKEN_SYM := h5
    rw [parse_record_attr]
    simp only [expect_with_eq, h0a, if_true, Bool.not_true, hb, hs1, Bool.false_eq_true,
      if_false]
    rw [parse_binding_ok (p_next q).2 RECORD_ENTRY_OUTPUT i h1 h2 hi h3, wrap32_of_range hi0 hi1]
    simp only [Outcome.bind, expect_eq]
    rw [show after_tokens 3 (p_next q).2 = after_tokens 4 q from rfl]
    simp only [h4a, h5a, if_true, Bool.not_true, Bool.false_eq_true, if_false]
    rfl
  · intro q h0 hs h1 h2 hp h3 h4 h5
    have hs1 : token_streq (p_next q).2.lex.src (p_next q).1 "builtin" = true := by
      rw [p_next_src]; exact hs
    have hp1 : token_streq (p_next (p_next (p_next q).2).2).2.lex.src
        (p_next (p_next (p_next q).2).2).1 "position" = true := by
      rw [p_next_src, p_next_src, p_next_src]; exact hp
    have h0a : (p_next q).1.t = TOKEN_SYM := h0
    have h1a : (p_next (p_next q).2).1.t = TOKEN_LPAREN := h1
    have h2a : (p_next (p_next (p_next q).2).2).1.t = TOKEN_SYM := h2
    have h3a : (p_next (p_next (p_next (p_next q).2).2).2).1.t = TOKEN_RPAREN := h3
    have h4a : (p_next (p_next (p_next (p_next (p_next q).2).2).2).2).1.t = TOKEN_RBRACK := h4
    have h5a : (p_next (p_next (p_next (p_next (p_next (p_next q).2).2).2).2).2).1.t =
        TOKEN_SYM := h5
    rw [parse_record_attr]
    simp only [expect_with_eq, expect_eq, h0a, h1a, h2a, h3a, if_true, Bool.not_true, hs1, hp1,
      Bool.false_eq_true, if_false, Outcome.bind, h4a, h5a]
    rfl
  · intro q h0 hs h1 h2 hp
    have hs1 : token_streq (p_next q).2.lex.src (p_next q).1 "builtin" = true := by
      rw [p_next_src]; exact hs
    have hp1 : token_streq (p_next (p_next (p_next q).2).2).2.lex.src
        (p_next (p_next (p_next q).2).2).1 "position" = false := by
      rw [p_next_src, p_next_src, p_next_src]; exact hp
    have hn : tok_name (p_next (p_next (p_next q).2).2).2 (p_next (p_next (p_next q).2).2).1 =
        tok_name q (token_at 2 q) := by
      rw [tok_name, tok_name, p_next_src, p_next_src, p_next_src]; rfl
    have h0a : (p_next q).1.t = TOKEN_SYM := h0
    have h1a : (p_next (p_next q).2).1.t = TOKEN_LPAREN := h1
    have h2a : (p_next (p_next (p_next q).2).2).1.t = TOKEN_SYM := h2
    rw [parse_record_attr]
    simp only [expect_with_eq, expect_eq, h0a, h1a, h2a, if_true, Bool.not_true, hs1, hp1,
      Bool.false_eq_true, if_false, Outcome.bind, hn]
    rfl
  · intro q h0 hb ho hi
    have hb1 : token_streq (p_next q).2.lex.src (p_next q).1 "builtin" = false := by
      rw [p_next_src]; exact hb
    have ho1 : token_streq (p_next q).2.lex.src (p_next q).1 "output" = false := by
      rw [p_next_src]; exact ho
    have hi1 : token_streq (p_next q).2.lex.src (p_next q).1 "input" = false := by
      rw [p_next_src]; exact hi
    have hn : tok_name (p_next q).2 (p_next q).1 = tok_name q (token_at 0 q) := by
      rw [tok_name, tok_name, p_next_src]; rfl
    have h0a : (p_next q).1.t = TOKEN_SYM := h0
    rw [parse_record_attr]
    simp only [expect_with_eq, h0a, if_true, Bool.not_true, hb1, ho1, hi1,
      Bool.false_eq_true, if_false, Outcome.bind, hn]
    rfl
  · intro q i frac h0 hs h1 h2 hi
    have hb : token_streq (p_next q).2.lex.src (p_next q).1 "builtin" = false := by
      rw [p_next_src]
      cases hc : token_streq q.lex.src (p_next q).1 "builtin" with
      | false => rfl
      | true =>
        rcases hs with hs | hs
        · exact absurd (token_streq_unique hc hs) (by decide)
        · exact absurd (token_streq_unique hc hs) (by decide)
    have h0a : (p_next q).1.t = TOKEN_SYM := h0
    rw [parse_record_attr]
    simp only [expect_with_eq, h0a, if_true, Bool.not_true, hb, Bool.false_eq_true, if_false]
    rw [parse_binding_real (p_next q).2 RECORD_ENTRY_OUTPUT i frac h1 h2 hi,
      parse_binding_real (p_next q).2 RECORD_ENTRY_INPUT i frac h1 h2 hi]
    have hio : token_streq (p_next q).2.lex.src (p_next q).1 "output" = true ∨
        token_streq (p_next q).2.lex.src (p_next q).1 "input" = true := by
      rw [p_next_src]; exact hs.symm
    rcases hio with h | h
    · rw [if_pos h]; rfl
    · split <;> rfl
  · intro q h5
    exact parse_record_attr_fails q h5

/-- Witness of C24: behind the `[` of `[input(3)] b`, of
`[builtin(position)] b` and of `[input(0)] [output(1)] b` the tokens are as
the cases for `input`, for `builtin(position)` and for a token behind the
`]` that is no name require. -/
theorem C24_record_member_attributes_witness :
    parse_record_attr (behind_first_token "[input(3)] b") =
      .ok (RECORD_ENTRY_INPUT, 3, token_at 5 (behind_first_token "[input(3)] b"))
        (after_tokens 6 (behind_first_token "[input(3)] b")) ∧
    parse_record_attr (behind_first_token "[builtin(position)] b") =
      .ok (RECORD_ENTRY_BUILTIN, BUILTIN_CLIP_POSITION,
          token_at 5 (behind_first_token "[builtin(position)] b"))
        (after_tokens 6 (behind_first_token "[builtin(position)] b")) ∧
    (token_at 5 (behind_first_token "[input(0)] [output(1)] b")).t = TOKEN_LBRACK ∧
    ∃ q1, parse_record_attr (behind_first_token "[input(0)] [output(1)] b") = .fail q1 :=
  ⟨C24_record_member_attributes.2.2.1 (behind_first_token "[input(3)] b") 3 (by decide)
      (by decide) (by decide) (by decide) (by decide) (by decide) (by decide) (by decide)
      (by decide) (by decide),
    C24_record_member_attributes.2.2.2.2.1 (behind_first_token "[builtin(position)] b")
      (by decide) (by decide) (by decide) (by decide) (by decide) (by decide) (by decide)
      (by decide),
    by decide,
    C24_record_member_attributes.2.2.2.2.2.2.2.2.1
      (behind_first_token "[input(0)] [output(1)] b") (by decide)⟩

/-- C25 (fails on the code): the tokens of the source `ab cd` carry the
columns 3 and 6, the columns behind their last bytes: the symbols start at
columns 1 and 4, the byte at column 3 is a space and the line has no
column 6. -/
theorem C25_token_position_is_behind_the_token :
    (lex_all 3 (lexer_init (bytes "ab cd") 5 { writes := [] })).map
        (fun tok => (tok.t, tok.line, tok.col, tok.data)) =
      [(TOKEN_SYM, 1, 3, 0), (TOKEN_SYM, 1, 6, 3), (TOKEN_EOF, 1, 6, 0)] ∧
    position_of (bytes "ab cd") 0 = (1, 1) ∧ position_of (bytes "ab cd") 3 = (1, 4) ∧
    position_of (bytes "ab cd") 2 = (1, 3) ∧ isspace ((bytes "ab cd").getD 2 0) = true ∧
    (bytes "ab cd").length = 5 := by
  decide

/-- C25 (amended): every token other than `EOF` and `ERR` carries the
position just behind its last byte. Let `l` be a lexer reached from
`lexer_init`, with any peek flag, on which `next_token` returns such a token.
The skipping of whitespace and comments ends at an offset `s` inside the
buffer and the call leaves the cursor at an offset `e > s`: the token is the
bytes from `s` to `e`. The token's line and column are the position of
offset `e`, its line is that of `s` and its column is the column of `s` plus
`e - s`. The byte at `s` is no whitespace and lies in no comment. -/
theorem C25_token_position (src : List Nat) (result : BSLCompileResult) (l : Lexer)
    (hp : Bool) (h : Steps (lexer_init src src.length result) l)
    (hne : (next_token { l with has_peek := hp }).1.t ≠ TOKEN_EOF)
    (hnr : (next_token { l with has_peek := hp }).1.t ≠ TOKEN_ERR) :
    (skip_phase { l with has_peek := hp }).1 = none ∧
    (skip_phase { l with has_peek := hp }).2.cur <
      (next_token { l with has_peek := hp }).2.cur ∧
    (next_token { l with has_peek := hp }).2.cur ≤ src.length ∧
    position_of src (next_token { l with has_peek := hp }).2.cur =
      ((next_token { l with has_peek := hp }).1.line,
        (next_token { l with has_peek := hp }).1.col) ∧
    (next_token { l with has_peek := hp }).1.line =
      (position_of src (skip_phase { l with has_peek := hp }).2.cur).1 ∧
    (next_token { l with has_peek := hp }).1.col =
      (position_of src (skip_phase { l with has_peek := hp }).2.cur).2 +
        ((next_token { l with has_peek := hp }).2.cur -
          (skip_phase { l with has_peek := hp }).2.cur) ∧
    isspace (src.getD (skip_phase { l with has_peek := hp }).2.cur 0) = false ∧
    ¬ in_comment src (skip_phase { l with has_peek := hp }).2.cur := by
  obtain ⟨hsrc, ht⟩ := h.tracks_of_init
  generalize hl : ({ l with has_peek := hp } : Lexer) = l2 at hne hnr ⊢
  have hsrc2 : l2.src = src := by rw [← hl]; exact hsrc
  have ht2 : Tracks l2 ∨ IS_EOF l2 = true := by
    rw [← hl]
    exact ht.imp (fun h => h.set_slot_tracks hp l.peek) id
  have htr : Tracks l2 := by
    refine ht2.resolve_right fun he => hne ?_
    rw [next_token_at_eof l2 he]
    rfl
  obtain ⟨s1, s2⟩ := skip_phase_spec l2
  rcases next_token_cases l2 htr.len with ⟨h1, _⟩ | ⟨_, _, h3⟩ | ⟨h1, k, hk⟩
  · exact absurd (by rw [h1]; rfl) hne
  · exact absurd (by rw [h3]; rfl) hnr
  · rcases s2 with ⟨e1, _⟩ | ⟨_, n2, n3, n4, _, n6⟩
    · rw [h1] at e1; cases e1
    · have t1 := n6 htr
      have t2 := hk.tracks_after t1
      have hs1 : (skip_phase l2).2.src = src := s1.src.trans hsrc2
      have hs2 : (next_token l2).2.src = src := hk.scans.src.trans hs1
      have hp1 := t1.pos
      have hp2 := t2.pos
      rw [hs1] at hp1
      rw [hs2] at hp2
      refine ⟨h1, ?_, ?_, ?_, ?_, ?_, ?_, ?_⟩
      · rw [hk.cur]; exact Nat.lt_add_of_pos_right hk.pos
      · have := t2.cur_le
        rw [t2.len, hs2] at this
        exact this
      · rw [← hp2, hk.tok_line, hk.tok_col, hk.line, hk.col]
      · rw [← hp1, hk.tok_line]
      · rw [← hp1, hk.tok_col, hk.cur, Nat.add_sub_cancel_left]
      · rw [← hs1]; exact n3
      · rintro ⟨c, hc1, hc2, hc3⟩
        rcases Nat.lt_or_eq_of_le hc1 with hlt | heq
        · obtain ⟨j, hj1, hj2, hj3⟩ := t1.no_hash c hlt (by rw [hs1]; exact hc2)
          rw [hs1] at hj3
          exact hc3 j hj1 hj2 hj3
        · rw [heq, ← hs1] at hc2
          exact n4 hc2

/-- Witness of C25: the second token of `ab cd`, read after one
`lexer_next`: the skipping ends at offset 3 (column 4), the call ends at
offset 5, and the token carries column 6. -/
theorem C25_token_position_witness :
    (next_token (lexer_next (lexer_init (bytes "ab cd") 5 { writes := [] })).2).1 =
      { t := TOKEN_SYM, line := 1, col := 6, data := 3, size := 2, num := Number.int 0 } ∧
    (skip_phase (lexer_next (lexer_init (bytes "ab cd") 5 { writes := [] })).2).2.cur = 3 ∧
    (next_token (lexer_next (lexer_init (bytes "ab cd") 5 { writes := [] })).2).2.cur = 5 ∧
    position_of (bytes "ab cd") 3 = (1, 4) ∧
    (next_token (lexer_next (lexer_init (bytes "ab cd") 5 { writes := [] })).2).1.col =
      (position_of (bytes "ab cd")
        (skip_phase (lexer_next (lexer_init (bytes "ab cd") 5 { writes := [] })).2).2.cur).2 +
      ((next_token (lexer_next (lexer_init (bytes "ab cd") 5 { writes := [] })).2).2.cur -
        (skip_phase (lexer_next (lexer_init (bytes "ab cd") 5 { writes := [] })).2).2.cur) :=
  ⟨by decide, by decide, by decide, by decide,
    (C25_token_position (bytes "ab cd") { writes := [] }
      (lexer_next (lexer_init (bytes "ab cd") 5 { writes := [] })).2 false
      (Steps.next (Steps.refl _)) (by decide) (by decide)).2.2.2.2.2.1⟩

/-- C26: peek idempotence. For every lexer state, a second `lexer_peek`
returns the token of the first and leaves the lexer as the first left it;
`lexer_next` after `lexer_peek` returns the token `lexer_peek` returned; and
`lexer_skip` leaves the lexer as `lexer_next` does. -/
theorem C26_peek_idempotence (l : Lexer) :
    lexer_peek (lexer_peek l).2 = ((lexer_peek l).1, (lexer_peek l).2) ∧
    (lexer_next (lexer_peek l).2).1 = (lexer_peek l).1 ∧
    lexer_skip l = (lexer_next l).2 := by
  have hp : (lexer_peek l).2.has_peek = true ∧ (lexer_peek l).2.peek = (lexer_peek l).1 := by
    rw [lexer_peek]
    cases h : l.has_peek with
    | true => rw [if_pos rfl]; exact ⟨h, rfl⟩
    | false =>
      rw [if_neg (by simp)]
      exact ⟨(next_token_slot { l with has_peek := true }).has_peek, rfl⟩
  refine ⟨?_, ?_, ?_⟩
  · rw [lexer_peek, if_pos hp.1, hp.2]
  · rw [lexer_next, if_pos hp.1, hp.2]
  · rw [lexer_skip, lexer_next]
    split <;> rfl

/-- C27 (fails on the code): on the source `@` no call of `lexer_next` ever
returns `EOF`. -/
theorem C27_unknown_char_never_reaches_eof :
    ¬ ∃ n, (nth_next n (lexer_init (bytes "@") 1 { writes := [] })).1.t = TOKEN_EOF := by
  rintro ⟨n, hn⟩
  have hwf := Lexer.wf_init (bytes "@") { writes := [] }
  have ht : (lexer_next (lexer_init (bytes "@") (bytes "@").length { writes := [] })).1.t =
      TOKEN_ERR := by decide
  obtain ⟨d, hd⟩ := hwf.next_err ht
  cases n with
  | zero => exact absurd hn (by decide)
  | succ n =>
    rw [nth_next] at hn
    have := AtErr.nth_next_eq n hd
    rw [show (bytes "@").length = 1 from rfl] at this
    rw [this] at hn
    exact absurd hn (by decide)

/-- C27 (amended): the lexer is total and reaches a terminal token. For every
source of `src.length` bytes, one of the first `src.length + 1` calls of
`lexer_next` on the freshly initialised lexer returns `EOF` or `ERR`, and it
is `EOF` when every byte of the source that starts no token is whitespace or
`#`. Every loop of the lexer stops by its own test within the unread bytes: from that
many iterations on, one more changes nothing. -/
theorem C27_lexer_reaches_a_terminal_token (src : List Nat) (result : BSLCompileResult) :
    (∃ n, n ≤ src.length ∧
      ((nth_next n (lexer_init src src.length result)).1.t = TOKEN_EOF ∨
        (nth_next n (lexer_init src src.length result)).1.t = TOKEN_ERR)) ∧
    ((∀ c ∈ src, unknown_char c → isspace c = true ∨ c = 35) →
      ∃ n, n ≤ src.length ∧
        (nth_next n (lexer_init src src.length result)).1.t = TOKEN_EOF) ∧
    (∀ (l : Lexer) (n : Nat), l.src_len - l.cur ≤ n →
      skip_whitespace_loop (n + 1) l = skip_whitespace_loop n l ∧
      comment_loop (n + 1) l = comment_loop n l ∧
      lex_sym_loop (n + 1) l = lex_sym_loop n l ∧
      (∀ i c, lex_num_int_loop (n + 1) l i c = lex_num_int_loop n l i c) ∧
      (∀ ds, lex_num_frac_loop (n + 1) l ds = lex_num_frac_loop n l ds) ∧
      (IS_EOF l = false → ∀ c, hash_loop (n + 1) c l = hash_loop n c l)) :=
  ⟨(lexer_reaches_terminal src.length (lexer_init src src.length result) rfl rfl
      (Nat.sub_le _ _)).imp fun _ h => ⟨h.1, h.2.imp id fun h1 => h1.1⟩,
    fun hsrc => (lexer_reaches_terminal src.length (lexer_init src src.length result) rfl rfl
      (Nat.sub_le _ _)).imp fun _ h => ⟨h.1, h.2.elim id fun h1 => by
        obtain ⟨_, c, hc1, hc2, hc3, hc4⟩ := h1
        rcases hsrc c hc1 hc2 with h2 | h2
        · rw [hc3] at h2; cases h2
        · exact absurd h2 hc4⟩,
    fun l n h => ⟨skip_whitespace_loop_fuel n l h, comment_loop_fuel n l h,
      lex_sym_loop_fuel n l h, fun i c => lex_num_int_loop_fuel n l i c h,
      fun ds => lex_num_frac_loop_fuel n l ds h, fun he c => hash_loop_fuel n c l he h⟩⟩

/-- C28: the terminal tokens are absorbing. Let `l0` be a lexer reached from
`lexer_init` by any calls, and `l` a lexer reached by any calls after one
more `lexer_next`. If that `lexer_next` returned `EOF`, `lexer_next` and
`lexer_peek` on `l` return `EOF`. If it returned `ERR`, the byte under the
cursor is an unknown one, the cursor of `l` has not moved, `lexer_next` and
`lexer_peek` on `l` return the same `ERR` token (same position), and the
newest write of the result record after them is the "unknown char"
diagnostic at that position. -/
theorem C28_terminal_tokens_absorbing (src : List Nat) (result : BSLCompileResult)
    (l0 l : Lexer) (h0 : Steps (lexer_init src src.length result) l0)
    (h : Steps (lexer_next l0).2 l) :
    ((lexer_next l0).1.t = TOKEN_EOF →
      (lexer_next l).1.t = TOKEN_EOF ∧ (lexer_peek l).1.t = TOKEN_EOF) ∧
    ((lexer_next l0).1.t = TOKEN_ERR →
      unknown_char (PEEK_C (lexer_next l0).2) ∧
      l.cur = (lexer_next l0).2.cur ∧
      (lexer_next l).1 = (lexer_next l0).1 ∧
      (lexer_peek l).1 = (lexer_next l0).1 ∧
      (lexer_next l).2.result.writes.head? =
        some { line := (lexer_next l0).1.line, col := (lexer_next l0).1.col,
               msg := truncate_msg (unknown_msg (lexer_next l0).2) } ∧
      (lexer_peek l).2.result.writes.head? =
        some { line := (lexer_next l0).1.line, col := (lexer_next l0).1.col,
               msg := truncate_msg (unknown_msg (lexer_next l0).2) }) := by
  have hwf := (Lexer.wf_init src result).steps_wf h0
  constructor
  · intro ht
    have hl := (hwf.next_eof ht).steps_eof h
    exact ⟨hl.calls_eof.1.1, hl.calls_eof.2.1.1⟩
  · intro ht
    obtain ⟨d, hd⟩ := hwf.next_err ht
    have hl := hd.steps_err h
    have hdd : d = Diag.mk (lexer_next l0).1.line (lexer_next l0).1.col
        (truncate_msg (unknown_msg (lexer_next l0).2)) := by
      rw [hd.d_eq, hd.tok_eq]
      rfl
    refine ⟨hd.unknown, hl.cur_eq, hl.calls_err.1.1, hl.calls_err.2.1.1, ?_, ?_⟩
    · rw [← hdd]; exact hl.calls_err.1.2.written
    · rw [← hdd]; exact hl.calls_err.2.1.2.written

/-- Witness of C28: on the source `a`, the second `lexer_next` returns `EOF`,
and so do the calls after a `lexer_peek` and a `lexer_skip`; on the source
`a @`, the second `lexer_next` returns `ERR` at 1:3, and so do the calls
after a `lexer_peek` and a `lexer_next`. -/
theorem C28_terminal_tokens_absorbing_witness :
    (lexer_next (lexer_next (lexer_init (bytes "a") 1 { writes := [] })).2).1.t = TOKEN_EOF ∧
    ((lexer_next (lexer_skip (lexer_peek (lexer_next (lexer_next
        (lexer_init (bytes "a") 1 { writes := [] })).2).2).2)).1.t = TOKEN_EOF ∧
      (lexer_peek (lexer_skip (lexer_peek (lexer_next (lexer_next
        (lexer_init (bytes "a") 1 { writes := [] })).2).2).2)).1.t = TOKEN_EOF) ∧
    (lexer_next (lexer_next (lexer_init (bytes "a @") 3 { writes := [] })).2).1 =
      { t := TOKEN_ERR, line := 1, col := 3, data := 0, size := 0, num := Number.int 0 } ∧
    (lexer_next (lexer_next (lexer_peek (lexer_next (lexer_next
        (lexer_init (bytes "a @") 3 { writes := [] })).2).2).2).2).1 =
      (lexer_next (lexer_next (lexer_init (bytes "a @") 3 { writes := [] })).2).1 ∧
    (lexer_next (lexer_next (lexer_peek (lexer_next (lexer_next
        (lexer_init (bytes "a @") 3 { writes := [] })).2).2).2).2).2.result.writes.head? =
      some { line := 1, col := 3, msg := "unknown char '@'" } :=
  ⟨by decide,
    (C28_terminal_tokens_absorbing (bytes "a") { writes := [] } _ _
      (Steps.next (Steps.refl _)) (Steps.skip (Steps.peek (Steps.refl _)))).1 (by decide),
    by decide,
    ((C28_terminal_tokens_absorbing (bytes "a @") { writes := [] } _ _
      (Steps.next (Steps.refl _)) (Steps.next (Steps.peek (Steps.refl _)))).2
      (by decide)).2.2.1,
    ((C28_terminal_tokens_absorbing (bytes "a @") { writes := [] } _ _
      (Steps.next (Steps.refl _)) (Steps.next (Steps.peek (Steps.refl _)))).2
      (by decide)).2.2.2.2.1⟩

/-- C29: symbol scanning is maximal munch with keyword reclassification.
When the skipping of whitespace and comments ends inside the buffer at a
letter or an underscore, the token `next_token` returns has `data` at that
byte, its lexeme is the longest run of bytes of `[A-Za-z0-9_]` from there
(every byte of it is one, the byte behind it is none), `size` is the length
of the run, the cursor is left behind the run, and the kind is that of the
keyword the lexeme spells, `TOKEN_SYM` if it spells none. -/
theorem C29_symbol_scanning (l : Lexer) (hlen : l.src_len = l.src.length)
    (hs : (skip_phase l).1 = none)
    (hc : isalpha (PEEK_C (skip_phase l).2) = true ∨ PEEK_C (skip_phase l).2 = 95) :
    (next_token l).1.data = (skip_phase l).2.cur ∧
    (next_token l).1.size = (run is_sym_byte l.src (skip_phase l).2.cur).length ∧
    0 < (next_token l).1.size ∧
    slice l.src (next_token l).1.data (next_token l).1.size =
      run is_sym_byte l.src (skip_phase l).2.cur ∧
    (∀ j, j < (next_token l).1.size →
      is_sym_byte (l.src.getD ((next_token l).1.data + j) 0) = true) ∧
    ((next_token l).1.data + (next_token l).1.size < l.src.length →
      is_sym_byte (l.src.getD ((next_token l).1.data + (next_token l).1.size) 0) = false) ∧
    (next_token l).2.cur = (skip_phase l).2.cur + (next_token l).1.size ∧
    (next_token l).1.t = keyword_kind (run is_sym_byte l.src (skip_phase l).2.cur) := by
  obtain ⟨s1, s2⟩ := skip_phase_spec l
  rcases s2 with ⟨e1, _⟩ | ⟨_, n2, _, _, n5, _⟩
  · rw [hs] at e1; cases e1
  · have hlen1 : (skip_phase l).2.src_len = (skip_phase l).2.src.length := by
      rw [s1.src_len, s1.src]; exact hlen
    have hlt := IS_EOF_eq_false.mp n2
    have hc0 : (isalpha (PEEK_C (skip_phase l).2) || PEEK_C (skip_phase l).2 == 95) = true := by
      rcases hc with h | h <;> simp [h]
    have hsym : is_sym_byte (PEEK_C (skip_phase l).2) = true := by
      rcases hc with h | h <;> simp [is_sym_byte, h]
    have hnt : next_token l = lex_sym (skip_phase l).2 := by
      rw [next_token_eq, hs]
      simp only [scan_token, hc0, if_true]
    rw [hnt, lex_sym_eq _ hlen1 (Nat.le_of_lt hlt) n5, s1.src]
    obtain ⟨r1, r2, r3, r4⟩ := run_spec is_sym_byte l.src _ (skip_phase l).2.cur
      (by rw [← hlen, ← s1.src_len]; exact Nat.le_of_lt hlt) rfl
    refine ⟨rfl, rfl, ?_, r4.symm, r2, r3, rfl, rfl⟩
    show 0 < (run is_sym_byte l.src (skip_phase l).2.cur).length
    rw [run_cons _ _ _ (by rw [← hlen, ← s1.src_len]; exact hlt)
      (by rw [← s1.src]; exact hsym)]
    exact Nat.succ_pos _

/-- Witness of C29: the lexemes `procx`, `End`, `proc` and `_a1`, each
behind a blank. -/
theorem C29_symbol_scanning_witness :
    (skip_phase (lexer_init (bytes " procx+") 7 { writes := [] })).1 = none ∧
    (next_token (lexer_init (bytes " procx+") 7 { writes := [] })).1.data = 1 ∧
    (next_token (lexer_init (bytes " procx+") 7 { writes := [] })).1.size = 5 ∧
    (next_token (lexer_init (bytes " procx+") 7 { writes := [] })).1.t = TOKEN_SYM ∧
    (next_token (lexer_init (bytes " End") 4 { writes := [] })).1.t = TOKEN_SYM ∧
    (next_token (lexer_init (bytes " proc") 5 { writes := [] })).1.t = TOKEN_KW_PROC ∧
    (next_token (lexer_init (bytes " _a1") 4 { writes := [] })).1.t = TOKEN_SYM ∧
    (next_token (lexer_init (bytes " procx+") 7 { writes := [] })).1.t =
      keyword_kind (run is_sym_byte (bytes " procx+")
        (skip_phase (lexer_init (bytes " procx+") 7 { writes := [] })).2.cur) :=
  ⟨by decide, by decide, by decide, by decide, by decide, by decide, by decide,
    (C29_symbol_scanning (lexer_init (bytes " procx+") 7 { writes := [] }) (by decide)
      (by decide) (by decide)).2.2.2.2.2.2.2⟩

/-- C30: integer literals. When the skipping of whitespace and comments ends
inside the buffer at a digit, `next_token` reads the longest run of digits
from there. If the byte behind the run is not a period (or the buffer ends),
the token is `TOKEN_NUM` of kind integer, its value is the decimal value of
the run wrapped into the range of `int64_t`, and the cursor is left behind
the run. If it is a period, the token is `TOKEN_NUM` of kind real with that
integer part, and the cursor is left behind the period and the digits that
follow it. The wrapped value is the decimal value itself below `2^63`, always
equal to it modulo `2^64`, and always in the signed 64-bit range. -/
theorem C30_integer_literals (l : Lexer) (hlen : l.src_len = l.src.length)
    (hs : (skip_phase l).1 = none) (hc : isdigit (PEEK_C (skip_phase l).2) = true) :
    0 < (run isdigit l.src (skip_phase l).2.cur).length ∧
    (¬ ((skip_phase l).2.cur + (run isdigit l.src (skip_phase l).2.cur).length < l.src.length ∧
        l.src.getD ((skip_phase l).2.cur +
          (run isdigit l.src (skip_phase l).2.cur).length) 0 = 46) →
      (next_token l).1.t = TOKEN_NUM ∧
      (next_token l).1.num =
        Number.int (wrap64 (Int.ofNat
          (decimal_value (run isdigit l.src (skip_phase l).2.cur)))) ∧
      (next_token l).2.cur =
        (skip_phase l).2.cur + (run isdigit l.src (skip_phase l).2.cur).length) ∧
    (((skip_phase l).2.cur + (run isdigit l.src (skip_phase l).2.cur).length < l.src.length ∧
        l.src.getD ((skip_phase l).2.cur +
          (run isdigit l.src (skip_phase l).2.cur).length) 0 = 46) →
      (next_token l).1.t = TOKEN_NUM ∧
      (next_token l).1.num =
        Number.real (wrap64 (Int.ofNat
            (decimal_value (run isdigit l.src (skip_phase l).2.cur))))
          ((run isdigit l.src ((skip_phase l).2.cur +
            (run isdigit l.src (skip_phase l).2.cur).length + 1)).map (fun c => c - 48)) ∧
      (next_token l).2.cur =
        (skip_phase l).2.cur + ((run isdigit l.src (skip_phase l).2.cur).length + 1 +
          (run isdigit l.src ((skip_phase l).2.cur +
            (run isdigit l.src (skip_phase l).2.cur).length + 1)).length)) ∧
    (decimal_value (run isdigit l.src (skip_phase l).2.cur) < 2 ^ 63 →
      wrap64 (Int.ofNat (decimal_value (run isdigit l.src (skip_phase l).2.cur))) =
        Int.ofNat (decimal_value (run isdigit l.src (skip_phase l).2.cur))) ∧
    wrap64 (Int.ofNat (decimal_value (run isdigit l.src (skip_phase l).2.cur))) ≡
      Int.ofNat (decimal_value (run isdigit l.src (skip_phase l).2.cur)) [ZMOD 2 ^ 64] ∧
    -2 ^ 63 ≤ wrap64 (Int.ofNat (decimal_value (run isdigit l.src (skip_phase l).2.cur))) ∧
    wrap64 (Int.ofNat (decimal_value (run isdigit l.src (skip_phase l).2.cur))) < 2 ^ 63 := by
  obtain ⟨s1, s2⟩ := skip_phase_spec l
  rcases s2 with ⟨e1, _⟩ | ⟨_, n2, _, _, _, _⟩
  · rw [hs] at e1; cases e1
  · have hlen1 : (skip_phase l).2.src_len = (skip_phase l).2.src.length := by
      rw [s1.src_len, s1.src]; exact hlen
    have hlt := IS_EOF_eq_false.mp n2
    have hlt1 : (skip_phase l).2.cur < l.src.length := by
      rw [← hlen, ← s1.src_len]; exact hlt
    have hc0 : (isalpha (PEEK_C (skip_phase l).2) || PEEK_C (skip_phase l).2 == 95) = false := by
      simp only [isdigit, Bool.and_eq_true, decide_eq_true_eq] at hc
      simp only [isalpha, Bool.or_eq_false_iff, Bool.and_eq_false_iff, decide_eq_false_iff_not,
        beq_eq_false_iff_ne]
      omega
    have hnt : next_token l = lex_num (skip_phase l).2 := by
      rw [next_token_eq, hs]
      simp only [scan_token, hc0, hc, Bool.false_eq_true, if_false, if_true]
    rw [hnt, lex_num_eq _ hlen1, s1.src, s1.src_len, hlen, digits_acc_run]
    refine ⟨?_, fun h => ?_, fun h => ?_, fun h => ?_, wrap64_modEq _, (wrap64_range _).1,
      (wrap64_range _).2⟩
    · rw [run_cons _ _ _ hlt1 (by rw [← s1.src]; exact hc)]
      exact Nat.succ_pos _
    · rw [if_neg h]
      exact ⟨rfl, rfl, rfl⟩
    · rw [if_pos h]
      exact ⟨rfl, rfl, rfl⟩
    · apply wrap64_of_range
      · have : (0 : Int) ≤ Int.ofNat (decimal_value (run isdigit l.src (skip_phase l).2.cur)) :=
          Int.ofNat_nonneg _
        omega
      · have : (Int.ofNat (decimal_value (run isdigit l.src (skip_phase l).2.cur)) : Int) <
            ((2 ^ 63 : Nat) : Int) := Int.ofNat_lt.mpr h
        simpa using this

set_option maxRecDepth 20000

/-- Witness of C30: the literals `42`, `18446744073709551617` (which is
`2^64 + 1`), `9223372036854775808` (which is `2^63`), `3.` and `12.5`. -/
theorem C30_integer_literals_witness :
    (skip_phase (lexer_init (bytes " 42 ") 4 { writes := [] })).1 = none ∧
    (next_token (lexer_init (bytes " 42 ") 4 { writes := [] })).1.num = Number.int 42 ∧
    (next_token (lexer_init (bytes "18446744073709551617") 20 { writes := [] })).1.num =
      Number.int 1 ∧
    (next_token (lexer_init (bytes "9223372036854775808") 19 { writes := [] })).1.num =
      Number.int (-9223372036854775808) ∧
    (next_token (lexer_init (bytes "3.") 2 { writes := [] })).1.num = Number.real 3 [] ∧
    (next_token (lexer_init (bytes "12.5") 4 { writes := [] })).1.num = Number.real 12 [5] ∧
    (next_token (lexer_init (bytes "12.5") 4 { writes := [] })).2.cur = 4 ∧
    0 < (run isdigit (bytes " 42 ")
      (skip_phase (lexer_init (bytes " 42 ") 4 { writes := [] })).2.cur).length :=
  ⟨by decide, by decide, by decide, by decide, by decide, by decide, by decide,
    (C30_integer_literals (lexer_init (bytes " 42 ") 4 { writes := [] }) (by decide)
      (by decide) (by decide)).1⟩

/-- C31: a source that holds only whitespace and `#` comments (the empty
source, and a source that ends inside a comment, are such sources) compiles
to the empty program. The first token is `EOF`, `bsl_compile` returns true,
the `AST` has no toplevels and empty scopes, and the result record is left
as the caller passed it: no diagnostic is written. -/
theorem C31_blank_source (src : List Nat) (result : BSLCompileResult) (h : blank src) :
    (lexer_next (lexer_init src src.length result)).1.t = TOKEN_EOF ∧
    (lexer_next (lexer_init src src.length result)).2.result = result ∧
    bsl_compile { src := src, src_len := src.length } result =
      .ok { toplevels := [], scope := [], type_scope := [], result := result, next_id := 0 }
        result := by
  have h1 := next_token_blank (lexer_init src src.length result) (Tracks.init src result) h
  have h2 := next_token_blank { lexer_init src src.length result with has_peek := true }
    ((Tracks.init src result).set_slot_tracks true empty_token) h
  refine ⟨?_, ?_, ?_⟩
  · rw [show lexer_next (lexer_init src src.length result) =
      next_token (lexer_init src src.length result) from rfl, h1.1]
    rfl
  · exact h1.2.result
  · have hp : parse_ast (parse_fuel src.length) (parser_init (lexer_init src src.length result)) =
        .ok [] (p_peek (parser_init (lexer_init src src.length result))).2 := by
      have ht : (p_peek (parser_init (lexer_init src src.length result))).1.t = TOKEN_EOF := by
        show (next_token { lexer_init src src.length result with has_peek := true }).1.t =
          TOKEN_EOF
        rw [h2.1]
        rfl
      rw [parse_ast, parse_fuel, parse_ast_loop, if_neg (fun hc => hc.1 ht)]
      simp only [Outcome.bind, ht]
      rfl
    have hr : (p_peek (parser_init (lexer_init src src.length result))).2.lex.result = result :=
      h2.2.result
    rw [bsl_compile]
    simp only [hp, hr]
    rfl

/-- Witness of C31: the empty source, a source of whitespace only, and a
source with two comments that ends inside the second one. -/
theorem C31_blank_source_witness :
    (compile "").returns_true = true ∧ diagnostics (compile "") = [] ∧
    (compile " \t\r\n ").returns_true = true ∧ diagnostics (compile " \t\r\n ") = [] ∧
    bsl_compile { src := bytes " #a\n\t# b", src_len := (bytes " #a\n\t# b").length }
        { writes := [] } =
      .ok { toplevels := [], scope := [], type_scope := [], result := { writes := [] },
            next_id := 0 } { writes := [] } :=
  ⟨by decide, by decide, by decide, by decide,
    (C31_blank_source (bytes " #a\n\t# b") { writes := [] } (by decide)).2.2⟩

/-- C32 (fails on the code): on the source `#` newline, a comment whose
newline is the last byte, `lexer_next` consumes both bytes and leaves the
lexer at line 1, column 3, and the `EOF` token carries 1:3; the consumed
bytes hold one newline with no byte behind it, which is line 2, column 1.
Before the end of the buffer the invariant holds: in every lexer reached
from `lexer_init` by calls of `lexer_next`, `lexer_peek` and `lexer_skip`
whose cursor is inside the buffer, `line` and `col` are the position counted
over the consumed bytes. -/
theorem C32_position_lost_behind_last_comment :
    (lexer_next (lexer_init (bytes "#\n") 2 { writes := [] })).2.cur = 2 ∧
    (lexer_next (lexer_init (bytes "#\n") 2 { writes := [] })).2.line = 1 ∧
    (lexer_next (lexer_init (bytes "#\n") 2 { writes := [] })).2.col = 3 ∧
    (lexer_next (lexer_init (bytes "#\n") 2 { writes := [] })).1 =
      fill_token { lexer_init (bytes "#\n") 2 { writes := [] } with line := 1, col := 3 }
        TOKEN_EOF ∧
    tracked_position ((bytes "#\n").take 2) = (2, 1) ∧
    (lexer_next (lexer_init (bytes "#\n#") 3 { writes := [] })).2.cur = 3 ∧
    (lexer_next (lexer_init (bytes "#\n#") 3 { writes := [] })).2.line = 2 ∧
    (lexer_next (lexer_init (bytes "#\n#") 3 { writes := [] })).2.col = 2 ∧
    tracked_position ((bytes "#\n#").take 3) = (2, 2) ∧
    (∀ (src : List Nat) (result : BSLCompileResult) (l : Lexer),
      Steps (lexer_init src src.length result) l → IS_EOF l = false →
      (l.line, l.col) = tracked_position (src.take l.cur)) := by
  refine ⟨by decide, by decide, by decide, by decide, by decide, by decide, by decide,
    by decide, by decide, ?_⟩
  intro src result l h he
  obtain ⟨hsrc, ht⟩ := h.tracks_of_init
  rcases ht with ht | ht
  · rw [ht.pos, hsrc, position_of_eq_tracked]
  · rw [he] at ht
    cases ht

/-- C33: the operator stored in a parsed binary node. In `parse_add_loop` a
`+` builds the node with `BINOP_ADD` and a `-` builds it with the token
number `TOKEN_SUB`, which is 14 and not `BINOP_SUB` (2); in `parse_mul_loop`
a `*` builds the node with `BINOP_MUL` and a `/` builds it with the token
number `TOKEN_DIV`, which is 16 and not `BINOP_DIV` (3). So every binary node
of an expression the parser returns, at any depth, holds one of `BINOP_ADD`,
`BINOP_MUL`, 14 and 16, never `BINOP_SUB` or `BINOP_DIV`; the same holds of
every declaration `parse_ast` returns. -/
theorem C33_operator_encoding :
    (TokenType.toNat TOKEN_SUB = 14 ∧ TokenType.toNat TOKEN_DIV = 16 ∧
      BINOP_ADD = 0 ∧ BINOP_MUL = 1 ∧ BINOP_SUB = 2 ∧ BINOP_DIV = 3) ∧
    (∀ (n : Nat) (lhs : Expr) (p : Parser), (p_peek p).1.t = TOKEN_ADD →
      parse_add_loop (n + 1) lhs p =
        (parse_mul_expr n (p_skip (p_peek p).2)).bind fun rhs p2 =>
          parse_add_loop n (Expr.binary lhs.line lhs.col lhs rhs BINOP_ADD none) p2) ∧
    (∀ (n : Nat) (lhs : Expr) (p : Parser), (p_peek p).1.t = TOKEN_SUB →
      parse_add_loop (n + 1) lhs p =
        (parse_mul_expr n (p_skip (p_peek p).2)).bind fun rhs p2 =>
          parse_add_loop n (Expr.binary lhs.line lhs.col lhs rhs 14 none) p2) ∧
    (∀ (n : Nat) (lhs : Expr) (p : Parser), (p_peek p).1.t = TOKEN_MUL →
      parse_mul_loop (n + 1) lhs p =
        (parse_member_expr n (p_skip (p_peek p).2)).bind fun rhs p2 =>
          parse_mul_loop n (Expr.binary lhs.line lhs.col lhs rhs BINOP_MUL none) p2) ∧
    (∀ (n : Nat) (lhs : Expr) (p : Parser), (p_peek p).1.t = TOKEN_DIV →
      parse_mul_loop (n + 1) lhs p =
        (parse_member_expr n (p_skip (p_peek p).2)).bind fun rhs p2 =>
          parse_mul_loop n (Expr.binary lhs.line lhs.col lhs rhs 16 none) p2) ∧
    (∀ (fuel : Nat) (p p1 : Parser) (e : Expr), parse_expr fuel p = .ok e p1 →
      ∀ op ∈ e.ops, (op = BINOP_ADD ∨ op = BINOP_MUL ∨ op = 14 ∨ op = 16) ∧
        op ≠ BINOP_SUB ∧ op ≠ BINOP_DIV) ∧
    (∀ (fuel : Nat) (p p1 : Parser) (tops : List Toplevel), parse_ast fuel p = .ok tops p1 →
      ∀ t ∈ tops, ∀ op ∈ t.ops, (op = BINOP_ADD ∨ op = BINOP_MUL ∨ op = 14 ∨ op = 16) ∧
        op ≠ BINOP_SUB ∧ op ≠ BINOP_DIV) ∧
    (parse_expr_source "a + b - c * d / e").value.map Expr.ops = some [14, 0, 16, 1] ∧
    (parse_source "proc f() f32 return (1.0 - 2.0) / {3.0 - x, y}.z end").value.map
        (fun tops => tops.map Toplevel.ops) = some [[16, 14, 14]] := by
  have key : ∀ op, parsed_op op →
      (op = BINOP_ADD ∨ op = BINOP_MUL ∨ op = 14 ∨ op = 16) ∧ op ≠ BINOP_SUB ∧
        op ≠ BINOP_DIV := by
    intro op h
    refine ⟨h, ?_, ?_⟩
    · rcases h with h | h | h | h <;> rw [h] <;> decide
    · rcases h with h | h | h | h <;> rw [h] <;> decide
  refine ⟨by decide, ?_, ?_, ?_, ?_, ?_, ?_, by decide, by decide⟩
  · intro n lhs p h
    rw [parse_add_loop]
    simp only [h, true_or, if_true]
  · intro n lhs p h
    rw [parse_add_loop]
    simp only [h, or_true, if_true, (by decide : ¬ TOKEN_SUB = TOKEN_ADD), if_false]
    rfl
  · intro n lhs p h
    rw [parse_mul_loop]
    simp only [h, true_or, if_true]
  · intro n lhs p h
    rw [parse_mul_loop]
    simp only [h, or_true, if_true, (by decide : ¬ TOKEN_DIV = TOKEN_MUL), if_false]
    rfl
  · intro fuel p p1 e h op hop
    exact key op (parse_expr_ops h op hop)
  · intro fuel p p1 tops h t ht op hop
    exact key op ((parse_ast_declarations h).ops t ht op hop)

/-- C34: the list orders the parser produces. Each loop of the parser that
builds a list returns the list read in source order, reversed, in front of
what it started with. `parse_vector_expr` and `parse_procedure` invert the
list of elements resp. of statements again, so a vector literal holds its
elements and a procedure its statements in source order; the parameters of a
procedure, the entries of a record declaration and the members of a
record-construction expression are stored as the loop leaves them, last one
first. For `proc f(a: f32, b: f32, c: f32)` the parameters are `c`, `b`,
`a`. -/
theorem C34_list_orders :
    (∀ (n : Nat) (acc : List Expr) (p : Parser), parse_vector_expr_loop n acc p =
      (vector_rest n p).bind fun xs p1 => .ok (xs.reverse ++ acc) p1) ∧
    (∀ (n : Nat) (acc : List RecordExprMember) (p : Parser), parse_record_expr_loop n acc p =
      (record_members n p).bind fun ms p1 => .ok (ms.reverse ++ acc) p1) ∧
    (∀ (fuel n : Nat) (acc : List Statement) (p : Parser), parse_statement_loop fuel n acc p =
      (statements fuel n p).bind fun r p1 => .ok (r.1.reverse ++ acc, r.2) p1) ∧
    (∀ (fuel n : Nat) (acc : List Parameter) (p : Parser), parse_parameter_loop fuel n acc p =
      (parameters_rest fuel n p).bind fun xs p1 => .ok (xs.reverse ++ acc) p1) ∧
    (∀ (fuel n : Nat) (acc : List RecordEntry) (p : Parser),
      parse_record_toplevel_loop fuel n acc p =
        (record_entries fuel n p).bind fun es p1 => .ok (es.reverse ++ acc) p1) ∧
    (∀ (n : Nat) (p : Parser) (tok : Token), parse_vector_expr (n + 1) p tok =
      (vector_elements n p).bind fun xs p1 => .ok (Expr.vec tok.line tok.col xs none) p1) ∧
    (∀ (n : Nat) (p p1 : Parser) (tok : Token) (e : Expr),
      parse_record_expr (n + 1) p tok = .ok e p1 →
      ∃ ms, record_members n (after_tokens 1 p) = .ok ms p1 ∧ e.members = ms.reverse) ∧
    (∀ (fuel : Nat) (p p1 : Parser) (line col : Nat) (t : Toplevel),
      parse_record_toplevel fuel p line col = .ok t p1 →
      ∃ es, record_entries fuel fuel (after_tokens 1 p) = .ok es p1 ∧ t.entries = es.reverse) ∧
    (∀ (fuel : Nat) (p p1 : Parser) (line col : Nat) (t : Toplevel),
      parse_procedure fuel p line col = .ok t p1 →
      ∃ ps p2 rt p3 r p4, parameters fuel (after_tokens 2 p) = .ok ps p2 ∧
        parse_type fuel p2 = .ok rt p3 ∧ statements fuel fuel p3 = .ok r p4 ∧
        t.params = ps.reverse ∧ t.stmts = r.1) ∧
    (parse_source ("proc f(a: f32, b: f32, c: f32) void " ++
        "var x = 1.0 var y = 2.0 return x end")).value.map
        (fun tops => tops.map fun t =>
          (t.params.map Parameter.name, t.stmts.map fun s => (s.col, s.declared))) =
      some [([bytes "c", bytes "b", bytes "a"],
        [(40, [bytes "x"]), (52, [bytes "y"]), (67, [])])] ∧
    (parse_expr_source "{a, b, c}").value.map (fun e => e.elements.map Expr.shape) =
      some [Shape.atom (bytes "a"), Shape.atom (bytes "b"), Shape.atom (bytes "c")] ∧
    (parse_expr_source "record R .a = 1.0, .b = 2.0, .c = 3.0, end").value.map
        (fun e => e.members.map RecordExprMember.name) =
      some [bytes "c", bytes "b", bytes "a"] ∧
    (parse_source "record R a: f32 b: f32 c: f32 end").value.map
        (fun tops => tops.map fun t => t.entries.map RecordEntry.name) =
      some [[bytes "c", bytes "b", bytes "a"]] := by
  refine ⟨parse_vector_expr_loop_rest, parse_record_expr_loop_members,
    parse_statement_loop_statements, parse_parameter_loop_rest,
    parse_record_toplevel_loop_entries, ?_, ?_, ?_, ?_, by decide, by decide, by decide,
    by decide⟩
  · intro n p tok
    rw [parse_vector_expr, vector_elements]
    cases parse_expr n p with
    | ok first p1 =>
      dsimp only [Outcome.bind]
      rw [parse_vector_expr_loop_rest]
      cases vector_rest n p1 with
      | ok rest p2 =>
        dsimp only [Outcome.bind]
        rw [invert_eq, List.append_nil, List.reverse_append, List.reverse_reverse]
        rfl
      | fail _ => rfl
      | undefined => rfl
      | out_of_fuel => rfl
    | fail _ => rfl
    | undefined => rfl
    | out_of_fuel => rfl
  · intro n p p1 tok e h
    rw [parse_record_expr] at h
    split at h
    · cases h
    · rename_i h0
      rw [parse_record_expr_loop_members, (expect_with_ok h0).1] at h
      obtain ⟨ms, p2, hm, h⟩ := Outcome.bind_eq_ok h
      obtain ⟨ms1, p3, hm1, h1⟩ := Outcome.bind_eq_ok hm
      cases h1
      cases h
      exact ⟨ms1, hm1, by rw [Expr.members, List.append_nil]⟩
  · intro fuel p p1 line col t h
    rw [parse_record_toplevel] at h
    split at h
    · cases h
    · rename_i h0
      rw [parse_record_toplevel_loop_entries, (expect_with_ok h0).1] at h
      obtain ⟨es, p2, hm, h⟩ := Outcome.bind_eq_ok h
      obtain ⟨es1, p3, hm1, h1⟩ := Outcome.bind_eq_ok hm
      cases h1
      cases h
      exact ⟨es1, hm1, by rw [Toplevel.entries, List.append_nil]⟩
  · intro fuel p p1 line col t h
    rw [parse_procedure] at h
    dsimp only [] at h
    split at h
    · cases h
    · rename_i h0
      split at h
      · cases h
      · rename_i h1
        rw [(expect_with_ok h0).1] at h1 h
        rw [expect_ok h1] at h
        obtain ⟨ps, p2, hps, h⟩ := Outcome.bind_eq_ok h
        obtain ⟨rt, p3, hrt, h⟩ := Outcome.bind_eq_ok h
        obtain ⟨r, p4, hr, h⟩ := Outcome.bind_eq_ok h
        rw [parse_statement_loop_statements] at hr
        obtain ⟨r1, p5, hr1, hr2⟩ := Outcome.bind_eq_ok hr
        cases hr2
        cases h
        have hpar : ∃ ps1, parameters fuel (after_tokens 2 p) = .ok ps1 p2 ∧
            ps = ps1.reverse := by
          rw [parameters]
          split at hps
          · rename_i hc
            cases hps
            exact ⟨[], if_pos hc, rfl⟩
          · rename_i hc
            obtain ⟨first, q1, hf, hps⟩ := Outcome.bind_eq_ok hps
            rw [parse_parameter_loop_rest] at hps
            obtain ⟨rest, q2, hrest, hps⟩ := Outcome.bind_eq_ok hps
            cases hps
            have hf1 : parse_parameter fuel (p_peek (after_tokens 2 p)).2 = .ok first q1 := hf
            refine ⟨first :: rest, (if_neg hc).trans ?_, by rw [List.reverse_cons]⟩
            rw [hf1]
            dsimp only [Outcome.bind]
            rw [hrest]
        obtain ⟨ps1, hp1, hp2⟩ := hpar
        refine ⟨ps1, p2, rt, p3, r1, _, hp1, hrt, hr1, hp2, ?_⟩
        rw [Toplevel.stmts, invert_eq, List.append_nil, List.append_nil, List.reverse_reverse]

/-- C35: scope chains hold distinct names. `add_to_scope` returns null exactly
when `lookup_scope` on the same chain finds the name, and otherwise returns
the frame with one new entry of that name at its head; a successful call
keeps the names of the chain distinct under the resolver's name test. When
`resolve_names` returns true (from a type scope with distinct names, as
`bsl_compile` calls it: from the empty one), the global type scope, the
global value scope and the scope of every procedure chained to the global
value scope hold distinct names, which are also distinct as byte strings. In
a chain with distinct names the entry `lookup_scope` returns is the first
entry that passes the name test in any order of the entries. -/
theorem C35_scope_chain_distinctness :
    (∀ (entries : List VarEntry) (up : Chain) (name : List Nat),
      (add_to_scope entries up name = none ↔
        (lookup_scope (entries :: up) name).isSome = true) ∧
      (add_to_scope entries up name = none ↔
        ∃ e ∈ search_order (entries :: up), name_eq name e.name = true) ∧
      (lookup_scope (entries :: up) name = none →
        add_to_scope entries up name =
          some ({ depth := 0, index := entries.length },
            { name := name, type := none, record := none } :: entries))) ∧
    (∀ (entries : List VarEntry) (up : Chain) (name : List Nat) (a : VarRef × List VarEntry),
      ChainDistinct (entries :: up) → add_to_scope entries up name = some a →
      ChainDistinct (a.2 :: up)) ∧
    (∀ (ast ast1 : AST), ChainDistinct [ast.type_scope] → resolve_names ast = .ok () ast1 →
      ChainDistinct [ast1.type_scope] ∧ ChainDistinct [ast1.scope] ∧
      ∀ t ∈ ast1.toplevels, ChainDistinct [t.scope, ast1.scope]) ∧
    (∀ (info : BSLCompileInfo) (result r : BSLCompileResult) (ast : AST),
      bsl_compile info result = .ok ast r →
      ChainDistinct [ast.type_scope] ∧ ChainDistinct [ast.scope] ∧
      ∀ t ∈ ast.toplevels, ChainDistinct [t.scope, ast.scope]) ∧
    (∀ (scope : Chain), ChainDistinct scope → (chain_names scope).Nodup) ∧
    (∀ (scope : Chain) (name : List Nat) (order : List VarEntry), ChainDistinct scope →
      order.Perm (search_order scope) →
      order.find? (fun e => name_eq name e.name) = (lookup_scope scope name).map Prod.snd) ∧
    (compile ("record R x: f32 end proc f(a: f32, b: f32) void var x = a var y = b end " ++
        "proc g() void end")).value.map
        (fun ast => (ast.type_scope.map (fun e => fmt_name e.name),
          ast.scope.map (fun e => fmt_name e.name),
          ast.toplevels.map fun t => t.scope.map (fun e => fmt_name e.name))) =
      some (["R"], ["g", "f"], [[], ["y", "x", "a", "b"], []]) := by
  refine ⟨?_, ?_, ?_, ?_, ?_, ?_, by decide⟩
  · intro entries up name
    refine ⟨add_to_scope_eq_none_iff entries up name, ?_, add_to_scope_eq_new⟩
    rw [add_to_scope_eq_none_iff, lookup_scope_isSome_iff]
  · intro entries up name a hd h
    exact add_to_scope_distinct hd h
  · intro ast ast1 hd h
    exact resolve_names_distinct hd h
  · intro info result r ast h
    rw [bsl_compile] at h
    dsimp only [] at h
    split at h
    · rename_i tops p hp
      split at h
      · rename_i u ast1 hr
        cases h
        cases u
        have hd0 : ChainDistinct [([] : List VarEntry)] := List.Pairwise.nil
        exact resolve_names_distinct hd0 hr
      · cases h
      · cases h
      · cases h
    · cases h
    · cases h
    · cases h
  · intro scope hd
    exact NamesDistinct.nodup hd
  · intro scope name order hd hp
    rw [NamesDistinct.find_perm hd hp, lookup_scope, lookup_scope_from_eq_find]

/-- C36: bounds safety of the lexer. With every read of `src` checked against
`src_len`, `lexer_next`, `lexer_peek` and `lexer_skip` return in every state
what they return unchecked: no read is at an index that is not below
`src_len`. The cursor never moves back in a call. In every lexer reached from
`lexer_init` by any sequence of the three calls `src_len` is the length
passed to `lexer_init` and `start ≤ cur ≤ src_len`. -/
theorem C36_lexer_bounds_safety :
    (∀ (l : Lexer), lexer_next_checked l = some (lexer_next l) ∧
      lexer_peek_checked l = some (lexer_peek l) ∧
      lexer_skip_checked l = some (lexer_skip l)) ∧
    (∀ (l : Lexer), l.cur ≤ (lexer_next l).2.cur ∧ l.cur ≤ (lexer_peek l).2.cur ∧
      l.cur ≤ (lexer_skip l).cur) ∧
    (∀ (l l1 : Lexer), Steps l l1 → l.cur ≤ l1.cur) ∧
    (∀ (src : List Nat) (src_len : Nat) (result : BSLCompileResult) (l : Lexer),
      Steps (lexer_init src src_len result) l →
      l.src_len = src_len ∧ l.start ≤ l.cur ∧ l.cur ≤ l.src_len) ∧
    (∀ (l : Lexer), l.src_len ≤ l.cur → read_c l = none) ∧
    ((lex_all 9 (lexer_init (bytes "ab 12.5 # x") 11 { writes := [] })).map
        (fun tok => (tok.t, tok.data, tok.size)) =
      [(TOKEN_SYM, 0, 2), (TOKEN_NUM, 0, 0), (TOKEN_EOF, 0, 0)] ∧
      (lexer_next (lexer_next (lexer_next
        (lexer_init (bytes "ab 12.5 # x") 11 { writes := [] })).2).2).2.cur = 11 ∧
      (lexer_next (lexer_next (lexer_next
        (lexer_init (bytes "ab 12.5 # x") 11 { writes := [] })).2).2).2.start = 8) := by
  refine ⟨lexer_ops_checked_eq, ?_, ?_, ?_, ?_, ⟨by decide, by decide, by decide⟩⟩
  · intro l
    obtain ⟨h1, h2, h3⟩ := lexer_ops_within l
    exact ⟨h1.cur_le, h2.cur_le, h3.cur_le⟩
  · intro l l1 h
    exact h.within.cur_le
  · intro src src_len result l h
    have hw := h.within
    exact ⟨hw.src_len, hw.start (Nat.le_refl _), hw.bound (Nat.zero_le _)⟩
  · intro l h
    rw [read_c, if_neg (by omega)]

end BSL
